import Mathlib

/-!
# dm-verity target (`drivers/md/dm-verity-target.c`)

A shallow embedding of the hash-tree geometry, the digest pipeline, the level
verifier, the block verifier and the corruption handler of the dm-verity
target, together with theorems about them.

Conventions of the embedding.

* `sector_t` and `unsigned long long` values are natural numbers reduced
  modulo `2 ^ 64` wherever the C code can wrap; `unsigned` values are reduced
  modulo `2 ^ 32`.
* A C shift of a 64-bit operand by 64 bits or more has no defined result; the
  constructor model reports it as `ctr_error.undefined`.
* Bytes are natural numbers, byte buffers are lists of bytes.
-/

namespace DmVerity

/-! ## Constants and types declared outside the translation unit -/

/-- Modelled from the spec: `DM_VERITY_MAX_LEVELS` is declared in `dm-verity.h`,
which is not part of the sources; the spec gives the hard maximum on the number
of tree levels as 63. -/
def DM_VERITY_MAX_LEVELS : Nat := 63

/-- Value of `SECTOR_SHIFT` (512-byte sectors). -/
def SECTOR_SHIFT : Nat := 9

/-- Value of `PAGE_SIZE` (4096-byte pages of the PC target). -/
def PAGE_SIZE : Nat := 4096

/-- Value of `INT_MAX`. -/
def INT_MAX : Nat := 2 ^ 31 - 1

/-- Value of `EIO`. -/
def EIO : Int := 5

/-- Value of `E2BIG`. -/
def E2BIG : Int := 7

/-- Value of `EINVAL`. -/
def EINVAL : Int := 22

/-- Modelled from the spec: `enum verity_mode` is declared in `dm-verity.h`; the
code uses the three values `DM_VERITY_MODE_EIO`, `DM_VERITY_MODE_LOGGING` and
`DM_VERITY_MODE_RESTART`. -/
inductive verity_mode where
  | EIO
  | LOGGING
  | RESTART
  deriving DecidableEq, Repr

/-- Modelled from the spec: `enum verity_block_type` is declared in
`dm-verity.h`; `DATA` is 0 and `METADATA` is 1. -/
inductive verity_block_type where
  | DATA
  | METADATA
  deriving DecidableEq, Repr

/-- Modelled from the spec: the fields of `struct dm_verity` (declared in
`dm-verity.h`) that the functions below read.  `salt_size` is the length of
`salt`; `use_validated_blocks` says whether the `validated_blocks` bitmap was
allocated; the mutable fields (`hash_failed`, `corrupted_errs`, the bitmap
contents) live in `State`. -/
structure dm_verity where
  version : Nat
  salt : List Nat
  root_digest : List Nat
  zero_digest : Option (List Nat)
  digest_size : Nat
  data_start : Nat
  hash_start : Nat
  data_blocks : Nat
  hash_blocks : Nat
  data_dev_block_bits : Nat
  hash_dev_block_bits : Nat
  hash_per_block_bits : Nat
  levels : Nat
  mode : verity_mode
  error_behavior : Int
  hash_level_block : Nat → Nat
  use_validated_blocks : Bool

/-- Length of the salt (the field `salt_size`). -/
def dm_verity.salt_size (v : dm_verity) : Nat := v.salt.length

/-! ## Geometry and addressing -/

/-- Embeds `verity_position_at_level`: `block >> (level * hash_per_block_bits)`.
The C shift is defined for `level * hash_per_block_bits < 64`. -/
def verity_position_at_level (v : dm_verity) (block level : Nat) : Nat :=
  block >>> (level * v.hash_per_block_bits)

/-- Embeds `verity_hash_at_level`: the pair `(*hash_block, *offset)`.  The sum
is a `sector_t` sum, `idx` and `offset` are `unsigned`. -/
def verity_hash_at_level (v : dm_verity) (block level : Nat) : Nat × Nat :=
  let position := verity_position_at_level v block level
  let hash_block := (v.hash_level_block level + (position >>> v.hash_per_block_bits)) % 2 ^ 64
  let idx := (position &&& ((1 <<< v.hash_per_block_bits) - 1)) % 2 ^ 32
  let offset :=
    if v.version = 0 then (idx * v.digest_size) % 2 ^ 32
    else (idx <<< (v.hash_dev_block_bits - v.hash_per_block_bits)) % 2 ^ 32
  (hash_block, offset)

/-! ## The constructor's geometry computation -/

/-- Outcome of the constructor other than success: `bad msg r` is the
`ti->error` message with the returned errno; `undefined` marks an execution
that performs an operation without defined behaviour in C (a 64-bit shift by
64 or more, a division by zero) or does not terminate. -/
inductive ctr_error where
  | bad (error : String) (r : Int)
  | undefined
  deriving DecidableEq, Repr

/-- Index of the least significant set bit, searched over `fuel` positions. -/
def ffs_from : Nat → Nat → Nat → Nat
  | 0, _, i => i
  | fuel + 1, word, i => if word % 2 = 1 then i else ffs_from fuel (word / 2) (i + 1)

/-- Embeds `__ffs` on a non-zero 64-bit word. -/
def __ffs (word : Nat) : Nat := ffs_from 64 word 0

/-- Index of the most significant set bit, searched over `fuel` positions. -/
def fls_from : Nat → Nat → Nat
  | 0, _ => 0
  | fuel + 1, word => if word / 2 = 0 then 0 else fls_from fuel (word / 2) + 1

/-- Embeds `__fls` on a non-zero 64-bit word: index of the most significant set
bit. -/
def __fls (word : Nat) : Nat := fls_from 64 word

/-- The `while` loop of `verity_ctr` that counts the tree levels, started with
`levels` and run for at most `fuel` tests of the loop condition; `none` when the
fuel does not suffice. -/
def verity_ctr_levels_loop (data_blocks hash_per_block_bits : Nat) : Nat → Nat → Option Nat
  | 0, _ => none
  | fuel + 1, levels =>
    if hash_per_block_bits * levels < 64 ∧
        ((data_blocks + 2 ^ 64 - 1) % 2 ^ 64) >>> (hash_per_block_bits * levels) ≠ 0 then
      verity_ctr_levels_loop data_blocks hash_per_block_bits fuel (levels + 1)
    else some levels

/-- The statements `v->levels = 0; if (v->data_blocks) while (...) v->levels++;`. -/
def verity_ctr_levels (data_blocks hash_per_block_bits : Nat) : Option Nat :=
  if data_blocks ≠ 0 then verity_ctr_levels_loop data_blocks hash_per_block_bits 65 0
  else some 0

/-- The `for (i = v->levels - 1; i >= 0; i--)` loop of `verity_ctr` that assigns
`hash_level_block[i]`; the first argument is `i + 1`, the state is
`(hash_position, hash_level_block)`. -/
def verity_ctr_level_blocks (data_blocks hash_per_block_bits : Nat) :
    Nat → Nat → (Nat → Nat) → Except ctr_error (Nat × (Nat → Nat))
  | 0, hash_position, hlb => .ok (hash_position, hlb)
  | i + 1, hash_position, hlb =>
    let hlb1 : Nat → Nat := fun j => if j = i then hash_position else hlb j
    if 64 ≤ (i + 1) * hash_per_block_bits then .error .undefined
    else
      let s := ((data_blocks + (1 <<< ((i + 1) * hash_per_block_bits)) % 2 ^ 64 + 2 ^ 64 - 1)
                  % 2 ^ 64) >>> ((i + 1) * hash_per_block_bits)
      if (hash_position + s) % 2 ^ 64 < hash_position then
        .error (.bad "Hash device offset overflow" (-E2BIG))
      else
        verity_ctr_level_blocks data_blocks hash_per_block_bits i
          ((hash_position + s) % 2 ^ 64) hlb1

/-- Arguments of the constructor after `sscanf`, together with the facts about
its environment that the geometry checks read: the logical block sizes of the
two devices, the target length `ti->len`, the digest size of the
hash algorithm and the size of the hash device in hash blocks
(`dm_bufio_get_device_size`).  The options (`mode`, `zero_digest`,
`check_at_most_once`, `error_behavior`) are given as parsed. -/
structure ctr_args where
  version : Nat
  data_block_size : Nat
  hash_block_size : Nat
  data_blocks : Nat
  hash_start : Nat
  digest_size : Nat
  root_digest : List Nat
  salt : List Nat
  zero_digest : Option (List Nat)
  mode : verity_mode
  error_behavior : Int
  check_at_most_once : Bool
  data_logical_block_size : Nat
  hash_logical_block_size : Nat
  ti_len : Nat
  hash_dev_size : Nat

/-- The part of `verity_ctr` from `v->levels = 0` on: the level count with the
`DM_VERITY_MAX_LEVELS` check, the `hash_level_block[]` loop, `hash_blocks`, and
the check of the hash-device size `dm_bufio_get_device_size(v->bufio)`; `v` has
the fields assigned so far. -/
def verity_ctr_tree (v : dm_verity) (hash_dev_size : Nat) : Except ctr_error dm_verity :=
  match verity_ctr_levels v.data_blocks v.hash_per_block_bits with
  | none => .error .undefined
  | some levels =>
    if levels > DM_VERITY_MAX_LEVELS then .error (.bad "Too many tree levels" (-E2BIG)) else
    match verity_ctr_level_blocks v.data_blocks v.hash_per_block_bits levels v.hash_start
        (fun _ => 0) with
    | .error e => .error e
    | .ok (hash_position, hlb) =>
      if hash_dev_size % 2 ^ 64 < hash_position then
        .error (.bad "Hash device is too small" (-E2BIG))
      else
        .ok { v with levels := levels, hash_level_block := hlb, hash_blocks := hash_position }

/-- Embeds the geometry part of `verity_ctr`: the version, block-size,
data-blocks, hash-start, digest-size and root-digest checks, the size check of
`verity_alloc_most_once`, the computation of `hash_per_block_bits`, and then
`verity_ctr_tree`.  Device lookup, allocations, the parsing of the other
options and root-hash signature verification are taken to have succeeded. -/
def verity_ctr (a : ctr_args) : Except ctr_error dm_verity :=
  let num0 := a.version % 2 ^ 32
  if num0 > 1 then .error (.bad "Invalid version" (-EINVAL)) else
  let num := a.data_block_size % 2 ^ 32
  if num = 0 ∨ num &&& (num - 1) ≠ 0 ∨ num < a.data_logical_block_size ∨ num > PAGE_SIZE then
    .error (.bad "Invalid data device block size" (-EINVAL)) else
  let data_dev_block_bits := __ffs num
  let num := a.hash_block_size % 2 ^ 32
  if num = 0 ∨ num &&& (num - 1) ≠ 0 ∨ num < a.hash_logical_block_size ∨ num > INT_MAX then
    .error (.bad "Invalid hash device block size" (-EINVAL)) else
  let hash_dev_block_bits := __ffs num
  let num_ll := a.data_blocks % 2 ^ 64
  if data_dev_block_bits < SECTOR_SHIFT then .error .undefined else
  if ((num_ll <<< (data_dev_block_bits - SECTOR_SHIFT)) % 2 ^ 64)
      >>> (data_dev_block_bits - SECTOR_SHIFT) ≠ num_ll then
    .error (.bad "Invalid data blocks" (-EINVAL)) else
  let data_blocks := num_ll
  if a.ti_len % 2 ^ 64 > (data_blocks <<< (data_dev_block_bits - SECTOR_SHIFT)) % 2 ^ 64 then
    .error (.bad "Data device is too small" (-EINVAL)) else
  let num_ll := a.hash_start % 2 ^ 64
  if hash_dev_block_bits < SECTOR_SHIFT then .error .undefined else
  if ((num_ll <<< (hash_dev_block_bits - SECTOR_SHIFT)) % 2 ^ 64)
      >>> (hash_dev_block_bits - SECTOR_SHIFT) ≠ num_ll then
    .error (.bad "Invalid hash start" (-EINVAL)) else
  let hash_start := num_ll
  let digest_size := a.digest_size % 2 ^ 32
  if (1 <<< hash_dev_block_bits) % 2 ^ 32 < (digest_size * 2) % 2 ^ 32 then
    .error (.bad "Digest size too big" (-EINVAL)) else
  if a.root_digest.length ≠ digest_size then
    .error (.bad "Invalid root digest" (-EINVAL)) else
  if a.check_at_most_once = true ∧ data_blocks > INT_MAX then
    .error (.bad "device too large to use check_at_most_once" (-E2BIG)) else
  if digest_size = 0 then .error .undefined else
  let hash_per_block_bits := __fls (((1 <<< hash_dev_block_bits) % 2 ^ 32) / digest_size)
  verity_ctr_tree
    { version := num0
      salt := a.salt
      root_digest := a.root_digest
      zero_digest := a.zero_digest
      digest_size := digest_size
      data_start := 0
      hash_start := hash_start
      data_blocks := data_blocks
      hash_blocks := 0
      data_dev_block_bits := data_dev_block_bits
      hash_dev_block_bits := hash_dev_block_bits
      hash_per_block_bits := hash_per_block_bits
      levels := 0
      mode := a.mode
      error_behavior := a.error_behavior
      hash_level_block := fun _ => 0
      use_validated_blocks := a.check_at_most_once }
    a.hash_dev_size

/-! ## State of a verification run -/

/-- Observable steps of a run, recorded in order in `State.trace`: reads of
the hash-block cache, operations of the digest primitive, calls of the FEC
hook and of `verity_handle_err`, emitted uevents and the restart hook. -/
inductive Ev where
  | bufio_read (hash_block : Nat)
  | ahash_init
  | ahash_update (chunk : List Nat)
  | ahash_final (stream : List Nat)
  | fec_decode (type : verity_block_type) (block : Nat)
  | handle_err (type : verity_block_type) (block : Nat)
  | uevent (type : verity_block_type) (block : Nat)
  | restart
  deriving DecidableEq, Repr

/-- The digest primitive behind `v->tfm`: the status returned by
`crypto_wait_req` for `crypto_ahash_init`, for `crypto_ahash_update` (given the
bytes fed so far and the new chunk) and for `crypto_ahash_final`, and the digest
of a byte stream. -/
structure crypto_ahash where
  init : Int
  update : List Nat → List Nat → Int
  final : List Nat → Int
  digest : List Nat → List Nat

/-- What the verifier consumes from its collaborators: the digest primitive,
the FEC hook (`some repaired` when `verity_fec_decode` returns 0 and has
written the repaired block, `none` otherwise), for each hash block whether its
dm-bufio buffer is a vmalloc address (with its offset in the page), and the
length of the bio segment that starts at a byte offset of the payload
(`bio_iter_iovec(...).bv_len` before the cap by the remaining size). -/
structure Env where
  tfm : crypto_ahash
  fec_decode : verity_block_type → Nat → Option (List Nat)
  buf_vmalloc : Nat → Option Nat
  bv_len : Nat → Nat

/-- Mutable state: the hash-block cache (`none` for a block whose read fails)
with the `hash_verified` flag of each buffer, the `validated_blocks` bitmap,
the payload of the bio with its cursor `io->iter` (bytes consumed), the bytes
fed to the hash request since its last init, the two digest buffers of the io,
`v->hash_failed`, `v->corrupted_errs`, and the trace. -/
structure State where
  bufs : Nat → Option (List Nat)
  hash_verified : Nat → Bool
  validated_blocks : Nat → Bool
  payload : List Nat
  iter : Nat
  req : List Nat
  want_digest : List Nat
  real_digest : List Nat
  hash_failed : Bool
  corrupted_errs : Nat
  trace : List Ev

/-- The fields `block` and `n_blocks` of `struct dm_verity_io`. -/
structure dm_verity_io where
  block : Nat
  n_blocks : Nat

/-- Appends an event to the trace. -/
def State.log (s : State) (e : Ev) : State := { s with trace := s.trace ++ [e] }

/-- `memcmp(a, b, n) == 0`. -/
def memcmp_eq (a b : List Nat) (n : Nat) : Bool := decide (a.take n = b.take n)

/-- The `n` bytes of `data` at `offset` (source of `memcpy(dst, data + offset, n)`). -/
def bytes_at (data : List Nat) (offset n : Nat) : List Nat := (data.drop offset).take n

/-- Overwrites the bytes of `l` from position `p` on with `bytes`. -/
def write_at (l : List Nat) (p : Nat) (bytes : List Nat) : List Nat :=
  l.take p ++ bytes ++ l.drop (p + bytes.length)

/-! ## Digest pipeline -/

/-- One `crypto_wait_req(crypto_ahash_update(req), wait)` on `chunk`. -/
def ahash_update (E : Env) (s : State) (chunk : List Nat) : Int × State :=
  (E.tfm.update s.req chunk,
    { s with req := s.req ++ chunk, trace := s.trace ++ [Ev.ahash_update chunk] })

/-- The `do ... while (len)` loop of `verity_hash_update` for a vmalloc
address: one update per page; `off` is the offset of `data` in its page.  The
fuel is the number of iterations allowed; `length data + 1` always suffices. -/
def verity_hash_update_vmalloc (E : Env) : Nat → State → List Nat → Nat → Int × State
  | 0, s, _, _ => (0, s)
  | fuel + 1, s, data, off =>
    let this_step := min data.length (PAGE_SIZE - off % PAGE_SIZE)
    let rs := ahash_update E s (data.take this_step)
    if rs.1 ≠ 0 then rs
    else if (data.drop this_step).length = 0 then (0, rs.2)
    else verity_hash_update_vmalloc E fuel rs.2 (data.drop this_step) (off + this_step)

/-- Embeds `verity_hash_update`; `vm` is `some off` when `data` is a vmalloc
address at offset `off` of its page. -/
def verity_hash_update (E : Env) (s : State) (data : List Nat) (vm : Option Nat) : Int × State :=
  match vm with
  | none => ahash_update E s data
  | some off => verity_hash_update_vmalloc E (data.length + 1) s data off

/-- Embeds `verity_hash_init`. -/
def verity_hash_init (E : Env) (v : dm_verity) (s : State) : Int × State :=
  let s1 : State := { s with req := [], trace := s.trace ++ [Ev.ahash_init] }
  let r := E.tfm.init
  if r < 0 then (r, s1)
  else if v.salt_size ≠ 0 ∧ v.version ≥ 1 then verity_hash_update E s1 v.salt none
  else (r, s1)

/-- Embeds `verity_hash_final`; `digest` is the content of the output buffer
before the call, the third component its content after the call. -/
def verity_hash_final (E : Env) (v : dm_verity) (s : State) (digest : List Nat) :
    Int × State × List Nat :=
  let fin (s : State) : Int × State × List Nat :=
    (E.tfm.final s.req, s.log (Ev.ahash_final s.req), E.tfm.digest s.req)
  if v.salt_size ≠ 0 ∧ v.version = 0 then
    let rs := verity_hash_update E s v.salt none
    if rs.1 < 0 then (rs.1, rs.2, digest) else fin rs.2
  else fin s

/-- Embeds `verity_hash` on `len` bytes of `data`. -/
def verity_hash (E : Env) (v : dm_verity) (s : State) (data : List Nat) (vm : Option Nat)
    (digest : List Nat) : Int × State × List Nat :=
  let r1 := verity_hash_init E v s
  if r1.1 < 0 then (r1.1, r1.2, digest)
  else
    let r2 := verity_hash_update E r1.2 data vm
    if r2.1 < 0 then (r2.1, r2.2, digest)
    else verity_hash_final E v r2.2 digest

/-! ## Corruption handler -/

/-- Value of `DM_VERITY_MAX_CORRUPTED_ERRS`. -/
def DM_VERITY_MAX_CORRUPTED_ERRS : Nat := 100

/-- Embeds `verity_handle_err`.  The uevent is recorded as `Ev.uevent`, the
call of `kernel_restart` as `Ev.restart`.  Modelled from the spec:
`kernel_restart` is kernel code outside the sources; it reboots the host and
does not return.  The status 1 that the result carries in RESTART mode is the
`return 1` of the C text behind that call, which is not reached: a run whose
trace has gained an `Ev.restart` has returned nothing to its caller, see
`returned`. -/
def verity_handle_err (v : dm_verity) (s : State) (type : verity_block_type) (block : Nat) :
    Int × State :=
  let s1 : State := { s with hash_failed := true, trace := s.trace ++ [Ev.handle_err type block] }
  let s2 : State :=
    if s1.corrupted_errs ≥ DM_VERITY_MAX_CORRUPTED_ERRS then s1
    else { s1 with corrupted_errs := s1.corrupted_errs + 1,
                   trace := s1.trace ++ [Ev.uevent type block] }
  if v.mode = verity_mode.LOGGING then (0, s2)
  else if v.mode = verity_mode.RESTART then (1, s2.log Ev.restart)
  else (1, s2)

/-! ## Level verifier and block verifier -/

/-- Embeds `verity_verify_level`; the third component of the result is the
content of `want_digest` after the call.  A failed `dm_bufio_read` is taken to
report `-EIO`. -/
def verity_verify_level (E : Env) (v : dm_verity) (s : State) (block level : Nat)
    (skip_unverified : Bool) (want_digest : List Nat) : Int × State × List Nat :=
  let hash_block := (verity_hash_at_level v block level).1
  let offset := (verity_hash_at_level v block level).2
  let s0 := s.log (Ev.bufio_read hash_block)
  match s.bufs hash_block with
  | none => (- EIO, s0, want_digest)
  | some data =>
    if s.hash_verified hash_block = false then
      if skip_unverified then (1, s0, want_digest)
      else
        let h := verity_hash E v s0 (data.take (1 <<< v.hash_dev_block_bits))
                   (E.buf_vmalloc hash_block) s0.real_digest
        let s1 : State := { h.2.1 with real_digest := h.2.2 }
        if h.1 < 0 then (h.1, s1, want_digest)
        else if memcmp_eq s1.real_digest want_digest v.digest_size then
          let s2 : State :=
            { s1 with hash_verified := fun x => if x = hash_block then true else s1.hash_verified x }
          (0, s2, bytes_at data offset v.digest_size)
        else
          let s2 := s1.log (Ev.fec_decode verity_block_type.METADATA hash_block)
          match E.fec_decode verity_block_type.METADATA hash_block with
          | some fixed =>
            let s3 : State :=
              { s2 with
                bufs := fun x => if x = hash_block then some fixed else s2.bufs x
                hash_verified := fun x => if x = hash_block then true else s2.hash_verified x }
            (0, s3, bytes_at fixed offset v.digest_size)
          | none =>
            let e := verity_handle_err v s2 verity_block_type.METADATA hash_block
            if e.1 ≠ 0 then (- EIO, e.2, want_digest)
            else (0, e.2, bytes_at data offset v.digest_size)
    else (0, s0, bytes_at data offset v.digest_size)

/-- The loop `for (i = v->levels - 1; i >= 0; i--)` of `verity_hash_for_block`;
the first argument is `i + 1`. -/
def verity_hash_for_block_loop (E : Env) (v : dm_verity) (block : Nat) :
    Nat → State → List Nat → Int × State × List Nat
  | 0, s, digest => (0, s, digest)
  | i + 1, s, digest =>
    let r := verity_verify_level E v s block i false digest
    if r.1 ≠ 0 then r
    else verity_hash_for_block_loop E v block i r.2.1 r.2.2

/-- The label `out:` of `verity_hash_for_block`: computes `*is_zero`. -/
def verity_hash_for_block_out (v : dm_verity) (r : Int × State × List Nat) :
    Int × State × List Nat × Bool :=
  let is_zero : Bool :=
    match v.zero_digest with
    | some z => decide (r.1 = 0) && memcmp_eq z r.2.2 v.digest_size
    | none => false
  (r.1, r.2.1, r.2.2, is_zero)

/-- Embeds `verity_hash_for_block`: result `(r, state, *digest, *is_zero)`. -/
def verity_hash_for_block (E : Env) (v : dm_verity) (s : State) (block : Nat)
    (digest : List Nat) : Int × State × List Nat × Bool :=
  let chain (s : State) : Int × State × List Nat :=
    verity_hash_for_block_loop E v block v.levels s (v.root_digest.take v.digest_size)
  if v.levels ≠ 0 then
    let r := verity_verify_level E v s block 0 true digest
    if r.1 ≤ 0 then verity_hash_for_block_out v r
    else verity_hash_for_block_out v (chain r.2.1)
  else verity_hash_for_block_out v (chain s)

/-! ## Payload iteration -/

/-- Modelled from the spec: `bio_advance_iter` is block-layer code outside the
sources; it advances the payload cursor by `bytes`. -/
def bio_advance_iter (s : State) (bytes : Nat) : State := { s with iter := s.iter + bytes }

/-- Length of the segment returned by `bio_iter_iovec` at the cursor: the
length of the current bio segment, capped by the bytes that remain. -/
def bio_iter_iovec_len (E : Env) (s : State) : Nat :=
  min (E.bv_len s.iter) (s.payload.length - s.iter)

/-- The `do ... while (todo)` loop of `verity_for_io_block`; `none` when the
loop does not end within `fuel` iterations. -/
def verity_for_io_block_loop (E : Env) : Nat → Nat → State → Option (Int × State)
  | 0, _, _ => none
  | fuel + 1, todo, s =>
    let bv_len := bio_iter_iovec_len E s
    let len := if bv_len ≥ todo then todo else bv_len
    let rs := ahash_update E s (bytes_at s.payload s.iter len)
    if rs.1 < 0 then some rs
    else
      let s1 := bio_advance_iter rs.2 len
      if todo - len = 0 then some (0, s1)
      else verity_for_io_block_loop E fuel (todo - len) s1

/-- Embeds `verity_for_io_block`.  Every iteration but a stuck one consumes at
least one byte, so `todo + 1` iterations are allowed. -/
def verity_for_io_block (E : Env) (v : dm_verity) (s : State) : Option (Int × State) :=
  verity_for_io_block_loop E ((1 <<< v.data_dev_block_bits) % 2 ^ 32 + 1)
    ((1 <<< v.data_dev_block_bits) % 2 ^ 32) s

/-- Embeds `verity_bv_zero`: `memset(data, 0, len)` on the payload bytes at
offset `pos`. -/
def verity_bv_zero (s : State) (pos len : Nat) : Int × State :=
  (0, { s with payload := write_at s.payload pos (List.replicate len 0) })

/-- The `do ... while (todo)` loop of `verity_for_bv_block`. -/
def verity_for_bv_block_loop (E : Env) (process : State → Nat → Nat → Int × State) :
    Nat → Nat → State → Option (Int × State)
  | 0, _, _ => none
  | fuel + 1, todo, s =>
    let bv_len := bio_iter_iovec_len E s
    let len := if bv_len ≥ todo then todo else bv_len
    let rs := process s s.iter len
    if rs.1 < 0 then some rs
    else
      let s1 := bio_advance_iter rs.2 len
      if todo - len = 0 then some (0, s1)
      else verity_for_bv_block_loop E process fuel (todo - len) s1

/-- Embeds `verity_for_bv_block`. -/
def verity_for_bv_block (E : Env) (v : dm_verity) (s : State)
    (process : State → Nat → Nat → Int × State) : Option (Int × State) :=
  verity_for_bv_block_loop E process ((1 <<< v.data_dev_block_bits) % 2 ^ 32 + 1)
    ((1 <<< v.data_dev_block_bits) % 2 ^ 32) s

/-- Embeds `verity_bv_skip_block`. -/
def verity_bv_skip_block (v : dm_verity) (s : State) : State :=
  bio_advance_iter s ((1 <<< v.data_dev_block_bits) % 2 ^ 32)

/-! ## Verification of one io -/

/-- The data path of one iteration of the loop of `verity_verify_io`, after
`verity_hash_for_block` found a non-zero block: hash the payload block and
compare.  `some r` in the first component is `return r`, `none` continues with
the next block. -/
def verity_verify_io_data (E : Env) (v : dm_verity) (s : State) (cur_block : Nat) :
    Option (Option Int × State) :=
  let r1 := verity_hash_init E v s
  if r1.1 < 0 then some (some r1.1, r1.2)
  else
    let start := r1.2.iter
    match verity_for_io_block E v r1.2 with
    | none => none
    | some r2 =>
      if r2.1 < 0 then some (some r2.1, r2.2)
      else
        let r3 := verity_hash_final E v r2.2 r2.2.real_digest
        let s3 : State := { r3.2.1 with real_digest := r3.2.2 }
        if r3.1 < 0 then some (some r3.1, s3)
        else if memcmp_eq s3.real_digest s3.want_digest v.digest_size then
          if v.use_validated_blocks then
            let bits : Nat → Bool := fun x => if x = cur_block then true else s3.validated_blocks x
            some (none, { s3 with validated_blocks := bits })
          else some (none, s3)
        else
          let s4 := s3.log (Ev.fec_decode verity_block_type.DATA cur_block)
          match E.fec_decode verity_block_type.DATA cur_block with
          | some fixed =>
            let repaired := fixed.take ((1 <<< v.data_dev_block_bits) % 2 ^ 32)
            some (none, { s4 with payload := write_at s4.payload start repaired })
          | none =>
            let e := verity_handle_err v s4 verity_block_type.DATA cur_block
            if e.1 ≠ 0 then some (some (- EIO), e.2) else some (none, e.2)

/-- One iteration of the loop of `verity_verify_io` for the loop counter `b`. -/
def verity_verify_io_block (E : Env) (v : dm_verity) (io : dm_verity_io) (s : State) (b : Nat) :
    Option (Option Int × State) :=
  let cur_block := (io.block + b) % 2 ^ 64
  if v.use_validated_blocks = true ∧ s.validated_blocks cur_block = true then
    some (none, verity_bv_skip_block v s)
  else
    let h := verity_hash_for_block E v s cur_block s.want_digest
    let s1 : State := { h.2.1 with want_digest := h.2.2.1 }
    if h.1 < 0 then some (some h.1, s1)
    else if h.2.2.2 = true then
      match verity_for_bv_block E v s1 verity_bv_zero with
      | none => none
      | some rz => if rz.1 < 0 then some (some rz.1, rz.2) else some (none, rz.2)
    else verity_verify_io_data E v s1 cur_block

/-- The loop `for (b = 0; b < io->n_blocks; b++)` of `verity_verify_io`: `n`
iterations remain, the counter is `b`. -/
def verity_verify_io_loop (E : Env) (v : dm_verity) (io : dm_verity_io) :
    Nat → Nat → State → Option (Int × State)
  | 0, _, s => some (0, s)
  | n + 1, b, s =>
    match verity_verify_io_block E v io s b with
    | none => none
    | some (some r, s1) => some (r, s1)
    | some (none, s1) => verity_verify_io_loop E v io n (b + 1) s1

/-- Embeds `verity_verify_io`: the returned status and the final state; `none`
when a payload loop does not terminate. -/
def verity_verify_io (E : Env) (v : dm_verity) (io : dm_verity_io) (s : State) :
    Option (Int × State) :=
  verity_verify_io_loop E v io (io.n_blocks % 2 ^ 32) 0 s

/-! ## Reference notions used in the statements -/

/-- Right shift of a 64-bit value where a shift by 64 or more gives 0. -/
def shr64 (x n : Nat) : Nat := if n < 64 then (x % 2 ^ 64) >>> n else 0

/-- Ceiling of `a / b`. -/
def ceil_div (a b : Nat) : Nat := (a + b - 1) / b

/-- Number of hash blocks of tree level `i`:
`ceil (data_blocks / 2 ^ ((i + 1) * hash_per_block_bits))`. -/
def level_size (data_blocks hash_per_block_bits i : Nat) : Nat :=
  ceil_div data_blocks (2 ^ ((i + 1) * hash_per_block_bits))

/-- Total size of the levels `i` with `a ≤ i < b`. -/
def level_sum (data_blocks hash_per_block_bits a b : Nat) : Nat :=
  ∑ j in Finset.Ico a b, level_size data_blocks hash_per_block_bits j

/-- The table the level loop of the constructor produces from `hlb` when it
starts at `pos` with `n` levels to assign. -/
def level_table (d hpb n pos : Nat) (hlb : Nat → Nat) : Nat → Nat :=
  fun i => if i < n then pos + level_sum d hpb (i + 1) n else hlb i

/-- Facts about the level table that hold for every verifier the constructor
returns: the shifts of the level loop are below 64 bits, the data blocks fit
under the top level, and the levels are laid out consecutively from
`hash_start`, top level first. -/
structure TreeOK (v : dm_verity) : Prop where
  data_lt : v.data_blocks < 2 ^ 64
  start_lt : v.hash_start < 2 ^ 64
  shift_lt : v.levels * v.hash_per_block_bits < 64
  fits : v.data_blocks ≤ 2 ^ (v.levels * v.hash_per_block_bits)
  levels_eq : verity_ctr_levels v.data_blocks v.hash_per_block_bits = some v.levels
  levels_le : v.levels ≤ DM_VERITY_MAX_LEVELS
  table : ∀ i, i < v.levels → v.hash_level_block i =
    v.hash_start + level_sum v.data_blocks v.hash_per_block_bits (i + 1) v.levels
  blocks : v.hash_blocks = v.hash_start + level_sum v.data_blocks v.hash_per_block_bits 0 v.levels
  blocks_lt : v.hash_blocks < 2 ^ 64

/-- Facts about the block sizes and the digest size that hold for every
verifier the constructor returns. -/
structure GeomOK (v : dm_verity) : Prop where
  version_le : v.version ≤ 1
  data_bits_ge : SECTOR_SHIFT ≤ v.data_dev_block_bits
  data_bits_le : v.data_dev_block_bits ≤ 12
  hash_bits_ge : SECTOR_SHIFT ≤ v.hash_dev_block_bits
  hash_bits_le : v.hash_dev_block_bits ≤ 30
  digest_pos : 0 < v.digest_size
  digest_lt : v.digest_size < 2 ^ 32
  digest_chk : (v.digest_size * 2) % 2 ^ 32 ≤ 2 ^ v.hash_dev_block_bits
  root_len : v.root_digest.length = v.digest_size
  per_block : v.hash_per_block_bits = __fls (2 ^ v.hash_dev_block_bits / v.digest_size)

/-- Whether hash block `x` lies in the range of tree level `i`:
`[hash_level_block[i], hash_level_block[i] + ceil (data_blocks / 2 ^ ((i + 1) * hash_per_block_bits)))`. -/
def in_level (v : dm_verity) (i x : Nat) : Prop :=
  v.hash_level_block i ≤ x ∧
    x < v.hash_level_block i + level_size v.data_blocks v.hash_per_block_bits i

/-- Evaluates a test on the verifier a constructor run returns; `false` when
the run fails. -/
def except_check {ε α : Type} (x : Except ε α) (p : α → Bool) : Bool :=
  match x with
  | .ok v => p v
  | .error _ => false

/-! ## Reference notions for the digest pipeline and the verifier -/

/-- No operation of the digest primitive fails: `crypto_wait_req` returns 0 for
every init, update and final. -/
def tfm_ok (C : crypto_ahash) : Prop :=
  C.init = 0 ∧ (∀ stream chunk, C.update stream chunk = 0) ∧ ∀ stream, C.final stream = 0

/-- The salted byte stream of the spec: the salt before the data for version 1
(and above), the salt after the data for version 0. -/
def salted (v : dm_verity) (data : List Nat) : List Nat :=
  if v.version = 0 then data ++ v.salt else v.salt ++ data

/-- The salted digest of a block. -/
def block_digest (E : Env) (v : dm_verity) (data : List Nat) : List Nat :=
  E.tfm.digest (salted v data)

/-- Whether an event is a call of the FEC hook or of `verity_handle_err`. -/
def is_err_event : Ev → Bool
  | Ev.fec_decode _ _ => true
  | Ev.handle_err _ _ => true
  | _ => false

/-- Number of calls of the FEC hook and of `verity_handle_err` in a trace. -/
def err_calls (t : List Ev) : Nat := (t.filter is_err_event).length

/-- The state components that the digest pipeline leaves alone: everything but
the hash request, the `real_digest` buffer and the digest events of the trace. -/
structure Frame (s s1 : State) : Prop where
  bufs : s1.bufs = s.bufs
  hash_verified : s1.hash_verified = s.hash_verified
  validated_blocks : s1.validated_blocks = s.validated_blocks
  payload : s1.payload = s.payload
  iter : s1.iter = s.iter
  want_digest : s1.want_digest = s.want_digest
  hash_failed : s1.hash_failed = s.hash_failed
  corrupted_errs : s1.corrupted_errs = s.corrupted_errs
  errs : err_calls s1.trace = err_calls s.trace

/-- Size of a data block in bytes, as the `unsigned` value of
`1 << v->data_dev_block_bits`. -/
def data_block_bytes (v : dm_verity) : Nat := (1 <<< v.data_dev_block_bits) % 2 ^ 32

/-- Index of the hash block that holds the digest of the node of `block` at
`level`, as `verity_hash_at_level` computes it. -/
def hash_block_of (v : dm_verity) (block level : Nat) : Nat := (verity_hash_at_level v block level).1

/-- Byte offset of that digest in its hash block. -/
def offset_of (v : dm_verity) (block level : Nat) : Nat := (verity_hash_at_level v block level).2

/-- The entry stored in the level-`level` hash block on the path of `block`. -/
def tree_entry (v : dm_verity) (bufs : Nat → Option (List Nat)) (block level : Nat) : List Nat :=
  match bufs (hash_block_of v block level) with
  | some d => bytes_at d (offset_of v block level) v.digest_size
  | none => []

/-- The digest the tree stores for the hash block of `block` at `level`: the
entry in its parent hash block, or `root_digest` for the top level. -/
def parent_entry (v : dm_verity) (bufs : Nat → Option (List Nat)) (block level : Nat) : List Nat :=
  if v.levels ≤ level + 1 then v.root_digest.take v.digest_size
  else tree_entry v bufs block (level + 1)

/-- The digest the tree stores for data block `block`: its level-0 entry, or
`root_digest` when the tree has no level. -/
def data_entry (v : dm_verity) (bufs : Nat → Option (List Nat)) (block : Nat) : List Nat :=
  if v.levels = 0 then v.root_digest.take v.digest_size else tree_entry v bufs block 0

/-- The hash blocks on the path of `block` are readable and the salted digest
of each equals the entry stored for it in its parent (the root digest for the
top level). -/
def path_consistent (E : Env) (v : dm_verity) (bufs : Nat → Option (List Nat)) (block : Nat) :
    Bool :=
  (List.range v.levels).all fun L =>
    match bufs (hash_block_of v block L) with
    | some d =>
      memcmp_eq (block_digest E v (d.take (1 <<< v.hash_dev_block_bits)))
        (parent_entry v bufs block L) v.digest_size
    | none => false

/-- The salted digest of the data `chunk` equals the entry the tree stores for
data block `block`. -/
def data_consistent (E : Env) (v : dm_verity) (bufs : Nat → Option (List Nat)) (block : Nat)
    (chunk : List Nat) : Bool :=
  memcmp_eq (block_digest E v chunk) (data_entry v bufs block) v.digest_size

/-- As `Frame`, but the `hash_verified` flags may have been set (none is
cleared). -/
structure FrameV (s s1 : State) : Prop where
  bufs : s1.bufs = s.bufs
  mono : ∀ x, s.hash_verified x = true → s1.hash_verified x = true
  validated_blocks : s1.validated_blocks = s.validated_blocks
  payload : s1.payload = s.payload
  iter : s1.iter = s.iter
  want_digest : s1.want_digest = s.want_digest
  hash_failed : s1.hash_failed = s.hash_failed
  corrupted_errs : s1.corrupted_errs = s.corrupted_errs
  errs : err_calls s1.trace = err_calls s.trace

/-- Whether `want` equals the configured `zero_digest` (the value of `*is_zero`
when `verity_hash_for_block` returns 0). -/
def zero_expected (v : dm_verity) (want : List Nat) : Bool :=
  match v.zero_digest with
  | some z => memcmp_eq z want v.digest_size
  | none => false

/-- Effect of a successful step of the loop of `verity_verify_io` on the parts
of the state that later steps read: the hash-block cache is as before, the
cursor has advanced by one data block, the payload keeps its length and its
bytes after that block, and neither the FEC hook nor `verity_handle_err` was
called. -/
structure StepOK (v : dm_verity) (s s2 : State) : Prop where
  bufs : s2.bufs = s.bufs
  iter : s2.iter = s.iter + data_block_bytes v
  length : s2.payload.length = s.payload.length
  after : ∀ q n, s.iter + data_block_bytes v ≤ q → bytes_at s2.payload q n = bytes_at s.payload q n
  errs : err_calls s2.trace = err_calls s.trace

/-- What every step of the verifier preserves: the payload with its cursor,
the bitmap and the `want_digest` buffer are as before, and no `hash_verified`
flag has been cleared. -/
structure FrameP (s s1 : State) : Prop where
  payload : s1.payload = s.payload
  iter : s1.iter = s.iter
  validated_blocks : s1.validated_blocks = s.validated_blocks
  want_digest : s1.want_digest = s.want_digest
  mono : ∀ x, s.hash_verified x = true → s1.hash_verified x = true

/-- The three ways of the spec in which a returned data block is justified,
for the block `cur` verified from state `s` and returned as `chunk`: it hashes
(with the salt discipline) to the expected digest that `verity_hash_for_block`
obtains from the hash tree, or it was zero-filled because that digest equals
`zero_digest`, or the FEC hook repaired it: the hook succeeds on the block and
`chunk` begins with the bytes it wrote over the block, at most one data block
of its output (all of `chunk` when the hook delivers a whole block). -/
def payload_justified (E : Env) (v : dm_verity) (s : State) (cur : Nat) (chunk : List Nat) :
    Bool :=
  memcmp_eq (block_digest E v chunk) (verity_hash_for_block E v s cur s.want_digest).2.2.1
      v.digest_size ||
    ((verity_hash_for_block E v s cur s.want_digest).2.2.2 &&
      decide (chunk = List.replicate (data_block_bytes v) 0)) ||
    (match E.fec_decode verity_block_type.DATA cur with
     | some fixed =>
       decide (chunk.take (fixed.take (data_block_bytes v)).length
         = fixed.take (data_block_bytes v))
     | none => false)

/-- The block `cur` is skipped by the `check_at_most_once` bitmap in state `s`. -/
def skipped_once (v : dm_verity) (s : State) (cur : Nat) : Prop :=
  v.use_validated_blocks = true ∧ s.validated_blocks cur = true

/-- The way in which Logging mode returns a data block that failed its
verification, for the block `cur` verified from state `s` and returned as
`chunk`: the mode is Logging, `chunk` is the block as it stood in the payload
when the step began, its salted digest mismatches the expected digest that
`verity_hash_for_block` obtains from the hash tree, that digest is not the
zero digest, and the FEC hook fails on the block. -/
def logged_corrupt (E : Env) (v : dm_verity) (s : State) (cur : Nat) (chunk : List Nat) :
    Bool :=
  decide (v.mode = verity_mode.LOGGING) &&
    decide (chunk = bytes_at s.payload s.iter (data_block_bytes v)) &&
    !(memcmp_eq (block_digest E v chunk) (verity_hash_for_block E v s cur s.want_digest).2.2.1
      v.digest_size) &&
    !((verity_hash_for_block E v s cur s.want_digest).2.2.2) &&
    (E.fec_decode verity_block_type.DATA cur).isNone

/-! ## Concrete configurations -/

/-- A volume of 129 data blocks of 4096 bytes with 32-byte digests and
4096-byte hash blocks (128 digests per hash block, two tree levels), hash tree
from hash block 1 on. -/
def two_level_args : ctr_args :=
  { version := 1, data_block_size := 4096, hash_block_size := 4096, data_blocks := 129,
    hash_start := 1, digest_size := 32, root_digest := List.replicate 32 0, salt := [],
    zero_digest := none, mode := verity_mode.EIO, error_behavior := 0,
    check_at_most_once := false, data_logical_block_size := 512,
    hash_logical_block_size := 512, ti_len := 1032, hash_dev_size := 100 }

/-- A volume of one data block, otherwise as `two_level_args`. -/
def one_block_args : ctr_args :=
  { two_level_args with data_blocks := 1, ti_len := 8 }

/-- A volume of `2 ^ 60 + 1` data blocks of 4096 bytes with 64-byte digests and
4096-byte hash blocks (64 digests per hash block). -/
def huge_args : ctr_args :=
  { version := 1, data_block_size := 4096, hash_block_size := 4096, data_blocks := 2 ^ 60 + 1,
    hash_start := 0, digest_size := 64, root_digest := List.replicate 64 0, salt := [],
    zero_digest := none, mode := verity_mode.EIO, error_behavior := 0,
    check_at_most_once := false, data_logical_block_size := 512,
    hash_logical_block_size := 512, ti_len := 2 ^ 63, hash_dev_size := 2 ^ 60 }

/-- The fields of a verifier for 129 data blocks with 128 digests per hash block
whose hash tree would start at the last hash block index `2 ^ 64 - 1`, as they
stand when the constructor reaches the level count. -/
def top_start_verity : dm_verity :=
  { version := 1, salt := [], root_digest := List.replicate 32 0, zero_digest := none,
    digest_size := 32, data_start := 0, hash_start := 2 ^ 64 - 1, data_blocks := 129,
    hash_blocks := 0, data_dev_block_bits := 12, hash_dev_block_bits := 12,
    hash_per_block_bits := 7, levels := 0, mode := verity_mode.EIO, error_behavior := 0,
    hash_level_block := fun _ => 0, use_validated_blocks := false }

/-! ## A small volume used in the examples -/

/-- A stand-in digest primitive for the examples: a 32-byte digest that repeats
a rolling checksum of the stream. -/
def toy_digest (n : Nat) (stream : List Nat) : List Nat :=
  List.replicate n (stream.foldl (fun acc b => (acc * 31 + b + 1) % 251) 7)

/-- The stand-in digest primitive as a `crypto_ahash` whose operations succeed. -/
def toy_tfm : crypto_ahash :=
  { init := 0, update := fun _ _ => 0, final := fun _ => 0, digest := toy_digest 32 }

/-- Collaborators of the examples: no FEC, hash buffers that are not vmalloc
addresses, bio segments of one page. -/
def toy_env : Env :=
  { tfm := toy_tfm, fec_decode := fun _ _ => none, buf_vmalloc := fun _ => none,
    bv_len := fun _ => 4096 }

/-- Content of data block 16 of the example volume. -/
def fx_data : List Nat := List.replicate 512 9

/-- Level-0 hash block of data block 16: its digest in slot 0. -/
def fx_l0b : List Nat := toy_digest 32 ([5, 6] ++ fx_data) ++ List.replicate 480 0

/-- Level-0 hash block of data blocks 0 to 15 (not used by the examples). -/
def fx_l0a : List Nat := List.replicate 512 0

/-- Top-level hash block: the digest of `fx_l0b` in slot 1. -/
def fx_top : List Nat :=
  List.replicate 32 1 ++ toy_digest 32 ([5, 6] ++ fx_l0b) ++ List.replicate 448 0

/-- Root digest of the example volume. -/
def fx_root : List Nat := toy_digest 32 ([5, 6] ++ fx_top)

/-- Constructor arguments of the example volume: 17 data blocks of 512 bytes,
512-byte hash blocks, 32-byte digests (16 per hash block, two levels), salt
`5 6`, version 1. -/
def fx_args : ctr_args :=
  { version := 1, data_block_size := 512, hash_block_size := 512, data_blocks := 17,
    hash_start := 0, digest_size := 32, root_digest := fx_root, salt := [5, 6],
    zero_digest := none, mode := verity_mode.EIO, error_behavior := 0,
    check_at_most_once := false, data_logical_block_size := 512,
    hash_logical_block_size := 512, ti_len := 17, hash_dev_size := 3 }

/-- The verifier the constructor returns for `a` (a placeholder if it fails). -/
def ctr_verity (a : ctr_args) : dm_verity :=
  match verity_ctr a with
  | .ok v => v
  | .error _ => top_start_verity

/-- The example verifier. -/
def fx_v : dm_verity := ctr_verity fx_args

/-- The hash device of the example volume: top block 0, level-0 blocks 1 and 2. -/
def fx_bufs : Nat → Option (List Nat) := fun hb =>
  if hb = 0 then some fx_top else if hb = 1 then some fx_l0a
  else if hb = 2 then some fx_l0b else none

/-- Initial state of a read of data block 16 that delivered `payload`: no hash
block verified yet. -/
def fx_state (payload : List Nat) : State :=
  { bufs := fx_bufs, hash_verified := fun _ => false, validated_blocks := fun _ => false,
    payload := payload, iter := 0, req := [], want_digest := [], real_digest := [],
    hash_failed := false, corrupted_errs := 0, trace := [] }

/-- Evaluates a test on the result of a run; `false` when the run does not
terminate. -/
def run_check (x : Option (Int × State)) (p : Int → State → Bool) : Bool :=
  match x with
  | some (r, s) => p r s
  | none => false

/-- The example verifier in Logging mode (`ignore_corruption`). -/
def fx_v_logging : dm_verity := { fx_v with mode := verity_mode.LOGGING }

/-- The example verifier with the `check_at_most_once` bitmap. -/
def fx_v_once : dm_verity := { fx_v with use_validated_blocks := true }

/-- The level-0 hash block of data block 16 with its last byte corrupted. -/
def fx_l0b_bad : List Nat := toy_digest 32 ([5, 6] ++ fx_data) ++ List.replicate 479 0 ++ [1]

/-- The hash device of the example volume with the corrupted level-0 block. -/
def fx_bufs_bad : Nat → Option (List Nat) := fun hb =>
  if hb = 2 then some fx_l0b_bad else fx_bufs hb

/-- Corrupted content delivered for data block 16. -/
def fx_data_bad : List Nat := List.replicate 512 8

/-- Whether a step of the loop of `verity_verify_io` continues with the next
block. -/
def step_continues (x : Option (Option Int × State)) : Bool :=
  match x with
  | some (none, _) => true
  | _ => false

/-! ## The map function -/

/-- Modelled from the spec: `DM_MAPIO_SUBMITTED` is declared in
`include/linux/device-mapper.h`, outside the sources; its value is 0. -/
def DM_MAPIO_SUBMITTED : Nat := 0

/-- Modelled from the spec: `DM_MAPIO_KILL` is declared in
`include/linux/device-mapper.h`, outside the sources; its value is 4. -/
def DM_MAPIO_KILL : Nat := 4

/-- Modelled from the spec: the data direction of a bio, the value of the
block-layer accessor `bio_data_dir`, which is outside the sources. -/
inductive bio_dir where
  | READ
  | WRITE
  deriving DecidableEq, Repr

/-- Modelled from the spec: `struct bio` is declared by the block layer, outside
the sources; these are the fields `verity_map` reads: `bi_iter.bi_sector` (a
`sector_t`), `bi_iter.bi_size` (an `unsigned int`, in bytes) and the data
direction. -/
structure bio where
  bi_sector : Nat
  bi_size : Nat
  dir : bio_dir
  deriving DecidableEq, Repr

/-- What `verity_map` does besides computing its result, in order: a
rate-limited error message, the replacement of `bi_end_io` by `verity_end_io`
(the completion interceptor), `verity_fec_init_io`, the prefetch work queued by
`verity_submit_prefetch`, and the submission of the bio to the data device by
`generic_make_request`. -/
inductive MapEv where
  | dmerr (msg : String)
  | set_end_io
  | fec_init_io
  | queue_prefetch (block n_blocks : Nat)
  | generic_make_request (b : bio)
  deriving DecidableEq, Repr

/-- Result of `verity_map`: the returned code, the bio as the function leaves
it, the `dm_verity_io` record it filled (if it got that far) and its effects. -/
structure map_out where
  r : Nat
  b : bio
  io : Option dm_verity_io
  events : List MapEv

/-- Embeds `verity_map_sector`: `v->data_start + dm_target_offset(v->ti,
bi_sector)`, where `dm_target_offset(ti, sector)` is `sector - ti->begin`, in
`sector_t` arithmetic. -/
def verity_map_sector (v : dm_verity) (ti_begin bi_sector : Nat) : Nat :=
  (v.data_start + (bi_sector % 2 ^ 64 + (2 ^ 64 - ti_begin % 2 ^ 64))) % 2 ^ 64

/-- Modelled from the spec: `bio_sectors` is a block-layer accessor outside the
sources; it is the size of the bio in 512-byte sectors, `bi_size >> 9`. -/
def bio_sectors (b : bio) : Nat := (b.bi_size % 2 ^ 32) >>> 9

/-- Modelled from the spec: `bio_end_sector` is a block-layer accessor outside
the sources; it is the `sector_t` sum `bi_sector + bio_sectors(bio)`. -/
def bio_end_sector (b : bio) : Nat := (b.bi_sector + bio_sectors b) % 2 ^ 64

/-- Embeds `verity_submit_prefetch`; `pw_alloc` says whether the `kmalloc` of
the prefetch work succeeds. -/
def verity_submit_prefetch (pw_alloc : Bool) (io : dm_verity_io) : List MapEv :=
  if pw_alloc then [MapEv.queue_prefetch io.block io.n_blocks] else []

/-- Embeds `verity_map` for a target that begins at sector `ti_begin` of its
table.  The shifts by `data_dev_block_bits - SECTOR_SHIFT` are those of the C
code for `SECTOR_SHIFT ≤ data_dev_block_bits`, which holds for every verifier
the constructor returns. -/
def verity_map (v : dm_verity) (ti_begin : Nat) (pw_alloc : Bool) (b0 : bio) : map_out :=
  let b : bio := { b0 with bi_sector := verity_map_sector v ti_begin b0.bi_sector }
  let k := v.data_dev_block_bits - SECTOR_SHIFT
  if ((b.bi_sector % 2 ^ 32 ||| bio_sectors b) &&& (((1 <<< k) - 1) % 2 ^ 32)) ≠ 0 then
    { r := DM_MAPIO_KILL, b := b, io := none, events := [MapEv.dmerr "unaligned io"] }
  else if bio_end_sector b >>> k > v.data_blocks then
    { r := DM_MAPIO_KILL, b := b, io := none, events := [MapEv.dmerr "io out of range"] }
  else if b.dir = bio_dir.WRITE then
    { r := DM_MAPIO_KILL, b := b, io := none, events := [] }
  else
    let io : dm_verity_io :=
      { block := b.bi_sector >>> k, n_blocks := (b.bi_size % 2 ^ 32) >>> v.data_dev_block_bits }
    { r := DM_MAPIO_SUBMITTED, b := b, io := some io,
      events := [MapEv.set_end_io, MapEv.fec_init_io] ++ verity_submit_prefetch pw_alloc io
        ++ [MapEv.generic_make_request b] }

/-- Whether an effect of `verity_map` goes beyond an error message: installing
the completion interceptor, starting FEC state, queueing a prefetch or
submitting the bio. -/
def MapEv.acts : MapEv → Bool
  | MapEv.dmerr _ => false
  | _ => true

/-! ## A small volume with a zero block -/

/-- Digest of a data block of 512 zero bytes of the example volume with a zero
block, as `verity_alloc_zero_digest` computes it. -/
def fz_zero_digest : List Nat := toy_digest 32 ([5, 6] ++ List.replicate 512 0)

/-- Level-0 hash block of data block 16 when that block is a zero block. -/
def fz_l0b : List Nat := fz_zero_digest ++ List.replicate 480 0

/-- Top-level hash block: the digest of `fz_l0b` in slot 1. -/
def fz_top : List Nat :=
  List.replicate 32 1 ++ toy_digest 32 ([5, 6] ++ fz_l0b) ++ List.replicate 448 0

/-- Constructor arguments of the example volume with a zero block and the
option `ignore_zero_blocks`. -/
def fz_args : ctr_args :=
  { fx_args with root_digest := toy_digest 32 ([5, 6] ++ fz_top),
                 zero_digest := some fz_zero_digest }

/-- The example verifier with a zero block. -/
def fz_v : dm_verity := ctr_verity fz_args

/-- Initial state of a read of data block 16 of the volume with a zero block
that delivered `payload`. -/
def fz_state (payload : List Nat) : State :=
  { fx_state payload with
    bufs := fun hb => if hb = 0 then some fz_top else if hb = 1 then some fx_l0a
      else if hb = 2 then some fz_l0b else none }

/-! ## Reference notions for the observable trace -/

/-- Whether an event is an operation of the digest primitive. -/
def is_digest_event : Ev → Bool
  | Ev.ahash_init => true
  | Ev.ahash_update _ => true
  | Ev.ahash_final _ => true
  | _ => false

/-- The trace without the operations of the digest primitive: the reads of the
hash-block cache, the calls of the FEC hook and of `verity_handle_err`, the
uevents and the restart hook, in order. -/
def obs (t : List Ev) : List Ev := t.filter fun e => !is_digest_event e

/-- Whether an event is a uevent emitted by `verity_handle_err`. -/
def is_uevent : Ev → Bool
  | Ev.uevent _ _ => true
  | _ => false

/-- Number of uevents in a trace. -/
def uevents (t : List Ev) : Nat := (t.filter is_uevent).length

/-! ## Example configurations with the bitmap -/

/-- Collaborators of the examples with an FEC hook that repairs data block 16
(to `fx_data`) and the level-0 hash block 2 (to `fx_l0b`). -/
def toy_env_fec : Env :=
  { toy_env with
    fec_decode := fun t b =>
      if t = verity_block_type.DATA ∧ b = 16 then some fx_data
      else if t = verity_block_type.METADATA ∧ b = 2 then some fx_l0b
      else none }

/-- The example verifier with a zero block and the `check_at_most_once` bitmap. -/
def fz_v_once : dm_verity := { fz_v with use_validated_blocks := true }

/-- The example verifier in Logging mode with the `check_at_most_once` bitmap. -/
def fx_v_once_logging : dm_verity := { fx_v_once with mode := verity_mode.LOGGING }

/-! ## Sequences of calls of the corruption handler -/

/-- The state after a sequence of calls of `verity_handle_err`, each given by
the verifier (which carries the mode), the block type and the block. -/
def verity_handle_err_calls : List (dm_verity × verity_block_type × Nat) → State → State
  | [], s => s
  | c :: rest, s => verity_handle_err_calls rest (verity_handle_err c.1 s c.2.1 c.2.2).2

/-! ## Completion of a request and the failure policy -/

/-- Modelled from the spec: the error behaviours are an `enum` of `dm-verity.h`,
which is not part of the sources; the comment on `error_behavior_istring`
gives the values 0 = eio, 1 = panic, 2 = none, 3 = notify. -/
def DM_VERITY_ERROR_BEHAVIOR_EIO : Int := 0

/-- Modelled from the spec: value of `DM_VERITY_ERROR_BEHAVIOR_PANIC` (see
`DM_VERITY_ERROR_BEHAVIOR_EIO`). -/
def DM_VERITY_ERROR_BEHAVIOR_PANIC : Int := 1

/-- Modelled from the spec: value of `DM_VERITY_ERROR_BEHAVIOR_NONE` (see
`DM_VERITY_ERROR_BEHAVIOR_EIO`). -/
def DM_VERITY_ERROR_BEHAVIOR_NONE : Int := 2

/-- Modelled from the spec: value of `DM_VERITY_ERROR_BEHAVIOR_NOTIFY` (see
`DM_VERITY_ERROR_BEHAVIOR_EIO`). -/
def DM_VERITY_ERROR_BEHAVIOR_NOTIFY : Int := 3

/-- Modelled from the spec: `BLK_STS_OK` is declared in
`include/linux/blk_types.h`, outside the sources; its value is 0. -/
def BLK_STS_OK : Nat := 0

/-- Modelled from the spec: `BLK_STS_IOERR` is declared in
`include/linux/blk_types.h`, outside the sources; its value is 10. -/
def BLK_STS_IOERR : Nat := 10

/-- Modelled from the spec: `errno_to_blk_status` is block-layer code outside
the sources.  It maps 0 to `BLK_STS_OK` and `-EIO`, like every errno the block
layer has no status of its own for, to `BLK_STS_IOERR`; the model gives
`BLK_STS_IOERR` for every non-zero errno (the code below only tests the status
against 0 and passes it on). -/
def errno_to_blk_status (r : Int) : Nat := if r = 0 then BLK_STS_OK else BLK_STS_IOERR

/-- Modelled from the spec: `struct dm_verity_error_state` is declared in
`dm-verity.h`; these are the fields `verity_error` fills (the device pointers
apart). -/
structure dm_verity_error_state where
  code : Nat
  transient : Int
  block : Nat
  message : String
  dev_start : Nat
  dev_len : Nat
  hash_dev_start : Nat
  hash_dev_len : Nat
  behavior : Int
  deriving DecidableEq, Repr

/-- What the completion path consumes from the host: whether FEC is enabled
for the verifier (`verity_fec_is_enabled`), and the notifier chain
`verity_error_notifier`: the value `blocking_notifier_call_chain` returns for a
`transient` flag and an error-state record, and the record as the notifiers
leave it. -/
structure Host where
  fec_is_enabled : Bool
  notifier_call_chain : Int → dm_verity_error_state → Int × dm_verity_error_state

/-- Effects of the completion path, in order: the rate-limited error message
of `verity_error`, the call of the notifier chain, the call of `panic` (the
host halts) with the status, block and message of its diagnostic,
`verity_fec_finish_io`, and the completion of the bio by `bio_endio` with its
`bi_status`. -/
inductive FinEv where
  | dmerr (message : String)
  | notifier_call (transient : Int) (st : dm_verity_error_state)
  | panic (status : Nat) (block : Nat) (message : String)
  | fec_finish_io
  | bio_endio (status : Nat)
  deriving DecidableEq, Repr

/-- The record `error_state` as `verity_error` fills it before it calls the
notifier chain. -/
def verity_error_state (v : dm_verity) (s : State) (status : Nat) : dm_verity_error_state :=
  { code := status
    transient := if s.hash_failed then 0 else 1
    block := 2 ^ 64 - 1
    message := if s.hash_failed then "integrity" else "block"
    dev_start := v.data_start
    dev_len := v.data_blocks
    hash_dev_start := v.hash_start
    hash_dev_len := v.hash_blocks
    behavior := DM_VERITY_ERROR_BEHAVIOR_PANIC }

/-- The local variable `error_behavior` of `verity_error` when it reaches the
`switch`: the configured behaviour, or for NOTIFY the behaviour the notifiers
left in the record if the chain returned 0, and PANIC otherwise. -/
def verity_error_behavior (H : Host) (v : dm_verity) (s : State) (status : Nat) : Int :=
  if v.error_behavior = DM_VERITY_ERROR_BEHAVIOR_NOTIFY then
    if (H.notifier_call_chain (if s.hash_failed then 0 else 1)
        (verity_error_state v s status)).1 = 0 then
      (H.notifier_call_chain (if s.hash_failed then 0 else 1)
        (verity_error_state v s status)).2.behavior
    else DM_VERITY_ERROR_BEHAVIOR_PANIC
  else v.error_behavior

/-- Embeds `verity_error`: its effects in order, and whether it reaches
`panic`.  Modelled from the spec: `panic` is kernel code outside the sources;
it halts the host and does not return. -/
def verity_error (H : Host) (v : dm_verity) (s : State) (status : Nat) : List FinEv × Bool :=
  let message := if s.hash_failed then "integrity" else "block"
  let block := 2 ^ 64 - 1
  let transient : Int := if s.hash_failed then 0 else 1
  let ev0 := [FinEv.dmerr ("verification failure occurred: " ++ message ++ " failure")]
  let ev1 :=
    if v.error_behavior = DM_VERITY_ERROR_BEHAVIOR_NOTIFY then
      ev0 ++ [FinEv.notifier_call transient (verity_error_state v s status)]
    else ev0
  let error_behavior := verity_error_behavior H v s status
  if error_behavior = DM_VERITY_ERROR_BEHAVIOR_EIO then (ev1, false)
  else if error_behavior = DM_VERITY_ERROR_BEHAVIOR_NONE then (ev1, false)
  else if transient = 0 then (ev1 ++ [FinEv.panic status block message], true)
  else (ev1, false)

/-- Embeds `verity_finish_io`; the second component says whether the host
halted in `verity_error`, in which case the bio is not completed. -/
def verity_finish_io (H : Host) (v : dm_verity) (s : State) (status : Nat) : List FinEv × Bool :=
  let e := if status ≠ 0 ∧ H.fec_is_enabled = false then verity_error H v s status else ([], false)
  if e.2 then e else (e.1 ++ [FinEv.fec_finish_io, FinEv.bio_endio status], false)

/-- Embeds `verity_work`: the state after `verity_verify_io` and the effects of
`verity_finish_io`; `none` when a payload loop does not terminate. -/
def verity_work (E : Env) (H : Host) (v : dm_verity) (io : dm_verity_io) (s : State) :
    Option (State × List FinEv × Bool) :=
  match verity_verify_io E v io s with
  | none => none
  | some r => some (r.2, verity_finish_io H v r.2 (errno_to_blk_status r.1))

/-- Whether an effect of the completion path is the call of `panic`. -/
def FinEv.is_panic : FinEv → Bool
  | FinEv.panic _ _ _ => true
  | _ => false

/-- Evaluates a test on the result of `verity_work`; `false` when the run does
not terminate. -/
def work_check (x : Option (State × List FinEv × Bool)) (p : State → List FinEv → Bool → Bool) :
    Bool :=
  match x with
  | some (s, evs, halted) => p s evs halted
  | none => false

/-- A host without FEC whose notifier chain has no notifier: it returns 0 and
leaves the record as it is. -/
def toy_host : Host := { fec_is_enabled := false, notifier_call_chain := fun _ st => (0, st) }

/-- The example verifier with the error behaviour `panic`. -/
def fx_v_panic : dm_verity := { fx_v with error_behavior := DM_VERITY_ERROR_BEHAVIOR_PANIC }

/-- Whether an effect of the completion path is the completion of the bio by
`bio_endio`. -/
def FinEv.is_endio : FinEv → Bool
  | FinEv.bio_endio _ => true
  | _ => false

/-- The block index an effect of the completion path reports: the `block` field
of the record passed to the notifier chain, and the block printed by the
diagnostic of `panic`; `none` for the other effects. -/
def FinEv.block : FinEv → Option Nat
  | FinEv.notifier_call _ st => some st.block
  | FinEv.panic _ block _ => some block
  | _ => none

/-- The example verifier with the error behaviour `notify`. -/
def fx_v_notify : dm_verity := { fx_v with error_behavior := DM_VERITY_ERROR_BEHAVIOR_NOTIFY }

/-- The example verifier with an all-zero salt of two bytes, in the given
version. -/
def fx_v_zero_salt (version : Nat) : dm_verity := { fx_v with version := version, salt := [0, 0] }

/-! ## The parser of the error behaviour -/

/-- The table `error_behavior_istring`. -/
def error_behavior_istring : List String := ["0", "1", "2", "3"]

/-- The table `allowed_error_behaviors` up to its terminating `NULL`. -/
def allowed_error_behaviors : List String := ["eio", "panic", "none", "notify"]

/-- The character `behavior[0]` of a NUL-terminated string as an `int`: the
code of the first character, and 0 (the terminator) for the empty string. -/
def first_char (behavior : String) : Nat :=
  match behavior.data with
  | [] => 0
  | c :: _ => c.toNat

/-- The `for` loop of `verity_parse_error_behavior` from the entry `allowed` of
the table with its `index`: `some index` when it leaves by `break`, `none` when
it reaches the terminating `NULL`.  `48` is the character `0`. -/
def verity_parse_error_behavior_loop : List String → Nat → String → Option Nat
  | [], _, _ => none
  | a :: allowed, index, behavior =>
    if a = behavior ∨ first_char behavior = index + 48 then some index
    else verity_parse_error_behavior_loop allowed (index + 1) behavior

/-- Embeds `verity_parse_error_behavior`: the string of `error_behavior_istring`
it returns, or the errno of its `ERR_PTR`. -/
def verity_parse_error_behavior (behavior : String) : Except Int String :=
  match verity_parse_error_behavior_loop allowed_error_behaviors 0 behavior with
  | none => .error (- EINVAL)
  | some index => .ok (error_behavior_istring.getD index "")

/-! ## The text of the uevent -/

/-- The constant `DM_VERITY_ENV_LENGTH`. -/
def DM_VERITY_ENV_LENGTH : Nat := 42

/-- The constant `DM_VERITY_ENV_VAR_NAME`. -/
def DM_VERITY_ENV_VAR_NAME : String := "DM_VERITY_ERR_BLOCK_NR"

/-- Modelled from the spec: the values of `enum verity_block_type` (declared in
`dm-verity.h`), 0 for DATA and 1 for METADATA. -/
def verity_block_type.toNat : verity_block_type → Nat
  | verity_block_type.DATA => 0
  | verity_block_type.METADATA => 1

/-- Modelled from the spec: `snprintf(buf, size, ...)` (kernel library code
outside the sources) leaves in `buf` the first `size - 1` characters of the
formatted text, followed by the terminator. -/
def snprintf (size : Nat) (text : String) : String :=
  String.mk (text.data.take (size - 1))

/-- The buffer `verity_env` of `verity_handle_err` after its `snprintf` with the
format `%s=%d,%llu`: the environment string handed to `kobject_uevent_env`,
which the event `Ev.uevent type block` stands for. -/
def verity_env (type : verity_block_type) (block : Nat) : String :=
  snprintf DM_VERITY_ENV_LENGTH
    (DM_VERITY_ENV_VAR_NAME ++ "=" ++ Nat.repr type.toNat ++ "," ++ Nat.repr (block % 2 ^ 64))

/-- The environment string of an emitted uevent. -/
def Ev.envp : Ev → Option String
  | Ev.uevent type block => some (verity_env type block)
  | _ => none

/-- A volume of `10 ^ 16 + 1` data blocks of 4096 bytes with 32-byte digests and
4096-byte hash blocks. -/
def exa_args : ctr_args :=
  { huge_args with
    data_blocks := 10 ^ 16 + 1
    digest_size := 32
    root_digest := List.replicate 32 0
    ti_len := 8 * 10 ^ 16 + 8 }

/-! ## Reference notions for the flags -/

/-- The error convention of the digest primitive for updates:
`crypto_wait_req` returns 0 or a negative errno for every
`crypto_ahash_update`. -/
def update_errno (C : crypto_ahash) : Prop := ∀ stream chunk, C.update stream chunk ≤ 0

/-- What no operation of the verifier undoes: a `hash_verified` flag that is
set stays set, and `hash_failed` stays set once it is. -/
structure Sticky (s s1 : State) : Prop where
  verified : ∀ x, s.hash_verified x = true → s1.hash_verified x = true
  failed : s.hash_failed = true → s1.hash_failed = true

/-- Embeds `dm_bufio_alloc_callback` for the fresh buffer of hash block `buf`:
it writes 0 to `hash_verified` of that buffer. -/
def dm_bufio_alloc_callback (s : State) (buf : Nat) : State :=
  { s with hash_verified := fun x => if x = buf then false else s.hash_verified x }

/-- Modelled from the spec: `DMEMIT` is a macro of `device-mapper.h`, outside
the sources; it appends the formatted text to the status result. -/
def DMEMIT (result text : String) : String := result ++ text

/-- The case `STATUSTYPE_INFO` of `verity_status`: the text it leaves in
`result`. -/
def verity_status_info (s : State) : String :=
  DMEMIT "" (String.singleton (if s.hash_failed then 'C' else 'V'))

/-! ## Reference notions for the soundness of the chain -/

/-- The check of the level-`L` hash block on the path of `block`: the block is
readable and its salted digest equals the entry stored for it in its parent
block (the root digest for the top level). -/
def level_consistent (E : Env) (v : dm_verity) (bufs : Nat → Option (List Nat))
    (block L : Nat) : Bool :=
  match bufs (hash_block_of v block L) with
  | some d =>
    memcmp_eq (block_digest E v (d.take (1 <<< v.hash_dev_block_bits)))
      (parent_entry v bufs block L) v.digest_size
  | none => false

/-- The level-`L` hash block on the path of `block` is authentic: its salted
digest equals the entry stored for it in its parent block and the parent is
authentic, up to the top-level block, whose digest equals the root digest.
That is, every level from `L` to the top passes its check. -/
def authentic (E : Env) (v : dm_verity) (bufs : Nat → Option (List Nat)) (block L : Nat) : Bool :=
  (List.range (v.levels - L)).all fun j => level_consistent E v bufs block (L + j)

/-- Every flagged hash block of the tree is authentic. -/
def flagged_authentic (E : Env) (v : dm_verity) (s : State) : Prop :=
  ∀ b L, b < v.data_blocks → L < v.levels → s.hash_verified (hash_block_of v b L) = true →
    authentic E v s.bufs b L = true

/-! ## Prefetch -/

/-- The fields `block` and `n_blocks` of `struct dm_verity_prefetch_work`: a
`sector_t` and an `unsigned`. -/
structure dm_verity_prefetch_work where
  block : Nat
  n_blocks : Nat

/-- The bounds `hash_block_start` and `hash_block_end` of `verity_prefetch_io`
at its call of `dm_bufio_prefetch` for level `i`; `prefetch_cluster` is the
value read from the module parameter `dm_verity_prefetch_cluster`. -/
def verity_prefetch_io_bounds (v : dm_verity) (prefetch_cluster : Nat)
    (pw : dm_verity_prefetch_work) (i : Nat) : Nat × Nat :=
  let hash_block_start := (verity_hash_at_level v pw.block i).1
  let hash_block_end :=
    (verity_hash_at_level v ((pw.block + pw.n_blocks % 2 ^ 32 + 2 ^ 64 - 1) % 2 ^ 64) i).1
  if i = 0 then
    let cluster := (prefetch_cluster % 2 ^ 32) >>> v.data_dev_block_bits
    if cluster = 0 then (hash_block_start, hash_block_end)
    else
      let cluster :=
        if cluster &&& (cluster - 1) ≠ 0 then (1 <<< __fls cluster) % 2 ^ 32 else cluster
      let hash_block_start := hash_block_start &&& (2 ^ 64 - 1 - (cluster - 1))
      let hash_block_end := hash_block_end ||| (cluster - 1)
      let hash_block_end :=
        if hash_block_end ≥ v.hash_blocks then (v.hash_blocks + 2 ^ 64 - 1) % 2 ^ 64
        else hash_block_end
      (hash_block_start, hash_block_end)
  else (hash_block_start, hash_block_end)

/-- The loop `for (i = v->levels - 2; i >= 0; i--)` of `verity_prefetch_io`; the
first argument is `i + 1`.  The result lists the calls
`dm_bufio_prefetch(v->bufio, block, n_blocks)` in order, `n_blocks` being the
`unsigned` value of `hash_block_end - hash_block_start + 1`. -/
def verity_prefetch_io_loop (v : dm_verity) (prefetch_cluster : Nat)
    (pw : dm_verity_prefetch_work) : Nat → List (Nat × Nat)
  | 0 => []
  | i + 1 =>
    let r := verity_prefetch_io_bounds v prefetch_cluster pw i
    (r.1, ((r.2 + 2 ^ 64 - r.1 + 1) % 2 ^ 64) % 2 ^ 32)
      :: verity_prefetch_io_loop v prefetch_cluster pw i

/-- Embeds `verity_prefetch_io`: its calls of `dm_bufio_prefetch` in order. -/
def verity_prefetch_io (v : dm_verity) (prefetch_cluster : Nat) (pw : dm_verity_prefetch_work) :
    List (Nat × Nat) :=
  verity_prefetch_io_loop v prefetch_cluster pw (v.levels - 1)

/-- The range of hash blocks to prefetch at level `L` in the words of the spec:
from the hash block of the first data block of the task to the hash block of
its last data block; at level 0, when the cluster `c` (in hash blocks) is not
0, with `p` the largest power of two that is at most `c`, the lower bound
rounded down to a multiple of `p` and the upper bound rounded up to one less
than a multiple of `p` and then clipped to `hash_blocks - 1`. -/
def prefetch_range (v : dm_verity) (c : Nat) (pw : dm_verity_prefetch_work) (L : Nat) :
    Nat × Nat :=
  let lo := hash_block_of v pw.block L
  let hi := hash_block_of v (pw.block + pw.n_blocks - 1) L
  if L = 0 ∧ c ≠ 0 then
    (lo / 2 ^ Nat.log 2 c * 2 ^ Nat.log 2 c,
      min (hi / 2 ^ Nat.log 2 c * 2 ^ Nat.log 2 c + (2 ^ Nat.log 2 c - 1)) (v.hash_blocks - 1))
  else (lo, hi)

/-- A volume of 129 data blocks of 512 bytes with 4096-byte hash blocks,
otherwise as `two_level_args`: the two block sizes differ. -/
def mixed_args : ctr_args := { two_level_args with data_block_size := 512, ti_len := 129 }

/-- The verifier the constructor returns for `mixed_args`. -/
def mixed_v : dm_verity := ctr_verity mixed_args

/-! ## Calls that restart the host -/

/-- Number of calls of `kernel_restart` recorded in a trace. -/
def restarts (t : List Ev) : Nat := t.count Ev.restart

/-- Modelled from the spec: `kernel_restart` is kernel code outside the sources;
it reboots the host and does not return.  A call that ran from state `s` to
state `s1` and during which `kernel_restart` was called has returned nothing:
the status `r` that the model computes behind the restart is that of the C
text, which is not reached.  `returned s r s1` is the status the caller
receives, `none` when the host was restarted during the call. -/
def returned (s : State) (r : Int) (s1 : State) : Option Int :=
  if restarts s.trace < restarts s1.trace then none else some r

/-- The example verifier in Restart mode (`restart_on_corruption`). -/
def fx_v_restart : dm_verity := { fx_v with mode := verity_mode.RESTART }

/-! ## Lemmas on the level count -/

theorem u64_pred (d : Nat) (h1 : 1 ≤ d) (h2 : d < 2 ^ 64) :
    (d + 2 ^ 64 - 1) % 2 ^ 64 = d - 1 := by
  have : d + 2 ^ 64 - 1 = (d - 1) + 2 ^ 64 := by omega
  rw [this, Nat.add_mod_right, Nat.mod_eq_of_lt (by omega)]

theorem shiftRight_eq_zero_of_ge (x n : Nat) (hx : x < 2 ^ 64) (hn : 64 ≤ n) :
    x >>> n = 0 := by
  rw [Nat.shiftRight_eq_div_pow]
  apply Nat.div_eq_of_lt
  calc x < 2 ^ 64 := hx
    _ ≤ 2 ^ n := Nat.pow_le_pow_right (by decide) hn

theorem shr64_eq (x n : Nat) (hx : x < 2 ^ 64) : shr64 x n = x >>> n := by
  unfold shr64
  split
  · rw [Nat.mod_eq_of_lt hx]
  · rw [shiftRight_eq_zero_of_ge x n hx (by omega)]

/-- What the level-counting loop returns: the first count, from the starting
one on, at which the loop condition fails. -/
theorem verity_ctr_levels_loop_some (d hpb : Nat) :
    ∀ (fuel lv L : Nat), verity_ctr_levels_loop d hpb fuel lv = some L →
      lv ≤ L ∧
      ¬ (hpb * L < 64 ∧ ((d + 2 ^ 64 - 1) % 2 ^ 64) >>> (hpb * L) ≠ 0) ∧
      ∀ L1, lv ≤ L1 → L1 < L →
        (hpb * L1 < 64 ∧ ((d + 2 ^ 64 - 1) % 2 ^ 64) >>> (hpb * L1) ≠ 0) := by
  intro fuel
  induction fuel with
  | zero => intro lv L h; simp [verity_ctr_levels_loop] at h
  | succ fuel ih =>
    intro lv L h
    unfold verity_ctr_levels_loop at h
    split at h
    · next hc =>
      obtain ⟨h1, h2, h3⟩ := ih (lv + 1) L h
      refine ⟨by omega, h2, ?_⟩
      intro L1 hl1 hl2
      by_cases hEq : L1 = lv
      · subst hEq; exact hc
      · exact h3 L1 (by omega) hl2
    · next hc =>
      cases h
      exact ⟨le_refl _, hc, fun L1 h1 h2 => absurd h2 (by omega)⟩

/-- With at least one digest per hash block the level-counting loop ends
within `65` tests of its condition. -/
theorem verity_ctr_levels_loop_terminates (d hpb : Nat) (hpos : 1 ≤ hpb) :
    ∀ (fuel lv : Nat), 65 ≤ fuel + lv → lv ≤ 64 →
      ∃ L, verity_ctr_levels_loop d hpb fuel lv = some L ∧ L ≤ 64 := by
  intro fuel
  induction fuel with
  | zero => intro lv h1 h2; omega
  | succ fuel ih =>
    intro lv h1 h2
    unfold verity_ctr_levels_loop
    split
    · next hc =>
      have : lv < 64 := by
        by_contra hge
        have h64 : lv = 64 := by omega
        have : 64 ≤ hpb * lv := by
          rw [h64]; omega
        omega
      exact ih (lv + 1) (by omega) (by omega)
    · exact ⟨lv, rfl, h2⟩

/-! ## Lemmas on the level table -/

theorem level_sum_self (d hpb n : Nat) : level_sum d hpb n n = 0 := by
  simp [level_sum]

theorem level_sum_succ_top (d hpb a n : Nat) (h : a ≤ n) :
    level_sum d hpb a (n + 1) = level_sum d hpb a n + level_size d hpb n := by
  unfold level_sum
  exact Finset.sum_Ico_succ_top h _

theorem level_sum_succ_bot (d hpb a n : Nat) (h : a < n) :
    level_sum d hpb a n = level_size d hpb a + level_sum d hpb (a + 1) n := by
  unfold level_sum
  exact Finset.sum_eq_sum_Ico_succ_bot h _

theorem level_sum_anti (d hpb n : Nat) :
    ∀ k a, a + k ≤ n → level_sum d hpb (a + k) n ≤ level_sum d hpb a n := by
  intro k
  induction k with
  | zero => intro a _; exact le_refl _
  | succ k ih =>
    intro a h
    have h1 := ih (a + 1) (by omega)
    have h2 := level_sum_succ_bot d hpb a n (by omega)
    have : a + 1 + k = a + (k + 1) := by omega
    rw [this] at h1
    omega

/-- The size `s` computed in the level loop is the exact ceiling when the data
blocks fit under the top of the tree. -/
theorem level_size_exact (d k K : Nat) (hk : k ≤ K) (hK : K < 64) (hd : d ≤ 2 ^ K) :
    ((d + (1 <<< k) % 2 ^ 64 + 2 ^ 64 - 1) % 2 ^ 64) >>> k = ceil_div d (2 ^ k) := by
  have hpos : 0 < 2 ^ k := Nat.pow_pos (by decide)
  have h1 : 2 ^ k ≤ 2 ^ K := Nat.pow_le_pow_right (by decide) hk
  have h2 : 2 ^ K ≤ 2 ^ 63 := Nat.pow_le_pow_right (by decide) (by omega)
  have h3 : (2 : Nat) ^ 63 + 2 ^ 63 = 2 ^ 64 := by norm_num
  have h5 : 2 ^ k < 2 ^ 64 := by omega
  rw [Nat.one_shiftLeft, Nat.mod_eq_of_lt h5]
  have h4 : d + 2 ^ k + 2 ^ 64 - 1 = (d + 2 ^ k - 1) + 2 ^ 64 := by omega
  rw [h4, Nat.add_mod_right, Nat.mod_eq_of_lt (by omega), Nat.shiftRight_eq_div_pow]
  rfl

theorem ceil_div_le (d m : Nat) (hm : 0 < m) : ceil_div d m ≤ d := by
  unfold ceil_div
  obtain ⟨m1, rfl⟩ : ∃ m1, m = m1 + 1 := ⟨m - 1, by omega⟩
  cases d with
  | zero =>
    rw [Nat.div_eq_of_lt (by omega)]
  | succ d1 =>
    apply Nat.div_le_of_le_mul
    have : (m1 + 1) * (d1 + 1) = m1 * d1 + m1 + d1 + 1 := by ring
    omega

theorem level_size_lt (d hpb i : Nat) (hd : d < 2 ^ 64) : level_size d hpb i < 2 ^ 64 :=
  lt_of_le_of_lt (ceil_div_le d _ (Nat.pow_pos (by decide))) hd

theorem level_table_step (d hpb n pos : Nat) (hlb : Nat → Nat) :
    level_table d hpb n (pos + level_size d hpb n)
      (fun j => if j = n then pos else hlb j) = level_table d hpb (n + 1) pos hlb := by
  funext i
  unfold level_table
  by_cases h1 : i < n
  · rw [if_pos h1, if_pos (by omega), level_sum_succ_top d hpb (i + 1) n (by omega)]
    omega
  · rw [if_neg h1]
    by_cases h2 : i = n
    · subst h2
      rw [if_pos (by omega), level_sum_self]
      simp
    · rw [if_neg (by omega)]
      simp [h2]

/-- Evaluation of the level loop: with every shift below 64 bits it succeeds
exactly when the running sum stays below `2 ^ 64`, and then yields the
consecutive layout of the levels. -/
theorem verity_ctr_level_blocks_eval (d hpb n0 : Nat) (hK : n0 * hpb < 64)
    (hd : d ≤ 2 ^ (n0 * hpb)) :
    ∀ (n pos : Nat) (hlb : Nat → Nat), n ≤ n0 → pos < 2 ^ 64 →
      verity_ctr_level_blocks d hpb n pos hlb =
        if pos + level_sum d hpb 0 n < 2 ^ 64 then
          .ok (pos + level_sum d hpb 0 n, level_table d hpb n pos hlb)
        else .error (.bad "Hash device offset overflow" (-E2BIG)) := by
  intro n
  induction n with
  | zero =>
    intro pos hlb _ hpos
    rw [level_sum_self, if_pos (by omega)]
    have : level_table d hpb 0 pos hlb = hlb := by
      funext i
      simp [level_table]
    rw [this]
    rfl
  | succ n ih =>
    intro pos hlb hn hpos
    have hle : (n + 1) * hpb ≤ n0 * hpb := Nat.mul_le_mul_right _ hn
    have hs := level_size_exact d ((n + 1) * hpb) (n0 * hpb) hle hK hd
    have hdlt : d < 2 ^ 64 :=
      lt_of_le_of_lt hd (Nat.pow_lt_pow_right (by decide) hK)
    have hslt := level_size_lt d hpb n hdlt
    have hsum := level_sum_succ_top d hpb 0 n (Nat.zero_le _)
    have hsz : ceil_div d (2 ^ ((n + 1) * hpb)) = level_size d hpb n := rfl
    rw [verity_ctr_level_blocks]
    simp only [hs, hsz]
    rw [if_neg (by omega)]
    by_cases hov : pos + level_size d hpb n < 2 ^ 64
    · rw [Nat.mod_eq_of_lt hov, if_neg (by omega), ih _ _ (by omega) hov]
      have e1 : pos + level_size d hpb n + level_sum d hpb 0 n
          = pos + level_sum d hpb 0 (n + 1) := by omega
      rw [e1, level_table_step]
    · have hw : (pos + level_size d hpb n) % 2 ^ 64 = pos + level_size d hpb n - 2 ^ 64 := by
        rw [Nat.mod_eq_sub_mod (by omega), Nat.mod_eq_of_lt (by omega)]
      rw [hw, if_pos (by omega), if_neg (by omega)]

theorem verity_ctr_level_blocks_defined (d hpb n pos : Nat) (hlb : Nat → Nat)
    (r : Nat × (Nat → Nat)) (h : verity_ctr_level_blocks d hpb n pos hlb = .ok r) :
    n = 0 ∨ n * hpb < 64 := by
  cases n with
  | zero => exact Or.inl rfl
  | succ n =>
    right
    rw [verity_ctr_level_blocks] at h
    by_contra hc
    simp only [] at h
    rw [if_pos (by omega)] at h
    cases h

theorem verity_ctr_levels_fits (d hpb L : Nat) (hd : d < 2 ^ 64)
    (h : verity_ctr_levels d hpb = some L) (hK : L * hpb < 64) : d ≤ 2 ^ (L * hpb) := by
  unfold verity_ctr_levels at h
  by_cases h0 : d = 0
  · subst h0; exact Nat.zero_le _
  · rw [if_pos h0] at h
    obtain ⟨_, h2, _⟩ := verity_ctr_levels_loop_some d hpb 65 0 L h
    rw [u64_pred d (by omega) hd, Nat.mul_comm hpb L] at h2
    have h3 : (d - 1) >>> (L * hpb) = 0 := by
      by_contra hne
      exact h2 ⟨hK, hne⟩
    rw [Nat.shiftRight_eq_div_pow] at h3
    have hpos : 0 < 2 ^ (L * hpb) := Nat.pow_pos (by decide)
    have := (Nat.div_eq_zero_iff hpos).1 h3
    omega

/-- What a successful run of the tree part of the constructor establishes. -/
theorem verity_ctr_tree_ok (v0 v : dm_verity) (dev : Nat)
    (h : verity_ctr_tree v0 dev = .ok v) (hd : v0.data_blocks < 2 ^ 64)
    (hs : v0.hash_start < 2 ^ 64) :
    TreeOK v ∧ v.hash_blocks ≤ dev % 2 ^ 64 ∧
      v = { v0 with levels := v.levels, hash_level_block := v.hash_level_block,
                    hash_blocks := v.hash_blocks } := by
  unfold verity_ctr_tree at h
  split at h
  · cases h
  · next L hL =>
    split at h
    · cases h
    · next hmax =>
      split at h
      · cases h
      · next pos hlb hlev =>
        split at h
        · cases h
        · next hdev =>
          have hdef := verity_ctr_level_blocks_defined _ _ _ _ _ _ hlev
          have hK : L * v0.hash_per_block_bits < 64 := by
            rcases hdef with h0 | h1
            · rw [h0]; simp
            · exact h1
          have hfit := verity_ctr_levels_fits _ _ _ hd hL hK
          rw [verity_ctr_level_blocks_eval _ _ L hK hfit L _ _ (le_refl _) hs] at hlev
          split at hlev
          · next hno =>
            injection hlev with hlev
            injection hlev with hpos htab
            injection h with h
            subst h
            subst hpos
            subst htab
            refine ⟨⟨hd, hs, hK, hfit, hL, Nat.le_of_not_lt hmax, ?_, rfl, hno⟩,
              Nat.le_of_not_lt hdev, rfl⟩
            intro i hi
            simp [level_table, hi]
          · cases hlev

theorem ite_error_ok {ε α : Type} {c : Prop} [Decidable c] {e : ε} {x : Except ε α} {v : α}
    (h : (if c then Except.error e else x) = Except.ok v) : ¬ c ∧ x = Except.ok v := by
  by_cases hc : c
  · rw [if_pos hc] at h; cases h
  · rw [if_neg hc] at h; exact ⟨hc, h⟩

/-- On a power of two below `2 ^ fuel` the bit search returns its exponent. -/
theorem ffs_from_pow2 : ∀ (fuel word i : Nat), word ≠ 0 → word < 2 ^ fuel →
    word &&& (word - 1) = 0 →
      i ≤ ffs_from fuel word i ∧ word = 2 ^ (ffs_from fuel word i - i) := by
  intro fuel
  induction fuel with
  | zero => intro word i h0 h1 _; simp at h1; exact absurd h1 h0
  | succ fuel ih =>
    intro word i h0 h1 h2
    have hdiv : (word / 2) &&& ((word - 1) / 2) = 0 := by
      rw [← Nat.and_div_two, h2]
    unfold ffs_from
    by_cases hodd : word % 2 = 1
    · rw [if_pos hodd]
      have e1 : (word - 1) / 2 = word / 2 := by omega
      rw [e1, Nat.and_self] at hdiv
      refine ⟨le_refl _, ?_⟩
      rw [Nat.sub_self, pow_zero]
      omega
    · rw [if_neg hodd]
      have e1 : (word - 1) / 2 = word / 2 - 1 := by omega
      rw [e1] at hdiv
      have hlt : word / 2 < 2 ^ fuel := by
        rw [pow_succ] at h1
        omega
      obtain ⟨h3, h4⟩ := ih (word / 2) (i + 1) (by omega) hlt hdiv
      refine ⟨by omega, ?_⟩
      have e2 : ffs_from fuel (word / 2) (i + 1) - i
          = (ffs_from fuel (word / 2) (i + 1) - (i + 1)) + 1 := by omega
      rw [e2, pow_succ, ← h4]
      omega

/-- The bit index returned by the search brackets a non-zero word. -/
theorem fls_from_spec : ∀ (fuel word : Nat), word ≠ 0 → word < 2 ^ fuel →
    2 ^ fls_from fuel word ≤ word ∧ word < 2 ^ (fls_from fuel word + 1) := by
  intro fuel
  induction fuel with
  | zero => intro word h0 h1; simp at h1; exact absurd h1 h0
  | succ fuel ih =>
    intro word h0 h1
    unfold fls_from
    by_cases hz : word / 2 = 0
    · rw [if_pos hz]
      have : word = 1 := by omega
      subst this
      decide
    · rw [if_neg hz]
      have hlt : word / 2 < 2 ^ fuel := by
        rw [pow_succ] at h1
        omega
      obtain ⟨h2, h3⟩ := ih (word / 2) hz hlt
      rw [pow_succ, pow_succ]
      rw [pow_succ] at h3
      omega

theorem fls_from_zero (fuel : Nat) : fls_from fuel 0 = 0 := by
  cases fuel with
  | zero => rfl
  | succ fuel => simp [fls_from]

theorem pow_fls_le (word : Nat) (h0 : word ≠ 0) (h1 : word < 2 ^ 64) : 2 ^ __fls word ≤ word :=
  (fls_from_spec 64 word h0 h1).1

theorem pow_ffs (num : Nat) (h0 : num ≠ 0) (h1 : num < 2 ^ 32) (h2 : num &&& (num - 1) = 0) :
    2 ^ __ffs num = num := by
  have hlt : num < 2 ^ 64 := lt_trans h1 (by norm_num)
  have := (ffs_from_pow2 64 num 0 h0 hlt h2).2
  rw [Nat.sub_zero] at this
  exact this.symm

theorem exp_lt_of_pow_lt (k n : Nat) (h : 2 ^ k < 2 ^ n) : k < n := by
  by_contra hc
  have := Nat.pow_le_pow_right (show 0 < 2 by decide) (Nat.le_of_not_lt hc)
  omega

theorem exp_le_of_pow_le (k n : Nat) (h : 2 ^ k ≤ 2 ^ n) : k ≤ n := by
  by_contra hc
  have := Nat.pow_lt_pow_right (show 1 < 2 by decide) (Nat.lt_of_not_le hc)
  omega

/-- What a successful run of the constructor establishes. -/
theorem verity_ctr_accepts (a : ctr_args) (v : dm_verity) (h : verity_ctr a = .ok v) :
    GeomOK v ∧ TreeOK v ∧ v.hash_blocks ≤ a.hash_dev_size % 2 ^ 64 := by
  unfold verity_ctr at h
  simp only [] at h
  obtain ⟨c1, h⟩ := ite_error_ok h
  obtain ⟨c2, h⟩ := ite_error_ok h
  obtain ⟨c3, h⟩ := ite_error_ok h
  obtain ⟨c4, h⟩ := ite_error_ok h
  obtain ⟨c5, h⟩ := ite_error_ok h
  obtain ⟨c6, h⟩ := ite_error_ok h
  obtain ⟨c7, h⟩ := ite_error_ok h
  obtain ⟨c8, h⟩ := ite_error_ok h
  obtain ⟨c9, h⟩ := ite_error_ok h
  obtain ⟨c10, h⟩ := ite_error_ok h
  obtain ⟨_, h⟩ := ite_error_ok h
  obtain ⟨c11, h⟩ := ite_error_ok h
  obtain ⟨t1, t2, t3⟩ := verity_ctr_tree_ok _ _ _ h (Nat.mod_lt _ (by decide))
    (Nat.mod_lt _ (by decide))
  refine ⟨?_, t1, t2⟩
  rw [t3]
  simp only [not_or, not_not, not_lt, gt_iff_lt] at c2 c3
  have hd2 := pow_ffs _ c2.1 (Nat.mod_lt _ (by decide)) c2.2.1
  have hh2 := pow_ffs _ c3.1 (Nat.mod_lt _ (by decide)) c3.2.1
  have hdb : __ffs (a.data_block_size % 2 ^ 32) ≤ 12 := by
    apply exp_le_of_pow_le
    rw [hd2]
    exact c2.2.2.2
  have hhb : __ffs (a.hash_block_size % 2 ^ 32) ≤ 30 := by
    have h31 : 2 ^ __ffs (a.hash_block_size % 2 ^ 32) < 2 ^ 31 := by
      rw [hh2]
      have := c3.2.2.2
      unfold INT_MAX at this
      omega
    have := exp_lt_of_pow_lt _ _ h31
    omega
  have hmod : (1 <<< __ffs (a.hash_block_size % 2 ^ 32)) % 2 ^ 32
      = 2 ^ __ffs (a.hash_block_size % 2 ^ 32) := by
    rw [Nat.one_shiftLeft]
    apply Nat.mod_eq_of_lt
    exact Nat.pow_lt_pow_right (by decide) (by omega)
  rw [hmod] at c9 h
  rw [hmod]
  exact
    { version_le := Nat.le_of_not_lt c1
      data_bits_ge := Nat.le_of_not_lt c4
      data_bits_le := hdb
      hash_bits_ge := Nat.le_of_not_lt c7
      hash_bits_le := hhb
      digest_pos := Nat.pos_of_ne_zero c11
      digest_lt := Nat.mod_lt _ (by decide)
      digest_chk := Nat.le_of_not_lt c9
      root_len := not_not.1 c10
      per_block := rfl }

theorem except_ok_of_check {ε α : Type} (x : Except ε α) (p : α → Bool)
    (h : except_check x p = true) : ∃ v, x = .ok v ∧ p v = true := by
  cases x with
  | ok v => exact ⟨v, rfl, h⟩
  | error e => cases h

theorem shift_shift_eq_div (block level hpb : Nat) :
    (block >>> (level * hpb)) >>> hpb = block / 2 ^ ((level + 1) * hpb) := by
  rw [← Nat.shiftRight_add, Nat.shiftRight_eq_div_pow]
  congr 2
  ring

theorem div_lt_ceil_div (b d m : Nat) (hm : 0 < m) (hb : b < d) : b / m < ceil_div d m := by
  unfold ceil_div
  have h1 : d + m - 1 = (d - 1) + m := by omega
  rw [h1, Nat.add_div_right _ hm]
  have : b / m ≤ (d - 1) / m := Nat.div_le_div_right (by omega)
  omega

/-- In an accepted geometry a level together with its size ends at or before
`hash_blocks`. -/
theorem level_end_le (v : dm_verity) (t : TreeOK v) (L : Nat) (hL : L < v.levels) :
    v.hash_level_block L + level_size v.data_blocks v.hash_per_block_bits L ≤ v.hash_blocks := by
  rw [t.table L hL, t.blocks]
  have h1 := level_sum_anti v.data_blocks v.hash_per_block_bits v.levels L 0 (by omega)
  rw [Nat.zero_add] at h1
  have h2 := level_sum_succ_bot v.data_blocks v.hash_per_block_bits L v.levels hL
  omega

/-- Every point between the start of the top level and the end of level 0 lies
in exactly the level whose consecutive range contains it. -/
theorem level_cover (d hpb n hs x : Nat) :
    (hs ≤ x ∧ x < hs + level_sum d hpb 0 n) ↔
      ∃ i, i < n ∧ hs + level_sum d hpb (i + 1) n ≤ x ∧ x < hs + level_sum d hpb i n := by
  constructor
  · rintro ⟨h1, h2⟩
    have key : ∀ j, j ≤ n → hs + level_sum d hpb j n ≤ x →
        ∃ i, i < j ∧ hs + level_sum d hpb (i + 1) n ≤ x ∧ x < hs + level_sum d hpb i n := by
      intro j
      induction j with
      | zero => intro _ h3; omega
      | succ j ih =>
        intro hj h3
        by_cases h4 : x < hs + level_sum d hpb j n
        · exact ⟨j, by omega, h3, h4⟩
        · obtain ⟨i, hi, h5⟩ := ih (by omega) (by omega)
          exact ⟨i, by omega, h5⟩
    obtain ⟨i, hi, h5⟩ := key n (le_refl _) (by rw [level_sum_self]; omega)
    exact ⟨i, hi, h5⟩
  · rintro ⟨i, hi, h1, h2⟩
    have a1 := level_sum_anti d hpb n i 0 (by omega)
    rw [Nat.zero_add] at a1
    constructor <;> omega

/-- In an accepted geometry the range of level `i` is the `i`-th consecutive
piece of the layout. -/
theorem in_level_iff (v : dm_verity) (t : TreeOK v) (i x : Nat) (hi : i < v.levels) :
    in_level v i x ↔
      (v.hash_start + level_sum v.data_blocks v.hash_per_block_bits (i + 1) v.levels ≤ x ∧
        x < v.hash_start + level_sum v.data_blocks v.hash_per_block_bits i v.levels) := by
  unfold in_level
  rw [t.table i hi, level_sum_succ_bot v.data_blocks v.hash_per_block_bits i v.levels hi]
  constructor <;> rintro ⟨h1, h2⟩ <;> constructor <;> omega

theorem levels_disjoint_lt (v : dm_verity) (t : TreeOK v) (i j x : Nat) (hij : i < j)
    (hj : j < v.levels) : ¬ (in_level v i x ∧ in_level v j x) := by
  rintro ⟨h1, h2⟩
  rw [in_level_iff v t i x (by omega)] at h1
  rw [in_level_iff v t j x hj] at h2
  have a1 := level_sum_anti v.data_blocks v.hash_per_block_bits v.levels (j - (i + 1)) (i + 1)
    (by omega)
  have e : i + 1 + (j - (i + 1)) = j := by omega
  rw [e] at a1
  omega

/-- Bounds on the number of digests per hash block in an accepted geometry. -/
theorem per_block_bounds (v : dm_verity) (g : GeomOK v) :
    v.hash_per_block_bits ≤ v.hash_dev_block_bits ∧
      (v.hash_per_block_bits = 0 ∨
        2 ^ v.hash_per_block_bits * v.digest_size ≤ 2 ^ v.hash_dev_block_bits) := by
  have hX : 2 ^ v.hash_dev_block_bits ≤ 2 ^ 30 :=
    Nat.pow_le_pow_right (by decide) g.hash_bits_le
  by_cases hW : 2 ^ v.hash_dev_block_bits / v.digest_size = 0
  · have h0 : v.hash_per_block_bits = 0 := by
      rw [g.per_block, hW]
      exact fls_from_zero 64
    exact ⟨by omega, Or.inl h0⟩
  · have hWle : 2 ^ v.hash_dev_block_bits / v.digest_size ≤ 2 ^ v.hash_dev_block_bits :=
      Nat.div_le_self _ _
    have h64 : 2 ^ v.hash_dev_block_bits / v.digest_size < 2 ^ 64 := by
      have : (2 : Nat) ^ 30 < 2 ^ 64 := by norm_num
      omega
    have h1 := pow_fls_le _ hW h64
    rw [← g.per_block] at h1
    refine ⟨exp_le_of_pow_le _ _ (le_trans h1 hWle), Or.inr ?_⟩
    exact (Nat.le_div_iff_mul_le g.digest_pos).1 h1

/-! ## Geometry theorems -/

/-- C7: for `data_blocks ≥ 1` and `hash_per_block_bits ≥ 1` the level count the
constructor computes is the smallest `L` for which `data_blocks - 1` shifted
right by `hash_per_block_bits * L` bits (as a 64-bit value, a shift by 64 or
more giving 0) is 0; it is at most 64, and when it exceeds
`DM_VERITY_MAX_LEVELS` the constructor fails with "Too many tree levels". -/
theorem verity_ctr_levels_smallest (data_blocks hpb : Nat) (h1 : 1 ≤ data_blocks)
    (h2 : data_blocks < 2 ^ 64) (h3 : 1 ≤ hpb) :
    ∃ L, verity_ctr_levels data_blocks hpb = some L ∧
      shr64 (data_blocks - 1) (hpb * L) = 0 ∧
      (∀ L1, L1 < L → shr64 (data_blocks - 1) (hpb * L1) ≠ 0) ∧
      L ≤ 64 ∧
      (DM_VERITY_MAX_LEVELS < L → ∀ (v : dm_verity) (dev : Nat),
        v.data_blocks = data_blocks → v.hash_per_block_bits = hpb →
          verity_ctr_tree v dev = .error (.bad "Too many tree levels" (-E2BIG))) := by
  obtain ⟨L, hL, hle⟩ := verity_ctr_levels_loop_terminates data_blocks hpb h3 65 0
    (by omega) (by omega)
  obtain ⟨_, hstop, hgo⟩ := verity_ctr_levels_loop_some data_blocks hpb 65 0 L hL
  have hlev : verity_ctr_levels data_blocks hpb = some L := by
    unfold verity_ctr_levels
    rw [if_pos (by omega)]
    exact hL
  have hlt : data_blocks - 1 < 2 ^ 64 := by omega
  rw [u64_pred data_blocks h1 h2] at hstop
  refine ⟨L, hlev, ?_, ?_, hle, ?_⟩
  · unfold shr64
    split
    · next hs =>
      rw [Nat.mod_eq_of_lt hlt]
      by_contra hne
      exact hstop ⟨hs, hne⟩
    · rfl
  · intro L1 hL1
    have := hgo L1 (Nat.zero_le _) hL1
    rw [u64_pred data_blocks h1 h2] at this
    rw [shr64_eq _ _ hlt]
    exact this.2
  · intro hbig v dev hv1 hv2
    unfold verity_ctr_tree
    rw [hv1, hv2, hlev]
    simp only []
    rw [if_pos hbig]

/-- Witness of C7: a volume of `2 ^ 63 + 1` data blocks with two digests per
hash block. -/
theorem verity_ctr_levels_smallest_witness :
    (1 ≤ 2 ^ 63 + 1 ∧ 2 ^ 63 + 1 < 2 ^ 64 ∧ 1 ≤ 1) ∧
    ∃ L, verity_ctr_levels (2 ^ 63 + 1) 1 = some L ∧
      shr64 (2 ^ 63 + 1 - 1) (1 * L) = 0 ∧
      (∀ L1, L1 < L → shr64 (2 ^ 63 + 1 - 1) (1 * L1) ≠ 0) ∧
      L ≤ 64 ∧
      (DM_VERITY_MAX_LEVELS < L → ∀ (v : dm_verity) (dev : Nat),
        v.data_blocks = 2 ^ 63 + 1 → v.hash_per_block_bits = 1 →
          verity_ctr_tree v dev = .error (.bad "Too many tree levels" (-E2BIG))) :=
  ⟨by decide, verity_ctr_levels_smallest (2 ^ 63 + 1) 1 (by decide) (by decide) (by decide)⟩

/-- C5: in every accepted geometry, for every data block `b < data_blocks` and
every level `L < levels`, the hash block index computed by
`verity_hash_at_level` lies in the range reserved for level `L`, and therefore
below `hash_blocks`. -/
theorem verity_hash_at_level_in_range (a : ctr_args) (v : dm_verity)
    (h : verity_ctr a = .ok v) (b L : Nat) (hb : b < v.data_blocks) (hL : L < v.levels) :
    v.hash_level_block L ≤ (verity_hash_at_level v b L).1 ∧
    (verity_hash_at_level v b L).1 <
      v.hash_level_block L + ceil_div v.data_blocks (2 ^ ((L + 1) * v.hash_per_block_bits)) ∧
    (verity_hash_at_level v b L).1 < v.hash_blocks := by
  obtain ⟨_, t, _⟩ := verity_ctr_accepts a v h
  have hend := level_end_le v t L hL
  have hlt := t.blocks_lt
  have hdiv := div_lt_ceil_div b v.data_blocks (2 ^ ((L + 1) * v.hash_per_block_bits))
    (Nat.pow_pos (by decide)) hb
  unfold level_size at hend
  generalize hq : b / 2 ^ ((L + 1) * v.hash_per_block_bits) = q at hdiv
  have hval : (verity_hash_at_level v b L).1 = v.hash_level_block L + q := by
    unfold verity_hash_at_level verity_position_at_level
    simp only []
    rw [shift_shift_eq_div, hq]
    apply Nat.mod_eq_of_lt
    omega
  rw [hval]
  omega

/-- Witness of C5: data block 128 at level 0 of the two-level volume. -/
theorem verity_hash_at_level_in_range_witness :
    ∃ v, verity_ctr two_level_args = .ok v ∧ 128 < v.data_blocks ∧ 0 < v.levels ∧
      v.hash_level_block 0 ≤ (verity_hash_at_level v 128 0).1 ∧
      (verity_hash_at_level v 128 0).1 <
        v.hash_level_block 0 + ceil_div v.data_blocks (2 ^ ((0 + 1) * v.hash_per_block_bits)) ∧
      (verity_hash_at_level v 128 0).1 < v.hash_blocks := by
  obtain ⟨v, hv, hp⟩ := except_ok_of_check (verity_ctr two_level_args)
    (fun v => decide (128 < v.data_blocks ∧ 0 < v.levels)) (by decide)
  have hp2 := of_decide_eq_true hp
  exact ⟨v, hv, hp2.1, hp2.2, verity_hash_at_level_in_range two_level_args v hv 128 0 hp2.1 hp2.2⟩

/-- C10: in every accepted geometry the tree levels occupy consecutive hash
block ranges: level `i` ends where level `i - 1` starts (level 0 ends at
`hash_blocks`), the top level starts at `hash_start`, the ranges of distinct
levels are disjoint, their union is `[hash_start, hash_blocks)`, and
`hash_blocks` does not exceed the size of the hash device.  When every shift
of the level loop is by fewer than 64 bits, the constructor fails with "Hash
device offset overflow" if the running sum reaches `2 ^ 64` and with "Hash
device is too small" if it exceeds the device size. -/
theorem verity_ctr_levels_partition :
    (∀ (a : ctr_args) (v : dm_verity), verity_ctr a = .ok v →
      (∀ i, i < v.levels →
        v.hash_level_block i + level_size v.data_blocks v.hash_per_block_bits i =
          if i = 0 then v.hash_blocks else v.hash_level_block (i - 1)) ∧
      (v.levels ≠ 0 → v.hash_level_block (v.levels - 1) = v.hash_start) ∧
      (∀ i j, i < v.levels → j < v.levels → i ≠ j →
        ∀ x, ¬ (in_level v i x ∧ in_level v j x)) ∧
      (∀ x, (v.hash_start ≤ x ∧ x < v.hash_blocks) ↔ ∃ i, i < v.levels ∧ in_level v i x) ∧
      v.hash_blocks ≤ a.hash_dev_size % 2 ^ 64) ∧
    (∀ (v : dm_verity) (dev L : Nat), v.data_blocks < 2 ^ 64 → v.hash_start < 2 ^ 64 →
      verity_ctr_levels v.data_blocks v.hash_per_block_bits = some L →
      L ≤ DM_VERITY_MAX_LEVELS → L * v.hash_per_block_bits < 64 →
      (2 ^ 64 ≤ v.hash_start + level_sum v.data_blocks v.hash_per_block_bits 0 L →
        verity_ctr_tree v dev = .error (.bad "Hash device offset overflow" (-E2BIG))) ∧
      (v.hash_start + level_sum v.data_blocks v.hash_per_block_bits 0 L < 2 ^ 64 →
        dev % 2 ^ 64 < v.hash_start + level_sum v.data_blocks v.hash_per_block_bits 0 L →
        verity_ctr_tree v dev = .error (.bad "Hash device is too small" (-E2BIG)))) := by
  constructor
  · intro a v h
    obtain ⟨_, t, hdev⟩ := verity_ctr_accepts a v h
    refine ⟨?_, ?_, ?_, ?_, hdev⟩
    · intro i hi
      rw [t.table i hi]
      have hs := level_sum_succ_bot v.data_blocks v.hash_per_block_bits i v.levels hi
      by_cases h0 : i = 0
      · subst h0
        rw [if_pos rfl, t.blocks]
        omega
      · rw [if_neg h0, t.table (i - 1) (by omega)]
        have e : i - 1 + 1 = i := by omega
        rw [e]
        omega
    · intro hne
      rw [t.table (v.levels - 1) (by omega)]
      have e : v.levels - 1 + 1 = v.levels := by omega
      rw [e, level_sum_self]
      rfl
    · intro i j hi hj hne x
      rcases Nat.lt_or_gt_of_ne hne with hlt | hgt
      · exact levels_disjoint_lt v t i j x hlt hj
      · intro hboth
        exact levels_disjoint_lt v t j i x hgt hi ⟨hboth.2, hboth.1⟩
    · intro x
      rw [t.blocks, level_cover]
      constructor
      · rintro ⟨i, hi, h1⟩
        exact ⟨i, hi, (in_level_iff v t i x hi).2 h1⟩
      · rintro ⟨i, hi, h1⟩
        exact ⟨i, hi, (in_level_iff v t i x hi).1 h1⟩
  · intro v dev L hd hs hlev hmax hK
    have hfit := verity_ctr_levels_fits _ _ _ hd hlev hK
    have hev := verity_ctr_level_blocks_eval v.data_blocks v.hash_per_block_bits L hK hfit L
      v.hash_start (fun _ => 0) (le_refl _) hs
    constructor
    · intro hov
      unfold verity_ctr_tree
      rw [hlev]
      simp only []
      rw [if_neg (by omega), hev, if_neg (by omega)]
    · intro hno hsmall
      unfold verity_ctr_tree
      rw [hlev]
      simp only []
      rw [if_neg (by omega), hev, if_pos hno]
      simp only []
      rw [if_pos hsmall]

/-- Witness of C10: the two-level volume is laid out as stated, and a tree that
would start at hash block `2 ^ 64 - 1` is rejected for overflow. -/
theorem verity_ctr_levels_partition_witness :
    (∃ v, verity_ctr two_level_args = .ok v ∧ v.levels = 2 ∧
      (∀ i, i < v.levels →
        v.hash_level_block i + level_size v.data_blocks v.hash_per_block_bits i =
          if i = 0 then v.hash_blocks else v.hash_level_block (i - 1)) ∧
      (v.levels ≠ 0 → v.hash_level_block (v.levels - 1) = v.hash_start) ∧
      (∀ i j, i < v.levels → j < v.levels → i ≠ j →
        ∀ x, ¬ (in_level v i x ∧ in_level v j x)) ∧
      (∀ x, (v.hash_start ≤ x ∧ x < v.hash_blocks) ↔ ∃ i, i < v.levels ∧ in_level v i x) ∧
      v.hash_blocks ≤ two_level_args.hash_dev_size % 2 ^ 64) ∧
    verity_ctr_tree top_start_verity 0
      = .error (.bad "Hash device offset overflow" (-E2BIG)) := by
  constructor
  · obtain ⟨v, hv, hp⟩ := except_ok_of_check (verity_ctr two_level_args)
      (fun v => decide (v.levels = 2)) (by decide)
    exact ⟨v, hv, of_decide_eq_true hp, verity_ctr_levels_partition.1 two_level_args v hv⟩
  · refine (verity_ctr_levels_partition.2 top_start_verity 0 2 (by decide) (by decide)
      (by decide) (by decide) (by decide)).1 ?_
    have h1 : (1 : Nat) ≤ level_sum top_start_verity.data_blocks
        top_start_verity.hash_per_block_bits 0 2 := by
      rw [level_sum_succ_bot _ _ 0 2 (by decide)]
      have : level_size top_start_verity.data_blocks top_start_verity.hash_per_block_bits 0 = 2 := by
        decide
      omega
    have h2 : top_start_verity.hash_start = 2 ^ 64 - 1 := rfl
    omega

/-- C9 (the code at the failing input): for 4096-byte data and hash blocks,
64-byte digests and `2 ^ 60 + 1` data blocks every check of the constructor up
to the level count passes, `hash_per_block_bits` is 6 and `levels` is 11, which
does not exceed `DM_VERITY_MAX_LEVELS`, yet `hash_per_block_bits * levels` is 66:
the first iteration of the level loop shifts a 64-bit value by 66 bits. -/
theorem verity_ctr_shift_past_width :
    __fls (4096 / 64) = 6 ∧
    verity_ctr_levels (2 ^ 60 + 1) 6 = some 11 ∧
    11 ≤ DM_VERITY_MAX_LEVELS ∧
    ¬ (6 * 11 < 64) ∧
    verity_ctr_level_blocks (2 ^ 60 + 1) 6 11 0 (fun _ => 0) = .error .undefined ∧
    verity_ctr huge_args = .error .undefined :=
  ⟨by decide, by decide, by decide, by decide, rfl, rfl⟩

/-- In every accepted geometry, for every block index, every level with
`(level + 1) * hash_per_block_bits < 64` and either version,
`verity_hash_at_level` returns the `sector_t` sum
`(hash_level_block[level] + floor (block / 2 ^ ((level + 1) * hash_per_block_bits))) mod 2 ^ 64`,
which is the plain sum whenever that sum is below `2 ^ 64`, and, with
`idx = floor (block / 2 ^ (level * hash_per_block_bits)) mod 2 ^ hash_per_block_bits`,
`offset = idx * digest_size` for version 0 and
`offset = idx * 2 ^ (hash_dev_block_bits - hash_per_block_bits)` for version 1. -/
theorem verity_hash_at_level_sum (a : ctr_args) (v : dm_verity) (h : verity_ctr a = .ok v)
    (block level : Nat) (_hl : (level + 1) * v.hash_per_block_bits < 64) :
    (verity_hash_at_level v block level).1 =
      (v.hash_level_block level + block / 2 ^ ((level + 1) * v.hash_per_block_bits)) % 2 ^ 64 ∧
    (v.hash_level_block level + block / 2 ^ ((level + 1) * v.hash_per_block_bits) < 2 ^ 64 →
      (verity_hash_at_level v block level).1 =
        v.hash_level_block level + block / 2 ^ ((level + 1) * v.hash_per_block_bits)) ∧
    (v.version = 0 → (verity_hash_at_level v block level).2 =
      (block / 2 ^ (level * v.hash_per_block_bits) % 2 ^ v.hash_per_block_bits)
        * v.digest_size) ∧
    (v.version = 1 → (verity_hash_at_level v block level).2 =
      (block / 2 ^ (level * v.hash_per_block_bits) % 2 ^ v.hash_per_block_bits)
        * 2 ^ (v.hash_dev_block_bits - v.hash_per_block_bits)) := by
  obtain ⟨g, _, _⟩ := verity_ctr_accepts a v h
  obtain ⟨hle, hfit⟩ := per_block_bounds v g
  have hX : 2 ^ v.hash_dev_block_bits ≤ 2 ^ 30 :=
    Nat.pow_le_pow_right (by decide) g.hash_bits_le
  have hP : 2 ^ v.hash_per_block_bits ≤ 2 ^ v.hash_dev_block_bits :=
    Nat.pow_le_pow_right (by decide) hle
  have h30 : (2 : Nat) ^ 30 < 2 ^ 32 := by norm_num
  have hb : (verity_hash_at_level v block level).1 =
      (v.hash_level_block level + block / 2 ^ ((level + 1) * v.hash_per_block_bits)) % 2 ^ 64 := by
    unfold verity_hash_at_level verity_position_at_level
    simp only []
    rw [shift_shift_eq_div]
  have hidx : (block >>> (level * v.hash_per_block_bits) &&&
      ((1 <<< v.hash_per_block_bits) - 1)) % 2 ^ 32
        = block / 2 ^ (level * v.hash_per_block_bits) % 2 ^ v.hash_per_block_bits := by
    rw [Nat.one_shiftLeft, Nat.and_pow_two_sub_one_eq_mod, Nat.shiftRight_eq_div_pow]
    apply Nat.mod_eq_of_lt
    have := Nat.mod_lt (block / 2 ^ (level * v.hash_per_block_bits))
      (Nat.pow_pos (show 0 < 2 by decide) (n := v.hash_per_block_bits))
    omega
  have hlt := Nat.mod_lt (block / 2 ^ (level * v.hash_per_block_bits))
    (Nat.pow_pos (show 0 < 2 by decide) (n := v.hash_per_block_bits))
  generalize hi : block / 2 ^ (level * v.hash_per_block_bits) % 2 ^ v.hash_per_block_bits = idx
    at hidx hlt
  refine ⟨hb, ?_, ?_, ?_⟩
  · intro hno
    rw [hb, Nat.mod_eq_of_lt hno]
  · intro hv0
    unfold verity_hash_at_level verity_position_at_level
    simp only []
    rw [if_pos hv0, hidx]
    apply Nat.mod_eq_of_lt
    rcases hfit with h0 | h1
    · rw [h0] at hlt
      have : idx = 0 := by omega
      rw [this, Nat.zero_mul]
      exact Nat.pow_pos (by decide)
    · have : idx * v.digest_size ≤ 2 ^ v.hash_per_block_bits * v.digest_size :=
        Nat.mul_le_mul_right _ (le_of_lt hlt)
      omega
  · intro hv1
    unfold verity_hash_at_level verity_position_at_level
    simp only []
    rw [if_neg (by omega), hidx, Nat.shiftLeft_eq]
    apply Nat.mod_eq_of_lt
    have e : 2 ^ v.hash_per_block_bits * 2 ^ (v.hash_dev_block_bits - v.hash_per_block_bits)
        = 2 ^ v.hash_dev_block_bits := by
      rw [← pow_add]
      congr 1
      omega
    have : idx * 2 ^ (v.hash_dev_block_bits - v.hash_per_block_bits)
        < 2 ^ v.hash_per_block_bits * 2 ^ (v.hash_dev_block_bits - v.hash_per_block_bits) :=
      Nat.mul_lt_mul_of_pos_right hlt (Nat.pow_pos (by decide))
    omega

/-! ## The digest pipeline -/

theorem err_calls_append_one (t : List Ev) (e : Ev) :
    err_calls (t ++ [e]) = err_calls t + (if is_err_event e then 1 else 0) := by
  unfold err_calls
  rw [List.filter_append, List.length_append]
  by_cases h : is_err_event e = true
  · simp [List.filter, h]
  · simp [List.filter, h]

theorem Frame.frame_refl (s : State) : Frame s s :=
  ⟨rfl, rfl, rfl, rfl, rfl, rfl, rfl, rfl, rfl⟩

theorem Frame.frame_trans {s s1 s2 : State} (h1 : Frame s s1) (h2 : Frame s1 s2) : Frame s s2 :=
  ⟨h2.bufs.trans h1.bufs, h2.hash_verified.trans h1.hash_verified,
    h2.validated_blocks.trans h1.validated_blocks, h2.payload.trans h1.payload,
    h2.iter.trans h1.iter, h2.want_digest.trans h1.want_digest,
    h2.hash_failed.trans h1.hash_failed, h2.corrupted_errs.trans h1.corrupted_errs,
    h2.errs.trans h1.errs⟩

theorem ahash_update_frame (E : Env) (s : State) (chunk : List Nat) :
    Frame s (ahash_update E s chunk).2 ∧ (ahash_update E s chunk).2.req = s.req ++ chunk ∧
      (ahash_update E s chunk).2.real_digest = s.real_digest := by
  refine ⟨⟨rfl, rfl, rfl, rfl, rfl, rfl, rfl, rfl, ?_⟩, rfl, rfl⟩
  show err_calls (s.trace ++ [Ev.ahash_update chunk]) = err_calls s.trace
  rw [err_calls_append_one]
  rfl

theorem verity_hash_update_vmalloc_frame (E : Env) :
    ∀ (fuel : Nat) (s : State) (data : List Nat) (off : Nat),
      Frame s (verity_hash_update_vmalloc E fuel s data off).2 ∧
      (verity_hash_update_vmalloc E fuel s data off).2.real_digest = s.real_digest := by
  intro fuel
  induction fuel with
  | zero => intro s data off; exact ⟨Frame.frame_refl s, rfl⟩
  | succ fuel ih =>
    intro s data off
    unfold verity_hash_update_vmalloc
    simp only []
    obtain ⟨f1, _, d1⟩ := ahash_update_frame E s
      (data.take (min data.length (PAGE_SIZE - off % PAGE_SIZE)))
    split
    · exact ⟨f1, d1⟩
    · split
      · exact ⟨f1, d1⟩
      · obtain ⟨f2, d2⟩ := ih (ahash_update E s
          (data.take (min data.length (PAGE_SIZE - off % PAGE_SIZE)))).2
          (data.drop (min data.length (PAGE_SIZE - off % PAGE_SIZE)))
          (off + min data.length (PAGE_SIZE - off % PAGE_SIZE))
        exact ⟨f1.frame_trans f2, d2.trans d1⟩

/-- With a digest primitive that does not fail, the page-wise loop feeds
exactly the bytes of `data`. -/
theorem verity_hash_update_vmalloc_stream (E : Env) (hok : tfm_ok E.tfm) :
    ∀ (fuel : Nat) (s : State) (data : List Nat) (off : Nat), data.length < fuel →
      (verity_hash_update_vmalloc E fuel s data off).1 = 0 ∧
      (verity_hash_update_vmalloc E fuel s data off).2.req = s.req ++ data := by
  intro fuel
  induction fuel with
  | zero => intro s data off h; omega
  | succ fuel ih =>
    intro s data off hlen
    unfold verity_hash_update_vmalloc
    simp only []
    have hr : (ahash_update E s
        (data.take (min data.length (PAGE_SIZE - off % PAGE_SIZE)))).1 = 0 := hok.2.1 _ _
    rw [if_neg (by rw [hr]; simp)]
    have hpage : 0 < PAGE_SIZE - off % PAGE_SIZE := by
      have : off % PAGE_SIZE < PAGE_SIZE := Nat.mod_lt _ (by decide)
      omega
    split
    · next hdone =>
      refine ⟨rfl, ?_⟩
      show s.req ++ data.take _ = s.req ++ data
      rw [List.length_drop] at hdone
      have : data.length ≤ min data.length (PAGE_SIZE - off % PAGE_SIZE) := by omega
      rw [List.take_of_length_le this]
    · next hmore =>
      rw [List.length_drop] at hmore
      have hdl : (data.drop (min data.length (PAGE_SIZE - off % PAGE_SIZE))).length < fuel := by
        rw [List.length_drop]
        omega
      obtain ⟨h1, h2⟩ := ih (ahash_update E s
          (data.take (min data.length (PAGE_SIZE - off % PAGE_SIZE)))).2
          (data.drop (min data.length (PAGE_SIZE - off % PAGE_SIZE)))
          (off + min data.length (PAGE_SIZE - off % PAGE_SIZE)) hdl
      refine ⟨h1, ?_⟩
      rw [h2]
      show s.req ++ data.take _ ++ data.drop _ = s.req ++ data
      rw [List.append_assoc, List.take_append_drop]

theorem verity_hash_update_frame (E : Env) (s : State) (data : List Nat) (vm : Option Nat) :
    Frame s (verity_hash_update E s data vm).2 ∧
      (verity_hash_update E s data vm).2.real_digest = s.real_digest := by
  unfold verity_hash_update
  cases vm with
  | none => exact ⟨(ahash_update_frame E s data).1, (ahash_update_frame E s data).2.2⟩
  | some off => exact verity_hash_update_vmalloc_frame E _ s data off

theorem verity_hash_update_stream (E : Env) (hok : tfm_ok E.tfm) (s : State) (data : List Nat)
    (vm : Option Nat) :
    (verity_hash_update E s data vm).1 = 0 ∧
      (verity_hash_update E s data vm).2.req = s.req ++ data := by
  unfold verity_hash_update
  cases vm with
  | none => exact ⟨hok.2.1 _ _, rfl⟩
  | some off => exact verity_hash_update_vmalloc_stream E hok _ s data off (by omega)

theorem verity_hash_init_frame (E : Env) (v : dm_verity) (s : State) :
    Frame s (verity_hash_init E v s).2 ∧ (verity_hash_init E v s).2.real_digest = s.real_digest := by
  have f0 : Frame s { s with req := [], trace := s.trace ++ [Ev.ahash_init] } := by
    refine ⟨rfl, rfl, rfl, rfl, rfl, rfl, rfl, rfl, ?_⟩
    show err_calls (s.trace ++ [Ev.ahash_init]) = err_calls s.trace
    rw [err_calls_append_one]
    rfl
  unfold verity_hash_init
  simp only []
  split
  · exact ⟨f0, rfl⟩
  · split
    · obtain ⟨f1, d1⟩ := verity_hash_update_frame E
        { s with req := [], trace := s.trace ++ [Ev.ahash_init] } v.salt none
      exact ⟨f0.frame_trans f1, d1⟩
    · exact ⟨f0, rfl⟩

theorem verity_hash_init_stream (E : Env) (hok : tfm_ok E.tfm) (v : dm_verity) (s : State) :
    (verity_hash_init E v s).1 = 0 ∧
      (verity_hash_init E v s).2.req = if v.version = 0 then [] else v.salt := by
  unfold verity_hash_init
  simp only []
  rw [if_neg (by rw [hok.1]; decide)]
  split
  · next hc =>
    obtain ⟨h1, h2⟩ := verity_hash_update_stream E hok
      { s with req := [], trace := s.trace ++ [Ev.ahash_init] } v.salt none
    refine ⟨h1, ?_⟩
    rw [h2, if_neg (by omega)]
    rfl
  · next hc =>
    refine ⟨hok.1, ?_⟩
    show [] = _
    by_cases hv : v.version = 0
    · rw [if_pos hv]
    · rw [if_neg hv]
      have : v.salt_size = 0 := by
        by_contra hne
        exact hc ⟨hne, by omega⟩
      unfold dm_verity.salt_size at this
      exact (List.length_eq_zero.1 this).symm

theorem log_frame (s : State) (e : Ev) (he : is_err_event e = false) : Frame s (s.log e) := by
  refine ⟨rfl, rfl, rfl, rfl, rfl, rfl, rfl, rfl, ?_⟩
  show err_calls (s.trace ++ [e]) = err_calls s.trace
  rw [err_calls_append_one, he]
  rfl

theorem verity_hash_final_frame (E : Env) (v : dm_verity) (s : State) (digest : List Nat) :
    Frame s (verity_hash_final E v s digest).2.1 ∧
      (verity_hash_final E v s digest).2.1.real_digest = s.real_digest := by
  unfold verity_hash_final
  simp only []
  split
  · obtain ⟨f1, d1⟩ := verity_hash_update_frame E s v.salt none
    split
    · exact ⟨f1, d1⟩
    · exact ⟨f1.frame_trans (log_frame _ _ rfl), d1⟩
  · exact ⟨log_frame _ _ rfl, rfl⟩

theorem verity_hash_final_stream (E : Env) (hok : tfm_ok E.tfm) (v : dm_verity) (s : State)
    (digest : List Nat) :
    (verity_hash_final E v s digest).1 = 0 ∧
      (verity_hash_final E v s digest).2.1.req = s.req ++ (if v.version = 0 then v.salt else []) ∧
      (verity_hash_final E v s digest).2.2
        = E.tfm.digest (s.req ++ (if v.version = 0 then v.salt else [])) := by
  unfold verity_hash_final
  simp only []
  split
  · next hc =>
    obtain ⟨h1, h2⟩ := verity_hash_update_stream E hok s v.salt none
    rw [if_neg (by rw [h1]; decide), if_pos hc.2]
    exact ⟨hok.2.2 _, h2, by rw [h2]⟩
  · next hc =>
    have e : (if v.version = 0 then v.salt else []) = [] := by
      by_cases hv : v.version = 0
      · rw [if_pos hv]
        have : v.salt_size = 0 := by
          by_contra hne
          exact hc ⟨hne, hv⟩
        unfold dm_verity.salt_size at this
        exact List.length_eq_zero.1 this
      · rw [if_neg hv]
    rw [e, List.append_nil]
    exact ⟨hok.2.2 _, rfl, rfl⟩

theorem verity_hash_frame (E : Env) (v : dm_verity) (s : State) (data : List Nat)
    (vm : Option Nat) (digest : List Nat) :
    Frame s (verity_hash E v s data vm digest).2.1 ∧
      (verity_hash E v s data vm digest).2.1.real_digest = s.real_digest := by
  obtain ⟨f1, d1⟩ := verity_hash_init_frame E v s
  obtain ⟨f2, d2⟩ := verity_hash_update_frame E (verity_hash_init E v s).2 data vm
  obtain ⟨f3, d3⟩ := verity_hash_final_frame E v
    (verity_hash_update E (verity_hash_init E v s).2 data vm).2 digest
  unfold verity_hash
  simp only []
  split
  · exact ⟨f1, d1⟩
  · split
    · exact ⟨f1.frame_trans f2, d2.trans d1⟩
    · exact ⟨(f1.frame_trans f2).frame_trans f3, d3.trans (d2.trans d1)⟩

theorem salted_eq (v : dm_verity) (data : List Nat) :
    (if v.version = 0 then [] else v.salt) ++ data ++ (if v.version = 0 then v.salt else [])
      = salted v data := by
  unfold salted
  by_cases hv : v.version = 0
  · simp [hv]
  · simp [hv]

/-- With a digest primitive that does not fail, `verity_hash` returns 0 and
its output is the digest of the salted stream. -/
theorem verity_hash_digest (E : Env) (hok : tfm_ok E.tfm) (v : dm_verity) (s : State)
    (data : List Nat) (vm : Option Nat) (digest : List Nat) :
    (verity_hash E v s data vm digest).1 = 0 ∧
      (verity_hash E v s data vm digest).2.1.req = salted v data ∧
      (verity_hash E v s data vm digest).2.2 = block_digest E v data := by
  obtain ⟨i1, i2⟩ := verity_hash_init_stream E hok v s
  obtain ⟨u1, u2⟩ := verity_hash_update_stream E hok (verity_hash_init E v s).2 data vm
  obtain ⟨f1, f2, f3⟩ := verity_hash_final_stream E hok v
    (verity_hash_update E (verity_hash_init E v s).2 data vm).2 digest
  unfold verity_hash
  simp only []
  rw [if_neg (by rw [i1]; decide), if_neg (by rw [u1]; decide)]
  rw [u2, i2, salted_eq] at f2 f3
  exact ⟨f1, f2, f3⟩

theorem bytes_at_add (l : List Nat) (p a b : Nat) :
    bytes_at l p (a + b) = bytes_at l p a ++ bytes_at l (p + a) b := by
  unfold bytes_at
  rw [List.take_add, List.drop_drop]

theorem bytes_at_zero (l : List Nat) (p : Nat) : bytes_at l p 0 = [] := by
  simp [bytes_at]

/-- With a digest primitive that does not fail, non-empty bio segments and
`todo` bytes left in the payload, the loop of `verity_for_io_block` ends, feeds
exactly the next `todo` payload bytes and advances the cursor by `todo`. -/
theorem verity_for_io_block_loop_stream (E : Env) (hok : tfm_ok E.tfm)
    (hseg : ∀ p, 0 < E.bv_len p) :
    ∀ (fuel todo : Nat) (s : State), todo < fuel → s.iter + todo ≤ s.payload.length →
      ∃ s1, verity_for_io_block_loop E fuel todo s = some (0, s1) ∧
        s1.iter = s.iter + todo ∧
        s1.req = s.req ++ bytes_at s.payload s.iter todo ∧
        s1.real_digest = s.real_digest ∧
        Frame s { s1 with iter := s.iter } := by
  intro fuel
  induction fuel with
  | zero => intro todo s h; omega
  | succ fuel ih =>
    intro todo s hfuel hroom
    unfold verity_for_io_block_loop
    simp only []
    generalize hlen : (if bio_iter_iovec_len E s ≥ todo then todo else bio_iter_iovec_len E s) = len
    have hle : len ≤ todo := by
      rw [← hlen]; split <;> omega
    have hpos : 0 < todo → 0 < len := by
      intro ht
      rw [← hlen]
      have := hseg s.iter
      unfold bio_iter_iovec_len
      split <;> omega
    obtain ⟨fu, ru, du⟩ := ahash_update_frame E s (bytes_at s.payload s.iter len)
    have hr : (ahash_update E s (bytes_at s.payload s.iter len)).1 = 0 := hok.2.1 _ _
    rw [if_neg (by rw [hr]; decide)]
    split
    · next hdone =>
      have : len = todo := by omega
      subst this
      refine ⟨_, rfl, rfl, ru, du, ?_⟩
      exact ⟨fu.bufs, fu.hash_verified, fu.validated_blocks, fu.payload, rfl, fu.want_digest,
        fu.hash_failed, fu.corrupted_errs, fu.errs⟩
    · next hmore =>
      have hpay : (bio_advance_iter (ahash_update E s (bytes_at s.payload s.iter len)).2 len).payload
          = s.payload := fu.payload
      have hit : (bio_advance_iter (ahash_update E s (bytes_at s.payload s.iter len)).2 len).iter
          = s.iter + len := by
        show (ahash_update E s (bytes_at s.payload s.iter len)).2.iter + len = s.iter + len
        rw [fu.iter]
      obtain ⟨s1, h1, h2, h3, h4, h5⟩ := ih (todo - len)
        (bio_advance_iter (ahash_update E s (bytes_at s.payload s.iter len)).2 len)
        (by have := hpos (by omega); omega) (by rw [hpay, hit]; omega)
      refine ⟨s1, h1, ?_, ?_, ?_, ?_⟩
      · rw [h2, hit]; omega
      · rw [h3, hpay, hit]
        show (ahash_update E s (bytes_at s.payload s.iter len)).2.req ++ _ = _
        rw [ru, List.append_assoc, ← bytes_at_add]
        congr 2
        omega
      · rw [h4]; exact du
      · have h5b := h5.bufs
        have h5h := h5.hash_verified
        have h5v := h5.validated_blocks
        have h5p := h5.payload
        have h5w := h5.want_digest
        have h5f := h5.hash_failed
        have h5c := h5.corrupted_errs
        have h5e := h5.errs
        exact ⟨h5b.trans fu.bufs, h5h.trans fu.hash_verified, h5v.trans fu.validated_blocks,
          h5p.trans fu.payload, rfl, h5w.trans fu.want_digest, h5f.trans fu.hash_failed,
          h5c.trans fu.corrupted_errs, h5e.trans fu.errs⟩

/-- C6: when no digest operation fails, `verity_hash` returns 0 having fed the
digest primitive exactly the salted stream of `data`, and so does the sequence
`verity_hash_init`, `verity_for_io_block`, `verity_hash_final` that
`verity_verify_io` runs on a payload block; the salted stream is the salt
followed by the data for version 1, the data followed by the salt for version
0, and the data alone when `salt_size` is 0. -/
theorem verity_hash_salt_order (E : Env) (v : dm_verity) (s : State) (data : List Nat)
    (vm : Option Nat) (digest : List Nat) (hok : tfm_ok E.tfm) :
    ((verity_hash E v s data vm digest).1 = 0 ∧
      (verity_hash E v s data vm digest).2.1.req = salted v data ∧
      (verity_hash E v s data vm digest).2.2 = E.tfm.digest (salted v data)) ∧
    ((∀ p, 0 < E.bv_len p) → s.iter + data_block_bytes v ≤ s.payload.length →
      ∃ s2, (verity_hash_init E v s).1 = 0 ∧
        verity_for_io_block E v (verity_hash_init E v s).2 = some (0, s2) ∧
        (verity_hash_final E v s2 s2.real_digest).1 = 0 ∧
        (verity_hash_final E v s2 s2.real_digest).2.1.req
          = salted v (bytes_at s.payload s.iter (data_block_bytes v)) ∧
        (verity_hash_final E v s2 s2.real_digest).2.2
          = E.tfm.digest (salted v (bytes_at s.payload s.iter (data_block_bytes v)))) ∧
    (∀ d, 1 ≤ v.version → salted v d = v.salt ++ d) ∧
    (∀ d, v.version = 0 → salted v d = d ++ v.salt) ∧
    (∀ d, v.salt_size = 0 → salted v d = d) := by
  refine ⟨verity_hash_digest E hok v s data vm digest, ?_, ?_, ?_, ?_⟩
  · intro hseg hroom
    obtain ⟨i1, i2⟩ := verity_hash_init_stream E hok v s
    obtain ⟨fi, _⟩ := verity_hash_init_frame E v s
    obtain ⟨s2, h1, _, h3, _, _⟩ := verity_for_io_block_loop_stream E hok hseg
      (data_block_bytes v + 1) (data_block_bytes v) (verity_hash_init E v s).2 (by omega)
      (by rw [fi.iter, fi.payload]; exact hroom)
    obtain ⟨f1, f2, f3⟩ := verity_hash_final_stream E hok v s2 s2.real_digest
    rw [h3, i2, fi.payload, fi.iter, salted_eq] at f2 f3
    exact ⟨s2, i1, h1, f1, f2, f3⟩
  · intro d hv
    unfold salted
    rw [if_neg (by omega)]
  · intro d hv
    unfold salted
    rw [if_pos hv]
  · intro d hs
    have : v.salt = [] := List.length_eq_zero.1 hs
    unfold salted
    rw [this]
    simp

/-- Witness of C6: the example verifier (version 1, salt `5 6`) hashing a
two-byte buffer. -/
theorem verity_hash_salt_order_witness :
    tfm_ok toy_env.tfm ∧
    (verity_hash toy_env fx_v (fx_state []) [7, 8] none []).2.1.req = [5, 6, 7, 8] ∧
    (verity_hash toy_env fx_v (fx_state []) [7, 8] none []).2.2
      = toy_digest 32 [5, 6, 7, 8] := by
  have hok : tfm_ok toy_env.tfm := ⟨rfl, fun _ _ => rfl, fun _ => rfl⟩
  have h := (verity_hash_salt_order toy_env fx_v (fx_state []) [7, 8] none [] hok).1
  have hs : salted fx_v [7, 8] = [5, 6, 7, 8] := by decide
  rw [hs] at h
  exact ⟨hok, h.2.1, h.2.2⟩

/-! ## The level verifier -/

theorem path_consistent_at (E : Env) (v : dm_verity) (bufs : Nat → Option (List Nat))
    (block : Nat) (h : path_consistent E v bufs block = true) (L : Nat) (hL : L < v.levels) :
    ∃ d, bufs (hash_block_of v block L) = some d ∧
      memcmp_eq (block_digest E v (d.take (1 <<< v.hash_dev_block_bits)))
        (parent_entry v bufs block L) v.digest_size = true := by
  unfold path_consistent at h
  rw [List.all_eq_true] at h
  have h1 := h L (List.mem_range.2 hL)
  cases hb : bufs (hash_block_of v block L) with
  | none => rw [hb] at h1; cases h1
  | some d => rw [hb] at h1; exact ⟨d, rfl, h1⟩

/-- A hash block whose buffer is flagged is not hashed: the level verifier
returns 0 with the entry at the offset. -/
theorem verity_verify_level_flagged (E : Env) (v : dm_verity) (s : State) (block level : Nat)
    (skip : Bool) (want d : List Nat) (hbuf : s.bufs (hash_block_of v block level) = some d)
    (hflag : s.hash_verified (hash_block_of v block level) = true) :
    verity_verify_level E v s block level skip want =
      (0, s.log (Ev.bufio_read (hash_block_of v block level)),
        bytes_at d (offset_of v block level) v.digest_size) := by
  unfold hash_block_of at hbuf hflag
  unfold verity_verify_level offset_of hash_block_of
  simp only [hbuf, hflag]
  rfl

/-- An unflagged hash block is skipped when `skip_unverified` is set. -/
theorem verity_verify_level_skipped (E : Env) (v : dm_verity) (s : State) (block level : Nat)
    (want d : List Nat) (hbuf : s.bufs (hash_block_of v block level) = some d)
    (hflag : s.hash_verified (hash_block_of v block level) = false) :
    verity_verify_level E v s block level true want =
      (1, s.log (Ev.bufio_read (hash_block_of v block level)), want) := by
  unfold hash_block_of at hbuf hflag
  unfold verity_verify_level hash_block_of
  simp only [hbuf, hflag]
  rfl

/-- An unflagged hash block whose salted digest matches `want_digest` is
flagged, and the level verifier returns 0 with the entry at the offset; nothing
else changes but the digest request, the `real_digest` buffer and the trace. -/
theorem verity_verify_level_match (E : Env) (v : dm_verity) (s : State) (block level : Nat)
    (want d : List Nat) (hok : tfm_ok E.tfm)
    (hbuf : s.bufs (hash_block_of v block level) = some d)
    (hflag : s.hash_verified (hash_block_of v block level) = false)
    (hm : memcmp_eq (block_digest E v (d.take (1 <<< v.hash_dev_block_bits))) want
      v.digest_size = true) :
    ∃ s2, verity_verify_level E v s block level false want =
        (0, s2, bytes_at d (offset_of v block level) v.digest_size) ∧
      Frame s { s2 with hash_verified := s.hash_verified } ∧
      s2.hash_verified =
        fun x => if x = hash_block_of v block level then true else s.hash_verified x := by
  obtain ⟨h1, _, h3⟩ := verity_hash_digest E hok v
    (s.log (Ev.bufio_read (hash_block_of v block level)))
    (d.take (1 <<< v.hash_dev_block_bits)) (E.buf_vmalloc (hash_block_of v block level))
    s.real_digest
  obtain ⟨fr, _⟩ := verity_hash_frame E v
    (s.log (Ev.bufio_read (hash_block_of v block level)))
    (d.take (1 <<< v.hash_dev_block_bits)) (E.buf_vmalloc (hash_block_of v block level))
    s.real_digest
  have fl : Frame s (s.log (Ev.bufio_read (hash_block_of v block level))) := log_frame _ _ rfl
  have fr2 := fl.frame_trans fr
  unfold hash_block_of at hbuf hflag h1 h3 fr2
  unfold verity_verify_level offset_of hash_block_of
  simp only [hbuf, hflag, if_true, if_false, Bool.false_eq_true]
  have e1 : (s.log (Ev.bufio_read (verity_hash_at_level v block level).1)).real_digest
      = s.real_digest := rfl
  rw [e1, if_neg (by rw [h1]; decide), h3, hm]
  simp only [if_true]
  refine ⟨_, rfl, ?_, ?_⟩
  · exact ⟨fr2.bufs, rfl, fr2.validated_blocks, fr2.payload, fr2.iter, fr2.want_digest,
      fr2.hash_failed, fr2.corrupted_errs, fr2.errs⟩
  · funext x
    show (if x = _ then true else _) = _
    rw [fr2.hash_verified]

/-- On a readable hash block whose salted digest matches `want_digest` the
level verifier returns 0 with the entry at the offset, whatever the flag was;
afterwards the block is flagged and no flag has been cleared. -/
theorem verity_verify_level_consistent (E : Env) (v : dm_verity) (s : State)
    (block level : Nat) (want d : List Nat) (hok : tfm_ok E.tfm)
    (hbuf : s.bufs (hash_block_of v block level) = some d)
    (hm : memcmp_eq (block_digest E v (d.take (1 <<< v.hash_dev_block_bits))) want
      v.digest_size = true) :
    ∃ s2, verity_verify_level E v s block level false want =
        (0, s2, bytes_at d (offset_of v block level) v.digest_size) ∧
      Frame s { s2 with hash_verified := s.hash_verified } ∧
      s2.hash_verified (hash_block_of v block level) = true ∧
      ∀ x, s.hash_verified x = true → s2.hash_verified x = true := by
  cases hflag : s.hash_verified (hash_block_of v block level) with
  | true =>
    refine ⟨_, verity_verify_level_flagged E v s block level false want d hbuf hflag, ?_,
      hflag, fun x hx => hx⟩
    have fl : Frame s (s.log (Ev.bufio_read (hash_block_of v block level))) := log_frame _ _ rfl
    exact ⟨fl.bufs, rfl, fl.validated_blocks, fl.payload, fl.iter, fl.want_digest,
      fl.hash_failed, fl.corrupted_errs, fl.errs⟩
  | false =>
    obtain ⟨s2, h1, h2, h3⟩ := verity_verify_level_match E v s block level want d hok hbuf
      hflag hm
    refine ⟨s2, h1, h2, ?_, ?_⟩
    · rw [h3]; simp
    · intro x hx
      rw [h3]
      by_cases hxe : x = hash_block_of v block level
      · simp [hxe]
      · simp [hxe, hx]

theorem FrameV.framev_refl (s : State) : FrameV s s :=
  ⟨rfl, fun _ h => h, rfl, rfl, rfl, rfl, rfl, rfl, rfl⟩

theorem FrameV.framev_trans {s s1 s2 : State} (h1 : FrameV s s1) (h2 : FrameV s1 s2) : FrameV s s2 :=
  ⟨h2.bufs.trans h1.bufs, fun x hx => h2.mono x (h1.mono x hx),
    h2.validated_blocks.trans h1.validated_blocks, h2.payload.trans h1.payload,
    h2.iter.trans h1.iter, h2.want_digest.trans h1.want_digest,
    h2.hash_failed.trans h1.hash_failed, h2.corrupted_errs.trans h1.corrupted_errs,
    h2.errs.trans h1.errs⟩

theorem Frame.toV {s s1 : State} (h : Frame s s1) : FrameV s s1 :=
  ⟨h.bufs, fun x hx => by rw [h.hash_verified]; exact hx, h.validated_blocks, h.payload,
    h.iter, h.want_digest, h.hash_failed, h.corrupted_errs, h.errs⟩

/-- The consistent case of the level verifier in terms of `FrameV`. -/
theorem verity_verify_level_consistent_frame (E : Env) (v : dm_verity) (s : State)
    (block level : Nat) (want d : List Nat) (hok : tfm_ok E.tfm)
    (hbuf : s.bufs (hash_block_of v block level) = some d)
    (hm : memcmp_eq (block_digest E v (d.take (1 <<< v.hash_dev_block_bits))) want
      v.digest_size = true) :
    ∃ s2, verity_verify_level E v s block level false want =
        (0, s2, tree_entry v s.bufs block level) ∧
      FrameV s s2 ∧ s2.hash_verified (hash_block_of v block level) = true := by
  obtain ⟨s2, h1, h2, h3, h4⟩ := verity_verify_level_consistent E v s block level want d hok
    hbuf hm
  have e : tree_entry v s.bufs block level = bytes_at d (offset_of v block level) v.digest_size := by
    unfold tree_entry
    rw [hbuf]
  rw [e]
  exact ⟨s2, h1, ⟨h2.bufs, h4, h2.validated_blocks, h2.payload, h2.iter, h2.want_digest,
    h2.hash_failed, h2.corrupted_errs, h2.errs⟩, h3⟩

/-- On a consistent path the chain loop returns 0 with the level-0 entry, flags
every hash block it visits and changes nothing else but the digest request,
the `real_digest` buffer and the trace. -/
theorem verity_hash_for_block_loop_consistent (E : Env) (v : dm_verity) (hok : tfm_ok E.tfm)
    (block : Nat) (bufs0 : Nat → Option (List Nat))
    (hc : path_consistent E v bufs0 block = true) :
    ∀ (i : Nat) (s : State) (digest : List Nat), i ≤ v.levels → s.bufs = bufs0 →
      (i ≠ 0 → digest = parent_entry v bufs0 block (i - 1)) →
      ∃ s2, verity_hash_for_block_loop E v block i s digest =
          (0, s2, if i = 0 then digest else tree_entry v bufs0 block 0) ∧
        FrameV s s2 ∧ ∀ L, L < i → s2.hash_verified (hash_block_of v block L) = true := by
  intro i
  induction i with
  | zero =>
    intro s digest _ _ _
    exact ⟨s, rfl, FrameV.framev_refl s, fun L hL => absurd hL (Nat.not_lt_zero L)⟩
  | succ i ih =>
    intro s digest hi hb hd
    obtain ⟨d, hd1, hd2⟩ := path_consistent_at E v bufs0 block hc i (by omega)
    have hdig : digest = parent_entry v bufs0 block i := hd (by omega)
    rw [← hb] at hd1
    rw [← hdig] at hd2
    obtain ⟨s1, r1, f1, g1⟩ := verity_verify_level_consistent_frame E v s block i digest d hok
      hd1 hd2
    have hnext : i ≠ 0 → tree_entry v s.bufs block i = parent_entry v bufs0 block (i - 1) := by
      intro hi0
      unfold parent_entry
      have e : i - 1 + 1 = i := by omega
      rw [if_neg (by omega), e, hb]
    obtain ⟨s2, r2, f2, g2⟩ := ih s1 (tree_entry v s.bufs block i) (by omega)
      (f1.bufs.trans hb) hnext
    refine ⟨s2, ?_, f1.framev_trans f2, ?_⟩
    · rw [verity_hash_for_block_loop]
      simp only [r1]
      rw [if_neg (by decide), r2]
      by_cases hi0 : i = 0
      · subst hi0
        rw [if_pos rfl, if_neg (by omega), hb]
      · rw [if_neg hi0, if_neg (by omega)]
    · intro L hL
      by_cases hLi : L = i
      · subst hLi
        exact f2.mono _ g1
      · exact g2 L (by omega)

theorem verity_hash_for_block_out_zero (v : dm_verity) (s : State) (want : List Nat) :
    verity_hash_for_block_out v (0, s, want) = (0, s, want, zero_expected v want) := by
  unfold verity_hash_for_block_out zero_expected
  cases v.zero_digest <;> simp

/-- On a consistent path `verity_hash_for_block` returns 0 with the entry the
tree stores for the data block, whatever the flags were. -/
theorem verity_hash_for_block_consistent (E : Env) (v : dm_verity) (s : State) (block : Nat)
    (digest : List Nat) (hok : tfm_ok E.tfm)
    (hc : path_consistent E v s.bufs block = true) :
    ∃ s2, verity_hash_for_block E v s block digest =
        (0, s2, data_entry v s.bufs block, zero_expected v (data_entry v s.bufs block)) ∧
      FrameV s s2 := by
  unfold verity_hash_for_block data_entry
  simp only []
  by_cases hl : v.levels = 0
  · rw [if_neg (by omega), if_pos hl]
    obtain ⟨s2, r2, f2, _⟩ := verity_hash_for_block_loop_consistent E v hok block s.bufs hc
      v.levels s (v.root_digest.take v.digest_size) (le_refl _) rfl (fun h => absurd hl h)
    rw [r2, if_pos hl, verity_hash_for_block_out_zero]
    exact ⟨s2, rfl, f2⟩
  · rw [if_pos hl, if_neg hl]
    obtain ⟨d, hd1, _⟩ := path_consistent_at E v s.bufs block hc 0 (by omega)
    have he : tree_entry v s.bufs block 0 = bytes_at d (offset_of v block 0) v.digest_size := by
      unfold tree_entry
      rw [hd1]
    have fl : Frame s (s.log (Ev.bufio_read (hash_block_of v block 0))) := log_frame _ _ rfl
    cases hflag : s.hash_verified (hash_block_of v block 0) with
    | true =>
      rw [verity_verify_level_flagged E v s block 0 true digest d hd1 hflag]
      simp only []
      rw [if_pos (by decide), he, verity_hash_for_block_out_zero]
      exact ⟨_, rfl, fl.toV⟩
    | false =>
      rw [verity_verify_level_skipped E v s block 0 digest d hd1 hflag]
      simp only []
      rw [if_neg (by decide)]
      have hroot : v.levels ≠ 0 →
          v.root_digest.take v.digest_size = parent_entry v s.bufs block (v.levels - 1) := by
        intro _
        unfold parent_entry
        rw [if_pos (by omega)]
      obtain ⟨s2, r2, f2, _⟩ := verity_hash_for_block_loop_consistent E v hok block s.bufs hc
        v.levels (s.log (Ev.bufio_read (hash_block_of v block 0)))
        (v.root_digest.take v.digest_size) (le_refl _) rfl hroot
      rw [r2, if_neg hl, verity_hash_for_block_out_zero]
      exact ⟨s2, rfl, fl.toV.framev_trans f2⟩

/-! ## Payload writes -/

theorem write_at_length (l : List Nat) (p : Nat) (bytes : List Nat)
    (h : p + bytes.length ≤ l.length) : (write_at l p bytes).length = l.length := by
  unfold write_at
  simp only [List.length_append, List.length_take, List.length_drop]
  omega

theorem write_at_after (l : List Nat) (p : Nat) (bytes : List Nat) (q n : Nat)
    (h : p + bytes.length ≤ l.length) (hq : p + bytes.length ≤ q) :
    bytes_at (write_at l p bytes) q n = bytes_at l q n := by
  unfold bytes_at write_at
  have h1 : (l.take p ++ bytes).length = p + bytes.length := by
    rw [List.length_append, List.length_take]
    omega
  have h2 : q = (l.take p ++ bytes).length + (q - (p + bytes.length)) := by omega
  rw [h2, List.drop_append, List.drop_drop, h1]

theorem write_at_before (l : List Nat) (p : Nat) (bytes : List Nat) (q n : Nat)
    (h : p ≤ l.length) (hq : q + n ≤ p) :
    bytes_at (write_at l p bytes) q n = bytes_at l q n := by
  unfold bytes_at write_at
  rw [List.append_assoc, List.drop_append_of_le_length (by rw [List.length_take]; omega),
    List.take_append_of_le_length (by rw [List.length_drop, List.length_take]; omega),
    List.drop_take, List.take_take]
  have : min n (p - q) = n := by omega
  rw [this]

theorem write_at_append (l : List Nat) (p : Nat) (a b : List Nat)
    (h : p + a.length ≤ l.length) :
    write_at (write_at l p a) (p + a.length) b = write_at l p (a ++ b) := by
  unfold write_at
  have h1 : (l.take p ++ a).length = p + a.length := by
    rw [List.length_append, List.length_take]
    omega
  have e1 : (l.take p ++ a ++ l.drop (p + a.length)).take (p + a.length) = l.take p ++ a := by
    rw [← h1, List.take_left']
    rfl
  have e2 : (l.take p ++ a ++ l.drop (p + a.length)).drop (p + a.length + b.length)
      = l.drop (p + (a ++ b).length) := by
    have : p + a.length + b.length = (l.take p ++ a).length + b.length := by omega
    rw [this, List.drop_append, List.drop_drop, List.length_append]
    congr 1
    omega
  rw [e1, e2]
  simp only [List.append_assoc]

theorem write_at_same (l : List Nat) (p : Nat) (bytes : List Nat) (n : Nat)
    (h : p ≤ l.length) (hn : n = bytes.length) : bytes_at (write_at l p bytes) p n = bytes := by
  unfold bytes_at write_at
  have h1 : (l.take p).length = p := by
    rw [List.length_take]
    omega
  rw [List.append_assoc]
  nth_rewrite 1 [← h1]
  rw [List.drop_left', hn, List.take_left']
  · rfl
  · rfl

theorem write_at_prefix (l : List Nat) (p : Nat) (bytes : List Nat) (n : Nat)
    (h : p ≤ l.length) (hn : bytes.length ≤ n) :
    (bytes_at (write_at l p bytes) p n).take bytes.length = bytes := by
  unfold bytes_at write_at
  have h1 : (l.take p).length = p := by
    rw [List.length_take]
    omega
  rw [List.append_assoc]
  nth_rewrite 1 [← h1]
  rw [List.drop_left', List.take_take, Nat.min_eq_left hn, List.take_left']
  · rfl
  · rfl

/-- With non-empty bio segments and `todo` bytes left in the payload, the loop
of `verity_for_bv_block` with `verity_bv_zero` ends, overwrites exactly the
next `todo` payload bytes with zeros and advances the cursor by `todo`. -/
theorem verity_for_bv_block_loop_zero (E : Env) (hseg : ∀ p, 0 < E.bv_len p) :
    ∀ (fuel todo : Nat) (s : State), todo < fuel → s.iter + todo ≤ s.payload.length →
      verity_for_bv_block_loop E verity_bv_zero fuel todo s =
        some (0, { s with iter := s.iter + todo,
                          payload := write_at s.payload s.iter (List.replicate todo 0) }) := by
  intro fuel
  induction fuel with
  | zero => intro todo s h; omega
  | succ fuel ih =>
    intro todo s hfuel hroom
    unfold verity_for_bv_block_loop
    simp only []
    generalize hlen : (if bio_iter_iovec_len E s ≥ todo then todo else bio_iter_iovec_len E s) = len
    have hle : len ≤ todo := by
      rw [← hlen]; split <;> omega
    have hpos : 0 < todo → 0 < len := by
      intro ht
      rw [← hlen]
      have := hseg s.iter
      unfold bio_iter_iovec_len
      split <;> omega
    have hr : (verity_bv_zero s s.iter len).1 = 0 := rfl
    rw [if_neg (by rw [hr]; decide)]
    split
    · next hdone =>
      have : len = todo := by omega
      subst this
      rfl
    · next hmore =>
      have hl1 : (List.replicate len 0).length = len := List.length_replicate _ _
      have hwl : (write_at s.payload s.iter (List.replicate len 0)).length = s.payload.length :=
        write_at_length _ _ _ (by rw [hl1]; omega)
      rw [ih (todo - len) (bio_advance_iter (verity_bv_zero s s.iter len).2 len)
        (by have := hpos (by omega); omega)
        (by
          show s.iter + len + (todo - len) ≤
            (write_at s.payload s.iter (List.replicate len 0)).length
          rw [hwl]; omega)]
      have e1 : write_at (write_at s.payload s.iter (List.replicate len 0)) (s.iter + len)
          (List.replicate (todo - len) 0) = write_at s.payload s.iter (List.replicate todo 0) := by
        have := write_at_append s.payload s.iter (List.replicate len 0)
          (List.replicate (todo - len) 0) (by rw [hl1]; omega)
        rw [hl1] at this
        rw [this, List.append_replicate_replicate]
        congr 2
        omega
      have e2 : s.iter + len + (todo - len) = s.iter + todo := by omega
      show some ((0 : Int), ({ s with
          iter := s.iter + len + (todo - len),
          payload := write_at (write_at s.payload s.iter (List.replicate len 0)) (s.iter + len)
            (List.replicate (todo - len) 0) } : State)) = _
      rw [e1, e2]

/-! ## Verification of a request on a consistent tree -/

/-- The data path on a block whose salted digest matches `want_digest`: it
continues with the next block, the payload untouched. -/
theorem verity_verify_io_data_match (E : Env) (v : dm_verity) (s : State) (cur : Nat)
    (hok : tfm_ok E.tfm) (hseg : ∀ p, 0 < E.bv_len p)
    (hroom : s.iter + data_block_bytes v ≤ s.payload.length)
    (hm : memcmp_eq (block_digest E v (bytes_at s.payload s.iter (data_block_bytes v)))
      s.want_digest v.digest_size = true) :
    ∃ s2, verity_verify_io_data E v s cur = some (none, s2) ∧ StepOK v s s2 ∧
      s2.payload = s.payload ∧ s2.hash_verified = s.hash_verified := by
  obtain ⟨i1, i2⟩ := verity_hash_init_stream E hok v s
  obtain ⟨fi, _⟩ := verity_hash_init_frame E v s
  obtain ⟨s2, h1, h2, h3, _, h5⟩ := verity_for_io_block_loop_stream E hok hseg
    (data_block_bytes v + 1) (data_block_bytes v) (verity_hash_init E v s).2 (by omega)
    (by rw [fi.iter, fi.payload]; exact hroom)
  obtain ⟨f1, f2, f3⟩ := verity_hash_final_stream E hok v s2 s2.real_digest
  obtain ⟨ff, _⟩ := verity_hash_final_frame E v s2 s2.real_digest
  rw [h3, i2, fi.payload, fi.iter, salted_eq] at f3
  have hfor : verity_for_io_block E v (verity_hash_init E v s).2 = some (0, s2) := h1
  have hwant : (verity_hash_final E v s2 s2.real_digest).2.1.want_digest = s.want_digest :=
    ff.want_digest.trans (h5.want_digest.trans fi.want_digest)
  have hpay : (verity_hash_final E v s2 s2.real_digest).2.1.payload = s.payload :=
    ff.payload.trans (h5.payload.trans fi.payload)
  have hbufs : (verity_hash_final E v s2 s2.real_digest).2.1.bufs = s.bufs :=
    ff.bufs.trans (h5.bufs.trans fi.bufs)
  have hhv : (verity_hash_final E v s2 s2.real_digest).2.1.hash_verified = s.hash_verified :=
    ff.hash_verified.trans (h5.hash_verified.trans fi.hash_verified)
  have hiter : (verity_hash_final E v s2 s2.real_digest).2.1.iter = s.iter + data_block_bytes v := by
    rw [ff.iter, h2, fi.iter]
  have herrs : err_calls (verity_hash_final E v s2 s2.real_digest).2.1.trace = err_calls s.trace :=
    ff.errs.trans (h5.errs.trans fi.errs)
  have hstep : ∀ s4 : State, s4.bufs = (verity_hash_final E v s2 s2.real_digest).2.1.bufs →
      s4.iter = (verity_hash_final E v s2 s2.real_digest).2.1.iter →
      s4.payload = (verity_hash_final E v s2 s2.real_digest).2.1.payload →
      s4.trace = (verity_hash_final E v s2 s2.real_digest).2.1.trace →
      s4.hash_verified = (verity_hash_final E v s2 s2.real_digest).2.1.hash_verified →
      StepOK v s s4 ∧ s4.payload = s.payload ∧ s4.hash_verified = s.hash_verified := by
    intro s4 e1 e2 e3 e4 e5
    refine ⟨⟨e1.trans hbufs, e2.trans hiter, by rw [e3, hpay], ?_, by rw [e4]; exact herrs⟩,
      e3.trans hpay, e5.trans hhv⟩
    intro q n _
    rw [e3, hpay]
  unfold verity_verify_io_data
  simp only []
  rw [if_neg (by rw [i1]; decide), hfor]
  simp only []
  rw [if_neg (by decide), if_neg (by rw [f1]; decide)]
  have hcmp : memcmp_eq (verity_hash_final E v s2 s2.real_digest).2.2
      (verity_hash_final E v s2 s2.real_digest).2.1.want_digest v.digest_size = true := by
    rw [f3, hwant]
    exact hm
  simp only [hcmp, if_true]
  split
  · exact ⟨_, rfl, hstep _ rfl rfl rfl rfl rfl⟩
  · exact ⟨_, rfl, hstep _ rfl rfl rfl rfl rfl⟩

/-- One step of the loop of `verity_verify_io` on a block of a consistent tree:
whatever the flags and the bitmap, it continues with the next block. -/
theorem verity_verify_io_block_consistent (E : Env) (v : dm_verity) (io : dm_verity_io)
    (s : State) (b : Nat) (hok : tfm_ok E.tfm) (hseg : ∀ p, 0 < E.bv_len p)
    (hroom : s.iter + data_block_bytes v ≤ s.payload.length)
    (hp : path_consistent E v s.bufs ((io.block + b) % 2 ^ 64) = true)
    (hd : data_consistent E v s.bufs ((io.block + b) % 2 ^ 64)
      (bytes_at s.payload s.iter (data_block_bytes v)) = true) :
    ∃ s2, verity_verify_io_block E v io s b = some (none, s2) ∧ StepOK v s s2 := by
  unfold verity_verify_io_block
  simp only []
  split
  · refine ⟨_, rfl, ⟨rfl, rfl, rfl, fun _ _ _ => rfl, rfl⟩⟩
  · obtain ⟨s1, r1, f1⟩ := verity_hash_for_block_consistent E v s ((io.block + b) % 2 ^ 64)
      s.want_digest hok hp
    rw [r1]
    simp only []
    rw [if_neg (by decide)]
    split
    · unfold verity_for_bv_block
      rw [verity_for_bv_block_loop_zero E hseg _ _ _ (by omega)
        (by
          show s1.iter + data_block_bytes v ≤ s1.payload.length
          rw [f1.iter, f1.payload]; exact hroom)]
      simp only []
      rw [if_neg (by decide)]
      refine ⟨_, rfl, ⟨f1.bufs, ?_, ?_, ?_, f1.errs⟩⟩
      · show s1.iter + data_block_bytes v = s.iter + data_block_bytes v
        rw [f1.iter]
      · show (write_at s1.payload s1.iter (List.replicate (data_block_bytes v) 0)).length
          = s.payload.length
        rw [f1.payload, f1.iter, write_at_length _ _ _ (by rw [List.length_replicate]; exact hroom)]
      · intro q n hq
        show bytes_at (write_at s1.payload s1.iter (List.replicate (data_block_bytes v) 0)) q n
          = bytes_at s.payload q n
        rw [f1.payload, f1.iter]
        exact write_at_after _ _ _ _ _ (by rw [List.length_replicate]; exact hroom)
          (by rw [List.length_replicate]; exact hq)
    · obtain ⟨s2, r2, st2, _, _⟩ := verity_verify_io_data_match E v
        { s1 with want_digest := data_entry v s.bufs ((io.block + b) % 2 ^ 64) }
        ((io.block + b) % 2 ^ 64) hok hseg
        (by
          show s1.iter + data_block_bytes v ≤ s1.payload.length
          rw [f1.iter, f1.payload]; exact hroom)
        (by
          show memcmp_eq (block_digest E v (bytes_at s1.payload s1.iter (data_block_bytes v)))
            (data_entry v s.bufs ((io.block + b) % 2 ^ 64)) v.digest_size = true
          rw [f1.iter, f1.payload]
          exact hd)
      refine ⟨s2, r2, ⟨st2.bufs.trans f1.bufs, ?_, ?_, ?_, st2.errs.trans f1.errs⟩⟩
      · rw [st2.iter]
        show s1.iter + _ = _
        rw [f1.iter]
      · rw [st2.length]
        show s1.payload.length = _
        rw [f1.payload]
      · intro q n hq
        rw [st2.after q n (by
          show s1.iter + data_block_bytes v ≤ q
          rw [f1.iter]; exact hq)]
        show bytes_at s1.payload q n = _
        rw [f1.payload]

/-- The loop of `verity_verify_io` on blocks of a consistent tree returns 0
without calling the FEC hook or `verity_handle_err`. -/
theorem verity_verify_io_loop_consistent (E : Env) (v : dm_verity) (io : dm_verity_io)
    (hok : tfm_ok E.tfm) (hseg : ∀ p, 0 < E.bv_len p) :
    ∀ (n b : Nat) (s : State), s.iter + n * data_block_bytes v ≤ s.payload.length →
      (∀ k, k < n →
        path_consistent E v s.bufs ((io.block + (b + k)) % 2 ^ 64) = true ∧
        data_consistent E v s.bufs ((io.block + (b + k)) % 2 ^ 64)
          (bytes_at s.payload (s.iter + k * data_block_bytes v) (data_block_bytes v)) = true) →
      ∃ s2, verity_verify_io_loop E v io n b s = some (0, s2) ∧
        err_calls s2.trace = err_calls s.trace := by
  intro n
  induction n with
  | zero => intro b s _ _; exact ⟨s, rfl, rfl⟩
  | succ n ih =>
    intro b s hroom hcons
    have h0 := hcons 0 (by omega)
    rw [Nat.add_zero, Nat.zero_mul, Nat.add_zero] at h0
    have hsz : s.iter + data_block_bytes v + n * data_block_bytes v
        = s.iter + (n + 1) * data_block_bytes v := by ring
    obtain ⟨s1, r1, st⟩ := verity_verify_io_block_consistent E v io s b hok hseg
      (by omega) h0.1 h0.2
    obtain ⟨s2, r2, e2⟩ := ih (b + 1) s1
      (by rw [st.iter, st.length]; omega)
      (by
        intro k hk
        have hk1 := hcons (k + 1) (by omega)
        have e1 : b + 1 + k = b + (k + 1) := by omega
        have e3 : s.iter + data_block_bytes v + k * data_block_bytes v
            = s.iter + (k + 1) * data_block_bytes v := by ring
        rw [st.bufs, st.iter, e1, st.after _ _ (by omega), e3]
        exact hk1)
    refine ⟨s2, ?_, e2.trans st.errs⟩
    rw [verity_verify_io_loop, r1]
    exact r2

/-- C1: round trip.  When no digest operation fails and the bio segments are
non-empty, for a request all of whose data blocks belong to a consistently
built hash tree (the salted digest of the delivered data of each block equals
its level-0 entry, the salted digest of each hash block on its path equals the
entry stored for it in its parent hash block, the salted digest of the top
block equals `root_digest`), and for every initial state of the `hash_verified`
flags and of the bitmap, `verity_verify_io` returns 0 without a call of the FEC
hook or of `verity_handle_err`. -/
theorem verity_verify_io_round_trip (E : Env) (v : dm_verity) (io : dm_verity_io) (s : State)
    (hok : tfm_ok E.tfm) (hseg : ∀ p, 0 < E.bv_len p)
    (hroom : s.iter + (io.n_blocks % 2 ^ 32) * data_block_bytes v ≤ s.payload.length)
    (hcons : ∀ b, b < io.n_blocks % 2 ^ 32 →
      path_consistent E v s.bufs ((io.block + b) % 2 ^ 64) = true ∧
      data_consistent E v s.bufs ((io.block + b) % 2 ^ 64)
        (bytes_at s.payload (s.iter + b * data_block_bytes v) (data_block_bytes v)) = true) :
    ∃ s2, verity_verify_io E v io s = some (0, s2) ∧
      err_calls s2.trace = err_calls s.trace := by
  unfold verity_verify_io
  apply verity_verify_io_loop_consistent E v io hok hseg _ 0 s hroom
  intro k hk
  rw [Nat.zero_add]
  exact hcons k hk

theorem ctr_verity_ok (a : ctr_args) (h : except_check (verity_ctr a) (fun _ => true) = true) :
    verity_ctr a = .ok (ctr_verity a) := by
  obtain ⟨v, hv, _⟩ := except_ok_of_check _ _ h
  unfold ctr_verity
  rw [hv]

/-- The constructor accepts the example volume. -/
theorem fx_v_accepted : verity_ctr fx_args = .ok fx_v :=
  ctr_verity_ok fx_args (by decide!)

/-- Witness of C1: a read of data block 16 of the example volume, whose tree
is consistent along the path of that block, with no flag set. -/
theorem verity_verify_io_round_trip_witness :
    verity_ctr fx_args = .ok fx_v ∧
    path_consistent toy_env fx_v fx_bufs 16 = true ∧
    data_consistent toy_env fx_v fx_bufs 16 fx_data = true ∧
    ∃ s2, verity_verify_io toy_env fx_v ⟨16, 1⟩ (fx_state fx_data) = some (0, s2) ∧
      err_calls s2.trace = err_calls (fx_state fx_data).trace := by
  have hp : path_consistent toy_env fx_v fx_bufs 16 = true := by decide!
  have hd : data_consistent toy_env fx_v fx_bufs 16 fx_data = true := by decide!
  refine ⟨fx_v_accepted, hp, hd, ?_⟩
  apply verity_verify_io_round_trip toy_env fx_v ⟨16, 1⟩ (fx_state fx_data)
    ⟨rfl, fun _ _ => rfl, fun _ => rfl⟩ (fun _ => (by decide : 0 < 4096)) (by decide!)
  intro b hb
  have hb0 : b = 0 := by
    have : (1 : Nat) % 2 ^ 32 = 1 := by decide
    change b < 1 % 2 ^ 32 at hb
    omega
  subst hb0
  exact ⟨by decide!, by decide!⟩

/-! ## A volume of one data block -/

theorem verity_ctr_levels_one (hpb : Nat) : verity_ctr_levels 1 hpb = some 0 := by
  unfold verity_ctr_levels
  rw [if_pos (by decide)]
  have e : (65 : Nat) = 64 + 1 := rfl
  rw [e, verity_ctr_levels_loop]
  have h0 : (1 + 2 ^ 64 - 1) % 2 ^ 64 = 0 := by decide
  rw [h0, Nat.zero_shiftRight, if_neg (by simp)]

/-- C8 (counterexample): the constructor accepts a volume of one data block and
computes `levels = 0` for it, not 1. -/
theorem one_block_levels_not_one :
    ∃ v, verity_ctr one_block_args = .ok v ∧ v.data_blocks = 1 ∧ v.levels ≠ 1 := by
  obtain ⟨v, hv, hp⟩ := except_ok_of_check (verity_ctr one_block_args)
    (fun v => decide (v.data_blocks = 1 ∧ v.levels ≠ 1)) (by decide)
  exact ⟨v, hv, of_decide_eq_true hp⟩

/-- C8 (amended): for every accepted geometry with `data_blocks = 1` the
constructor computes `levels = 0`, so that `verity_hash_for_block` reads no
hash block: it returns 0 with `root_digest` as the digest of the single data
block and leaves the state, trace included, as it was. -/
theorem one_block_levels_zero (a : ctr_args) (v : dm_verity) (h : verity_ctr a = .ok v)
    (h1 : v.data_blocks = 1) :
    v.levels = 0 ∧
    ∀ (E : Env) (s : State) (block : Nat) (digest : List Nat),
      verity_hash_for_block E v s block digest =
        (0, s, v.root_digest, zero_expected v v.root_digest) := by
  obtain ⟨g, t, _⟩ := verity_ctr_accepts a v h
  have hl : v.levels = 0 := by
    have := t.levels_eq
    rw [h1, verity_ctr_levels_one] at this
    injection this with this
    exact this.symm
  refine ⟨hl, ?_⟩
  intro E s block digest
  have hr : v.root_digest.take v.digest_size = v.root_digest := by
    rw [← g.root_len]
    exact List.take_length _
  unfold verity_hash_for_block
  simp only []
  rw [if_neg (by omega), hl, verity_hash_for_block_loop, hr, verity_hash_for_block_out_zero]

/-- Witness of C8 (amended): the one-block volume. -/
theorem one_block_levels_zero_witness :
    ∃ v, verity_ctr one_block_args = .ok v ∧ v.data_blocks = 1 ∧ v.levels = 0 ∧
      ∀ (E : Env) (s : State) (block : Nat) (digest : List Nat),
        verity_hash_for_block E v s block digest =
          (0, s, v.root_digest, zero_expected v v.root_digest) := by
  obtain ⟨v, hv, hp⟩ := except_ok_of_check (verity_ctr one_block_args)
    (fun v => decide (v.data_blocks = 1)) (by decide)
  exact ⟨v, hv, of_decide_eq_true hp,
    one_block_levels_zero one_block_args v hv (of_decide_eq_true hp)⟩

/-! ## General properties of the level verifier -/

theorem framep_refl (s : State) : FrameP s s := ⟨rfl, rfl, rfl, rfl, fun _ h => h⟩

theorem framep_trans {s s1 s2 : State} (h1 : FrameP s s1) (h2 : FrameP s1 s2) : FrameP s s2 :=
  ⟨h2.payload.trans h1.payload, h2.iter.trans h1.iter,
    h2.validated_blocks.trans h1.validated_blocks, h2.want_digest.trans h1.want_digest,
    fun x hx => h2.mono x (h1.mono x hx)⟩

theorem frame_to_p {s s1 : State} (h : Frame s s1) : FrameP s s1 :=
  ⟨h.payload, h.iter, h.validated_blocks, h.want_digest,
    fun x hx => by rw [h.hash_verified]; exact hx⟩

theorem framev_to_p {s s1 : State} (h : FrameV s s1) : FrameP s s1 :=
  ⟨h.payload, h.iter, h.validated_blocks, h.want_digest, h.mono⟩

theorem framep_patch (s s1 : State) (rd : List Nat) (e : Ev) (h : FrameP s s1) :
    FrameP s (({ s1 with real_digest := rd } : State).log e) :=
  ⟨h.payload, h.iter, h.validated_blocks, h.want_digest, h.mono⟩

/-- `verity_handle_err` sets `hash_failed`, touches the counter and the trace
only, and returns 0 exactly in Logging mode. -/
theorem verity_handle_err_frame (v : dm_verity) (s : State) (type : verity_block_type)
    (block : Nat) :
    (verity_handle_err v s type block).2.bufs = s.bufs ∧
    (verity_handle_err v s type block).2.hash_verified = s.hash_verified ∧
    FrameP s (verity_handle_err v s type block).2 ∧
    (verity_handle_err v s type block).2.hash_failed = true ∧
    ((verity_handle_err v s type block).1 = 0 ↔ v.mode = verity_mode.LOGGING) := by
  unfold verity_handle_err
  simp only []
  by_cases hsat : s.corrupted_errs ≥ DM_VERITY_MAX_CORRUPTED_ERRS
  · rw [if_pos hsat]
    split
    · next hm => exact ⟨rfl, rfl, ⟨rfl, rfl, rfl, rfl, fun _ h => h⟩, rfl, by simp [hm]⟩
    · next hm =>
      split
      · exact ⟨rfl, rfl, ⟨rfl, rfl, rfl, rfl, fun _ h => h⟩, rfl, by simp [hm]⟩
      · exact ⟨rfl, rfl, ⟨rfl, rfl, rfl, rfl, fun _ h => h⟩, rfl, by simp [hm]⟩
  · rw [if_neg hsat]
    split
    · next hm => exact ⟨rfl, rfl, ⟨rfl, rfl, rfl, rfl, fun _ h => h⟩, rfl, by simp [hm]⟩
    · next hm =>
      split
      · exact ⟨rfl, rfl, ⟨rfl, rfl, rfl, rfl, fun _ h => h⟩, rfl, by simp [hm]⟩
      · exact ⟨rfl, rfl, ⟨rfl, rfl, rfl, rfl, fun _ h => h⟩, rfl, by simp [hm]⟩

/-- General properties of `verity_verify_level`: it preserves the payload, the
cursor, the bitmap and `want_digest` and clears no flag; it returns a
non-positive status, or 1 when asked to skip; it returns 0 for a skip request
only on a flagged block; and outside Logging mode a return of 0 leaves the
hash block flagged. -/
theorem verity_verify_level_general (E : Env) (v : dm_verity) (s : State) (block level : Nat)
    (skip : Bool) (want : List Nat) :
    FrameP s (verity_verify_level E v s block level skip want).2.1 ∧
    ((verity_verify_level E v s block level skip want).1 ≤ 0 ∨
      ((verity_verify_level E v s block level skip want).1 = 1 ∧ skip = true)) ∧
    ((verity_verify_level E v s block level skip want).1 = 0 → skip = true →
      s.hash_verified (hash_block_of v block level) = true) ∧
    ((verity_verify_level E v s block level skip want).1 = 0 → v.mode ≠ verity_mode.LOGGING →
      (verity_verify_level E v s block level skip want).2.1.hash_verified
        (hash_block_of v block level) = true) := by
  have fl : Frame s (s.log (Ev.bufio_read (hash_block_of v block level))) := log_frame _ _ rfl
  have hEIO : ¬ (- EIO = (0 : Int)) := by decide
  have hEIOle : (- EIO : Int) ≤ 0 := by decide
  cases hbuf : s.bufs (hash_block_of v block level) with
  | none =>
    have e : verity_verify_level E v s block level skip want =
        (- EIO, s.log (Ev.bufio_read (hash_block_of v block level)), want) := by
      unfold hash_block_of at hbuf
      unfold verity_verify_level hash_block_of
      simp only [hbuf]
    rw [e]
    exact ⟨frame_to_p fl, Or.inl hEIOle, fun h => absurd h hEIO, fun h => absurd h hEIO⟩
  | some d =>
    cases hflag : s.hash_verified (hash_block_of v block level) with
    | true =>
      rw [verity_verify_level_flagged E v s block level skip want d hbuf hflag]
      exact ⟨frame_to_p fl, Or.inl (le_refl _), fun _ _ => rfl, fun _ _ => hflag⟩
    | false =>
      cases skip with
      | true =>
        rw [verity_verify_level_skipped E v s block level want d hbuf hflag]
        exact ⟨frame_to_p fl, Or.inr ⟨rfl, rfl⟩,
          fun h => absurd (show (1 : Int) = 0 from h) (by decide),
          fun h => absurd (show (1 : Int) = 0 from h) (by decide)⟩
      | false =>
        obtain ⟨fr, _⟩ := verity_hash_frame E v
          (s.log (Ev.bufio_read (hash_block_of v block level)))
          (d.take (1 <<< v.hash_dev_block_bits)) (E.buf_vmalloc (hash_block_of v block level))
          s.real_digest
        have fp := frame_to_p (fl.frame_trans fr)
        obtain ⟨he1, he2, he3, he4, he5⟩ := verity_handle_err_frame v
          ((({ (verity_hash E v (s.log (Ev.bufio_read (hash_block_of v block level)))
              (d.take (1 <<< v.hash_dev_block_bits))
              (E.buf_vmalloc (hash_block_of v block level)) s.real_digest).2.1 with
              real_digest := (verity_hash E v (s.log (Ev.bufio_read (hash_block_of v block level)))
                (d.take (1 <<< v.hash_dev_block_bits))
                (E.buf_vmalloc (hash_block_of v block level)) s.real_digest).2.2 } : State).log
            (Ev.fec_decode verity_block_type.METADATA (hash_block_of v block level))))
          verity_block_type.METADATA (hash_block_of v block level)
        unfold hash_block_of at hbuf hflag fp he1 he2 he3 he4 he5
        unfold verity_verify_level hash_block_of
        simp only [hbuf, hflag, if_true, if_false, Bool.false_eq_true]
        have e1 : (s.log (Ev.bufio_read (verity_hash_at_level v block level).1)).real_digest
            = s.real_digest := rfl
        rw [e1]
        split
        · next hneg =>
          exact ⟨⟨fp.payload, fp.iter, fp.validated_blocks, fp.want_digest, fp.mono⟩,
            Or.inl (le_of_lt hneg), fun _ h => absurd h (by decide),
            fun h0 => by simp only [] at h0; omega⟩
        · split
          · refine ⟨⟨fp.payload, fp.iter, fp.validated_blocks, fp.want_digest, ?_⟩,
              Or.inl (le_refl _), fun _ h => absurd h (by decide), fun _ _ => ?_⟩
            · intro x hx
              show (if x = _ then true else _) = true
              split
              · rfl
              · exact fp.mono x hx
            · show (if _ = _ then true else _) = true
              rw [if_pos rfl]
          · split
            · refine ⟨⟨fp.payload, fp.iter, fp.validated_blocks, fp.want_digest, ?_⟩,
                Or.inl (le_refl _), fun _ h => absurd h (by decide), fun _ _ => ?_⟩
              · intro x hx
                show (if x = _ then true else _) = true
                split
                · rfl
                · exact fp.mono x hx
              · show (if _ = _ then true else _) = true
                rw [if_pos rfl]
            · have fp2 := framep_trans (framep_patch s _ _ _ fp) he3
              split
              · exact ⟨fp2, Or.inl hEIOle, fun _ h => absurd h (by decide),
                  fun h0 => absurd h0 hEIO⟩
              · next hz =>
                refine ⟨fp2, Or.inl (le_refl _), fun _ h => absurd h (by decide), fun _ hm => ?_⟩
                exact absurd (he5.1 (not_not.1 hz)) hm

/-- General properties of the chain loop: it preserves what `FrameP` lists,
returns a non-positive status, and outside Logging mode a return of 0 leaves
every hash block it visited flagged. -/
theorem verity_hash_for_block_loop_general (E : Env) (v : dm_verity) (block : Nat) :
    ∀ (i : Nat) (s : State) (digest : List Nat),
      FrameP s (verity_hash_for_block_loop E v block i s digest).2.1 ∧
      (verity_hash_for_block_loop E v block i s digest).1 ≤ 0 ∧
      ((verity_hash_for_block_loop E v block i s digest).1 = 0 →
        v.mode ≠ verity_mode.LOGGING →
        ∀ L, L < i → (verity_hash_for_block_loop E v block i s digest).2.1.hash_verified
          (hash_block_of v block L) = true) := by
  intro i
  induction i with
  | zero =>
    intro s digest
    exact ⟨framep_refl s, le_refl _, fun _ _ L hL => absurd hL (Nat.not_lt_zero L)⟩
  | succ i ih =>
    intro s digest
    obtain ⟨g1, g2, _, g4⟩ := verity_verify_level_general E v s block i false digest
    have hle : (verity_verify_level E v s block i false digest).1 ≤ 0 := by
      rcases g2 with h | ⟨_, h⟩
      · exact h
      · cases h
    rw [verity_hash_for_block_loop]
    split
    · next hne => exact ⟨g1, hle, fun h0 => absurd h0 hne⟩
    · next hz =>
      have hz0 : (verity_verify_level E v s block i false digest).1 = 0 := not_not.1 hz
      obtain ⟨i1, i2, i3⟩ := ih (verity_verify_level E v s block i false digest).2.1
        (verity_verify_level E v s block i false digest).2.2
      refine ⟨framep_trans g1 i1, i2, ?_⟩
      intro h0 hm L hL
      by_cases hLi : L = i
      · subst hLi
        exact i1.mono _ (g4 hz0 hm)
      · exact i3 h0 hm L (by omega)

theorem verity_hash_for_block_out_fst (v : dm_verity) (r : Int × State × List Nat) :
    (verity_hash_for_block_out v r).1 = r.1 ∧ (verity_hash_for_block_out v r).2.1 = r.2.1 ∧
    (verity_hash_for_block_out v r).2.2.1 = r.2.2 ∧
    ((verity_hash_for_block_out v r).2.2.2 = true → r.1 = 0 ∧ zero_expected v r.2.2 = true) := by
  refine ⟨rfl, rfl, rfl, ?_⟩
  unfold verity_hash_for_block_out zero_expected
  cases v.zero_digest with
  | none => intro h; cases h
  | some z =>
    intro h
    simp only [Bool.and_eq_true, decide_eq_true_eq] at h
    exact h

/-- General properties of `verity_hash_for_block`: it preserves what `FrameP`
lists and returns a non-positive status; `*is_zero` is set only on a return of 0
with the digest equal to `zero_digest`; outside Logging mode a return of 0
leaves the level-0 hash block flagged, and every hash block of the path when
the level-0 block was not flagged before. -/
theorem verity_hash_for_block_general (E : Env) (v : dm_verity) (s : State) (block : Nat)
    (digest : List Nat) :
    FrameP s (verity_hash_for_block E v s block digest).2.1 ∧
    (verity_hash_for_block E v s block digest).1 ≤ 0 ∧
    ((verity_hash_for_block E v s block digest).2.2.2 = true →
      (verity_hash_for_block E v s block digest).1 = 0 ∧
      zero_expected v (verity_hash_for_block E v s block digest).2.2.1 = true) ∧
    ((verity_hash_for_block E v s block digest).1 = 0 → v.mode ≠ verity_mode.LOGGING →
      ∀ L, L < v.levels → (L = 0 ∨ s.hash_verified (hash_block_of v block 0) = false) →
        (verity_hash_for_block E v s block digest).2.1.hash_verified
          (hash_block_of v block L) = true) := by
  unfold verity_hash_for_block
  simp only []
  split
  · next hl =>
    obtain ⟨g1, g2, g3, g4⟩ := verity_verify_level_general E v s block 0 true digest
    split
    · next hle =>
      obtain ⟨o1, o2, o3, o4⟩ := verity_hash_for_block_out_fst v
        (verity_verify_level E v s block 0 true digest)
      rw [o1, o2, o3]
      refine ⟨g1, hle, o4, ?_⟩
      intro h0 hm L _ hor
      have hfl := g3 h0 rfl
      rcases hor with hL0 | hcl
      · subst hL0
        exact g4 h0 hm
      · rw [hfl] at hcl
        cases hcl
    · next hgt =>
      obtain ⟨i1, i2, i3⟩ := verity_hash_for_block_loop_general E v block v.levels
        (verity_verify_level E v s block 0 true digest).2.1
        (v.root_digest.take v.digest_size)
      obtain ⟨o1, o2, o3, o4⟩ := verity_hash_for_block_out_fst v
        (verity_hash_for_block_loop E v block v.levels
          (verity_verify_level E v s block 0 true digest).2.1
          (v.root_digest.take v.digest_size))
      rw [o1, o2, o3]
      exact ⟨framep_trans g1 i1, i2, o4, fun h0 hm L hL _ => i3 h0 hm L hL⟩
  · next hl =>
    obtain ⟨i1, i2, i3⟩ := verity_hash_for_block_loop_general E v block v.levels s
      (v.root_digest.take v.digest_size)
    obtain ⟨o1, o2, o3, o4⟩ := verity_hash_for_block_out_fst v
      (verity_hash_for_block_loop E v block v.levels s (v.root_digest.take v.digest_size))
    rw [o1, o2, o3]
    exact ⟨i1, i2, o4, fun h0 hm L hL _ => i3 h0 hm L hL⟩

/-! ## General properties of the data path -/

theorem verity_hash_init_req (E : Env) (v : dm_verity) (s : State)
    (h : ¬ (verity_hash_init E v s).1 < 0) :
    (verity_hash_init E v s).2.req = if v.version = 0 then [] else v.salt := by
  unfold verity_hash_init at h ⊢
  simp only [] at h ⊢
  by_cases hi : E.tfm.init < 0
  · rw [if_pos hi] at h
    exact absurd hi h
  · rw [if_neg hi]
    split
    · next hc =>
      rw [if_neg (by omega)]
      show [] ++ v.salt = v.salt
      rfl
    · next hc =>
      show [] = _
      by_cases hv : v.version = 0
      · rw [if_pos hv]
      · rw [if_neg hv]
        have : v.salt_size = 0 := by
          by_contra hne
          exact hc ⟨hne, by omega⟩
        unfold dm_verity.salt_size at this
        exact (List.length_eq_zero.1 this).symm

theorem verity_hash_final_out (E : Env) (v : dm_verity) (s : State) (digest : List Nat)
    (h : ¬ (verity_hash_final E v s digest).1 < 0) :
    (verity_hash_final E v s digest).2.2
      = E.tfm.digest (s.req ++ (if v.version = 0 then v.salt else [])) := by
  unfold verity_hash_final at h ⊢
  simp only [] at h ⊢
  split
  · next hc =>
    rw [if_pos hc] at h
    rw [if_pos hc.2]
    by_cases hu : (verity_hash_update E s v.salt none).1 < 0
    · rw [if_pos hu] at h
      exact absurd hu h
    · rw [if_neg hu]
      rfl
  · next hc =>
    have e : (if v.version = 0 then v.salt else []) = [] := by
      by_cases hv : v.version = 0
      · rw [if_pos hv]
        have : v.salt_size = 0 := by
          by_contra hne
          exact hc ⟨hne, hv⟩
        unfold dm_verity.salt_size at this
        exact List.length_eq_zero.1 this
      · rw [if_neg hv]
    rw [e, List.append_nil]

/-- Whatever the digest primitive returns, a run of the loop of
`verity_for_io_block` changes only the digest request, the trace and the
cursor; when it does not fail it has fed exactly the next `todo` payload
bytes, which were there, and advanced the cursor by `todo`. -/
theorem verity_for_io_block_loop_general (E : Env) :
    ∀ (fuel todo : Nat) (s : State) (r : Int) (s1 : State),
      verity_for_io_block_loop E fuel todo s = some (r, s1) →
      Frame s { s1 with iter := s.iter } ∧ s1.real_digest = s.real_digest ∧
      (¬ r < 0 → s1.iter = s.iter + todo ∧
        s1.req = s.req ++ bytes_at s.payload s.iter todo ∧
        (todo = 0 ∨ s.iter + todo ≤ s.payload.length)) := by
  intro fuel
  induction fuel with
  | zero => intro todo s r s1 h; cases h
  | succ fuel ih =>
    intro todo s r s1 h
    unfold verity_for_io_block_loop at h
    simp only [] at h
    generalize hlen : (if bio_iter_iovec_len E s ≥ todo then todo else bio_iter_iovec_len E s) = len
      at h
    have hle : len ≤ todo := by
      rw [← hlen]; split <;> omega
    have hrem : len ≤ s.payload.length - s.iter := by
      rw [← hlen]
      unfold bio_iter_iovec_len
      split <;> omega
    obtain ⟨fu, ru, du⟩ := ahash_update_frame E s (bytes_at s.payload s.iter len)
    split at h
    · next hneg =>
      injection h with h
      injection h with h1 h2
      subst h2
      refine ⟨⟨fu.bufs, fu.hash_verified, fu.validated_blocks, fu.payload, rfl, fu.want_digest,
        fu.hash_failed, fu.corrupted_errs, fu.errs⟩, du, ?_⟩
      intro hr
      rw [← h1] at hr
      exact absurd hneg hr
    · split at h
      · next hdone =>
        injection h with h
        injection h with h1 h2
        subst h2
        have : len = todo := by omega
        subst this
        refine ⟨⟨fu.bufs, fu.hash_verified, fu.validated_blocks, fu.payload, rfl,
          fu.want_digest, fu.hash_failed, fu.corrupted_errs, fu.errs⟩, du, ?_⟩
        intro _
        refine ⟨?_, ru, by omega⟩
        show (ahash_update E s (bytes_at s.payload s.iter len)).2.iter + len = s.iter + len
        rw [fu.iter]
      · next hmore =>
        have hpay : (bio_advance_iter (ahash_update E s (bytes_at s.payload s.iter len)).2
            len).payload = s.payload := fu.payload
        have hit : (bio_advance_iter (ahash_update E s (bytes_at s.payload s.iter len)).2
            len).iter = s.iter + len := by
          show (ahash_update E s (bytes_at s.payload s.iter len)).2.iter + len = s.iter + len
          rw [fu.iter]
        obtain ⟨h5, h6, h7⟩ := ih (todo - len) _ r s1 h
        have h5b := h5.bufs
        have h5h := h5.hash_verified
        have h5v := h5.validated_blocks
        have h5p := h5.payload
        have h5w := h5.want_digest
        have h5f := h5.hash_failed
        have h5c := h5.corrupted_errs
        have h5e := h5.errs
        refine ⟨⟨h5b.trans fu.bufs, h5h.trans fu.hash_verified, h5v.trans fu.validated_blocks,
          h5p.trans fu.payload, rfl, h5w.trans fu.want_digest, h5f.trans fu.hash_failed,
          h5c.trans fu.corrupted_errs, h5e.trans fu.errs⟩, h6.trans du, ?_⟩
        intro hr
        obtain ⟨k1, k2, k3⟩ := h7 hr
        rw [hit] at k1
        rw [hpay, hit] at k2 k3
        refine ⟨by omega, ?_, by omega⟩
        rw [k2]
        show (ahash_update E s (bytes_at s.payload s.iter len)).2.req ++ _ = _
        rw [ru, List.append_assoc, ← bytes_at_add]
        congr 2
        omega

theorem write_at_nil (l : List Nat) (p : Nat) : write_at l p [] = l := by
  unfold write_at
  simp

/-- A run of the loop of `verity_for_bv_block` with `verity_bv_zero` that ends
has returned 0, overwritten exactly the next `todo` payload bytes, which were
there, with zeros, and advanced the cursor by `todo`. -/
theorem verity_for_bv_block_loop_zero_general (E : Env) :
    ∀ (fuel todo : Nat) (s : State) (r : Int) (s1 : State),
      verity_for_bv_block_loop E verity_bv_zero fuel todo s = some (r, s1) →
      r = 0 ∧
      s1 = { s with iter := s.iter + todo,
                    payload := write_at s.payload s.iter (List.replicate todo 0) } ∧
      (todo = 0 ∨ s.iter + todo ≤ s.payload.length) := by
  intro fuel
  induction fuel with
  | zero => intro todo s r s1 h; cases h
  | succ fuel ih =>
    intro todo s r s1 h
    unfold verity_for_bv_block_loop at h
    simp only [] at h
    generalize hlen : (if bio_iter_iovec_len E s ≥ todo then todo else bio_iter_iovec_len E s) = len
      at h
    have hle : len ≤ todo := by
      rw [← hlen]; split <;> omega
    have hrem : len ≤ s.payload.length - s.iter := by
      rw [← hlen]
      unfold bio_iter_iovec_len
      split <;> omega
    have hr : (verity_bv_zero s s.iter len).1 = 0 := rfl
    rw [if_neg (by rw [hr]; decide)] at h
    split at h
    · next hdone =>
      injection h with h
      injection h with h1 h2
      have : len = todo := by omega
      subst this
      exact ⟨h1.symm, h2.symm, by omega⟩
    · next hmore =>
      obtain ⟨k1, k2, k3⟩ := ih (todo - len) _ r s1 h
      have hl1 : (List.replicate len 0).length = len := List.length_replicate _ _
      refine ⟨k1, ?_, ?_⟩
      · rw [k2]
        show ({ s with
          iter := s.iter + len + (todo - len),
          payload := write_at (write_at s.payload s.iter (List.replicate len 0)) (s.iter + len)
            (List.replicate (todo - len) 0) } : State) = _
        have e2 : s.iter + len + (todo - len) = s.iter + todo := by omega
        have e1 : write_at (write_at s.payload s.iter (List.replicate len 0)) (s.iter + len)
            (List.replicate (todo - len) 0)
              = write_at s.payload s.iter (List.replicate todo 0) := by
          by_cases hl0 : len = 0
          · subst hl0
            rw [List.replicate_zero, write_at_nil, Nat.add_zero, Nat.sub_zero]
          · have := write_at_append s.payload s.iter (List.replicate len 0)
              (List.replicate (todo - len) 0) (by rw [hl1]; omega)
            rw [hl1] at this
            rw [this, List.append_replicate_replicate]
            congr 2
            omega
        rw [e1, e2]
      · right
        rcases k3 with k0 | kle
        · exact absurd k0 hmore
        · have h1 : (bio_advance_iter (verity_bv_zero s s.iter len).2 len).iter = s.iter + len :=
            rfl
          have h2 : (bio_advance_iter (verity_bv_zero s s.iter len).2 len).payload
              = write_at s.payload s.iter (List.replicate len 0) := rfl
          rw [h1, h2] at kle
          by_cases hl0 : len = 0
          · subst hl0
            rw [List.replicate_zero, write_at_nil] at kle
            omega
          · rw [write_at_length _ _ _ (by rw [hl1]; omega)] at kle
            omega

theorem opt_none_return : ∀ r : Int, (none : Option Int) = some r → r < 0 := by
  intro r h
  cases h

theorem opt_some_continue (r : Int) (P : Prop) : (some r : Option Int) = none → P := by
  intro h
  cases h

theorem opt_some_return (r0 : Int) (h0 : r0 < 0) : ∀ r : Int, some r0 = some r → r < 0 := by
  intro r h
  injection h with h
  rw [← h]
  exact h0

/-- General properties of the data path of one step: it leaves the hash-block
cache, the flags and `want_digest` alone; a `return` carries a negative status;
and when it continues, the cursor has advanced by one data block that was
there, and either the block hashed to `want_digest` and is untouched, or the
FEC hook repaired it in place, or the mode is Logging, the block mismatches
`want_digest`, the FEC hook failed, the block is untouched and `hash_failed` is
set. -/
theorem verity_verify_io_data_general (E : Env) (v : dm_verity) (s : State) (cur : Nat)
    (x : Option Int) (s2 : State) (h : verity_verify_io_data E v s cur = some (x, s2)) :
    s2.bufs = s.bufs ∧ s2.hash_verified = s.hash_verified ∧ s2.want_digest = s.want_digest ∧
    (∀ r, x = some r → r < 0) ∧
    (x = none →
      s2.iter = s.iter + data_block_bytes v ∧
      (data_block_bytes v = 0 ∨ s.iter + data_block_bytes v ≤ s.payload.length) ∧
      ((memcmp_eq (block_digest E v (bytes_at s.payload s.iter (data_block_bytes v)))
            s.want_digest v.digest_size = true ∧ s2.payload = s.payload) ∨
        (∃ fixed, E.fec_decode verity_block_type.DATA cur = some fixed ∧
          s2.payload = write_at s.payload s.iter (fixed.take (data_block_bytes v))) ∨
        (v.mode = verity_mode.LOGGING ∧ s2.payload = s.payload ∧
          memcmp_eq (block_digest E v (bytes_at s.payload s.iter (data_block_bytes v)))
            s.want_digest v.digest_size = false ∧
          E.fec_decode verity_block_type.DATA cur = none ∧ s2.hash_failed = true))) := by
  obtain ⟨fi, _⟩ := verity_hash_init_frame E v s
  unfold verity_verify_io_data at h
  simp only [] at h
  split at h
  · next hneg =>
    injection h with h
    injection h with h1 h2
    subst h1 h2
    exact ⟨fi.bufs, fi.hash_verified, fi.want_digest, opt_some_return _ hneg,
      opt_some_continue _ _⟩
  · next hinit =>
    split at h
    · cases h
    · next r2 hfor =>
      obtain ⟨fl, _, hl⟩ := verity_for_io_block_loop_general E _ _ _ r2.1 r2.2 hfor
      have flb := fl.bufs
      have flh := fl.hash_verified
      have flw := fl.want_digest
      have flp := fl.payload
      split at h
      · next hneg =>
        injection h with h
        injection h with h1 h2
        subst h1 h2
        exact ⟨flb.trans fi.bufs, flh.trans fi.hash_verified, flw.trans fi.want_digest,
          opt_some_return _ hneg, opt_some_continue _ _⟩
      · next hok2 =>
        obtain ⟨l1, l2, l3⟩ := hl hok2
        obtain ⟨ff, _⟩ := verity_hash_final_frame E v r2.2 r2.2.real_digest
        have hb3 : (verity_hash_final E v r2.2 r2.2.real_digest).2.1.bufs = s.bufs :=
          ff.bufs.trans (flb.trans fi.bufs)
        have hh3 : (verity_hash_final E v r2.2 r2.2.real_digest).2.1.hash_verified
            = s.hash_verified := ff.hash_verified.trans (flh.trans fi.hash_verified)
        have hw3 : (verity_hash_final E v r2.2 r2.2.real_digest).2.1.want_digest
            = s.want_digest := ff.want_digest.trans (flw.trans fi.want_digest)
        have hp3 : (verity_hash_final E v r2.2 r2.2.real_digest).2.1.payload = s.payload :=
          ff.payload.trans (flp.trans fi.payload)
        have hi3 : (verity_hash_final E v r2.2 r2.2.real_digest).2.1.iter
            = s.iter + data_block_bytes v := by
          rw [ff.iter, l1, fi.iter]
          rfl
        have hroom : data_block_bytes v = 0 ∨ s.iter + data_block_bytes v ≤ s.payload.length := by
          rw [fi.iter, fi.payload] at l3
          exact l3
        split at h
        · next hneg =>
          injection h with h
          injection h with h1 h2
          subst h1 h2
          exact ⟨hb3, hh3, hw3, opt_some_return _ hneg, opt_some_continue _ _⟩
        · next hfin =>
          have hout := verity_hash_final_out E v r2.2 r2.2.real_digest hfin
          rw [l2, verity_hash_init_req E v s hinit, fi.payload, fi.iter] at hout
          have hsal : (if v.version = 0 then [] else v.salt)
              ++ bytes_at s.payload s.iter ((1 <<< v.data_dev_block_bits) % 2 ^ 32)
              ++ (if v.version = 0 then v.salt else [])
              = salted v (bytes_at s.payload s.iter (data_block_bytes v)) := salted_eq v _
          rw [hsal] at hout
          split at h
          · next hcmp =>
            have hcmp2 : memcmp_eq (block_digest E v (bytes_at s.payload s.iter
                (data_block_bytes v))) s.want_digest v.digest_size = true := by
              have := hcmp
              simp only [] at this
              rw [hout, hw3] at this
              exact this
            split at h
            · injection h with h
              injection h with h1 h2
              subst h1 h2
              exact ⟨hb3, hh3, hw3, opt_none_return,
                fun _ => ⟨hi3, hroom, Or.inl ⟨hcmp2, hp3⟩⟩⟩
            · injection h with h
              injection h with h1 h2
              subst h1 h2
              exact ⟨hb3, hh3, hw3, opt_none_return,
                fun _ => ⟨hi3, hroom, Or.inl ⟨hcmp2, hp3⟩⟩⟩
          · next hcmp =>
            have hcmp2 : memcmp_eq (block_digest E v (bytes_at s.payload s.iter
                (data_block_bytes v))) s.want_digest v.digest_size = false := by
              have := hcmp
              simp only [] at this
              rw [hout, hw3] at this
              exact Bool.eq_false_iff.2 this
            split at h
            · next fixed hfec =>
              injection h with h
              injection h with h1 h2
              subst h1 h2
              refine ⟨hb3, hh3, hw3, opt_none_return,
                fun _ => ⟨hi3, hroom, Or.inr (Or.inl ⟨fixed, hfec, ?_⟩)⟩⟩
              show write_at (verity_hash_final E v r2.2 r2.2.real_digest).2.1.payload
                (verity_hash_init E v s).2.iter _ = _
              rw [hp3, fi.iter]
              rfl
            · next hfec =>
              obtain ⟨e1, e2, e3, e4, e5⟩ := verity_handle_err_frame v
                ((({ (verity_hash_final E v r2.2 r2.2.real_digest).2.1 with
                    real_digest := (verity_hash_final E v r2.2 r2.2.real_digest).2.2 } :
                    State).log (Ev.fec_decode verity_block_type.DATA cur)))
                verity_block_type.DATA cur
              split at h
              · injection h with h
                injection h with h1 h2
                subst h1 h2
                exact ⟨e1.trans hb3, e2.trans hh3, e3.want_digest.trans hw3,
                  opt_some_return _ (by decide), opt_some_continue _ _⟩
              · next hz =>
                injection h with h
                injection h with h1 h2
                subst h1 h2
                exact ⟨e1.trans hb3, e2.trans hh3, e3.want_digest.trans hw3,
                  opt_none_return,
                  fun _ => ⟨e3.iter.trans hi3, hroom,
                    Or.inr (Or.inr ⟨e5.1 (not_not.1 hz), e3.payload.trans hp3, hcmp2, hfec,
                      e4⟩)⟩⟩

theorem payload_justified_of_match (E : Env) (v : dm_verity) (s : State) (cur : Nat)
    (chunk : List Nat)
    (h : memcmp_eq (block_digest E v chunk)
      (verity_hash_for_block E v s cur s.want_digest).2.2.1 v.digest_size = true) :
    payload_justified E v s cur chunk = true := by
  unfold payload_justified
  rw [h]
  rfl

theorem payload_justified_of_zero (E : Env) (v : dm_verity) (s : State) (cur : Nat)
    (chunk : List Nat) (h1 : (verity_hash_for_block E v s cur s.want_digest).2.2.2 = true)
    (h2 : chunk = List.replicate (data_block_bytes v) 0) :
    payload_justified E v s cur chunk = true := by
  unfold payload_justified
  rw [h1, decide_eq_true h2]
  simp

theorem payload_justified_of_fec (E : Env) (v : dm_verity) (s : State) (cur : Nat)
    (chunk fixed : List Nat) (h : E.fec_decode verity_block_type.DATA cur = some fixed)
    (hc : chunk.take (fixed.take (data_block_bytes v)).length
      = fixed.take (data_block_bytes v)) :
    payload_justified E v s cur chunk = true := by
  unfold payload_justified
  rw [h]
  simp only []
  rw [decide_eq_true hc]
  simp

theorem logged_corrupt_of (E : Env) (v : dm_verity) (s : State) (cur : Nat)
    (chunk : List Nat) (h1 : v.mode = verity_mode.LOGGING)
    (h2 : chunk = bytes_at s.payload s.iter (data_block_bytes v))
    (h3 : memcmp_eq (block_digest E v chunk)
      (verity_hash_for_block E v s cur s.want_digest).2.2.1 v.digest_size = false)
    (h4 : (verity_hash_for_block E v s cur s.want_digest).2.2.2 = false)
    (h5 : E.fec_decode verity_block_type.DATA cur = none) :
    logged_corrupt E v s cur chunk = true := by
  unfold logged_corrupt
  rw [decide_eq_true h1, decide_eq_true h2, h3, h4, h5]
  rfl

/-- General properties of one step of the loop of `verity_verify_io`: a
`return` carries a negative status; when the step continues, the cursor has
advanced by one data block, the payload keeps its length and the bytes before
the block, the block was skipped by the bitmap and is untouched, or is
justified in one of the ways of the spec, or is returned by Logging mode as a
mismatch with `hash_failed` set; unless the bitmap skipped it,
`verity_hash_for_block` returned 0 and the flags are as it left them; and the
payload bytes behind the block are untouched. -/
theorem verity_verify_io_block_general (E : Env) (v : dm_verity) (io : dm_verity_io)
    (s : State) (b : Nat) (x : Option Int) (s2 : State) (hbs : 0 < data_block_bytes v)
    (h : verity_verify_io_block E v io s b = some (x, s2)) :
    (∀ r, x = some r → r < 0) ∧
    (x = none →
      s2.iter = s.iter + data_block_bytes v ∧
      s2.payload.length = s.payload.length ∧
      (∀ q n, q + n ≤ s.iter → bytes_at s2.payload q n = bytes_at s.payload q n) ∧
      ((skipped_once v s ((io.block + b) % 2 ^ 64) ∧ s2.payload = s.payload) ∨
        payload_justified E v s ((io.block + b) % 2 ^ 64)
          (bytes_at s2.payload s.iter (data_block_bytes v)) = true ∨
        (logged_corrupt E v s ((io.block + b) % 2 ^ 64)
          (bytes_at s2.payload s.iter (data_block_bytes v)) = true ∧
          s2.hash_failed = true)) ∧
      (¬ skipped_once v s ((io.block + b) % 2 ^ 64) →
        (verity_hash_for_block E v s ((io.block + b) % 2 ^ 64) s.want_digest).1 = 0 ∧
        s2.hash_verified =
          (verity_hash_for_block E v s ((io.block + b) % 2 ^ 64) s.want_digest).2.1.hash_verified) ∧
      (∀ q n, s.iter + data_block_bytes v ≤ q →
        bytes_at s2.payload q n = bytes_at s.payload q n))
    := by
  obtain ⟨g1, g2, g3, _⟩ := verity_hash_for_block_general E v s ((io.block + b) % 2 ^ 64)
    s.want_digest
  unfold verity_verify_io_block at h
  simp only [] at h
  split at h
  · next hskip =>
    injection h with h
    injection h with h1 h2
    subst h1 h2
    exact ⟨opt_none_return, fun _ => ⟨rfl, rfl, fun _ _ _ => rfl, Or.inl ⟨hskip, rfl⟩,
      fun hn => absurd hskip hn, fun _ _ _ => rfl⟩⟩
  · next hskip =>
    split at h
    · next hneg =>
      injection h with h
      injection h with h1 h2
      subst h1 h2
      exact ⟨opt_some_return _ hneg, opt_some_continue _ _⟩
    · next hnn =>
      have h0 : (verity_hash_for_block E v s ((io.block + b) % 2 ^ 64) s.want_digest).1 = 0 := by
        omega
      split at h
      · next hz =>
        split at h
        · cases h
        · next rz hrz =>
          obtain ⟨z1, z2, z3⟩ := verity_for_bv_block_loop_zero_general E _ _ _ rz.1 rz.2 hrz
          have hroom : s.iter + data_block_bytes v ≤ s.payload.length := by
            rcases z3 with z0 | zle
            · exact absurd z0 (by unfold data_block_bytes at hbs; omega)
            · have e1 : ({ (verity_hash_for_block E v s ((io.block + b) % 2 ^ 64)
                  s.want_digest).2.1 with want_digest := (verity_hash_for_block E v s
                  ((io.block + b) % 2 ^ 64) s.want_digest).2.2.1 } : State).iter = s.iter :=
                g1.iter
              have e2 : ({ (verity_hash_for_block E v s ((io.block + b) % 2 ^ 64)
                  s.want_digest).2.1 with want_digest := (verity_hash_for_block E v s
                  ((io.block + b) % 2 ^ 64) s.want_digest).2.2.1 } : State).payload
                  = s.payload := g1.payload
              rw [e1, e2] at zle
              exact zle
          rw [if_neg (by rw [z1]; decide)] at h
          injection h with h
          injection h with h1 h2
          subst h1
          rw [← h2, z2]
          have hl : (List.replicate (data_block_bytes v) 0).length = data_block_bytes v :=
            List.length_replicate _ _
          refine ⟨opt_none_return, fun _ => ⟨?_, ?_, ?_, ?_, fun _ => ⟨h0, rfl⟩, ?_⟩⟩
          rotate_right
          · intro q n hq
            show bytes_at (write_at (verity_hash_for_block E v s ((io.block + b) % 2 ^ 64)
              s.want_digest).2.1.payload (verity_hash_for_block E v s ((io.block + b) % 2 ^ 64)
              s.want_digest).2.1.iter (List.replicate (data_block_bytes v) 0)) q n = _
            rw [g1.payload, g1.iter]
            exact write_at_after _ _ _ _ _ (by rw [hl]; exact hroom) (by rw [hl]; exact hq)
          · show (verity_hash_for_block E v s ((io.block + b) % 2 ^ 64) s.want_digest).2.1.iter
              + data_block_bytes v = _
            rw [g1.iter]
          · show (write_at (verity_hash_for_block E v s ((io.block + b) % 2 ^ 64)
              s.want_digest).2.1.payload (verity_hash_for_block E v s ((io.block + b) % 2 ^ 64)
              s.want_digest).2.1.iter (List.replicate (data_block_bytes v) 0)).length = _
            rw [g1.payload, g1.iter, write_at_length _ _ _ (by rw [hl]; exact hroom)]
          · intro q n hq
            show bytes_at (write_at (verity_hash_for_block E v s ((io.block + b) % 2 ^ 64)
              s.want_digest).2.1.payload (verity_hash_for_block E v s ((io.block + b) % 2 ^ 64)
              s.want_digest).2.1.iter (List.replicate (data_block_bytes v) 0)) q n = _
            rw [g1.payload, g1.iter]
            exact write_at_before _ _ _ _ _ (by omega) hq
          · right; left
            apply payload_justified_of_zero E v s _ _ hz
            show bytes_at (write_at (verity_hash_for_block E v s ((io.block + b) % 2 ^ 64)
              s.want_digest).2.1.payload (verity_hash_for_block E v s ((io.block + b) % 2 ^ 64)
              s.want_digest).2.1.iter (List.replicate (data_block_bytes v) 0)) s.iter
              (data_block_bytes v) = _
            rw [g1.payload, g1.iter]
            exact write_at_same _ _ _ _ (by omega) hl.symm
      · next hz =>
        obtain ⟨d1, d2, _, d4, d5⟩ := verity_verify_io_data_general E v _ _ x s2 h
        refine ⟨d4, fun hx => ?_⟩
        obtain ⟨k1, k2, k3⟩ := d5 hx
        have e1 : ({ (verity_hash_for_block E v s ((io.block + b) % 2 ^ 64)
            s.want_digest).2.1 with want_digest := (verity_hash_for_block E v s
            ((io.block + b) % 2 ^ 64) s.want_digest).2.2.1 } : State).iter = s.iter := g1.iter
        have e2 : ({ (verity_hash_for_block E v s ((io.block + b) % 2 ^ 64)
            s.want_digest).2.1 with want_digest := (verity_hash_for_block E v s
            ((io.block + b) % 2 ^ 64) s.want_digest).2.2.1 } : State).payload = s.payload :=
          g1.payload
        rw [e1] at k1
        rw [e1, e2] at k2 k3
        have hroom : s.iter + data_block_bytes v ≤ s.payload.length := by
          rcases k2 with k0 | kle
          · omega
          · exact kle
        have hw1 : ({ (verity_hash_for_block E v s ((io.block + b) % 2 ^ 64)
            s.want_digest).2.1 with want_digest := (verity_hash_for_block E v s
            ((io.block + b) % 2 ^ 64) s.want_digest).2.2.1 } : State).want_digest
            = (verity_hash_for_block E v s ((io.block + b) % 2 ^ 64) s.want_digest).2.2.1 := rfl
        rw [hw1] at k3
        refine ⟨k1, ?_, ?_, ?_, fun _ => ⟨h0, d2⟩, ?_⟩
        · rcases k3 with ⟨_, kp⟩ | ⟨fixed, _, kp⟩ | ⟨_, kp, _⟩
          · rw [kp]
          · rw [kp, write_at_length _ _ _ (by rw [List.length_take]; omega)]
          · rw [kp]
        · intro q n hq
          rcases k3 with ⟨_, kp⟩ | ⟨fixed, _, kp⟩ | ⟨_, kp, _⟩
          · rw [kp]
          · rw [kp]
            exact write_at_before _ _ _ _ _ (by omega) hq
          · rw [kp]
        · rcases k3 with ⟨km, kp⟩ | ⟨fixed, kf, kp⟩ | ⟨kl, kp, km, kf, kh⟩
          · right; left
            apply payload_justified_of_match
            rw [kp]
            exact km
          · right; left
            apply payload_justified_of_fec E v s _ _ fixed kf
            rw [kp]
            exact write_at_prefix _ _ _ _ (by omega) (by rw [List.length_take]; omega)
          · right; right
            refine ⟨logged_corrupt_of E v s _ _ kl (by rw [kp]) (by rw [kp]; exact km)
              (Bool.eq_false_iff.2 hz) kf, kh⟩
        · intro q n hq
          rcases k3 with ⟨_, kp⟩ | ⟨fixed, _, kp⟩ | ⟨_, kp, _⟩
          · rw [kp]
          · rw [kp]
            exact write_at_after _ _ _ _ _ (by rw [List.length_take]; omega)
              (by rw [List.length_take]; omega)
          · rw [kp]

theorem run_check_some (x : Option (Int × State)) (p : Int → State → Bool)
    (h : run_check x p = true) : ∃ r s, x = some (r, s) ∧ p r s = true := by
  cases x with
  | none => cases h
  | some rs => exact ⟨rs.1, rs.2, rfl, h⟩

/-- The flags after a step that verified its block are those
`verity_hash_for_block` left, and it returned 0. -/
theorem verity_verify_io_block_flags (E : Env) (v : dm_verity) (io : dm_verity_io)
    (s : State) (b : Nat) (s2 : State)
    (hns : ¬ skipped_once v s ((io.block + b) % 2 ^ 64))
    (h : verity_verify_io_block E v io s b = some (none, s2)) :
    (verity_hash_for_block E v s ((io.block + b) % 2 ^ 64) s.want_digest).1 = 0 ∧
    s2.hash_verified =
      (verity_hash_for_block E v s ((io.block + b) % 2 ^ 64) s.want_digest).2.1.hash_verified := by
  obtain ⟨_, g2, _, _⟩ := verity_hash_for_block_general E v s ((io.block + b) % 2 ^ 64)
    s.want_digest
  unfold skipped_once at hns
  unfold verity_verify_io_block at h
  simp only [] at h
  rw [if_neg hns] at h
  split at h
  · injection h with h
    injection h with h1 _
    cases h1
  · next hnn =>
    refine ⟨by omega, ?_⟩
    split at h
    · split at h
      · cases h
      · next rz hrz =>
        obtain ⟨z1, z2, _⟩ := verity_for_bv_block_loop_zero_general E _ _ _ rz.1 rz.2 hrz
        rw [if_neg (by rw [z1]; decide)] at h
        injection h with h
        injection h with _ h2
        rw [← h2, z2]
    · exact (verity_verify_io_data_general E v _ _ none s2 h).2.1

/-- C3 (amended): in every mode other than Logging and for every initial state
of the flags, whenever the verification of a data block (`verity_hash_for_block`
followed by the data comparison of `verity_verify_io`) succeeds, the level-0
hash block of the data block has its `hash_verified` flag set, and when that
flag was clear before, so has every hash block on the path from the top level
down to level 0. -/
theorem verified_path_after_success (E : Env) (v : dm_verity) (io : dm_verity_io)
    (s : State) (b : Nat) (s2 : State) (hmode : v.mode ≠ verity_mode.LOGGING)
    (hns : ¬ skipped_once v s ((io.block + b) % 2 ^ 64))
    (h : verity_verify_io_block E v io s b = some (none, s2)) :
    ∀ L, L < v.levels →
      (L = 0 ∨ s.hash_verified (hash_block_of v ((io.block + b) % 2 ^ 64) 0) = false) →
      s2.hash_verified (hash_block_of v ((io.block + b) % 2 ^ 64) L) = true := by
  obtain ⟨h0, hfl⟩ := verity_verify_io_block_flags E v io s b s2 hns h
  obtain ⟨_, _, _, g4⟩ := verity_hash_for_block_general E v s ((io.block + b) % 2 ^ 64)
    s.want_digest
  intro L hL hor
  rw [hfl]
  exact g4 h0 hmode L hL hor

/-- C3 (counterexample): on the example volume a read of data block 16
succeeds (a) in EIO mode from a state where only the level-0 hash block is
flagged, and leaves the top-level hash block unflagged, and (b) in Logging mode
with a corrupted level-0 hash block, and leaves that block unflagged. -/
theorem verified_path_not_always :
    (∃ r s2, verity_verify_io toy_env fx_v ⟨16, 1⟩
        { fx_state fx_data with hash_verified := fun x => decide (x = 2) } = some (r, s2) ∧
      (decide (r = 0) && !(s2.hash_verified (hash_block_of fx_v 16 1))) = true) ∧
    (∃ r s2, verity_verify_io toy_env fx_v_logging ⟨16, 1⟩
        { fx_state fx_data with bufs := fx_bufs_bad } = some (r, s2) ∧
      (decide (r = 0) && !(s2.hash_verified (hash_block_of fx_v_logging 16 0))) = true) :=
  ⟨run_check_some _ (fun r s2 => decide (r = 0) && !(s2.hash_verified (hash_block_of fx_v 16 1)))
      (by decide!),
    run_check_some _
      (fun r s2 => decide (r = 0) && !(s2.hash_verified (hash_block_of fx_v_logging 16 0)))
      (by decide!)⟩

theorem step_continues_some (x : Option (Option Int × State)) (h : step_continues x = true) :
    ∃ s2, x = some (none, s2) := by
  unfold step_continues at h
  split at h
  · next s2 => exact ⟨s2, rfl⟩
  · cases h

/-- Witness of C3 (amended): a read of data block 16 of the example volume in
EIO mode with no flag set flags both hash blocks of the path. -/
theorem verified_path_after_success_witness :
    fx_v.mode ≠ verity_mode.LOGGING ∧
    ¬ skipped_once fx_v (fx_state fx_data) ((16 + 0) % 2 ^ 64) ∧
    ∃ s2, verity_verify_io_block toy_env fx_v ⟨16, 1⟩ (fx_state fx_data) 0 = some (none, s2) ∧
      ∀ L, L < fx_v.levels →
        (L = 0 ∨ (fx_state fx_data).hash_verified (hash_block_of fx_v ((16 + 0) % 2 ^ 64) 0)
          = false) →
        s2.hash_verified (hash_block_of fx_v ((16 + 0) % 2 ^ 64) L) = true := by
  have hmode : fx_v.mode ≠ verity_mode.LOGGING := by decide!
  have hns : ¬ skipped_once fx_v (fx_state fx_data) ((16 + 0) % 2 ^ 64) := by
    unfold skipped_once
    decide!
  obtain ⟨s2, hs2⟩ := step_continues_some
    (verity_verify_io_block toy_env fx_v ⟨16, 1⟩ (fx_state fx_data) 0) (by decide!)
  exact ⟨hmode, hns, s2, hs2,
    verified_path_after_success toy_env fx_v ⟨16, 1⟩ (fx_state fx_data) 0 s2 hmode hns hs2⟩

/-! ## What a successful request returns -/

/-- A run of the loop of `verity_verify_io` that returns 0 keeps the length of
the payload and the bytes before its cursor, and every step of it started at a
cursor advanced by whole data blocks. -/
theorem verity_verify_io_loop_general (E : Env) (v : dm_verity) (io : dm_verity_io)
    (hbs : 0 < data_block_bytes v) :
    ∀ (n b : Nat) (s s2 : State), verity_verify_io_loop E v io n b s = some (0, s2) →
      s2.payload.length = s.payload.length ∧
      (∀ q m, q + m ≤ s.iter → bytes_at s2.payload q m = bytes_at s.payload q m) ∧
      ∀ k, k < n → ∃ sk, verity_verify_io_loop E v io k b s = some (0, sk) ∧
        sk.iter = s.iter + k * data_block_bytes v := by
  intro n
  induction n with
  | zero =>
    intro b s s2 h
    rw [verity_verify_io_loop] at h
    injection h with h
    injection h with _ h2
    subst h2
    exact ⟨rfl, fun _ _ _ => rfl, fun k hk => absurd hk (Nat.not_lt_zero k)⟩
  | succ n ih =>
    intro b s s2 h
    rw [verity_verify_io_loop] at h
    split at h
    · cases h
    · next r s1 hstep =>
      obtain ⟨g1, _⟩ := verity_verify_io_block_general E v io s b (some r) s1 hbs hstep
      have hr := g1 r rfl
      injection h with h
      injection h with h1 _
      omega
    · next s1 hstep =>
      obtain ⟨_, g2⟩ := verity_verify_io_block_general E v io s b none s1 hbs hstep
      obtain ⟨k1, k2, k3, _⟩ := g2 rfl
      obtain ⟨i1, i2, i3⟩ := ih (b + 1) s1 s2 h
      refine ⟨i1.trans k2, ?_, ?_⟩
      · intro q m hq
        rw [i2 q m (by omega), k3 q m hq]
      · intro k hk
        cases k with
        | zero => exact ⟨s, rfl, by omega⟩
        | succ k =>
          obtain ⟨sk, j1, j2⟩ := i3 k (by omega)
          refine ⟨sk, ?_, ?_⟩
          · rw [verity_verify_io_loop, hstep]
            exact j1
          · rw [j2, k1]
            ring

/-- C2 (counterexample): on the example volume a read of data block 16 that
delivers corrupted data returns 0 with the corrupted block, which is justified
in none of the three ways of the spec, (a) in Logging mode and (b) with the
`check_at_most_once` bitmap when the bit of the block is set. -/
theorem verity_verify_io_returns_unverified :
    (∃ r s2, verity_verify_io toy_env fx_v_logging ⟨16, 1⟩ (fx_state fx_data_bad)
        = some (r, s2) ∧
      (decide (r = 0) && decide (bytes_at s2.payload 0 512 = fx_data_bad) &&
        !(payload_justified toy_env fx_v_logging (fx_state fx_data_bad) 16
          (bytes_at s2.payload 0 512))) = true) ∧
    (∃ r s2, verity_verify_io toy_env fx_v_once ⟨16, 1⟩
        { fx_state fx_data_bad with validated_blocks := fun x => decide (x = 16) }
        = some (r, s2) ∧
      (decide (r = 0) && decide (bytes_at s2.payload 0 512 = fx_data_bad) &&
        !(payload_justified toy_env fx_v_once
          { fx_state fx_data_bad with validated_blocks := fun x => decide (x = 16) } 16
          (bytes_at s2.payload 0 512))) = true) :=
  ⟨run_check_some _
      (fun r s2 => decide (r = 0) && decide (bytes_at s2.payload 0 512 = fx_data_bad) &&
        !(payload_justified toy_env fx_v_logging (fx_state fx_data_bad) 16
          (bytes_at s2.payload 0 512)))
      (by decide!),
    run_check_some _
      (fun r s2 => decide (r = 0) && decide (bytes_at s2.payload 0 512 = fx_data_bad) &&
        !(payload_justified toy_env fx_v_once
          { fx_state fx_data_bad with validated_blocks := fun x => decide (x = 16) } 16
          (bytes_at s2.payload 0 512)))
      (by decide!)⟩

/-! ## Order of the level start indices -/

theorem level_size_pos (d hpb i : Nat) (hd : 1 ≤ d) : 1 ≤ level_size d hpb i := by
  unfold level_size ceil_div
  have hp : 0 < 2 ^ ((i + 1) * hpb) := Nat.pow_pos (by decide)
  exact (Nat.one_le_div_iff hp).mpr (by omega)

theorem verity_ctr_levels_zero_blocks (hpb : Nat) : verity_ctr_levels 0 hpb = some 0 := by
  unfold verity_ctr_levels
  rw [if_neg (by decide)]

theorem level_sum_strict (d hpb n : Nat) (hd : 1 ≤ d) (i j : Nat) (hij : i < j) (hj : j < n) :
    level_sum d hpb (j + 1) n < level_sum d hpb (i + 1) n := by
  have h1 : level_sum d hpb (i + 1) n ≥ level_sum d hpb j n := by
    have := level_sum_anti d hpb n (j - (i + 1)) (i + 1) (by omega)
    have e : i + 1 + (j - (i + 1)) = j := by omega
    rw [e] at this
    exact this
  have h2 := level_sum_succ_bot d hpb j n hj
  have h3 := level_size_pos d hpb j hd
  omega

/-- C11 (counterexample): the constructor accepts the volume of 129 data blocks
with two tree levels, and there the start index of the top level is not at
least the start index of the level below it: the top level starts first. -/
theorem hash_level_block_not_decreasing_to_root :
    ∃ v, verity_ctr two_level_args = .ok v ∧ 2 ≤ v.levels ∧
      ¬ (v.hash_level_block (v.levels - 1) ≥ v.hash_level_block (v.levels - 2)) := by
  obtain ⟨v, hv, hp⟩ := except_ok_of_check (verity_ctr two_level_args)
    (fun v => decide (2 ≤ v.levels ∧
      ¬ (v.hash_level_block (v.levels - 1) ≥ v.hash_level_block (v.levels - 2)))) (by decide)
  exact ⟨v, hv, of_decide_eq_true hp⟩

/-- C11 (amended): for every accepted geometry with `levels ≥ 2` the top level
starts at `hash_start` and the level start indices strictly increase from the
top level down to level 0:
`hash_level_block[levels-1] < hash_level_block[levels-2] < ... < hash_level_block[0]`. -/
theorem hash_level_block_increasing_from_root (a : ctr_args) (v : dm_verity)
    (h : verity_ctr a = .ok v) (hl : 2 ≤ v.levels) :
    v.hash_level_block (v.levels - 1) = v.hash_start ∧
    (∀ i, i + 1 < v.levels → v.hash_level_block (i + 1) < v.hash_level_block i) ∧
    ∀ i j, i < j → j < v.levels → v.hash_level_block j < v.hash_level_block i := by
  obtain ⟨_, t, _⟩ := verity_ctr_accepts a v h
  have hd : 1 ≤ v.data_blocks := by
    rcases Nat.eq_zero_or_pos v.data_blocks with h0 | h0
    · have := t.levels_eq
      rw [h0, verity_ctr_levels_zero_blocks] at this
      injection this with this
      omega
    · exact h0
  have key : ∀ i j, i < j → j < v.levels → v.hash_level_block j < v.hash_level_block i := by
    intro i j hij hj
    rw [t.table i (by omega), t.table j hj]
    have := level_sum_strict v.data_blocks v.hash_per_block_bits v.levels hd i j hij hj
    omega
  refine ⟨?_, fun i hi => key i (i + 1) (by omega) hi, key⟩
  rw [t.table (v.levels - 1) (by omega)]
  have e : v.levels - 1 + 1 = v.levels := by omega
  rw [e, level_sum_self]
  rfl

/-- Witness of C11 (amended): the volume of 129 data blocks with two levels. -/
theorem hash_level_block_increasing_from_root_witness :
    ∃ v, verity_ctr two_level_args = .ok v ∧ 2 ≤ v.levels ∧
      v.hash_level_block (v.levels - 1) = v.hash_start ∧
      (∀ i, i + 1 < v.levels → v.hash_level_block (i + 1) < v.hash_level_block i) ∧
      ∀ i j, i < j → j < v.levels → v.hash_level_block j < v.hash_level_block i := by
  obtain ⟨v, hv, hp⟩ := except_ok_of_check (verity_ctr two_level_args)
    (fun v => decide (2 ≤ v.levels)) (by decide)
  exact ⟨v, hv, of_decide_eq_true hp,
    hash_level_block_increasing_from_root two_level_args v hv (of_decide_eq_true hp)⟩

/-! ## The map function -/

theorem or_eq_zero_iff_both (a b : Nat) : a ||| b = 0 ↔ a = 0 ∧ b = 0 := by
  constructor
  · intro h
    constructor
    · apply Nat.eq_of_testBit_eq
      intro i
      have := congrArg (fun x => x.testBit i) h
      simp only [Nat.testBit_or, Nat.zero_testBit, Bool.or_eq_false_iff] at this
      rw [this.1, Nat.zero_testBit]
    · apply Nat.eq_of_testBit_eq
      intro i
      have := congrArg (fun x => x.testBit i) h
      simp only [Nat.testBit_or, Nat.zero_testBit, Bool.or_eq_false_iff] at this
      rw [this.2, Nat.zero_testBit]
  · rintro ⟨rfl, rfl⟩
    rfl

/-- The alignment test of `verity_map` on the low 32 bits is the test that both
the sector and the sector count are multiples of `2 ^ k`, for `k ≤ 31`. -/
theorem aligned_iff (s n k : Nat) (hk : k ≤ 31) :
    ((s % 2 ^ 32 ||| n) &&& (((1 <<< k) - 1) % 2 ^ 32)) = 0 ↔ s % 2 ^ k = 0 ∧ n % 2 ^ k = 0 := by
  have hlt : (1 <<< k) - 1 < 2 ^ 32 := by
    rw [Nat.one_shiftLeft]
    have : 2 ^ k ≤ 2 ^ 31 := Nat.pow_le_pow_right (by decide) hk
    omega
  rw [Nat.mod_eq_of_lt hlt, Nat.one_shiftLeft, Nat.and_distrib_right,
    Nat.and_pow_two_sub_one_eq_mod, Nat.and_pow_two_sub_one_eq_mod, or_eq_zero_iff_both]
  have e : s % 2 ^ 32 % 2 ^ k = s % 2 ^ k :=
    Nat.mod_mod_of_dvd s (Nat.pow_dvd_pow 2 (by omega))
  rw [e]

/-- The three rejections of `verity_map` return `DM_MAPIO_KILL` with no record
and at most an error message; otherwise the bio is submitted. -/
theorem verity_map_cases (v : dm_verity) (ti_begin : Nat) (pw : Bool) (b : bio) :
    ((verity_map v ti_begin pw b).r = DM_MAPIO_KILL ∧ (verity_map v ti_begin pw b).io = none ∧
      ∀ e ∈ (verity_map v ti_begin pw b).events, MapEv.acts e = false) ∨
    ((verity_map v ti_begin pw b).r = DM_MAPIO_SUBMITTED ∧ b.dir ≠ bio_dir.WRITE ∧
      (verity_map v ti_begin pw b).events =
        [MapEv.set_end_io, MapEv.fec_init_io] ++
          verity_submit_prefetch pw
            { block := verity_map_sector v ti_begin b.bi_sector >>>
                (v.data_dev_block_bits - SECTOR_SHIFT),
              n_blocks := (b.bi_size % 2 ^ 32) >>> v.data_dev_block_bits } ++
          [MapEv.generic_make_request (verity_map v ti_begin pw b).b]) := by
  unfold verity_map
  simp only []
  split
  · left
    refine ⟨rfl, rfl, ?_⟩
    intro e he
    simp only [List.mem_singleton] at he
    rw [he]
    rfl
  · split
    · left
      refine ⟨rfl, rfl, ?_⟩
      intro e he
      simp only [List.mem_singleton] at he
      rw [he]
      rfl
    · split
      · left
        refine ⟨rfl, rfl, ?_⟩
        intro e he
        cases he
      · next hw =>
        right
        exact ⟨rfl, hw, rfl⟩

/-- The bio that `verity_map` leaves is the incoming bio with its sector
remapped. -/
theorem verity_map_bio (v : dm_verity) (ti_begin : Nat) (pw : Bool) (b : bio) :
    (verity_map v ti_begin pw b).b =
      { b with bi_sector := verity_map_sector v ti_begin b.bi_sector } := by
  unfold verity_map
  simp only []
  split_ifs <;> rfl

/-- C12: for every accepted geometry and every read request whose start sector
(after the remapping by `verity_map_sector`) and sector count are multiples of
the data block size, the request lying inside the target so that its end sector
`start + count` is a `sector_t` value (below `2 ^ 64`), `verity_map` returns
`DM_MAPIO_KILL` (recording nothing, submitting nothing) if and only if the end
sector converted to blocks exceeds `data_blocks`; otherwise it returns
`DM_MAPIO_SUBMITTED`, submits the bio, and the recorded `io->block` and
`io->n_blocks` satisfy
`io->block * 2 ^ (data_dev_block_bits - 9) = start sector`,
`io->n_blocks * 2 ^ data_dev_block_bits = 512 * sector count` (the byte length
of a bio that is a whole number of sectors) and
`io->block + io->n_blocks ≤ data_blocks`. -/
theorem verity_map_range (a : ctr_args) (v : dm_verity) (hv : verity_ctr a = .ok v)
    (ti_begin : Nat) (pw : Bool) (b : bio) (hdir : b.dir = bio_dir.READ)
    (hs : verity_map_sector v ti_begin b.bi_sector % 2 ^ (v.data_dev_block_bits - 9) = 0)
    (hn : bio_sectors b % 2 ^ (v.data_dev_block_bits - 9) = 0)
    (hw : verity_map_sector v ti_begin b.bi_sector + bio_sectors b < 2 ^ 64) :
    ((verity_map v ti_begin pw b).r = DM_MAPIO_KILL ↔
      v.data_blocks < (verity_map_sector v ti_begin b.bi_sector + bio_sectors b)
        / 2 ^ (v.data_dev_block_bits - 9)) ∧
    ((verity_map v ti_begin pw b).r = DM_MAPIO_KILL →
      (verity_map v ti_begin pw b).io = none ∧
      ∀ e ∈ (verity_map v ti_begin pw b).events, MapEv.acts e = false) ∧
    ((verity_map v ti_begin pw b).r ≠ DM_MAPIO_KILL →
      (verity_map v ti_begin pw b).r = DM_MAPIO_SUBMITTED ∧
      MapEv.generic_make_request (verity_map v ti_begin pw b).b
        ∈ (verity_map v ti_begin pw b).events ∧
      ∃ io, (verity_map v ti_begin pw b).io = some io ∧
        io.block * 2 ^ (v.data_dev_block_bits - 9)
          = verity_map_sector v ti_begin b.bi_sector ∧
        io.n_blocks * 2 ^ v.data_dev_block_bits = bio_sectors b * 512 ∧
        (b.bi_size < 2 ^ 32 → b.bi_size % 512 = 0 →
          io.n_blocks * 2 ^ v.data_dev_block_bits = b.bi_size) ∧
        io.block + io.n_blocks ≤ v.data_blocks) := by
  obtain ⟨g, _, _⟩ := verity_ctr_accepts a v hv
  have g1 := g.data_bits_ge
  have g2 := g.data_bits_le
  unfold SECTOR_SHIFT at g1
  generalize hS : verity_map_sector v ti_begin b.bi_sector = S at hs hw ⊢
  generalize hk : v.data_dev_block_bits - 9 = k at hs hn ⊢
  have hk3 : k ≤ 3 := by omega
  have hal := (aligned_iff S (bio_sectors b) k (by omega)).mpr ⟨hs, hn⟩
  have hbits : v.data_dev_block_bits = 9 + k := by omega
  have hnb : (b.bi_size % 2 ^ 32) >>> v.data_dev_block_bits = bio_sectors b / 2 ^ k := by
    unfold bio_sectors
    rw [hbits, Nat.shiftRight_add, Nat.shiftRight_eq_div_pow _ k]
  have hend : bio_end_sector { b with bi_sector := S } = S + bio_sectors b := by
    unfold bio_end_sector
    exact Nat.mod_eq_of_lt hw
  have hdiv : (S + bio_sectors b) / 2 ^ k = S / 2 ^ k + bio_sectors b / 2 ^ k := by
    obtain ⟨x, hx⟩ := Nat.dvd_of_mod_eq_zero hs
    obtain ⟨y, hy⟩ := Nat.dvd_of_mod_eq_zero hn
    have hp : 0 < 2 ^ k := Nat.pow_pos (by decide)
    rw [hx, hy, ← Nat.mul_add, Nat.mul_div_cancel_left _ hp, Nat.mul_div_cancel_left _ hp,
      Nat.mul_div_cancel_left _ hp]
  have hout : verity_map v ti_begin pw b =
      if S >>> k + bio_sectors b / 2 ^ k > v.data_blocks then
        { r := DM_MAPIO_KILL, b := { b with bi_sector := S }, io := none,
          events := [MapEv.dmerr "io out of range"] }
      else
        { r := DM_MAPIO_SUBMITTED, b := { b with bi_sector := S },
          io := some { block := S >>> k, n_blocks := bio_sectors b / 2 ^ k },
          events := [MapEv.set_end_io, MapEv.fec_init_io] ++
            verity_submit_prefetch pw { block := S >>> k, n_blocks := bio_sectors b / 2 ^ k }
            ++ [MapEv.generic_make_request { b with bi_sector := S }] } := by
    unfold verity_map
    simp only []
    unfold SECTOR_SHIFT
    rw [hS, hk, hnb, hend, Nat.shiftRight_eq_div_pow (S + bio_sectors b), hdiv,
      Nat.shiftRight_eq_div_pow S]
    have e : bio_sectors { b with bi_sector := S } = bio_sectors b := rfl
    rw [e, if_neg (by rw [hal]; exact fun h => h rfl)]
    simp only [hdir, if_neg (by decide : ¬ bio_dir.READ = bio_dir.WRITE)]
  rw [hout, hdiv, Nat.shiftRight_eq_div_pow S]
  by_cases hr : S / 2 ^ k + bio_sectors b / 2 ^ k > v.data_blocks
  · rw [if_pos hr]
    refine ⟨⟨fun _ => hr, fun _ => rfl⟩, fun _ => ⟨rfl, ?_⟩, fun h => absurd rfl h⟩
    intro e he
    simp only [List.mem_singleton] at he
    rw [he]
    rfl
  · rw [if_neg hr]
    have hne : DM_MAPIO_SUBMITTED ≠ DM_MAPIO_KILL := by decide
    refine ⟨⟨fun h => absurd h hne, fun h => absurd h hr⟩,
      fun h => absurd h hne, fun _ => ⟨rfl, by simp, _, rfl, ?_, ?_, ?_, ?_⟩⟩
    · exact Nat.div_mul_cancel (Nat.dvd_of_mod_eq_zero hs)
    · show bio_sectors b / 2 ^ k * 2 ^ v.data_dev_block_bits = bio_sectors b * 512
      rw [hbits, Nat.pow_add, ← Nat.mul_assoc, Nat.mul_comm (bio_sectors b / 2 ^ k) (2 ^ 9),
        Nat.mul_assoc, Nat.div_mul_cancel (Nat.dvd_of_mod_eq_zero hn)]
      omega
    · intro h1 h2
      show bio_sectors b / 2 ^ k * 2 ^ v.data_dev_block_bits = b.bi_size
      rw [hbits, Nat.pow_add, ← Nat.mul_assoc, Nat.mul_comm (bio_sectors b / 2 ^ k) (2 ^ 9),
        Nat.mul_assoc, Nat.div_mul_cancel (Nat.dvd_of_mod_eq_zero hn)]
      unfold bio_sectors
      rw [Nat.mod_eq_of_lt h1, Nat.shiftRight_eq_div_pow]
      omega
    · show S / 2 ^ k + bio_sectors b / 2 ^ k ≤ v.data_blocks
      omega

/-- Witness of C12: on the volume of 129 data blocks of 4096 bytes, a
read of sectors 8 to 15 is submitted as block 1, one block. -/
theorem verity_map_range_witness :
    ∃ v, verity_ctr two_level_args = .ok v ∧
      (verity_map v 0 true ⟨8, 4096, bio_dir.READ⟩).r ≠ DM_MAPIO_KILL ∧
      (verity_map v 0 true ⟨8, 4096, bio_dir.READ⟩).r = DM_MAPIO_SUBMITTED ∧
      ∃ io, (verity_map v 0 true ⟨8, 4096, bio_dir.READ⟩).io = some io ∧
        io.block * 2 ^ (v.data_dev_block_bits - 9) = verity_map_sector v 0 8 ∧
        io.block + io.n_blocks ≤ v.data_blocks := by
  obtain ⟨v, hv, hp⟩ := except_ok_of_check (verity_ctr two_level_args)
    (fun v => decide (
      verity_map_sector v 0 8 % 2 ^ (v.data_dev_block_bits - 9) = 0 ∧
      bio_sectors ⟨8, 4096, bio_dir.READ⟩ % 2 ^ (v.data_dev_block_bits - 9) = 0 ∧
      verity_map_sector v 0 8 + bio_sectors ⟨8, 4096, bio_dir.READ⟩ < 2 ^ 64 ∧
      (verity_map v 0 true ⟨8, 4096, bio_dir.READ⟩).r ≠ DM_MAPIO_KILL)) (by decide)
  obtain ⟨h1, h2, h3, h4⟩ := of_decide_eq_true hp
  obtain ⟨_, _, h7⟩ :=
    verity_map_range two_level_args v hv 0 true ⟨8, 4096, bio_dir.READ⟩ rfl h1 h2 h3
  obtain ⟨h8, _, io, h9, h10, _, _, h11⟩ := h7 h4
  exact ⟨v, hv, h4, h8, io, h9, h10, h11⟩

/-- C13 (counterexample): on the accepted volume of 129 data blocks of 4096
bytes a read of zero length at sector 0 is not rejected: `verity_map` returns
`DM_MAPIO_SUBMITTED` and submits the bio. -/
theorem verity_map_zero_length_submitted :
    ∃ v, verity_ctr two_level_args = .ok v ∧
      bio_sectors ⟨0, 0, bio_dir.READ⟩ = 0 ∧
      (verity_map v 0 true ⟨0, 0, bio_dir.READ⟩).r = DM_MAPIO_SUBMITTED ∧
      (verity_map v 0 true ⟨0, 0, bio_dir.READ⟩).r ≠ DM_MAPIO_KILL ∧
      MapEv.generic_make_request (verity_map v 0 true ⟨0, 0, bio_dir.READ⟩).b
        ∈ (verity_map v 0 true ⟨0, 0, bio_dir.READ⟩).events := by
  obtain ⟨v, hv, hp⟩ := except_ok_of_check (verity_ctr two_level_args)
    (fun v => decide (
      bio_sectors ⟨0, 0, bio_dir.READ⟩ = 0 ∧
      (verity_map v 0 true ⟨0, 0, bio_dir.READ⟩).r = DM_MAPIO_SUBMITTED ∧
      (verity_map v 0 true ⟨0, 0, bio_dir.READ⟩).r ≠ DM_MAPIO_KILL ∧
      MapEv.generic_make_request (verity_map v 0 true ⟨0, 0, bio_dir.READ⟩).b
        ∈ (verity_map v 0 true ⟨0, 0, bio_dir.READ⟩).events)) (by decide)
  exact ⟨v, hv, of_decide_eq_true hp⟩

/-- C13 (amended): for every accepted geometry, a request of zero length is
rejected by `verity_map` with `DM_MAPIO_KILL` if and only if its start sector
is not a multiple of the data block size, or its start sector converted to
blocks exceeds `data_blocks`, or it is a write; a zero-length read at an
aligned start sector within the volume is submitted to the data device, with
`io->n_blocks = 0`. -/
theorem verity_map_zero_length (a : ctr_args) (v : dm_verity) (hv : verity_ctr a = .ok v)
    (ti_begin : Nat) (pw : Bool) (b : bio) (hz : b.bi_size = 0) :
    ((verity_map v ti_begin pw b).r = DM_MAPIO_KILL ↔
      (verity_map_sector v ti_begin b.bi_sector % 2 ^ (v.data_dev_block_bits - 9) ≠ 0 ∨
        v.data_blocks <
          verity_map_sector v ti_begin b.bi_sector / 2 ^ (v.data_dev_block_bits - 9) ∨
        b.dir = bio_dir.WRITE)) ∧
    ((verity_map v ti_begin pw b).r ≠ DM_MAPIO_KILL →
      (verity_map v ti_begin pw b).r = DM_MAPIO_SUBMITTED ∧
      MapEv.generic_make_request (verity_map v ti_begin pw b).b
        ∈ (verity_map v ti_begin pw b).events ∧
      ∃ io, (verity_map v ti_begin pw b).io = some io ∧ io.n_blocks = 0 ∧
        io.block = verity_map_sector v ti_begin b.bi_sector
          / 2 ^ (v.data_dev_block_bits - 9)) := by
  obtain ⟨g, _, _⟩ := verity_ctr_accepts a v hv
  have g1 := g.data_bits_ge
  have g2 := g.data_bits_le
  unfold SECTOR_SHIFT at g1
  have hS : verity_map_sector v ti_begin b.bi_sector < 2 ^ 64 := Nat.mod_lt _ (by decide)
  generalize hSe : verity_map_sector v ti_begin b.bi_sector = S at hS ⊢
  generalize hk : v.data_dev_block_bits - 9 = k
  have hn : bio_sectors b = 0 := by
    unfold bio_sectors
    rw [hz]
    rfl
  have hal := aligned_iff S (bio_sectors b) k (by omega)
  rw [hn] at hal
  have hal2 : ((S % 2 ^ 32 ||| 0) &&& (((1 <<< k) - 1) % 2 ^ 32)) = 0 ↔ S % 2 ^ k = 0 :=
    hal.trans ⟨fun h => h.1, fun h => ⟨h, Nat.zero_mod _⟩⟩
  have hend : bio_end_sector { b with bi_sector := S } = S := by
    unfold bio_end_sector
    have e : bio_sectors { b with bi_sector := S } = 0 := hn
    rw [e, Nat.add_zero]
    exact Nat.mod_eq_of_lt hS
  have hne : DM_MAPIO_SUBMITTED ≠ DM_MAPIO_KILL := by decide
  have hout : verity_map v ti_begin pw b =
      if ((S % 2 ^ 32 ||| 0) &&& (((1 <<< k) - 1) % 2 ^ 32)) ≠ 0 then
        { r := DM_MAPIO_KILL, b := { b with bi_sector := S }, io := none,
          events := [MapEv.dmerr "unaligned io"] }
      else if S / 2 ^ k > v.data_blocks then
        { r := DM_MAPIO_KILL, b := { b with bi_sector := S }, io := none,
          events := [MapEv.dmerr "io out of range"] }
      else if b.dir = bio_dir.WRITE then
        { r := DM_MAPIO_KILL, b := { b with bi_sector := S }, io := none, events := [] }
      else
        { r := DM_MAPIO_SUBMITTED, b := { b with bi_sector := S },
          io := some { block := S / 2 ^ k, n_blocks := 0 },
          events := [MapEv.set_end_io, MapEv.fec_init_io] ++
            verity_submit_prefetch pw { block := S / 2 ^ k, n_blocks := 0 }
            ++ [MapEv.generic_make_request { b with bi_sector := S }] } := by
    unfold verity_map
    simp only []
    unfold SECTOR_SHIFT
    have e : bio_sectors { b with bi_sector := S } = 0 := hn
    have hnb : (b.bi_size % 2 ^ 32) >>> v.data_dev_block_bits = 0 := by
      rw [hz]
      exact Nat.zero_shiftRight _
    rw [hSe, hk, hend, e, hnb, Nat.shiftRight_eq_div_pow S]
  rw [hout]
  by_cases c1 : ((S % 2 ^ 32 ||| 0) &&& (((1 <<< k) - 1) % 2 ^ 32)) ≠ 0
  · rw [if_pos c1]
    have c1b : S % 2 ^ k ≠ 0 := fun h => c1 (hal2.mpr h)
    exact ⟨⟨fun _ => Or.inl c1b, fun _ => rfl⟩, fun h => absurd rfl h⟩
  · rw [if_neg c1]
    have c1b : S % 2 ^ k = 0 := hal2.mp (not_not.mp c1)
    by_cases c2 : S / 2 ^ k > v.data_blocks
    · rw [if_pos c2]
      exact ⟨⟨fun _ => Or.inr (Or.inl c2), fun _ => rfl⟩, fun h => absurd rfl h⟩
    · rw [if_neg c2]
      by_cases c3 : b.dir = bio_dir.WRITE
      · rw [if_pos c3]
        exact ⟨⟨fun _ => Or.inr (Or.inr c3), fun _ => rfl⟩, fun h => absurd rfl h⟩
      · rw [if_neg c3]
        refine ⟨⟨fun h => absurd h hne, ?_⟩, fun _ => ⟨rfl, by simp, _, rfl, rfl, rfl⟩⟩
        rintro (h | h | h)
        · exact absurd c1b h
        · exact absurd h c2
        · exact absurd h c3

/-- Witness of C13 (amended): the zero-length read at sector 0 of the volume of
129 data blocks. -/
theorem verity_map_zero_length_witness :
    ∃ v, verity_ctr two_level_args = .ok v ∧
      (verity_map v 0 true ⟨0, 0, bio_dir.READ⟩).r ≠ DM_MAPIO_KILL ∧
      (verity_map v 0 true ⟨0, 0, bio_dir.READ⟩).r = DM_MAPIO_SUBMITTED ∧
      ∃ io, (verity_map v 0 true ⟨0, 0, bio_dir.READ⟩).io = some io ∧ io.n_blocks = 0 := by
  obtain ⟨v, hv, hp⟩ := except_ok_of_check (verity_ctr two_level_args)
    (fun v => decide ((verity_map v 0 true ⟨0, 0, bio_dir.READ⟩).r ≠ DM_MAPIO_KILL)) (by decide)
  have h4 := of_decide_eq_true hp
  obtain ⟨h8, _, io, h9, h10, _⟩ :=
    (verity_map_zero_length two_level_args v hv 0 true ⟨0, 0, bio_dir.READ⟩ rfl).2 h4
  exact ⟨v, hv, h4, h8, io, h9, h10⟩

/-- C14: for every request whose data direction is WRITE, whatever its
alignment and range, `verity_map` returns `DM_MAPIO_KILL`, fills no
`dm_verity_io` record and does nothing beyond an error message (no completion
interceptor, no prefetch, no submission); and every bio that `verity_map`
submits to the data device with `generic_make_request` is a read. -/
theorem verity_map_write_killed :
    (∀ (v : dm_verity) (ti_begin : Nat) (pw : Bool) (b : bio), b.dir = bio_dir.WRITE →
      (verity_map v ti_begin pw b).r = DM_MAPIO_KILL ∧
      (verity_map v ti_begin pw b).io = none ∧
      (∀ e ∈ (verity_map v ti_begin pw b).events, MapEv.acts e = false) ∧
      MapEv.set_end_io ∉ (verity_map v ti_begin pw b).events ∧
      (∀ blk n, MapEv.queue_prefetch blk n ∉ (verity_map v ti_begin pw b).events) ∧
      ∀ b1, MapEv.generic_make_request b1 ∉ (verity_map v ti_begin pw b).events) ∧
    (∀ (v : dm_verity) (ti_begin : Nat) (pw : Bool) (b b1 : bio),
      MapEv.generic_make_request b1 ∈ (verity_map v ti_begin pw b).events →
        b1.dir = bio_dir.READ ∧ b.dir = bio_dir.READ) := by
  constructor
  · intro v ti_begin pw b hw
    rcases verity_map_cases v ti_begin pw b with ⟨h1, h2, h3⟩ | ⟨_, h2, _⟩
    · refine ⟨h1, h2, h3, fun h => ?_, fun blk n h => ?_, fun b1 h => ?_⟩
      · exact absurd (h3 _ h) (by decide)
      · exact absurd (h3 _ h) (by simp [MapEv.acts])
      · exact absurd (h3 _ h) (by simp [MapEv.acts])
    · exact absurd hw h2
  · intro v ti_begin pw b b1 hm
    rcases verity_map_cases v ti_begin pw b with ⟨_, _, h3⟩ | ⟨_, h2, h3⟩
    · exact absurd (h3 _ hm) (by simp [MapEv.acts])
    · have hb : b.dir = bio_dir.READ := by
        cases hd : b.dir
        · rfl
        · exact absurd hd h2
      rw [h3] at hm
      have hb1 : b1 = (verity_map v ti_begin pw b).b := by
        unfold verity_submit_prefetch at hm
        split at hm <;> simpa using hm
      refine ⟨?_, hb⟩
      rw [hb1, verity_map_bio]
      exact hb

/-- Witness of C14: an aligned write inside the volume of 129 data blocks is
killed. -/
theorem verity_map_write_killed_witness :
    (verity_map (ctr_verity two_level_args) 0 true ⟨8, 4096, bio_dir.WRITE⟩).r = DM_MAPIO_KILL ∧
    (verity_map (ctr_verity two_level_args) 0 true ⟨8, 4096, bio_dir.WRITE⟩).io = none :=
  ⟨(verity_map_write_killed.1 (ctr_verity two_level_args) 0 true ⟨8, 4096, bio_dir.WRITE⟩ rfl).1,
    (verity_map_write_killed.1 (ctr_verity two_level_args) 0 true
      ⟨8, 4096, bio_dir.WRITE⟩ rfl).2.1⟩

/-! ## The zero-block fast path -/

theorem verity_hash_for_block_is_zero (E : Env) (v : dm_verity) (s : State) (block : Nat)
    (digest : List Nat) :
    (verity_hash_for_block E v s block digest).2.2.2 =
      match v.zero_digest with
      | some z => decide ((verity_hash_for_block E v s block digest).1 = 0) &&
          memcmp_eq z (verity_hash_for_block E v s block digest).2.2.1 v.digest_size
      | none => false := by
  unfold verity_hash_for_block
  simp only []
  split_ifs <;> rfl

theorem data_block_bytes_eq (v : dm_verity) (h : v.data_dev_block_bits < 32) :
    data_block_bytes v = 2 ^ v.data_dev_block_bits := by
  unfold data_block_bytes
  rw [Nat.one_shiftLeft]
  exact Nat.mod_eq_of_lt (Nat.pow_lt_pow_right (by decide) h)

/-- C15: with `zero_digest` configured, when `verity_hash_for_block` returns 0
with an expected digest equal to `zero_digest`, the step of `verity_verify_io`
for that block continues with success: it overwrites exactly the
`2 ^ data_dev_block_bits` payload bytes of the block with zeros whatever the
device delivered, leaves the rest of the payload as it was, advances the cursor
by one data block and does nothing else after the lookup (no digest operation:
the trace is that of the lookup).  And `*is_zero` is false whenever
`zero_digest` is absent or `verity_hash_for_block` returns non-zero. -/
theorem verity_verify_io_zero_block (E : Env) (v : dm_verity) (io : dm_verity_io) (s : State)
    (b : Nat) (z : List Nat) (hseg : ∀ p, 0 < E.bv_len p)
    (hbits : v.data_dev_block_bits < 32)
    (hroom : s.iter + 2 ^ v.data_dev_block_bits ≤ s.payload.length)
    (hns : ¬ skipped_once v s ((io.block + b) % 2 ^ 64))
    (hz : v.zero_digest = some z)
    (hr : (verity_hash_for_block E v s ((io.block + b) % 2 ^ 64) s.want_digest).1 = 0)
    (hw : memcmp_eq z (verity_hash_for_block E v s ((io.block + b) % 2 ^ 64) s.want_digest).2.2.1
      v.digest_size = true) :
    (∃ s2, verity_verify_io_block E v io s b = some (none, s2) ∧
      s2 = { (verity_hash_for_block E v s ((io.block + b) % 2 ^ 64) s.want_digest).2.1 with
        want_digest :=
          (verity_hash_for_block E v s ((io.block + b) % 2 ^ 64) s.want_digest).2.2.1
        iter := s.iter + 2 ^ v.data_dev_block_bits
        payload := write_at s.payload s.iter (List.replicate (2 ^ v.data_dev_block_bits) 0) } ∧
      s2.iter = s.iter + 2 ^ v.data_dev_block_bits ∧
      s2.payload.length = s.payload.length ∧
      bytes_at s2.payload s.iter (2 ^ v.data_dev_block_bits)
        = List.replicate (2 ^ v.data_dev_block_bits) 0 ∧
      (∀ q n, q + n ≤ s.iter → bytes_at s2.payload q n = bytes_at s.payload q n) ∧
      (∀ q n, s.iter + 2 ^ v.data_dev_block_bits ≤ q →
        bytes_at s2.payload q n = bytes_at s.payload q n) ∧
      s2.trace =
        (verity_hash_for_block E v s ((io.block + b) % 2 ^ 64) s.want_digest).2.1.trace ∧
      s2.req = (verity_hash_for_block E v s ((io.block + b) % 2 ^ 64) s.want_digest).2.1.req) ∧
    (∀ (s0 : State) (block : Nat) (digest : List Nat),
      (v.zero_digest = none → (verity_hash_for_block E v s0 block digest).2.2.2 = false) ∧
      ((verity_hash_for_block E v s0 block digest).1 ≠ 0 →
        (verity_hash_for_block E v s0 block digest).2.2.2 = false)) := by
  constructor
  · have hbb := data_block_bytes_eq v hbits
    have hiz := verity_hash_for_block_is_zero E v s ((io.block + b) % 2 ^ 64) s.want_digest
    rw [hz] at hiz
    simp only [hr, hw, decide_True, Bool.and_self] at hiz
    obtain ⟨fp, _, _, _⟩ :=
      verity_hash_for_block_general E v s ((io.block + b) % 2 ^ 64) s.want_digest
    unfold skipped_once at hns
    have hlen : (List.replicate (2 ^ v.data_dev_block_bits) 0).length
        = 2 ^ v.data_dev_block_bits := List.length_replicate _ _
    refine ⟨_, ?_, rfl, rfl, ?_, ?_, ?_, ?_, rfl, rfl⟩
    · unfold verity_verify_io_block
      simp only []
      rw [if_neg hns, if_neg (by rw [hr]; decide), if_pos hiz]
      unfold verity_for_bv_block
      have hfix : (1 <<< v.data_dev_block_bits) % 2 ^ 32 = 2 ^ v.data_dev_block_bits := hbb
      rw [hfix, verity_for_bv_block_loop_zero E hseg _ _ _ (by omega)
        (by simp only [fp.iter, fp.payload]; exact hroom)]
      simp only [fp.iter, fp.payload]
      rw [if_neg (by decide)]
    · show (write_at s.payload s.iter _).length = s.payload.length
      exact write_at_length _ _ _ (by rw [hlen]; exact hroom)
    · show bytes_at (write_at s.payload s.iter _) s.iter _ = _
      exact write_at_same _ _ _ _ (by omega) hlen.symm
    · intro q n hq
      show bytes_at (write_at s.payload s.iter _) q n = _
      exact write_at_before _ _ _ _ _ (by omega) hq
    · intro q n hq
      show bytes_at (write_at s.payload s.iter _) q n = _
      exact write_at_after _ _ _ _ _ (by rw [hlen]; exact hroom) (by rw [hlen]; exact hq)
  · intro s0 block digest
    have hiz := verity_hash_for_block_is_zero E v s0 block digest
    constructor
    · intro hn
      rw [hn] at hiz
      exact hiz
    · intro hne
      rw [hiz]
      cases v.zero_digest with
      | none => rfl
      | some z1 => simp [hne]

/-- Witness of C15: on the example volume with a zero block, a read of data
block 16 that delivered garbage continues with the 512 payload bytes replaced
by zeros. -/
theorem verity_verify_io_zero_block_witness :
    ∃ s2, verity_verify_io_block toy_env fz_v ⟨16, 1⟩ (fz_state fx_data_bad) 0 = some (none, s2) ∧
      s2.iter = (fz_state fx_data_bad).iter + 2 ^ fz_v.data_dev_block_bits ∧
      bytes_at s2.payload (fz_state fx_data_bad).iter (2 ^ fz_v.data_dev_block_bits)
        = List.replicate (2 ^ fz_v.data_dev_block_bits) 0 := by
  obtain ⟨s2, h1, _, h3, _, h5, _⟩ :=
    (verity_verify_io_zero_block toy_env fz_v ⟨16, 1⟩ (fz_state fx_data_bad) 0 fz_zero_digest
      (fun _ => (by decide : 0 < 4096)) (by decide!) (by decide!)
      (by unfold skipped_once; decide!) (by decide!) (by decide!) (by decide!)).1
  exact ⟨s2, h1, h3, h5⟩

/-! ## The observable trace of the digest pipeline -/

theorem obs_append (t u : List Ev) : obs (t ++ u) = obs t ++ obs u := by
  unfold obs
  exact List.filter_append _ _

theorem obs_digest_one (t : List Ev) (e : Ev) (he : is_digest_event e = true) :
    obs (t ++ [e]) = obs t := by
  rw [obs_append]
  unfold obs
  simp [List.filter, he]

theorem obs_other_one (t : List Ev) (e : Ev) (he : is_digest_event e = false) :
    obs (t ++ [e]) = obs t ++ [e] := by
  rw [obs_append]
  unfold obs
  simp [List.filter, he]

theorem ahash_update_obs (E : Env) (s : State) (chunk : List Nat) :
    obs (ahash_update E s chunk).2.trace = obs s.trace :=
  obs_digest_one s.trace (Ev.ahash_update chunk) rfl

theorem verity_hash_update_vmalloc_obs (E : Env) :
    ∀ (fuel : Nat) (s : State) (data : List Nat) (off : Nat),
      obs (verity_hash_update_vmalloc E fuel s data off).2.trace = obs s.trace := by
  intro fuel
  induction fuel with
  | zero => intro s data off; rfl
  | succ fuel ih =>
    intro s data off
    unfold verity_hash_update_vmalloc
    simp only []
    have f1 := ahash_update_obs E s (data.take (min data.length (PAGE_SIZE - off % PAGE_SIZE)))
    split
    · exact f1
    · split
      · exact f1
      · exact (ih _ _ _).trans f1

theorem verity_hash_update_obs (E : Env) (s : State) (data : List Nat) (vm : Option Nat) :
    obs (verity_hash_update E s data vm).2.trace = obs s.trace := by
  unfold verity_hash_update
  cases vm with
  | none => exact ahash_update_obs E s data
  | some off => exact verity_hash_update_vmalloc_obs E _ s data off

theorem verity_hash_init_obs (E : Env) (v : dm_verity) (s : State) :
    obs (verity_hash_init E v s).2.trace = obs s.trace := by
  have f0 : obs ({ s with req := [], trace := s.trace ++ [Ev.ahash_init] } : State).trace
      = obs s.trace := obs_digest_one s.trace Ev.ahash_init rfl
  unfold verity_hash_init
  simp only []
  split
  · exact f0
  · split
    · exact (verity_hash_update_obs E _ v.salt none).trans f0
    · exact f0

theorem verity_hash_final_obs (E : Env) (v : dm_verity) (s : State) (digest : List Nat) :
    obs (verity_hash_final E v s digest).2.1.trace = obs s.trace := by
  have fin : ∀ s0 : State, obs (s0.log (Ev.ahash_final s0.req)).trace = obs s0.trace :=
    fun s0 => obs_digest_one s0.trace (Ev.ahash_final s0.req) rfl
  unfold verity_hash_final
  simp only []
  split
  · split
    · exact verity_hash_update_obs E s v.salt none
    · exact (fin _).trans (verity_hash_update_obs E s v.salt none)
  · exact fin s

theorem verity_hash_obs (E : Env) (v : dm_verity) (s : State) (data : List Nat)
    (vm : Option Nat) (digest : List Nat) :
    obs (verity_hash E v s data vm digest).2.1.trace = obs s.trace := by
  unfold verity_hash
  simp only []
  split
  · exact verity_hash_init_obs E v s
  · split
    · exact (verity_hash_update_obs E _ data vm).trans (verity_hash_init_obs E v s)
    · exact (verity_hash_final_obs E v _ digest).trans
        ((verity_hash_update_obs E _ data vm).trans (verity_hash_init_obs E v s))

theorem verity_for_io_block_loop_obs (E : Env) :
    ∀ (fuel todo : Nat) (s : State) (r : Int) (s1 : State),
      verity_for_io_block_loop E fuel todo s = some (r, s1) → obs s1.trace = obs s.trace := by
  intro fuel
  induction fuel with
  | zero => intro todo s r s1 h; cases h
  | succ fuel ih =>
    intro todo s r s1 h
    unfold verity_for_io_block_loop at h
    simp only [] at h
    generalize (if bio_iter_iovec_len E s ≥ todo then todo else bio_iter_iovec_len E s)
      = len at h
    split at h
    · injection h with h
      have e : s1 = (ahash_update E s (bytes_at s.payload s.iter len)).2 := by rw [h]
      rw [e]
      exact ahash_update_obs E s _
    · split at h
      · injection h with h
        injection h with _ h2
        rw [← h2]
        exact ahash_update_obs E s _
      · exact (ih _ _ _ _ h).trans (ahash_update_obs E s _)

/-- The data path of one step when no digest operation fails: the payload block
is hashed into `real_digest` of a state `s3` that otherwise differs from `s`
only by the cursor, the hash request and digest events, and the outcome is the
comparison, the FEC hook and the corruption handler applied to `s3`. -/
theorem verity_verify_io_data_run (E : Env) (v : dm_verity) (s : State) (cur : Nat)
    (hok : tfm_ok E.tfm) (hseg : ∀ p, 0 < E.bv_len p)
    (hroom : s.iter + data_block_bytes v ≤ s.payload.length) :
    ∃ s3 : State,
      Frame s { s3 with iter := s.iter } ∧ s3.iter = s.iter + data_block_bytes v ∧
      s3.real_digest = block_digest E v (bytes_at s.payload s.iter (data_block_bytes v)) ∧
      obs s3.trace = obs s.trace ∧
      verity_verify_io_data E v s cur =
        if memcmp_eq s3.real_digest s3.want_digest v.digest_size then
          if v.use_validated_blocks then
            some (none, { s3 with
              validated_blocks := fun x => if x = cur then true else s3.validated_blocks x })
          else some (none, s3)
        else
          match E.fec_decode verity_block_type.DATA cur with
          | some fixed =>
            some (none, { s3.log (Ev.fec_decode verity_block_type.DATA cur) with
              payload := write_at s3.payload s.iter (fixed.take (data_block_bytes v)) })
          | none =>
            if (verity_handle_err v (s3.log (Ev.fec_decode verity_block_type.DATA cur))
                verity_block_type.DATA cur).1 ≠ 0 then
              some (some (- EIO),
                (verity_handle_err v (s3.log (Ev.fec_decode verity_block_type.DATA cur))
                  verity_block_type.DATA cur).2)
            else
              some (none,
                (verity_handle_err v (s3.log (Ev.fec_decode verity_block_type.DATA cur))
                  verity_block_type.DATA cur).2) := by
  obtain ⟨i1, i2⟩ := verity_hash_init_stream E hok v s
  obtain ⟨fi, _⟩ := verity_hash_init_frame E v s
  obtain ⟨s2, h1, h2, h3, _, h5⟩ := verity_for_io_block_loop_stream E hok hseg
    (data_block_bytes v + 1) (data_block_bytes v) (verity_hash_init E v s).2 (by omega)
    (by rw [fi.iter, fi.payload]; exact hroom)
  obtain ⟨f1, f2, f3⟩ := verity_hash_final_stream E hok v s2 s2.real_digest
  obtain ⟨ff, _⟩ := verity_hash_final_frame E v s2 s2.real_digest
  rw [h3, i2, fi.payload, fi.iter, salted_eq] at f3
  have hfor : verity_for_io_block E v (verity_hash_init E v s).2 = some (0, s2) := h1
  have o1 := verity_hash_init_obs E v s
  have o2 := verity_for_io_block_loop_obs E _ _ _ _ _ h1
  have o3 := verity_hash_final_obs E v s2 s2.real_digest
  refine ⟨{ (verity_hash_final E v s2 s2.real_digest).2.1 with
      real_digest := (verity_hash_final E v s2 s2.real_digest).2.2 }, ?_, ?_, f3,
    o3.trans (o2.trans o1), ?_⟩
  · have g1 : Frame s { s2 with iter := s.iter } :=
      ⟨h5.bufs.trans fi.bufs, h5.hash_verified.trans fi.hash_verified,
        h5.validated_blocks.trans fi.validated_blocks, h5.payload.trans fi.payload, rfl,
        h5.want_digest.trans fi.want_digest, h5.hash_failed.trans fi.hash_failed,
        h5.corrupted_errs.trans fi.corrupted_errs, h5.errs.trans fi.errs⟩
    exact ⟨ff.bufs.trans g1.bufs, ff.hash_verified.trans g1.hash_verified,
      ff.validated_blocks.trans g1.validated_blocks, ff.payload.trans g1.payload, rfl,
      ff.want_digest.trans g1.want_digest, ff.hash_failed.trans g1.hash_failed,
      ff.corrupted_errs.trans g1.corrupted_errs, ff.errs.trans g1.errs⟩
  · show (verity_hash_final E v s2 s2.real_digest).2.1.iter = _
    rw [ff.iter, h2, fi.iter]
  · unfold verity_verify_io_data
    simp only []
    rw [if_neg (by rw [i1]; decide), hfor]
    simp only []
    rw [if_neg (by decide), if_neg (by rw [f1]; decide), fi.iter]
    rfl

/-! ## The `check_at_most_once` bitmap -/

/-- A step that is not skipped, whose lookup returns 0 and finds no zero block,
is the data path from the state the lookup leaves. -/
theorem verity_verify_io_block_data (E : Env) (v : dm_verity) (io : dm_verity_io) (s : State)
    (b : Nat) (hns : ¬ skipped_once v s ((io.block + b) % 2 ^ 64))
    (hr : (verity_hash_for_block E v s ((io.block + b) % 2 ^ 64) s.want_digest).1 = 0)
    (hnz : (verity_hash_for_block E v s ((io.block + b) % 2 ^ 64) s.want_digest).2.2.2 = false) :
    verity_verify_io_block E v io s b =
      verity_verify_io_data E v
        { (verity_hash_for_block E v s ((io.block + b) % 2 ^ 64) s.want_digest).2.1 with
          want_digest :=
            (verity_hash_for_block E v s ((io.block + b) % 2 ^ 64) s.want_digest).2.2.1 }
        ((io.block + b) % 2 ^ 64) := by
  unfold skipped_once at hns
  unfold verity_verify_io_block
  simp only []
  rw [if_neg hns, if_neg (by rw [hr]; decide), if_neg (by rw [hnz]; decide)]

/-- A step on a block whose bit is set in the bitmap only advances the cursor. -/
theorem verity_verify_io_block_skip (E : Env) (v : dm_verity) (io : dm_verity_io) (s : State)
    (b : Nat) (hu : v.use_validated_blocks = true)
    (hb : s.validated_blocks ((io.block + b) % 2 ^ 64) = true) :
    verity_verify_io_block E v io s b =
      some (none, { s with iter := s.iter + data_block_bytes v }) := by
  unfold verity_verify_io_block
  simp only []
  rw [if_pos ⟨hu, hb⟩]
  rfl

/-- The data path never clears a bit of the bitmap. -/
theorem verity_verify_io_data_bits (E : Env) (v : dm_verity) (s : State) (cur : Nat)
    (x : Option Int) (s2 : State) (h : verity_verify_io_data E v s cur = some (x, s2)) :
    ∀ c, s.validated_blocks c = true → s2.validated_blocks c = true := by
  obtain ⟨fi, _⟩ := verity_hash_init_frame E v s
  intro c hc
  unfold verity_verify_io_data at h
  simp only [] at h
  split at h
  · injection h with h
    injection h with _ h2
    subst h2
    rw [fi.validated_blocks]
    exact hc
  · split at h
    · cases h
    · next r2 hfor =>
      obtain ⟨fl, _, _⟩ := verity_for_io_block_loop_general E _ _ _ r2.1 r2.2 hfor
      have flv : r2.2.validated_blocks = s.validated_blocks :=
        fl.validated_blocks.trans fi.validated_blocks
      split at h
      · injection h with h
        injection h with _ h2
        subst h2
        rw [flv]
        exact hc
      · obtain ⟨ff, _⟩ := verity_hash_final_frame E v r2.2 r2.2.real_digest
        have hv3 : (verity_hash_final E v r2.2 r2.2.real_digest).2.1.validated_blocks
            = s.validated_blocks := ff.validated_blocks.trans flv
        split at h
        · injection h with h
          injection h with _ h2
          subst h2
          show (verity_hash_final E v r2.2 r2.2.real_digest).2.1.validated_blocks c = true
          rw [hv3]
          exact hc
        · split at h
          · split at h
            · injection h with h
              injection h with _ h2
              subst h2
              show (if c = cur then true
                else (verity_hash_final E v r2.2 r2.2.real_digest).2.1.validated_blocks c) = true
              rw [hv3, hc]
              split <;> rfl
            · injection h with h
              injection h with _ h2
              subst h2
              show (verity_hash_final E v r2.2 r2.2.real_digest).2.1.validated_blocks c = true
              rw [hv3]
              exact hc
          · split at h
            · injection h with h
              injection h with _ h2
              subst h2
              show (verity_hash_final E v r2.2 r2.2.real_digest).2.1.validated_blocks c = true
              rw [hv3]
              exact hc
            · obtain ⟨_, _, e3, _, _⟩ := verity_handle_err_frame v
                ((({ (verity_hash_final E v r2.2 r2.2.real_digest).2.1 with
                    real_digest := (verity_hash_final E v r2.2 r2.2.real_digest).2.2 } :
                    State).log (Ev.fec_decode verity_block_type.DATA cur)))
                verity_block_type.DATA cur
              have e4 := e3.validated_blocks
              split at h
              · injection h with h
                injection h with _ h2
                subst h2
                rw [e4]
                show (verity_hash_final E v r2.2 r2.2.real_digest).2.1.validated_blocks c = true
                rw [hv3]
                exact hc
              · injection h with h
                injection h with _ h2
                subst h2
                rw [e4]
                show (verity_hash_final E v r2.2 r2.2.real_digest).2.1.validated_blocks c = true
                rw [hv3]
                exact hc

/-- No step of the loop of `verity_verify_io` clears a bit of the bitmap. -/
theorem verity_verify_io_block_bits (E : Env) (v : dm_verity) (io : dm_verity_io) (s : State)
    (b : Nat) (x : Option Int) (s2 : State)
    (h : verity_verify_io_block E v io s b = some (x, s2)) :
    ∀ c, s.validated_blocks c = true → s2.validated_blocks c = true := by
  obtain ⟨fp, _, _, _⟩ :=
    verity_hash_for_block_general E v s ((io.block + b) % 2 ^ 64) s.want_digest
  intro c hc
  unfold verity_verify_io_block at h
  simp only [] at h
  split at h
  · injection h with h
    injection h with _ h2
    subst h2
    exact hc
  · split at h
    · injection h with h
      injection h with _ h2
      subst h2
      show (verity_hash_for_block E v s ((io.block + b) % 2 ^ 64)
        s.want_digest).2.1.validated_blocks c = true
      rw [fp.validated_blocks]
      exact hc
    · split at h
      · split at h
        · cases h
        · next rz hz =>
          obtain ⟨_, z2, _⟩ := verity_for_bv_block_loop_zero_general E _ _ _ rz.1 rz.2 hz
          have hv : rz.2.validated_blocks = s.validated_blocks := by
            rw [z2]
            exact fp.validated_blocks
          split at h
          · injection h with h
            injection h with _ h2
            subst h2
            rw [hv]
            exact hc
          · injection h with h
            injection h with _ h2
            subst h2
            rw [hv]
            exact hc
      · refine verity_verify_io_data_bits E v _ _ x s2 h c ?_
        show (verity_hash_for_block E v s ((io.block + b) % 2 ^ 64)
          s.want_digest).2.1.validated_blocks c = true
        rw [fp.validated_blocks]
        exact hc

/-- C16 (counterexample): with `check_at_most_once` configured, a read of data
block 16 that succeeds (a) by the zero-block fast path, (b) by an FEC repair or
(c) in Logging mode with a corrupted block leaves the bit of the block clear,
and a later verification of the block (the same request verified again from
the state the first run left) returns 0 after reading the level-0 hash block 2
from the hash-block cache. -/
theorem verity_verify_io_not_marked_once :
    (∃ r s2, verity_verify_io toy_env fz_v_once ⟨16, 1⟩ (fz_state fx_data_bad) = some (r, s2) ∧
      (decide (r = 0) && !(s2.validated_blocks 16) &&
        run_check (verity_verify_io toy_env fz_v_once ⟨16, 1⟩ { s2 with iter := 0 })
          (fun r3 s3 => decide (r3 = 0) &&
            decide (Ev.bufio_read 2 ∈ s3.trace.drop s2.trace.length))) = true) ∧
    (∃ r s2, verity_verify_io toy_env_fec fx_v_once ⟨16, 1⟩ (fx_state fx_data_bad)
        = some (r, s2) ∧
      (decide (r = 0) && !(s2.validated_blocks 16) &&
        run_check (verity_verify_io toy_env_fec fx_v_once ⟨16, 1⟩ { s2 with iter := 0 })
          (fun r3 s3 => decide (r3 = 0) &&
            decide (Ev.bufio_read 2 ∈ s3.trace.drop s2.trace.length))) = true) ∧
    (∃ r s2, verity_verify_io toy_env fx_v_once_logging ⟨16, 1⟩ (fx_state fx_data_bad)
        = some (r, s2) ∧
      (decide (r = 0) && !(s2.validated_blocks 16) &&
        run_check (verity_verify_io toy_env fx_v_once_logging ⟨16, 1⟩ { s2 with iter := 0 })
          (fun r3 s3 => decide (r3 = 0) &&
            decide (Ev.bufio_read 2 ∈ s3.trace.drop s2.trace.length))) = true) :=
  ⟨run_check_some _
      (fun r s2 => decide (r = 0) && !(s2.validated_blocks 16) &&
        run_check (verity_verify_io toy_env fz_v_once ⟨16, 1⟩ { s2 with iter := 0 })
          (fun r3 s3 => decide (r3 = 0) &&
            decide (Ev.bufio_read 2 ∈ s3.trace.drop s2.trace.length)))
      (by decide!),
    run_check_some _
      (fun r s2 => decide (r = 0) && !(s2.validated_blocks 16) &&
        run_check (verity_verify_io toy_env_fec fx_v_once ⟨16, 1⟩ { s2 with iter := 0 })
          (fun r3 s3 => decide (r3 = 0) &&
            decide (Ev.bufio_read 2 ∈ s3.trace.drop s2.trace.length)))
      (by decide!),
    run_check_some _
      (fun r s2 => decide (r = 0) && !(s2.validated_blocks 16) &&
        run_check (verity_verify_io toy_env fx_v_once_logging ⟨16, 1⟩ { s2 with iter := 0 })
          (fun r3 s3 => decide (r3 = 0) &&
            decide (Ev.bufio_read 2 ∈ s3.trace.drop s2.trace.length)))
      (by decide!)⟩

/-- C16 (amended): with `check_at_most_once` configured, when no digest
operation fails and the verification of a data block succeeds by digest match
(the lookup returns 0 with an expected digest that is not the zero digest and
the salted digest of the payload block equals it), the step sets the bit of the
block in `validated_blocks`; no later step clears a bit; and every later step
of `verity_verify_io` for that block leaves everything but the cursor as it
was, trace included (it reads no hash block and computes no digest), and
advances the cursor by one data block. -/
theorem verity_verify_io_at_most_once (E : Env) (v : dm_verity) (io : dm_verity_io) (s : State)
    (b : Nat) (hu : v.use_validated_blocks = true) (hok : tfm_ok E.tfm)
    (hseg : ∀ p, 0 < E.bv_len p) (hroom : s.iter + data_block_bytes v ≤ s.payload.length)
    (hnb : s.validated_blocks ((io.block + b) % 2 ^ 64) = false)
    (hr : (verity_hash_for_block E v s ((io.block + b) % 2 ^ 64) s.want_digest).1 = 0)
    (hnz : (verity_hash_for_block E v s ((io.block + b) % 2 ^ 64) s.want_digest).2.2.2 = false)
    (hm : memcmp_eq (block_digest E v (bytes_at s.payload s.iter (data_block_bytes v)))
      (verity_hash_for_block E v s ((io.block + b) % 2 ^ 64) s.want_digest).2.2.1
      v.digest_size = true) :
    ∃ s2, verity_verify_io_block E v io s b = some (none, s2) ∧
      s2.validated_blocks ((io.block + b) % 2 ^ 64) = true ∧
      (∀ (E3 : Env) (io3 : dm_verity_io) (s3 : State) (b3 : Nat) (x : Option Int) (s4 : State)
        (c : Nat), verity_verify_io_block E3 v io3 s3 b3 = some (x, s4) →
          s3.validated_blocks c = true → s4.validated_blocks c = true) ∧
      ∀ (E3 : Env) (io3 : dm_verity_io) (s3 : State) (b3 : Nat),
        (io3.block + b3) % 2 ^ 64 = (io.block + b) % 2 ^ 64 →
        s3.validated_blocks ((io.block + b) % 2 ^ 64) = true →
        verity_verify_io_block E3 v io3 s3 b3 =
          some (none, { s3 with iter := s3.iter + data_block_bytes v }) := by
  obtain ⟨fp, _, _, _⟩ :=
    verity_hash_for_block_general E v s ((io.block + b) % 2 ^ 64) s.want_digest
  have hns : ¬ skipped_once v s ((io.block + b) % 2 ^ 64) := by
    unfold skipped_once
    rw [hnb]
    simp
  obtain ⟨s3, f3, _, d3, _, hrun⟩ := verity_verify_io_data_run E v
    { (verity_hash_for_block E v s ((io.block + b) % 2 ^ 64) s.want_digest).2.1 with
      want_digest := (verity_hash_for_block E v s ((io.block + b) % 2 ^ 64) s.want_digest).2.2.1 }
    ((io.block + b) % 2 ^ 64) hok hseg (by
      show (verity_hash_for_block E v s ((io.block + b) % 2 ^ 64) s.want_digest).2.1.iter
        + data_block_bytes v
        ≤ (verity_hash_for_block E v s ((io.block + b) % 2 ^ 64) s.want_digest).2.1.payload.length
      rw [fp.iter, fp.payload]
      exact hroom)
  have hw : s3.want_digest
      = (verity_hash_for_block E v s ((io.block + b) % 2 ^ 64) s.want_digest).2.2.1 :=
    f3.want_digest
  have hcmp : memcmp_eq s3.real_digest s3.want_digest v.digest_size = true := by
    rw [d3, hw]
    show memcmp_eq (block_digest E v (bytes_at
      (verity_hash_for_block E v s ((io.block + b) % 2 ^ 64) s.want_digest).2.1.payload
      (verity_hash_for_block E v s ((io.block + b) % 2 ^ 64) s.want_digest).2.1.iter _)) _ _ = true
    rw [fp.iter, fp.payload]
    exact hm
  rw [hcmp, hu] at hrun
  simp only [if_true] at hrun
  refine ⟨_, (verity_verify_io_block_data E v io s b hns hr hnz).trans hrun, ?_, ?_, ?_⟩
  · show (if (io.block + b) % 2 ^ 64 = (io.block + b) % 2 ^ 64 then true
      else s3.validated_blocks ((io.block + b) % 2 ^ 64)) = true
    rw [if_pos rfl]
  · intro E3 io3 s3 b3 x s4 c h
    exact verity_verify_io_block_bits E3 v io3 s3 b3 x s4 h c
  · intro E3 io3 s3 b3 hcur hbit
    exact verity_verify_io_block_skip E3 v io3 s3 b3 hu (by rw [hcur]; exact hbit)

/-- Witness of C16 (amended): on the example volume with the bitmap, the read
of data block 16 with its correct content sets bit 16. -/
theorem verity_verify_io_at_most_once_witness :
    ∃ s2, verity_verify_io_block toy_env fx_v_once ⟨16, 1⟩ (fx_state fx_data) 0
        = some (none, s2) ∧
      s2.validated_blocks ((16 + 0) % 2 ^ 64) = true := by
  obtain ⟨s2, h1, h2, _⟩ :=
    verity_verify_io_at_most_once toy_env fx_v_once ⟨16, 1⟩ (fx_state fx_data) 0
      (by decide!) ⟨rfl, fun _ _ => rfl, fun _ => rfl⟩ (fun _ => (by decide : 0 < 4096))
      (by decide!) (by decide!) (by decide!) (by decide!) (by decide!)
  exact ⟨s2, h1, h2⟩

/-! ## Saturation of the corruption counter -/

theorem uevents_append_one (t : List Ev) (e : Ev) :
    uevents (t ++ [e]) = uevents t + (if is_uevent e then 1 else 0) := by
  unfold uevents
  rw [List.filter_append, List.length_append]
  by_cases h : is_uevent e = true
  · simp [List.filter, h]
  · simp [List.filter, h]

/-- One call of `verity_handle_err`: the counter goes up by one below
saturation and stays otherwise, one uevent is emitted below saturation and none
otherwise, `hash_failed` is set, and the result is 0 in Logging mode and 1
otherwise. -/
theorem verity_handle_err_step (v : dm_verity) (s : State) (type : verity_block_type)
    (block : Nat) :
    (verity_handle_err v s type block).2.corrupted_errs =
      (if s.corrupted_errs < DM_VERITY_MAX_CORRUPTED_ERRS then s.corrupted_errs + 1
        else s.corrupted_errs) ∧
    uevents (verity_handle_err v s type block).2.trace =
      uevents s.trace + (if s.corrupted_errs < DM_VERITY_MAX_CORRUPTED_ERRS then 1 else 0) ∧
    (verity_handle_err v s type block).2.hash_failed = true ∧
    (verity_handle_err v s type block).1 = (if v.mode = verity_mode.LOGGING then 0 else 1) := by
  unfold verity_handle_err
  simp only []
  by_cases hs : s.corrupted_errs < DM_VERITY_MAX_CORRUPTED_ERRS
  · have hge : ¬ s.corrupted_errs ≥ DM_VERITY_MAX_CORRUPTED_ERRS := by omega
    rw [if_neg hge, if_pos hs, if_pos hs]
    split
    · refine ⟨rfl, ?_, rfl, rfl⟩
      show uevents (s.trace ++ [Ev.handle_err type block] ++ [Ev.uevent type block]) = _
      rw [uevents_append_one, uevents_append_one]
      rfl
    · split
      · refine ⟨rfl, ?_, rfl, rfl⟩
        show uevents (s.trace ++ [Ev.handle_err type block] ++ [Ev.uevent type block]
          ++ [Ev.restart]) = _
        rw [uevents_append_one, uevents_append_one, uevents_append_one]
        rfl
      · refine ⟨rfl, ?_, rfl, rfl⟩
        show uevents (s.trace ++ [Ev.handle_err type block] ++ [Ev.uevent type block]) = _
        rw [uevents_append_one, uevents_append_one]
        rfl
  · have hge : s.corrupted_errs ≥ DM_VERITY_MAX_CORRUPTED_ERRS := by omega
    rw [if_pos hge, if_neg hs, if_neg hs]
    split
    · refine ⟨rfl, ?_, rfl, rfl⟩
      show uevents (s.trace ++ [Ev.handle_err type block]) = _
      rw [uevents_append_one]
      rfl
    · split
      · refine ⟨rfl, ?_, rfl, rfl⟩
        show uevents (s.trace ++ [Ev.handle_err type block] ++ [Ev.restart]) = _
        rw [uevents_append_one, uevents_append_one]
        rfl
      · refine ⟨rfl, ?_, rfl, rfl⟩
        show uevents (s.trace ++ [Ev.handle_err type block]) = _
        rw [uevents_append_one]
        rfl

theorem verity_handle_err_trace (v : dm_verity) (s : State) (type : verity_block_type)
    (block : Nat) :
    (verity_handle_err v s type block).2.trace =
      s.trace ++ ([Ev.handle_err type block] ++
        (if s.corrupted_errs < DM_VERITY_MAX_CORRUPTED_ERRS then [Ev.uevent type block] else [])
        ++ (if v.mode = verity_mode.RESTART then [Ev.restart] else [])) := by
  unfold verity_handle_err
  simp only []
  by_cases hs : s.corrupted_errs < DM_VERITY_MAX_CORRUPTED_ERRS
  · have hge : ¬ s.corrupted_errs ≥ DM_VERITY_MAX_CORRUPTED_ERRS := by omega
    rw [if_neg hge, if_pos hs]
    by_cases h1 : v.mode = verity_mode.LOGGING
    · rw [if_pos h1, if_neg (by rw [h1]; decide)]
      show s.trace ++ [Ev.handle_err type block] ++ [Ev.uevent type block] = _
      simp
    · rw [if_neg h1]
      by_cases h2 : v.mode = verity_mode.RESTART
      · rw [if_pos h2, if_pos h2]
        show s.trace ++ [Ev.handle_err type block] ++ [Ev.uevent type block] ++ [Ev.restart] = _
        simp
      · rw [if_neg h2, if_neg h2]
        show s.trace ++ [Ev.handle_err type block] ++ [Ev.uevent type block] = _
        simp
  · have hge : s.corrupted_errs ≥ DM_VERITY_MAX_CORRUPTED_ERRS := by omega
    rw [if_pos hge, if_neg hs]
    by_cases h1 : v.mode = verity_mode.LOGGING
    · rw [if_pos h1, if_neg (by rw [h1]; decide)]
      show s.trace ++ [Ev.handle_err type block] = _
      simp
    · rw [if_neg h1]
      by_cases h2 : v.mode = verity_mode.RESTART
      · rw [if_pos h2, if_pos h2]
        show s.trace ++ [Ev.handle_err type block] ++ [Ev.restart] = _
        simp
      · rw [if_neg h2, if_neg h2]
        show s.trace ++ [Ev.handle_err type block] = _
        simp

/-- The observable trace of a call of `verity_handle_err`. -/
theorem verity_handle_err_obs (v : dm_verity) (s : State) (type : verity_block_type)
    (block : Nat) :
    obs (verity_handle_err v s type block).2.trace =
      obs s.trace ++ ([Ev.handle_err type block] ++
        (if s.corrupted_errs < DM_VERITY_MAX_CORRUPTED_ERRS then [Ev.uevent type block] else [])
        ++ (if v.mode = verity_mode.RESTART then [Ev.restart] else [])) := by
  rw [verity_handle_err_trace, obs_append]
  congr 1
  unfold obs
  split <;> split <;> rfl

/-- A step that is not skipped and whose lookup returns 0 with a digest that is
not the zero digest is the data path from the state the lookup leaves. -/
theorem verity_verify_io_block_lookup (E : Env) (v : dm_verity) (io : dm_verity_io) (s : State)
    (b : Nat) (s1 : State) (want : List Nat)
    (hns : ¬ skipped_once v s ((io.block + b) % 2 ^ 64))
    (hl : verity_hash_for_block E v s ((io.block + b) % 2 ^ 64) s.want_digest
      = (0, s1, want, false)) :
    verity_verify_io_block E v io s b =
      verity_verify_io_data E v { s1 with want_digest := want } ((io.block + b) % 2 ^ 64) := by
  have h := verity_verify_io_block_data E v io s b hns (by rw [hl]) (by rw [hl])
  rw [hl] at h
  exact h

/-- A request of one block returns what its only step returns. -/
theorem verity_verify_io_single (E : Env) (v : dm_verity) (io : dm_verity_io) (s : State)
    (h1 : io.n_blocks % 2 ^ 32 = 1) :
    verity_verify_io E v io s =
      match verity_verify_io_block E v io s 0 with
      | none => none
      | some (some r, s1) => some (r, s1)
      | some (none, s1) => some (0, s1) := by
  unfold verity_verify_io
  rw [h1, verity_verify_io_loop]
  rcases verity_verify_io_block E v io s 0 with _ | ⟨_ | r, s1⟩
  · rfl
  · simp only [verity_verify_io_loop]
  · rfl

/-- A lookup result with status 0 and no zero block, written as a tuple. -/
theorem lookup_eq (x : Int × State × List Nat × Bool) (h1 : x.1 = 0) (h4 : x.2.2.2 = false) :
    x = (0, x.2.1, x.2.2.1, false) := by
  obtain ⟨a, b, c, d⟩ := x
  simp only at h1 h4
  subst h1 h4
  rfl

/-- The data path on a mismatching block that the FEC hook does not repair,
when no digest operation fails: the corruption handler runs on the state the
hashing leaves, and its result decides between `-EIO` and going on. -/
theorem verity_verify_io_data_mismatch (E : Env) (v : dm_verity) (s : State) (cur : Nat)
    (hok : tfm_ok E.tfm) (hseg : ∀ p, 0 < E.bv_len p)
    (hroom : s.iter + data_block_bytes v ≤ s.payload.length)
    (hm : memcmp_eq (block_digest E v (bytes_at s.payload s.iter (data_block_bytes v)))
      s.want_digest v.digest_size = false)
    (hfec : E.fec_decode verity_block_type.DATA cur = none) :
    ∃ s2, verity_verify_io_data E v s cur =
        some (if v.mode = verity_mode.LOGGING then none else some (- EIO), s2) ∧
      s2.payload = s.payload ∧ s2.iter = s.iter + data_block_bytes v ∧
      s2.bufs = s.bufs ∧ s2.hash_verified = s.hash_verified ∧
      s2.validated_blocks = s.validated_blocks ∧
      s2.hash_failed = true ∧
      s2.corrupted_errs = (if s.corrupted_errs < DM_VERITY_MAX_CORRUPTED_ERRS
        then s.corrupted_errs + 1 else s.corrupted_errs) ∧
      obs s2.trace = obs s.trace ++
        ([Ev.fec_decode verity_block_type.DATA cur, Ev.handle_err verity_block_type.DATA cur] ++
          (if s.corrupted_errs < DM_VERITY_MAX_CORRUPTED_ERRS
            then [Ev.uevent verity_block_type.DATA cur] else []) ++
          (if v.mode = verity_mode.RESTART then [Ev.restart] else [])) := by
  obtain ⟨s3, f3, i3, d3, o3, hrun⟩ := verity_verify_io_data_run E v s cur hok hseg hroom
  have hcmp : memcmp_eq s3.real_digest s3.want_digest v.digest_size = false := by
    rw [d3, f3.want_digest]
    exact hm
  rw [hcmp, hfec] at hrun
  simp only [Bool.false_eq_true, if_false] at hrun
  obtain ⟨e1, e2, e3, _, e5⟩ := verity_handle_err_frame v
    (s3.log (Ev.fec_decode verity_block_type.DATA cur)) verity_block_type.DATA cur
  obtain ⟨g1, _, g3, _⟩ := verity_handle_err_step v
    (s3.log (Ev.fec_decode verity_block_type.DATA cur)) verity_block_type.DATA cur
  have ho := verity_handle_err_obs v
    (s3.log (Ev.fec_decode verity_block_type.DATA cur)) verity_block_type.DATA cur
  have hc3 : (s3.log (Ev.fec_decode verity_block_type.DATA cur)).corrupted_errs
      = s.corrupted_errs := f3.corrupted_errs
  have hob : obs (s3.log (Ev.fec_decode verity_block_type.DATA cur)).trace
      = obs s.trace ++ [Ev.fec_decode verity_block_type.DATA cur] := by
    show obs (s3.trace ++ [Ev.fec_decode verity_block_type.DATA cur]) = _
    rw [obs_other_one s3.trace (Ev.fec_decode verity_block_type.DATA cur) rfl, o3]
  rw [hc3] at g1 ho
  rw [hob] at ho
  refine ⟨_, ?_, e3.payload.trans f3.payload, e3.iter.trans i3, e1.trans f3.bufs,
    e2.trans f3.hash_verified, e3.validated_blocks.trans f3.validated_blocks, g3, g1, ?_⟩
  · rw [hrun]
    by_cases hmode : v.mode = verity_mode.LOGGING
    · rw [if_neg (by rw [e5.mpr hmode]; decide), if_pos hmode]
    · rw [if_pos (fun h => hmode (e5.mp h)), if_neg hmode]
  · rw [ho]
    simp

/-- C18 (counterexample): in Logging mode, once 100 corruptions have been
reported (the state after 100 calls of `verity_handle_err`), a read of data
block 16 of the example volume that delivers corrupted data returns 0 and
leaves `corrupted_errs` at 100: the counter is not incremented. -/
theorem verity_verify_io_logging_saturated :
    ∃ r s2, verity_verify_io toy_env fx_v_logging ⟨16, 1⟩
        (verity_handle_err_calls (List.replicate 100 (fx_v_logging, verity_block_type.DATA, 16))
          (fx_state fx_data_bad)) = some (r, s2) ∧
      (decide (r = 0) &&
        decide ((verity_handle_err_calls
          (List.replicate 100 (fx_v_logging, verity_block_type.DATA, 16))
          (fx_state fx_data_bad)).corrupted_errs = 100) &&
        decide (s2.corrupted_errs = 100) && decide (bytes_at s2.payload 0 512 = fx_data_bad))
        = true :=
  run_check_some _
    (fun r s2 => decide (r = 0) &&
      decide ((verity_handle_err_calls
        (List.replicate 100 (fx_v_logging, verity_block_type.DATA, 16))
        (fx_state fx_data_bad)).corrupted_errs = 100) &&
      decide (s2.corrupted_errs = 100) && decide (bytes_at s2.payload 0 512 = fx_data_bad))
    (by decide!)

/-! ## Splitting the loop of `verity_verify_io` -/

/-- When the first `k` steps of the loop have continued, the loop over `k + m`
blocks is the loop over the remaining `m` blocks from the state they left. -/
theorem verity_verify_io_loop_split (E : Env) (v : dm_verity) (io : dm_verity_io)
    (hbs : 0 < data_block_bytes v) :
    ∀ (k m b : Nat) (s sk : State), verity_verify_io_loop E v io k b s = some (0, sk) →
      verity_verify_io_loop E v io (k + m) b s = verity_verify_io_loop E v io m (b + k) sk := by
  intro k
  induction k with
  | zero =>
    intro m b s sk h
    rw [verity_verify_io_loop] at h
    injection h with h
    injection h with _ h2
    rw [Nat.zero_add, Nat.add_zero, h2]
  | succ k ih =>
    intro m b s sk h
    have e : k + 1 + m = (k + m) + 1 := by omega
    rw [e, verity_verify_io_loop]
    rw [verity_verify_io_loop] at h
    rcases hstep : verity_verify_io_block E v io s b with _ | ⟨_ | r, s1⟩
    · rw [hstep] at h
      cases h
    · rw [hstep] at h
      simp only [] at h ⊢
      rw [ih m (b + 1) s1 sk h]
      congr 1
      omega
    · rw [hstep] at h
      simp only [] at h
      injection h with h
      injection h with h1 _
      have hneg := (verity_verify_io_block_general E v io s b (some r) s1 hbs hstep).1 r rfl
      omega

/-- C18 (amended): in Logging mode, when no digest operation fails, for a
request whose blocks before `b` have verified, whose lookup of the expected
digest of `b` returns 0 with a digest that is not the zero digest, whose
payload block mismatches it and that the FEC hook cannot repair: the step of
`verity_verify_io` for `b` continues with the payload unchanged and the cursor
advanced; it sets `hash_failed`, increments `corrupted_errs` by one if it was
below saturation and leaves it otherwise, calls the FEC hook and
`verity_handle_err` for `(DATA, b)`, emits one uevent `(DATA, b)` if the
counter was below saturation, and does not call the restart hook; the request
goes on with the next block, and if it returns 0 the payload bytes of `b` are
as they were; when `b` is the last block the request returns 0 and is
completed with status 0 without `verity_error` (no halt).  On a consistent hash
path the lookup leaves the counter and `hash_failed` as they were.  And
`verity_handle_err` returns 0 if and only if the mode is Logging. -/
theorem verity_verify_io_logging_mismatch (E : Env) (H : Host) (v : dm_verity)
    (io : dm_verity_io) (s : State) (k : Nat) (sk s1 : State) (want : List Nat)
    (hmode : v.mode = verity_mode.LOGGING) (hok : tfm_ok E.tfm) (hseg : ∀ p, 0 < E.bv_len p)
    (hbs : 0 < data_block_bytes v) (hk : k < io.n_blocks % 2 ^ 32)
    (hpre : verity_verify_io_loop E v io k 0 s = some (0, sk))
    (hroom : sk.iter + data_block_bytes v ≤ sk.payload.length)
    (hns : ¬ skipped_once v sk ((io.block + k) % 2 ^ 64))
    (hl : verity_hash_for_block E v sk ((io.block + k) % 2 ^ 64) sk.want_digest
      = (0, s1, want, false))
    (hm : memcmp_eq (block_digest E v (bytes_at sk.payload sk.iter (data_block_bytes v)))
      want v.digest_size = false)
    (hfec : E.fec_decode verity_block_type.DATA ((io.block + k) % 2 ^ 64) = none) :
    (∃ s2, verity_verify_io_block E v io sk k = some (none, s2) ∧
      s2.payload = sk.payload ∧ s2.iter = sk.iter + data_block_bytes v ∧
      s2.hash_failed = true ∧
      s2.corrupted_errs = (if s1.corrupted_errs < DM_VERITY_MAX_CORRUPTED_ERRS
        then s1.corrupted_errs + 1 else s1.corrupted_errs) ∧
      obs s2.trace = obs s1.trace ++
        ([Ev.fec_decode verity_block_type.DATA ((io.block + k) % 2 ^ 64),
          Ev.handle_err verity_block_type.DATA ((io.block + k) % 2 ^ 64)] ++
          (if s1.corrupted_errs < DM_VERITY_MAX_CORRUPTED_ERRS
            then [Ev.uevent verity_block_type.DATA ((io.block + k) % 2 ^ 64)] else [])) ∧
      verity_verify_io E v io s =
        verity_verify_io_loop E v io (io.n_blocks % 2 ^ 32 - (k + 1)) (k + 1) s2 ∧
      (∀ sf, verity_verify_io E v io s = some (0, sf) →
        bytes_at sf.payload sk.iter (data_block_bytes v)
          = bytes_at sk.payload sk.iter (data_block_bytes v)) ∧
      (io.n_blocks % 2 ^ 32 = k + 1 →
        verity_verify_io E v io s = some (0, s2) ∧
        verity_work E H v io s =
          some (s2, [FinEv.fec_finish_io, FinEv.bio_endio BLK_STS_OK], false))) ∧
    (path_consistent E v sk.bufs ((io.block + k) % 2 ^ 64) = true →
      s1.corrupted_errs = sk.corrupted_errs ∧ s1.hash_failed = sk.hash_failed) ∧
    (∀ (v1 : dm_verity) (s0 : State) (type : verity_block_type) (block : Nat),
      (verity_handle_err v1 s0 type block).1 = 0 ↔ v1.mode = verity_mode.LOGGING) := by
  obtain ⟨fp, _, _, _⟩ :=
    verity_hash_for_block_general E v sk ((io.block + k) % 2 ^ 64) sk.want_digest
  rw [hl] at fp
  have fpp : s1.payload = sk.payload := fp.payload
  have fpi : s1.iter = sk.iter := fp.iter
  obtain ⟨s2, r1, r2, r3, _, _, _, r7, r8, r9⟩ := verity_verify_io_data_mismatch E v
    { s1 with want_digest := want } ((io.block + k) % 2 ^ 64) hok hseg
    (by show s1.iter + data_block_bytes v ≤ s1.payload.length; rw [fpp, fpi]; exact hroom)
    (by
      show memcmp_eq (block_digest E v (bytes_at s1.payload s1.iter (data_block_bytes v)))
        want v.digest_size = false
      rw [fpp, fpi]; exact hm)
    hfec
  rw [if_pos hmode] at r1
  have hstep : verity_verify_io_block E v io sk k = some (none, s2) :=
    (verity_verify_io_block_lookup E v io sk k s1 want hns hl).trans r1
  have hp2 : s2.payload = sk.payload := r2.trans fpp
  have hi2 : s2.iter = sk.iter + data_block_bytes v := r3.trans (by rw [← fpi])
  have hrest : verity_verify_io E v io s =
      verity_verify_io_loop E v io (io.n_blocks % 2 ^ 32 - (k + 1)) (k + 1) s2 := by
    unfold verity_verify_io
    have e : io.n_blocks % 2 ^ 32 = k + ((io.n_blocks % 2 ^ 32 - (k + 1)) + 1) := by omega
    rw [e, verity_verify_io_loop_split E v io hbs k _ 0 s sk hpre, Nat.zero_add,
      verity_verify_io_loop, hstep]
    simp only []
    congr 1
    omega
  refine ⟨⟨s2, hstep, hp2, hi2, r7, r8, ?_, hrest, ?_, ?_⟩, ?_, ?_⟩
  · have hnr : ¬ v.mode = verity_mode.RESTART := by rw [hmode]; decide
    rw [r9, if_neg hnr]
    simp
  · intro sf hsf
    rw [hrest] at hsf
    obtain ⟨_, hbefore, _⟩ := verity_verify_io_loop_general E v io hbs _ _ s2 sf hsf
    rw [hbefore sk.iter (data_block_bytes v) (by rw [hi2]), hp2]
  · intro hn1
    have hv : verity_verify_io E v io s = some (0, s2) := by
      rw [hrest, hn1, Nat.sub_self, verity_verify_io_loop]
    refine ⟨hv, ?_⟩
    unfold verity_work
    rw [hv]
    rfl
  · intro hp
    obtain ⟨s2c, hc, fv⟩ := verity_hash_for_block_consistent E v sk ((io.block + k) % 2 ^ 64)
      sk.want_digest hok hp
    rw [hl] at hc
    injection hc with _ hc
    injection hc with hc _
    rw [hc]
    exact ⟨fv.corrupted_errs, fv.hash_failed⟩
  · intro v1 s0 type block
    exact (verity_handle_err_frame v1 s0 type block).2.2.2.2

/-- Witness of C18 (amended): in Logging mode the read of data block 16 of the
example volume with corrupted data returns 0 with the corrupted payload. -/
theorem verity_verify_io_logging_mismatch_witness :
    ∃ s2, verity_verify_io toy_env fx_v_logging ⟨16, 1⟩ (fx_state fx_data_bad) = some (0, s2) ∧
      s2.payload = (fx_state fx_data_bad).payload ∧ s2.hash_failed = true := by
  obtain ⟨⟨s2, _, h2, _, h4, _, _, _, _, h9⟩, _⟩ :=
    verity_verify_io_logging_mismatch toy_env toy_host fx_v_logging ⟨16, 1⟩
      (fx_state fx_data_bad) 0 (fx_state fx_data_bad) _ _ (by decide!)
      ⟨rfl, fun _ _ => rfl, fun _ => rfl⟩ (fun _ => (by decide : 0 < 4096)) (by decide!)
      (by decide) rfl (by decide!) (by unfold skipped_once; decide!)
      (lookup_eq _ (by decide!) (by decide!)) (by decide!) (by decide!)
  exact ⟨s2, (h9 (by decide)).1, h2, h4⟩

/-! ## The failure policy -/

theorem work_check_some (x : Option (State × List FinEv × Bool))
    (p : State → List FinEv → Bool → Bool) (h : work_check x p = true) :
    ∃ s evs halted, x = some (s, evs, halted) ∧ p s evs halted = true := by
  unfold work_check at h
  split at h
  · next s evs halted => exact ⟨s, evs, halted, rfl, h⟩
  · cases h

/-- Whether `verity_error` reaches `panic`, and that it calls it at most once:
its effects are the error message, the notifier call for NOTIFY, and the call
of `panic` when it halts. -/
theorem verity_error_cases (H : Host) (v : dm_verity) (s : State) (status : Nat) :
    ((verity_error H v s status).2 = true ↔
      (verity_error_behavior H v s status ≠ DM_VERITY_ERROR_BEHAVIOR_EIO ∧
        verity_error_behavior H v s status ≠ DM_VERITY_ERROR_BEHAVIOR_NONE ∧
        s.hash_failed = true)) ∧
    ((verity_error H v s status).1.filter FinEv.is_panic).length
      = (if (verity_error H v s status).2 then 1 else 0) ∧
    (v.error_behavior ≠ DM_VERITY_ERROR_BEHAVIOR_NOTIFY → s.hash_failed = true →
      (verity_error H v s status).2 = true →
      (verity_error H v s status).1 =
        [FinEv.dmerr "verification failure occurred: integrity failure",
          FinEv.panic status (2 ^ 64 - 1) "integrity"]) := by
  unfold verity_error
  simp only []
  by_cases h1 : verity_error_behavior H v s status = DM_VERITY_ERROR_BEHAVIOR_EIO
  · rw [if_pos h1]
    refine ⟨⟨fun h => Bool.noConfusion h, fun h => absurd h1 h.1⟩, ?_,
      fun _ _ h => Bool.noConfusion h⟩
    split <;> rfl
  · rw [if_neg h1]
    by_cases h2 : verity_error_behavior H v s status = DM_VERITY_ERROR_BEHAVIOR_NONE
    · rw [if_pos h2]
      refine ⟨⟨fun h => Bool.noConfusion h, fun h => absurd h2 h.2.1⟩, ?_,
        fun _ _ h => Bool.noConfusion h⟩
      split <;> rfl
    · rw [if_neg h2]
      cases hf : s.hash_failed with
      | false =>
        rw [if_neg (show ¬ ((if false = true then (0 : Int) else 1) = 0) by decide)]
        refine ⟨⟨fun h => Bool.noConfusion h, fun h => Bool.noConfusion h.2.2⟩, ?_,
          fun _ h => Bool.noConfusion h⟩
        split <;> rfl
      | true =>
        rw [if_pos (show (if true = true then (0 : Int) else 1) = 0 by decide)]
        refine ⟨⟨fun _ => ⟨h1, h2, rfl⟩, fun _ => rfl⟩, ?_, fun hn _ _ => ?_⟩
        · split <;> rfl
        · rw [if_neg hn]
          rfl

/-- The local `error_behavior` of `verity_error` at its `switch`: the configured
behaviour unless that is NOTIFY; for NOTIFY the behaviour the notifiers left in
the record when the chain returned 0, and PANIC when it did not. -/
theorem verity_error_behavior_cases (H : Host) (v : dm_verity) (s : State) (status : Nat) :
    (v.error_behavior ≠ DM_VERITY_ERROR_BEHAVIOR_NOTIFY →
      verity_error_behavior H v s status = v.error_behavior) ∧
    (v.error_behavior = DM_VERITY_ERROR_BEHAVIOR_NOTIFY →
      (H.notifier_call_chain (if s.hash_failed then 0 else 1)
        (verity_error_state v s status)).1 = 0 →
      verity_error_behavior H v s status =
        (H.notifier_call_chain (if s.hash_failed then 0 else 1)
          (verity_error_state v s status)).2.behavior) ∧
    (v.error_behavior = DM_VERITY_ERROR_BEHAVIOR_NOTIFY →
      (H.notifier_call_chain (if s.hash_failed then 0 else 1)
        (verity_error_state v s status)).1 ≠ 0 →
      verity_error_behavior H v s status = DM_VERITY_ERROR_BEHAVIOR_PANIC) := by
  unfold verity_error_behavior
  refine ⟨fun h => by rw [if_neg h], fun h h0 => by rw [if_pos h, if_pos h0],
    fun h h0 => by rw [if_pos h, if_neg h0]⟩

/-- C19 (counterexample): with FEC disabled, behaviour `panic` and mode EIO, the
read of data block 16 of the example volume with corrupted data halts the host
(one call of `panic`) and the bio is never completed: no `bio_endio` is among
the effects of `verity_work`. -/
theorem verity_work_halts_before_completion :
    ∃ s2 evs halted, verity_work toy_env toy_host fx_v_panic ⟨16, 1⟩ (fx_state fx_data_bad)
        = some (s2, evs, halted) ∧
      (halted && decide ((evs.filter FinEv.is_panic).length = 1) &&
        evs.all (fun e => !FinEv.is_endio e) &&
        decide (Ev.uevent verity_block_type.DATA 16 ∈ s2.trace)) = true :=
  work_check_some _
    (fun s2 evs halted => halted && decide ((evs.filter FinEv.is_panic).length = 1) &&
      evs.all (fun e => !FinEv.is_endio e) &&
      decide (Ev.uevent verity_block_type.DATA 16 ∈ s2.trace))
    (by decide!)

/-- C19 (amended): `verity_error` halts the host if and only if the behaviour
it acts on (the configured one, or for NOTIFY the behaviour left in the record
when the notifier chain returns 0, else PANIC) is neither EIO nor NONE and
`hash_failed` is set, and it calls `panic` exactly once when it halts and never
otherwise.  With behaviour EIO or NONE it never halts and `verity_finish_io`
completes the bio with the status it is given.  With FEC disabled, behaviour
PANIC and mode EIO, when no digest operation fails, for a request whose blocks
before `b` have verified, whose lookup of the expected digest of `b` returns 0
with a digest that is not the zero digest and whose payload block mismatches
it: `verity_verify_io` returns `-EIO` with `hash_failed` set, after the calls
of the FEC hook and of `verity_handle_err` for the block and one uevent for it
if the counter was below saturation, and `verity_work` halts the host in
`verity_error`, with one call of `panic` for the status `BLK_STS_IOERR`,
before the bio is completed. -/
theorem verity_error_halt_policy :
    (∀ (H : Host) (v : dm_verity) (s : State) (status : Nat),
      ((verity_error H v s status).2 = true ↔
        (verity_error_behavior H v s status ≠ DM_VERITY_ERROR_BEHAVIOR_EIO ∧
          verity_error_behavior H v s status ≠ DM_VERITY_ERROR_BEHAVIOR_NONE ∧
          s.hash_failed = true)) ∧
      ((verity_error H v s status).1.filter FinEv.is_panic).length
        = (if (verity_error H v s status).2 then 1 else 0) ∧
      (v.error_behavior ≠ DM_VERITY_ERROR_BEHAVIOR_NOTIFY →
        verity_error_behavior H v s status = v.error_behavior) ∧
      (v.error_behavior = DM_VERITY_ERROR_BEHAVIOR_NOTIFY →
        (H.notifier_call_chain (if s.hash_failed then 0 else 1)
          (verity_error_state v s status)).1 = 0 →
        verity_error_behavior H v s status =
          (H.notifier_call_chain (if s.hash_failed then 0 else 1)
            (verity_error_state v s status)).2.behavior) ∧
      (v.error_behavior = DM_VERITY_ERROR_BEHAVIOR_NOTIFY →
        (H.notifier_call_chain (if s.hash_failed then 0 else 1)
          (verity_error_state v s status)).1 ≠ 0 →
        verity_error_behavior H v s status = DM_VERITY_ERROR_BEHAVIOR_PANIC)) ∧
    (∀ (H : Host) (v : dm_verity) (s : State) (status : Nat),
      (v.error_behavior = DM_VERITY_ERROR_BEHAVIOR_EIO ∨
        v.error_behavior = DM_VERITY_ERROR_BEHAVIOR_NONE) →
      (verity_error H v s status).2 = false ∧
      (verity_finish_io H v s status).2 = false ∧
      FinEv.bio_endio status ∈ (verity_finish_io H v s status).1) ∧
    (∀ (E : Env) (H : Host) (v : dm_verity) (io : dm_verity_io) (s : State) (k : Nat)
      (sk s1 : State) (want : List Nat),
      H.fec_is_enabled = false →
      v.error_behavior = DM_VERITY_ERROR_BEHAVIOR_PANIC →
      v.mode = verity_mode.EIO →
      tfm_ok E.tfm → (∀ p, 0 < E.bv_len p) → 0 < data_block_bytes v →
      k < io.n_blocks % 2 ^ 32 →
      verity_verify_io_loop E v io k 0 s = some (0, sk) →
      sk.iter + data_block_bytes v ≤ sk.payload.length →
      ¬ skipped_once v sk ((io.block + k) % 2 ^ 64) →
      verity_hash_for_block E v sk ((io.block + k) % 2 ^ 64) sk.want_digest
        = (0, s1, want, false) →
      memcmp_eq (block_digest E v (bytes_at sk.payload sk.iter (data_block_bytes v)))
        want v.digest_size = false →
      E.fec_decode verity_block_type.DATA ((io.block + k) % 2 ^ 64) = none →
      ∃ s2, verity_verify_io E v io s = some (- EIO, s2) ∧
        s2.hash_failed = true ∧
        obs s2.trace = obs s1.trace ++
          ([Ev.fec_decode verity_block_type.DATA ((io.block + k) % 2 ^ 64),
            Ev.handle_err verity_block_type.DATA ((io.block + k) % 2 ^ 64)] ++
            (if s1.corrupted_errs < DM_VERITY_MAX_CORRUPTED_ERRS
              then [Ev.uevent verity_block_type.DATA ((io.block + k) % 2 ^ 64)] else [])) ∧
        verity_work E H v io s =
          some (s2,
            [FinEv.dmerr "verification failure occurred: integrity failure",
              FinEv.panic BLK_STS_IOERR (2 ^ 64 - 1) "integrity"], true)) := by
  refine ⟨?_, ?_, ?_⟩
  · intro H v s status
    obtain ⟨c1, c2, _⟩ := verity_error_cases H v s status
    obtain ⟨b1, b2, b3⟩ := verity_error_behavior_cases H v s status
    exact ⟨c1, c2, b1, b2, b3⟩
  · intro H v s status hb
    obtain ⟨c1, _, _⟩ := verity_error_cases H v s status
    obtain ⟨b1, _, _⟩ := verity_error_behavior_cases H v s status
    have hnn : v.error_behavior ≠ DM_VERITY_ERROR_BEHAVIOR_NOTIFY := by
      rcases hb with hb | hb <;> rw [hb] <;> decide
    have hbe := b1 hnn
    have hnh : (verity_error H v s status).2 = false := by
      cases hh : (verity_error H v s status).2 with
      | false => rfl
      | true =>
        obtain ⟨n1, n2, _⟩ := c1.mp hh
        rw [hbe] at n1 n2
        rcases hb with hb | hb
        · exact absurd hb n1
        · exact absurd hb n2
    refine ⟨hnh, ?_⟩
    unfold verity_finish_io
    simp only []
    by_cases hc : status ≠ 0 ∧ H.fec_is_enabled = false
    · rw [if_pos hc, hnh]
      simp
    · rw [if_neg hc]
      simp
  · intro E H v io s k sk s1 want hfe hbeh hmode hok hseg hbs hk hpre hroom hns hl hm hfec
    obtain ⟨fp, _, _, _⟩ :=
      verity_hash_for_block_general E v sk ((io.block + k) % 2 ^ 64) sk.want_digest
    rw [hl] at fp
    have fpp : s1.payload = sk.payload := fp.payload
    have fpi : s1.iter = sk.iter := fp.iter
    obtain ⟨s2, r1, _, _, _, _, _, r7, _, r9⟩ := verity_verify_io_data_mismatch E v
      { s1 with want_digest := want } ((io.block + k) % 2 ^ 64) hok hseg
      (by show s1.iter + data_block_bytes v ≤ s1.payload.length; rw [fpp, fpi]; exact hroom)
      (by
        show memcmp_eq (block_digest E v (bytes_at s1.payload s1.iter (data_block_bytes v)))
          want v.digest_size = false
        rw [fpp, fpi]; exact hm)
      hfec
    have hnl : ¬ v.mode = verity_mode.LOGGING := by rw [hmode]; decide
    have hnr : ¬ v.mode = verity_mode.RESTART := by rw [hmode]; decide
    rw [if_neg hnl] at r1
    have hstep : verity_verify_io_block E v io sk k = some (some (- EIO), s2) :=
      (verity_verify_io_block_lookup E v io sk k s1 want hns hl).trans r1
    have hv : verity_verify_io E v io s = some (- EIO, s2) := by
      unfold verity_verify_io
      have e : io.n_blocks % 2 ^ 32 = k + ((io.n_blocks % 2 ^ 32 - (k + 1)) + 1) := by omega
      rw [e, verity_verify_io_loop_split E v io hbs k _ 0 s sk hpre, Nat.zero_add,
        verity_verify_io_loop, hstep]
    have hobs : obs s2.trace = obs s1.trace ++
        ([Ev.fec_decode verity_block_type.DATA ((io.block + k) % 2 ^ 64),
          Ev.handle_err verity_block_type.DATA ((io.block + k) % 2 ^ 64)] ++
          (if s1.corrupted_errs < DM_VERITY_MAX_CORRUPTED_ERRS
            then [Ev.uevent verity_block_type.DATA ((io.block + k) % 2 ^ 64)] else [])) := by
      rw [r9, if_neg hnr]
      simp
    refine ⟨s2, hv, r7, hobs, ?_⟩
    obtain ⟨c1, _, c3⟩ := verity_error_cases H v s2 BLK_STS_IOERR
    obtain ⟨b1, _, _⟩ := verity_error_behavior_cases H v s2 BLK_STS_IOERR
    have hnn : v.error_behavior ≠ DM_VERITY_ERROR_BEHAVIOR_NOTIFY := by rw [hbeh]; decide
    have hbe := b1 hnn
    have hh : (verity_error H v s2 BLK_STS_IOERR).2 = true := by
      rw [c1, hbe, hbeh]
      exact ⟨by decide, by decide, r7⟩
    have hev := c3 hnn r7 hh
    unfold verity_work
    rw [hv]
    simp only []
    have hst : errno_to_blk_status (- EIO) = BLK_STS_IOERR := by decide
    rw [hst]
    unfold verity_finish_io
    simp only []
    have hc : BLK_STS_IOERR ≠ 0 ∧ H.fec_is_enabled = false := ⟨by decide, hfe⟩
    rw [if_pos hc, hh]
    simp only [if_true]
    congr 2
    exact Prod.ext hev hh

/-- Witness of C19 (amended): the corrupted read of data block 16 of the example
volume with behaviour `panic`. -/
theorem verity_error_halt_policy_witness :
    ∃ s2, verity_verify_io toy_env fx_v_panic ⟨16, 1⟩ (fx_state fx_data_bad)
        = some (- EIO, s2) ∧
      verity_work toy_env toy_host fx_v_panic ⟨16, 1⟩ (fx_state fx_data_bad) =
        some (s2,
          [FinEv.dmerr "verification failure occurred: integrity failure",
            FinEv.panic BLK_STS_IOERR (2 ^ 64 - 1) "integrity"], true) := by
  obtain ⟨s2, h1, _, _, h4⟩ :=
    verity_error_halt_policy.2.2 toy_env toy_host fx_v_panic ⟨16, 1⟩ (fx_state fx_data_bad)
      0 (fx_state fx_data_bad) _ _ rfl (by decide!) (by decide!)
      ⟨rfl, fun _ _ => rfl, fun _ => rfl⟩ (fun _ => (by decide : 0 < 4096)) (by decide!)
      (by decide) rfl (by decide!) (by unfold skipped_once; decide!)
      (lookup_eq _ (by decide!) (by decide!)) (by decide!) (by decide!)
  exact ⟨s2, h1, h4⟩

/-! ## Mismatches that the FEC hook repairs -/

/-- The data path on a mismatching block that the FEC hook repairs, when no
digest operation fails: the step continues with the repaired block in the
payload; `verity_handle_err` is not called. -/
theorem verity_verify_io_data_repaired (E : Env) (v : dm_verity) (s : State) (cur : Nat)
    (fixed : List Nat) (hok : tfm_ok E.tfm) (hseg : ∀ p, 0 < E.bv_len p)
    (hroom : s.iter + data_block_bytes v ≤ s.payload.length)
    (hm : memcmp_eq (block_digest E v (bytes_at s.payload s.iter (data_block_bytes v)))
      s.want_digest v.digest_size = false)
    (hfec : E.fec_decode verity_block_type.DATA cur = some fixed) :
    ∃ s2, verity_verify_io_data E v s cur = some (none, s2) ∧
      s2.payload = write_at s.payload s.iter (fixed.take (data_block_bytes v)) ∧
      s2.iter = s.iter + data_block_bytes v ∧
      s2.hash_failed = s.hash_failed ∧
      s2.corrupted_errs = s.corrupted_errs ∧
      obs s2.trace = obs s.trace ++ [Ev.fec_decode verity_block_type.DATA cur] := by
  obtain ⟨s3, f3, i3, d3, o3, hrun⟩ := verity_verify_io_data_run E v s cur hok hseg hroom
  have hcmp : memcmp_eq s3.real_digest s3.want_digest v.digest_size = false := by
    rw [d3, f3.want_digest]
    exact hm
  rw [hcmp, hfec] at hrun
  simp only [Bool.false_eq_true, if_false] at hrun
  refine ⟨_, hrun, ?_, i3, f3.hash_failed, f3.corrupted_errs, ?_⟩
  · show write_at s3.payload s.iter _ = _
    have hp : s3.payload = s.payload := f3.payload
    rw [hp]
  · show obs (s3.trace ++ [Ev.fec_decode verity_block_type.DATA cur]) = _
    rw [obs_other_one s3.trace (Ev.fec_decode verity_block_type.DATA cur) rfl, o3]

/-- The level verifier on an unflagged hash block whose digest mismatches and
that the FEC hook repairs, when no digest operation fails: it returns 0 with
the entry of the repaired block and flags the block; `verity_handle_err` is not
called. -/
theorem verity_verify_level_repaired (E : Env) (v : dm_verity) (s : State) (block level : Nat)
    (want d fixed : List Nat) (hok : tfm_ok E.tfm)
    (hbuf : s.bufs (hash_block_of v block level) = some d)
    (hflag : s.hash_verified (hash_block_of v block level) = false)
    (hm : memcmp_eq (block_digest E v (d.take (1 <<< v.hash_dev_block_bits))) want
      v.digest_size = false)
    (hfec : E.fec_decode verity_block_type.METADATA (hash_block_of v block level) = some fixed) :
    ∃ s2, verity_verify_level E v s block level false want =
        (0, s2, bytes_at fixed (offset_of v block level) v.digest_size) ∧
      s2.hash_failed = s.hash_failed ∧
      s2.corrupted_errs = s.corrupted_errs ∧
      s2.hash_verified (hash_block_of v block level) = true ∧
      obs s2.trace = obs s.trace ++
        [Ev.bufio_read (hash_block_of v block level),
          Ev.fec_decode verity_block_type.METADATA (hash_block_of v block level)] := by
  obtain ⟨h1, _, h3⟩ := verity_hash_digest E hok v
    (s.log (Ev.bufio_read (hash_block_of v block level)))
    (d.take (1 <<< v.hash_dev_block_bits)) (E.buf_vmalloc (hash_block_of v block level))
    s.real_digest
  obtain ⟨fr, _⟩ := verity_hash_frame E v
    (s.log (Ev.bufio_read (hash_block_of v block level)))
    (d.take (1 <<< v.hash_dev_block_bits)) (E.buf_vmalloc (hash_block_of v block level))
    s.real_digest
  have ho := verity_hash_obs E v
    (s.log (Ev.bufio_read (hash_block_of v block level)))
    (d.take (1 <<< v.hash_dev_block_bits)) (E.buf_vmalloc (hash_block_of v block level))
    s.real_digest
  have hol : obs (s.log (Ev.bufio_read (hash_block_of v block level))).trace
      = obs s.trace ++ [Ev.bufio_read (hash_block_of v block level)] :=
    obs_other_one s.trace (Ev.bufio_read (hash_block_of v block level)) rfl
  rw [hol] at ho
  have fl : Frame s (s.log (Ev.bufio_read (hash_block_of v block level))) := log_frame _ _ rfl
  have fr2 := fl.frame_trans fr
  unfold hash_block_of at hbuf hflag h1 h3 fr2 hfec ho
  unfold verity_verify_level offset_of hash_block_of
  simp only [hbuf, hflag, if_true, if_false, Bool.false_eq_true]
  have e1 : (s.log (Ev.bufio_read (verity_hash_at_level v block level).1)).real_digest
      = s.real_digest := rfl
  rw [e1, if_neg (by rw [h1]; decide), h3, hm]
  simp only [Bool.false_eq_true, if_false, hfec]
  refine ⟨_, rfl, fr2.hash_failed, fr2.corrupted_errs, ?_, ?_⟩
  · show (if _ = _ then true else _) = true
    rw [if_pos rfl]
  · show obs ((verity_hash E v (s.log (Ev.bufio_read (verity_hash_at_level v block level).1))
        (d.take (1 <<< v.hash_dev_block_bits))
        (E.buf_vmalloc (verity_hash_at_level v block level).1) s.real_digest).2.1.trace
      ++ [Ev.fec_decode verity_block_type.METADATA (verity_hash_at_level v block level).1]) = _
    rw [obs_other_one _ (Ev.fec_decode verity_block_type.METADATA
      (verity_hash_at_level v block level).1) rfl, ho]
    simp

/-- C20 (counterexample): on the example volume with an FEC hook that repairs,
(a) a read of data block 16 that delivers corrupted data and (b) a read of data
block 16 through a corrupted level-0 hash block both return 0 after the call of
the FEC hook, and `corrupted_errs`, which was 0, is still 0. -/
theorem fec_repair_leaves_counter :
    (∃ r s2, verity_verify_io toy_env_fec fx_v ⟨16, 1⟩ (fx_state fx_data_bad) = some (r, s2) ∧
      (decide (r = 0) && decide ((fx_state fx_data_bad).corrupted_errs = 0) &&
        decide (Ev.fec_decode verity_block_type.DATA 16 ∈ s2.trace) &&
        decide (bytes_at s2.payload 0 512 = fx_data) &&
        decide (s2.corrupted_errs = 0)) = true) ∧
    (∃ r s2, verity_verify_io toy_env_fec fx_v ⟨16, 1⟩
        { fx_state fx_data with bufs := fx_bufs_bad } = some (r, s2) ∧
      (decide (r = 0) && decide ((fx_state fx_data).corrupted_errs = 0) &&
        decide (Ev.fec_decode verity_block_type.METADATA 2 ∈ s2.trace) &&
        decide (s2.corrupted_errs = 0)) = true) :=
  ⟨run_check_some _
      (fun r s2 => decide (r = 0) && decide ((fx_state fx_data_bad).corrupted_errs = 0) &&
        decide (Ev.fec_decode verity_block_type.DATA 16 ∈ s2.trace) &&
        decide (bytes_at s2.payload 0 512 = fx_data) &&
        decide (s2.corrupted_errs = 0))
      (by decide!),
    run_check_some _
      (fun r s2 => decide (r = 0) && decide ((fx_state fx_data).corrupted_errs = 0) &&
        decide (Ev.fec_decode verity_block_type.METADATA 2 ∈ s2.trace) &&
        decide (s2.corrupted_errs = 0))
      (by decide!)⟩

/-- C20 (amended): when no digest operation fails, a digest mismatch that the
FEC hook repairs does not reach `verity_handle_err`: (a) for a data block whose
lookup returned 0 with a digest that is not the zero digest, the step of
`verity_verify_io` continues with the repaired block in the payload, and
`corrupted_errs` and `hash_failed` are as the lookup left them; (b) for an
unflagged hash block, `verity_verify_level` returns 0 with the entry of the
repaired block, flags the block, and leaves `corrupted_errs` and `hash_failed`
as they were.  In both cases the only calls besides digest operations are the
cache read and the FEC hook. -/
theorem fec_repair_not_counted :
    (∀ (E : Env) (v : dm_verity) (io : dm_verity_io) (s : State) (b : Nat) (s1 : State)
      (want fixed : List Nat),
      tfm_ok E.tfm → (∀ p, 0 < E.bv_len p) →
      s.iter + data_block_bytes v ≤ s.payload.length →
      ¬ skipped_once v s ((io.block + b) % 2 ^ 64) →
      verity_hash_for_block E v s ((io.block + b) % 2 ^ 64) s.want_digest
        = (0, s1, want, false) →
      memcmp_eq (block_digest E v (bytes_at s.payload s.iter (data_block_bytes v)))
        want v.digest_size = false →
      E.fec_decode verity_block_type.DATA ((io.block + b) % 2 ^ 64) = some fixed →
      ∃ s2, verity_verify_io_block E v io s b = some (none, s2) ∧
        s2.payload = write_at s.payload s.iter (fixed.take (data_block_bytes v)) ∧
        s2.iter = s.iter + data_block_bytes v ∧
        s2.hash_failed = s1.hash_failed ∧
        s2.corrupted_errs = s1.corrupted_errs ∧
        obs s2.trace = obs s1.trace
          ++ [Ev.fec_decode verity_block_type.DATA ((io.block + b) % 2 ^ 64)]) ∧
    (∀ (E : Env) (v : dm_verity) (s : State) (block level : Nat) (want d fixed : List Nat),
      tfm_ok E.tfm →
      s.bufs (hash_block_of v block level) = some d →
      s.hash_verified (hash_block_of v block level) = false →
      memcmp_eq (block_digest E v (d.take (1 <<< v.hash_dev_block_bits))) want
        v.digest_size = false →
      E.fec_decode verity_block_type.METADATA (hash_block_of v block level) = some fixed →
      ∃ s2, verity_verify_level E v s block level false want =
          (0, s2, bytes_at fixed (offset_of v block level) v.digest_size) ∧
        s2.hash_failed = s.hash_failed ∧
        s2.corrupted_errs = s.corrupted_errs ∧
        s2.hash_verified (hash_block_of v block level) = true ∧
        obs s2.trace = obs s.trace ++
          [Ev.bufio_read (hash_block_of v block level),
            Ev.fec_decode verity_block_type.METADATA (hash_block_of v block level)]) := by
  constructor
  · intro E v io s b s1 want fixed hok hseg hroom hns hl hm hfec
    obtain ⟨fp, _, _, _⟩ :=
      verity_hash_for_block_general E v s ((io.block + b) % 2 ^ 64) s.want_digest
    rw [hl] at fp
    have fpp : s1.payload = s.payload := fp.payload
    have fpi : s1.iter = s.iter := fp.iter
    obtain ⟨s2, r1, r2, r3, r4, r5, r6⟩ := verity_verify_io_data_repaired E v
      { s1 with want_digest := want } ((io.block + b) % 2 ^ 64) fixed hok hseg
      (by show s1.iter + data_block_bytes v ≤ s1.payload.length; rw [fpp, fpi]; exact hroom)
      (by
        show memcmp_eq (block_digest E v (bytes_at s1.payload s1.iter (data_block_bytes v)))
          want v.digest_size = false
        rw [fpp, fpi]; exact hm)
      hfec
    refine ⟨s2, (verity_verify_io_block_lookup E v io s b s1 want hns hl).trans r1, ?_, ?_,
      r4, r5, r6⟩
    · rw [r2]
      show write_at s1.payload s1.iter _ = _
      rw [fpp, fpi]
    · rw [r3]
      show s1.iter + _ = _
      rw [fpi]
  · intro E v s block level want d fixed hok hbuf hflag hm hfec
    exact verity_verify_level_repaired E v s block level want d fixed hok hbuf hflag hm hfec

/-- Witness of C20 (amended): the corrupted read of data block 16 of the example
volume with an FEC hook that repairs it. -/
theorem fec_repair_not_counted_witness :
    ∃ s2, verity_verify_io_block toy_env_fec fx_v ⟨16, 1⟩ (fx_state fx_data_bad) 0
        = some (none, s2) ∧
      s2.payload = write_at (fx_state fx_data_bad).payload (fx_state fx_data_bad).iter
        (fx_data.take (data_block_bytes fx_v)) := by
  obtain ⟨s2, h1, h2, _⟩ :=
    fec_repair_not_counted.1 toy_env_fec fx_v ⟨16, 1⟩ (fx_state fx_data_bad) 0 _ _ fx_data
      ⟨rfl, fun _ _ => rfl, fun _ => rfl⟩ (fun _ => (by decide : 0 < 4096)) (by decide!)
      (by unfold skipped_once; decide!)
      (lookup_eq _ (by decide!) (by decide!)) (by decide!) (by decide!)
  exact ⟨s2, h1, h2⟩

/-! ## Entries inside a hash block -/

/-- The index of an entry in its hash block, as `verity_hash_at_level` computes
it, is the position modulo the number of entries per block. -/
theorem verity_hash_at_level_idx (v : dm_verity) (g : GeomOK v) (block level : Nat) :
    ((verity_position_at_level v block level) &&& ((1 <<< v.hash_per_block_bits) - 1)) % 2 ^ 32
      = verity_position_at_level v block level % 2 ^ v.hash_per_block_bits := by
  have hb := (per_block_bounds v g).1
  have h30 := g.hash_bits_le
  rw [Nat.one_shiftLeft, Nat.and_pow_two_sub_one_eq_mod]
  apply Nat.mod_eq_of_lt
  have h1 : verity_position_at_level v block level % 2 ^ v.hash_per_block_bits
      < 2 ^ v.hash_per_block_bits := Nat.mod_lt _ (Nat.pow_pos (by decide))
  have h2 : 2 ^ v.hash_per_block_bits ≤ 2 ^ 30 := Nat.pow_le_pow_right (by decide) (by omega)
  omega

/-- The offset of an entry as a multiple of the slot size: `digest_size` for
version 0 and `2 ^ (hash_dev_block_bits - hash_per_block_bits)` for version 1,
which is at least `digest_size`; the slots of a block fill at most the block. -/
theorem verity_hash_at_level_slot (v : dm_verity) (g : GeomOK v)
    (hds : 2 * v.digest_size ≤ 2 ^ v.hash_dev_block_bits) (block level : Nat) :
    v.digest_size
        ≤ (if v.version = 0 then v.digest_size
            else 2 ^ (v.hash_dev_block_bits - v.hash_per_block_bits)) ∧
      2 ^ v.hash_per_block_bits *
          (if v.version = 0 then v.digest_size
            else 2 ^ (v.hash_dev_block_bits - v.hash_per_block_bits))
        ≤ 2 ^ v.hash_dev_block_bits ∧
      (verity_hash_at_level v block level).2 =
        (verity_position_at_level v block level % 2 ^ v.hash_per_block_bits) *
          (if v.version = 0 then v.digest_size
            else 2 ^ (v.hash_dev_block_bits - v.hash_per_block_bits)) := by
  obtain ⟨hb, hor⟩ := per_block_bounds v g
  have h30 := g.hash_bits_le
  have hfit : 2 ^ v.hash_per_block_bits * v.digest_size ≤ 2 ^ v.hash_dev_block_bits := by
    rcases hor with h0 | h1
    · rw [h0, Nat.pow_zero, Nat.one_mul]
      omega
    · exact h1
  have hidx := verity_hash_at_level_idx v g block level
  have hlt : verity_position_at_level v block level % 2 ^ v.hash_per_block_bits
      < 2 ^ v.hash_per_block_bits := Nat.mod_lt _ (Nat.pow_pos (by decide))
  have h2 : 2 ^ v.hash_dev_block_bits ≤ 2 ^ 30 := Nat.pow_le_pow_right (by decide) h30
  have hsplit : 2 ^ v.hash_per_block_bits * 2 ^ (v.hash_dev_block_bits - v.hash_per_block_bits)
      = 2 ^ v.hash_dev_block_bits := by
    rw [← Nat.pow_add]
    congr 1
    omega
  by_cases hv : v.version = 0
  · rw [if_pos hv]
    refine ⟨Nat.le_refl _, hfit, ?_⟩
    unfold verity_hash_at_level
    simp only []
    rw [if_pos hv, hidx]
    apply Nat.mod_eq_of_lt
    have : verity_position_at_level v block level % 2 ^ v.hash_per_block_bits * v.digest_size
        ≤ 2 ^ v.hash_per_block_bits * v.digest_size :=
      Nat.mul_le_mul_right _ (Nat.le_of_lt hlt)
    omega
  · rw [if_neg hv]
    refine ⟨?_, Nat.le_of_eq hsplit, ?_⟩
    · have hp : 0 < 2 ^ v.hash_per_block_bits := Nat.pow_pos (by decide)
      rw [← hsplit] at hfit
      exact Nat.le_of_mul_le_mul_left hfit hp
    · unfold verity_hash_at_level
      simp only []
      rw [if_neg hv, hidx, Nat.shiftLeft_eq]
      apply Nat.mod_eq_of_lt
      have : verity_position_at_level v block level % 2 ^ v.hash_per_block_bits
          * 2 ^ (v.hash_dev_block_bits - v.hash_per_block_bits)
          ≤ 2 ^ v.hash_per_block_bits * 2 ^ (v.hash_dev_block_bits - v.hash_per_block_bits) :=
        Nat.mul_le_mul_right _ (Nat.le_of_lt hlt)
      omega

/-- C30: for every geometry the constructor accepts with
`2 * digest_size ≤ 2 ^ hash_dev_block_bits`, every block, every level and both
versions, the offset computed by `verity_hash_at_level` satisfies
`offset + digest_size ≤ 2 ^ hash_dev_block_bits`, so the `digest_size` bytes
that `verity_verify_level` copies from a hash block of that size are all
inside the block; and the entries of two distinct indices in a block do not
overlap. -/
theorem verity_hash_at_level_offset_fits (a : ctr_args) (v : dm_verity)
    (h : verity_ctr a = .ok v) (hds : 2 * v.digest_size ≤ 2 ^ v.hash_dev_block_bits)
    (block level : Nat) :
    (verity_hash_at_level v block level).2 + v.digest_size ≤ 2 ^ v.hash_dev_block_bits ∧
    (∀ data : List Nat, data.length = 2 ^ v.hash_dev_block_bits →
      (bytes_at data (verity_hash_at_level v block level).2 v.digest_size).length
        = v.digest_size) ∧
    (∀ block2 level2 : Nat,
      verity_position_at_level v block level % 2 ^ v.hash_per_block_bits
        < verity_position_at_level v block2 level2 % 2 ^ v.hash_per_block_bits →
      (verity_hash_at_level v block level).2 + v.digest_size
        ≤ (verity_hash_at_level v block2 level2).2) := by
  obtain ⟨g, _, _⟩ := verity_ctr_accepts a v h
  obtain ⟨s1, s2, s3⟩ := verity_hash_at_level_slot v g hds block level
  generalize (if v.version = 0 then v.digest_size
    else 2 ^ (v.hash_dev_block_bits - v.hash_per_block_bits)) = slot at s1 s2 s3
  have hlt : verity_position_at_level v block level % 2 ^ v.hash_per_block_bits
      < 2 ^ v.hash_per_block_bits := Nat.mod_lt _ (Nat.pow_pos (by decide))
  have hfit : (verity_hash_at_level v block level).2 + v.digest_size
      ≤ 2 ^ v.hash_dev_block_bits := by
    rw [s3]
    have : (verity_position_at_level v block level % 2 ^ v.hash_per_block_bits + 1) * slot
        ≤ 2 ^ v.hash_per_block_bits * slot := Nat.mul_le_mul_right _ hlt
    rw [Nat.add_mul, Nat.one_mul] at this
    omega
  refine ⟨hfit, ?_, ?_⟩
  · intro data hlen
    unfold bytes_at
    rw [List.length_take, List.length_drop, hlen]
    omega
  · intro block2 level2 hidx
    obtain ⟨s1, _, s3⟩ := verity_hash_at_level_slot v g hds block level
    obtain ⟨_, _, t3⟩ := verity_hash_at_level_slot v g hds block2 level2
    generalize (if v.version = 0 then v.digest_size
      else 2 ^ (v.hash_dev_block_bits - v.hash_per_block_bits)) = slot at s1 s3 t3
    rw [s3, t3]
    have : (verity_position_at_level v block level % 2 ^ v.hash_per_block_bits + 1) * slot
        ≤ verity_position_at_level v block2 level2 % 2 ^ v.hash_per_block_bits * slot :=
      Nat.mul_le_mul_right _ hidx
    rw [Nat.add_mul, Nat.one_mul] at this
    omega

/-- Witness for C30 on the two-level fixture: block 5, level 0. -/
theorem verity_hash_at_level_offset_fits_witness :
    verity_ctr fx_args = .ok fx_v ∧ 2 * fx_v.digest_size ≤ 2 ^ fx_v.hash_dev_block_bits ∧
    (verity_hash_at_level fx_v 5 0).2 + fx_v.digest_size ≤ 2 ^ fx_v.hash_dev_block_bits :=
  ⟨fx_v_accepted, by decide,
    (verity_hash_at_level_offset_fits fx_args fx_v fx_v_accepted (by decide) 5 0).1⟩

/-! ## The block reported by the failure policy -/

/-- C22 (counterexample): with behaviour `notify`, a notifier chain that leaves
the record as it is and mode EIO, the read of data block 16 of the example
volume with corrupted data fails on block 16 (`verity_handle_err` is called for
data block 16), and `verity_work` passes the notifiers a record whose block is
`2 ^ 64 - 1` and halts with a diagnostic whose block is `2 ^ 64 - 1`: no effect
reports block 16. -/
theorem verity_error_block_not_failing_block :
    ∃ s2 evs halted, verity_work toy_env toy_host fx_v_notify ⟨16, 1⟩ (fx_state fx_data_bad)
        = some (s2, evs, halted) ∧
      (decide (Ev.handle_err verity_block_type.DATA 16 ∈ s2.trace) &&
        decide (evs.filterMap FinEv.block = [2 ^ 64 - 1, 2 ^ 64 - 1]) &&
        decide (16 ∉ evs.filterMap FinEv.block)) = true :=
  work_check_some _
    (fun s2 evs _ => decide (Ev.handle_err verity_block_type.DATA 16 ∈ s2.trace) &&
      decide (evs.filterMap FinEv.block = [2 ^ 64 - 1, 2 ^ 64 - 1]) &&
      decide (16 ∉ evs.filterMap FinEv.block))
    (by decide!)

/-- C22 (amended): whenever the failure policy `verity_error` is invoked,
whatever block the verification of the request failed on, the block index in
the error-state record passed to the notifiers and the block printed in the
halt diagnostic is the all-ones 64-bit value `2 ^ 64 - 1`; the same holds for
every effect of `verity_finish_io`. -/
theorem verity_error_block_all_ones (H : Host) (v : dm_verity) (s : State) (status : Nat) :
    (verity_error_state v s status).block = 2 ^ 64 - 1 ∧
    ((verity_error H v s status).1.filterMap FinEv.block).all
      (fun b => decide (b = 2 ^ 64 - 1)) = true ∧
    ((verity_finish_io H v s status).1.filterMap FinEv.block).all
      (fun b => decide (b = 2 ^ 64 - 1)) = true := by
  have he : ((verity_error H v s status).1.filterMap FinEv.block).all
      (fun b => decide (b = 2 ^ 64 - 1)) = true := by
    unfold verity_error
    simp only []
    by_cases hn : v.error_behavior = DM_VERITY_ERROR_BEHAVIOR_NOTIFY
    · rw [if_pos hn]
      split_ifs <;> simp [FinEv.block, verity_error_state]
    · rw [if_neg hn]
      split_ifs <;> simp [FinEv.block]
  refine ⟨rfl, he, ?_⟩
  unfold verity_finish_io
  simp only []
  split_ifs with h1 h2 h3
  · exact he
  · rw [List.filterMap_append, List.all_append, he]
    rfl
  · cases h3
  · rfl

/-! ## The two versions of the salted stream -/

/-- C25 (counterexample): with the all-zero salt of two bytes (`salt_size = 2`)
and an all-zero block of 512 bytes, the version-0 and the version-1 pipeline
feed the digest primitive the same byte stream and compute the same digest. -/
theorem verity_hash_versions_agree :
    (fx_v_zero_salt 0).salt_size = 2 ∧ (fx_v_zero_salt 1).salt_size = 2 ∧
    (fx_v_zero_salt 0).version = 0 ∧ (fx_v_zero_salt 1).version = 1 ∧
    (verity_hash toy_env (fx_v_zero_salt 0) (fx_state []) (List.replicate 512 0) none []).1 = 0 ∧
    (verity_hash toy_env (fx_v_zero_salt 1) (fx_state []) (List.replicate 512 0) none []).1 = 0 ∧
    (verity_hash toy_env (fx_v_zero_salt 0) (fx_state []) (List.replicate 512 0) none []).2.1.req
      = (verity_hash toy_env (fx_v_zero_salt 1) (fx_state []) (List.replicate 512 0)
          none []).2.1.req ∧
    (verity_hash toy_env (fx_v_zero_salt 0) (fx_state []) (List.replicate 512 0) none []).2.2
      = (verity_hash toy_env (fx_v_zero_salt 1) (fx_state []) (List.replicate 512 0)
          none []).2.2 := by
  refine ⟨rfl, rfl, rfl, rfl, by decide!, by decide!, by decide!, by decide!⟩

/-- C25 (amended): for every salt, every block content and every digest
algorithm whose operations do not fail, the version-1 pipeline feeds the digest
primitive the salt followed by the block and the version-0 pipeline the block
followed by the salt.  The two streams are equal exactly when the salt followed
by the block is the same byte string as the block followed by the salt, and
then the two digests are equal; when the digest algorithm gives the two
strings different digests, the digests the two versions compute differ. -/
theorem verity_hash_versions_streams (E : Env) (hok : tfm_ok E.tfm) (v : dm_verity) (s : State)
    (data : List Nat) (vm : Option Nat) (digest : List Nat) :
    (verity_hash E { v with version := 1 } s data vm digest).2.1.req = v.salt ++ data ∧
    (verity_hash E { v with version := 0 } s data vm digest).2.1.req = data ++ v.salt ∧
    (verity_hash E { v with version := 1 } s data vm digest).2.2
      = E.tfm.digest (v.salt ++ data) ∧
    (verity_hash E { v with version := 0 } s data vm digest).2.2
      = E.tfm.digest (data ++ v.salt) ∧
    ((verity_hash E { v with version := 0 } s data vm digest).2.1.req
        = (verity_hash E { v with version := 1 } s data vm digest).2.1.req
      ↔ v.salt ++ data = data ++ v.salt) ∧
    (v.salt ++ data = data ++ v.salt →
      (verity_hash E { v with version := 0 } s data vm digest).2.2
        = (verity_hash E { v with version := 1 } s data vm digest).2.2) ∧
    (E.tfm.digest (v.salt ++ data) ≠ E.tfm.digest (data ++ v.salt) →
      (verity_hash E { v with version := 0 } s data vm digest).2.2
        ≠ (verity_hash E { v with version := 1 } s data vm digest).2.2) := by
  obtain ⟨_, a1, a2⟩ := verity_hash_digest E hok { v with version := 1 } s data vm digest
  obtain ⟨_, b1, b2⟩ := verity_hash_digest E hok { v with version := 0 } s data vm digest
  have e1 : salted { v with version := 1 } data = v.salt ++ data := rfl
  have e0 : salted { v with version := 0 } data = data ++ v.salt := rfl
  unfold block_digest at a2 b2
  rw [e1] at a1 a2
  rw [e0] at b1 b2
  refine ⟨a1, b1, a2, b2, ?_, ?_, ?_⟩
  · rw [a1, b1]
    exact ⟨fun h => h.symm, fun h => h.symm⟩
  · intro h
    rw [a2, b2, h]
  · intro h
    rw [a2, b2]
    exact fun e => h e.symm

/-- Witness of C25 (amended): the example verifier (salt `5 6`) on the block
`7 8`, where the two streams `5 6 7 8` and `7 8 5 6` differ. -/
theorem verity_hash_versions_streams_witness :
    tfm_ok toy_env.tfm ∧
    (verity_hash toy_env { fx_v with version := 1 } (fx_state []) [7, 8] none []).2.1.req
      = [5, 6, 7, 8] ∧
    (verity_hash toy_env { fx_v with version := 0 } (fx_state []) [7, 8] none []).2.1.req
      = [7, 8, 5, 6] := by
  have hok : tfm_ok toy_env.tfm := ⟨rfl, fun _ _ => rfl, fun _ => rfl⟩
  have h := verity_hash_versions_streams toy_env hok fx_v (fx_state []) [7, 8] none []
  exact ⟨hok, h.1, h.2.1⟩

/-! ## The parser of the error behaviour -/

/-- What `verity_parse_error_behavior` accepts: a string that is one of the four
names, or whose first character is one of the digits `0` to `3`, whatever
follows that digit. -/
theorem verity_parse_error_behavior_accepts (behavior : String) :
    (∃ r, verity_parse_error_behavior behavior = .ok r) ↔
      (behavior ∈ allowed_error_behaviors ∨
        (48 ≤ first_char behavior ∧ first_char behavior ≤ 51)) := by
  unfold verity_parse_error_behavior allowed_error_behaviors
  simp only [verity_parse_error_behavior_loop, List.mem_cons, List.mem_singleton,
    List.not_mem_nil, or_false]
  constructor
  · intro h
    by_contra hc
    simp only [not_or, not_and, not_le] at hc
    obtain ⟨⟨h0, h1, h2, h3⟩, h4⟩ := hc
    rw [if_neg (by intro h; rcases h with h | h; exact h0 h.symm; omega),
      if_neg (by intro h; rcases h with h | h; exact h1 h.symm; omega),
      if_neg (by intro h; rcases h with h | h; exact h2 h.symm; omega),
      if_neg (by intro h; rcases h with h | h; exact h3 h.symm; omega)] at h
    obtain ⟨r, hr⟩ := h
    cases hr
  · intro h
    split_ifs with a0 a1 a2 a3
    · exact ⟨_, rfl⟩
    · exact ⟨_, rfl⟩
    · exact ⟨_, rfl⟩
    · exact ⟨_, rfl⟩
    · exfalso
      simp only [not_or] at a0 a1 a2 a3
      rcases h with (h | h | h | h) | h
      · exact a0.1 h.symm
      · exact a1.1 h.symm
      · exact a2.1 h.symm
      · exact a3.1 h.symm
      · omega

/-- C24: `verity_parse_error_behavior` accepts the string `1x`, a digit followed
by a further character, and returns the index string `1` for it (as it does for
`3io`, `0panic` and `2 `), where the claim requires the invalid-argument error;
on the four names, the four single digits and strings that start with no digit
of `0..3` it does what the claim says. -/
theorem verity_parse_error_behavior_digit_prefix :
    verity_parse_error_behavior "1x" = .ok "1" ∧
    verity_parse_error_behavior "3io" = .ok "3" ∧
    verity_parse_error_behavior "0panic" = .ok "0" ∧
    verity_parse_error_behavior "2 " = .ok "2" ∧
    verity_parse_error_behavior "eio" = .ok "0" ∧
    verity_parse_error_behavior "panic" = .ok "1" ∧
    verity_parse_error_behavior "none" = .ok "2" ∧
    verity_parse_error_behavior "notify" = .ok "3" ∧
    verity_parse_error_behavior "0" = .ok "0" ∧
    verity_parse_error_behavior "1" = .ok "1" ∧
    verity_parse_error_behavior "2" = .ok "2" ∧
    verity_parse_error_behavior "3" = .ok "3" ∧
    verity_parse_error_behavior "4" = .error (- EINVAL) ∧
    verity_parse_error_behavior "" = .error (- EINVAL) ∧
    verity_parse_error_behavior "eio2" = .error (- EINVAL) ∧
    verity_parse_error_behavior "reboot" = .error (- EINVAL) := by
  refine ⟨rfl, rfl, rfl, rfl, rfl, rfl, rfl, rfl, rfl, rfl, rfl, rfl, rfl, rfl, rfl, rfl⟩

/-! ## The text of the uevent -/

/-- C23: the constructor accepts a volume of `10 ^ 16 + 1` data blocks, and below
saturation `verity_handle_err` for its data block `10 ^ 16` emits a uevent
whose text is `DM_VERITY_ERR_BLOCK_NR=0,1000000000000000`: the 42-byte buffer
holds 41 characters, 25 of them before the block index, so only the first 16 of
the 17 digits of the index are in it.  The text is the same as for the blocks
`10 ^ 16 + 1` and `10 ^ 15`, so the block index cannot be recovered from it; for
a block below `10 ^ 16`, such as `10 ^ 16 - 1`, the text is complete. -/
theorem verity_env_truncates_block :
    verity_ctr exa_args = .ok (ctr_verity exa_args) ∧
    10 ^ 16 < (ctr_verity exa_args).data_blocks ∧
    (fx_state []).corrupted_errs < DM_VERITY_MAX_CORRUPTED_ERRS ∧
    (verity_handle_err (ctr_verity exa_args) (fx_state []) verity_block_type.DATA
        (10 ^ 16)).2.trace.filterMap Ev.envp = ["DM_VERITY_ERR_BLOCK_NR=0,1000000000000000"] ∧
    verity_env verity_block_type.DATA (10 ^ 16)
      = verity_env verity_block_type.DATA (10 ^ 16 + 1) ∧
    verity_env verity_block_type.DATA (10 ^ 16) = verity_env verity_block_type.DATA (10 ^ 15) ∧
    verity_env verity_block_type.METADATA (2 ^ 64 - 1)
      = "DM_VERITY_ERR_BLOCK_NR=1,1844674407370955" ∧
    verity_env verity_block_type.DATA (10 ^ 16 - 1)
      = "DM_VERITY_ERR_BLOCK_NR=0,9999999999999999" := by
  refine ⟨ctr_verity_ok exa_args (by decide), by decide, by decide, by decide, by decide,
    by decide, by decide, by decide⟩

/-! ## The level verifier on an unflagged block -/

/-- The four ways `verity_verify_level` ends on a readable, unflagged hash
block that it may not skip, in terms of the result `h` of `verity_hash` on the
block: the digest operation failed; the digest matched and the flag is set; the
FEC hook repaired the block and the flag is set; or `verity_handle_err` was
called and decided between `-EIO` and 0. -/
theorem verity_verify_level_cases (E : Env) (v : dm_verity) (s : State) (block level : Nat)
    (want d : List Nat) (h : Int × State × List Nat)
    (hbuf : s.bufs (hash_block_of v block level) = some d)
    (hflag : s.hash_verified (hash_block_of v block level) = false)
    (hh : verity_hash E v (s.log (Ev.bufio_read (hash_block_of v block level)))
      (d.take (1 <<< v.hash_dev_block_bits)) (E.buf_vmalloc (hash_block_of v block level))
      s.real_digest = h) :
    (h.1 < 0 ∧ verity_verify_level E v s block level false want
      = (h.1, { h.2.1 with real_digest := h.2.2 }, want)) ∨
    (¬ h.1 < 0 ∧ memcmp_eq h.2.2 want v.digest_size = true ∧
      verity_verify_level E v s block level false want
        = (0, { h.2.1 with
                real_digest := h.2.2
                hash_verified := fun x =>
                  if x = hash_block_of v block level then true else h.2.1.hash_verified x },
            bytes_at d (offset_of v block level) v.digest_size)) ∨
    (¬ h.1 < 0 ∧ memcmp_eq h.2.2 want v.digest_size = false ∧
      ∃ fixed, E.fec_decode verity_block_type.METADATA (hash_block_of v block level) = some fixed ∧
        verity_verify_level E v s block level false want
          = (0, { h.2.1 with
                  real_digest := h.2.2
                  trace := h.2.1.trace ++
                    [Ev.fec_decode verity_block_type.METADATA (hash_block_of v block level)]
                  bufs := fun x =>
                    if x = hash_block_of v block level then some fixed else h.2.1.bufs x
                  hash_verified := fun x =>
                    if x = hash_block_of v block level then true else h.2.1.hash_verified x },
              bytes_at fixed (offset_of v block level) v.digest_size)) ∨
    (¬ h.1 < 0 ∧ memcmp_eq h.2.2 want v.digest_size = false ∧
      E.fec_decode verity_block_type.METADATA (hash_block_of v block level) = none ∧
      verity_verify_level E v s block level false want
        = (if (verity_handle_err v
                (({ h.2.1 with real_digest := h.2.2 } : State).log
                  (Ev.fec_decode verity_block_type.METADATA (hash_block_of v block level)))
                verity_block_type.METADATA (hash_block_of v block level)).1 ≠ 0
            then (- EIO, (verity_handle_err v
                (({ h.2.1 with real_digest := h.2.2 } : State).log
                  (Ev.fec_decode verity_block_type.METADATA (hash_block_of v block level)))
                verity_block_type.METADATA (hash_block_of v block level)).2, want)
            else (0, (verity_handle_err v
                (({ h.2.1 with real_digest := h.2.2 } : State).log
                  (Ev.fec_decode verity_block_type.METADATA (hash_block_of v block level)))
                verity_block_type.METADATA (hash_block_of v block level)).2,
              bytes_at d (offset_of v block level) v.digest_size))) := by
  subst hh
  unfold hash_block_of at hbuf hflag
  unfold verity_verify_level hash_block_of offset_of
  simp only [hbuf, hflag, if_true, if_false, Bool.false_eq_true]
  have e1 : (s.log (Ev.bufio_read (verity_hash_at_level v block level).1)).real_digest
      = s.real_digest := rfl
  rw [e1]
  by_cases hneg : (verity_hash E v (s.log (Ev.bufio_read (verity_hash_at_level v block level).1))
      (d.take (1 <<< v.hash_dev_block_bits))
      (E.buf_vmalloc (verity_hash_at_level v block level).1) s.real_digest).1 < 0
  · rw [if_pos hneg]
    exact Or.inl ⟨hneg, rfl⟩
  · rw [if_neg hneg]
    right
    by_cases hcmp : memcmp_eq (verity_hash E v
        (s.log (Ev.bufio_read (verity_hash_at_level v block level).1))
        (d.take (1 <<< v.hash_dev_block_bits))
        (E.buf_vmalloc (verity_hash_at_level v block level).1) s.real_digest).2.2
        want v.digest_size = true
    · left
      refine ⟨hneg, hcmp, ?_⟩
      rw [if_pos hcmp]
    · right
      rw [if_neg hcmp]
      have hcmp2 := Bool.eq_false_iff.2 hcmp
      cases hfec : E.fec_decode verity_block_type.METADATA (verity_hash_at_level v block level).1 with
      | some fixed =>
        left
        exact ⟨hneg, hcmp2, fixed, rfl, rfl⟩
      | none =>
        right
        exact ⟨hneg, hcmp2, rfl, rfl⟩
/-! ## Digests under the error convention -/

/-- Under the error convention, a page-wise update that does not fail has fed
exactly the bytes of `data`. -/
theorem verity_hash_update_vmalloc_errno (E : Env) (hu : update_errno E.tfm) :
    ∀ (fuel : Nat) (s : State) (data : List Nat) (off : Nat), data.length < fuel →
      ¬ (verity_hash_update_vmalloc E fuel s data off).1 < 0 →
      (verity_hash_update_vmalloc E fuel s data off).2.req = s.req ++ data := by
  intro fuel
  induction fuel with
  | zero => intro s data off h; omega
  | succ fuel ih =>
    intro s data off hlen
    unfold verity_hash_update_vmalloc
    simp only []
    have hle : (ahash_update E s
        (data.take (min data.length (PAGE_SIZE - off % PAGE_SIZE)))).1 ≤ 0 := hu _ _
    have hpage : 0 < PAGE_SIZE - off % PAGE_SIZE := by
      have : off % PAGE_SIZE < PAGE_SIZE := Nat.mod_lt _ (by decide)
      omega
    split
    · next hne =>
      intro hnn
      exfalso
      omega
    · split
      · next hdone =>
        intro _
        show s.req ++ data.take _ = s.req ++ data
        rw [List.length_drop] at hdone
        have : data.length ≤ min data.length (PAGE_SIZE - off % PAGE_SIZE) := by omega
        rw [List.take_of_length_le this]
      · next hmore =>
        intro hnn
        rw [List.length_drop] at hmore
        have hdl : (data.drop (min data.length (PAGE_SIZE - off % PAGE_SIZE))).length < fuel := by
          rw [List.length_drop]
          omega
        rw [ih _ _ _ hdl hnn]
        show s.req ++ data.take _ ++ data.drop _ = s.req ++ data
        rw [List.append_assoc, List.take_append_drop]

theorem verity_hash_update_errno (E : Env) (hu : update_errno E.tfm) (s : State)
    (data : List Nat) (vm : Option Nat) (h : ¬ (verity_hash_update E s data vm).1 < 0) :
    (verity_hash_update E s data vm).2.req = s.req ++ data := by
  unfold verity_hash_update at h ⊢
  cases vm with
  | none => rfl
  | some off => exact verity_hash_update_vmalloc_errno E hu _ s data off (by omega) h

/-- Under the error convention, a `verity_hash` that does not fail has fed the
salted stream of `data` and its output is the salted digest of `data`. -/
theorem verity_hash_errno (E : Env) (hu : update_errno E.tfm) (v : dm_verity) (s : State)
    (data : List Nat) (vm : Option Nat) (digest : List Nat)
    (h : ¬ (verity_hash E v s data vm digest).1 < 0) :
    (verity_hash E v s data vm digest).2.2 = block_digest E v data := by
  unfold verity_hash at h ⊢
  simp only [] at h ⊢
  by_cases h1 : (verity_hash_init E v s).1 < 0
  · rw [if_pos h1] at h
    exact absurd h1 h
  · rw [if_neg h1] at h ⊢
    by_cases h2 : (verity_hash_update E (verity_hash_init E v s).2 data vm).1 < 0
    · rw [if_pos h2] at h
      exact absurd h2 h
    · rw [if_neg h2] at h ⊢
      rw [verity_hash_final_out E v _ digest h, verity_hash_update_errno E hu _ data vm h2,
        verity_hash_init_req E v s h1, salted_eq]
      rfl

/-! ## Flags that stay set -/

theorem sticky_refl (s : State) : Sticky s s := ⟨fun _ h => h, fun h => h⟩

theorem sticky_trans {s s1 s2 : State} (a : Sticky s s1) (b : Sticky s1 s2) : Sticky s s2 :=
  ⟨fun x h => b.verified x (a.verified x h), fun h => b.failed (a.failed h)⟩

theorem sticky_step {s s0 s1 : State} (a : Sticky s s0)
    (hv : ∀ x, s0.hash_verified x = true → s1.hash_verified x = true)
    (hf : s0.hash_failed = true → s1.hash_failed = true) : Sticky s s1 :=
  ⟨fun x h => hv x (a.verified x h), fun h => hf (a.failed h)⟩

theorem frame_to_sticky {s s1 : State} (f : Frame s s1) : Sticky s s1 :=
  ⟨fun x h => by rw [f.hash_verified]; exact h, fun h => by rw [f.hash_failed]; exact h⟩

theorem verity_handle_err_sticky (v : dm_verity) (s : State) (type : verity_block_type)
    (block : Nat) : Sticky s (verity_handle_err v s type block).2 := by
  obtain ⟨_, e2, _, e4, _⟩ := verity_handle_err_frame v s type block
  exact ⟨fun x h => by rw [e2]; exact h, fun _ => e4⟩

theorem verity_verify_level_sticky (E : Env) (v : dm_verity) (s : State) (block level : Nat)
    (skip : Bool) (want : List Nat) :
    Sticky s (verity_verify_level E v s block level skip want).2.1 := by
  have fl : Frame s (s.log (Ev.bufio_read (hash_block_of v block level))) := log_frame _ _ rfl
  cases hbuf : s.bufs (hash_block_of v block level) with
  | none =>
    have e : verity_verify_level E v s block level skip want =
        (- EIO, s.log (Ev.bufio_read (hash_block_of v block level)), want) := by
      unfold hash_block_of at hbuf
      unfold verity_verify_level hash_block_of
      simp only [hbuf]
    rw [e]
    exact frame_to_sticky fl
  | some d =>
    cases hflag : s.hash_verified (hash_block_of v block level) with
    | true =>
      rw [verity_verify_level_flagged E v s block level skip want d hbuf hflag]
      exact frame_to_sticky fl
    | false =>
      cases skip with
      | true =>
        rw [verity_verify_level_skipped E v s block level want d hbuf hflag]
        exact frame_to_sticky fl
      | false =>
        obtain ⟨fr, _⟩ := verity_hash_frame E v
          (s.log (Ev.bufio_read (hash_block_of v block level)))
          (d.take (1 <<< v.hash_dev_block_bits)) (E.buf_vmalloc (hash_block_of v block level))
          s.real_digest
        have st := frame_to_sticky (fl.frame_trans fr)
        rcases verity_verify_level_cases E v s block level want d _ hbuf hflag rfl with
          ⟨_, e⟩ | ⟨_, _, e⟩ | ⟨_, _, fixed, _, e⟩ | ⟨_, _, _, e⟩
        · rw [e]
          exact ⟨st.verified, st.failed⟩
        · rw [e]
          refine ⟨fun x hx => ?_, st.failed⟩
          show (if x = _ then true else _) = true
          split
          · rfl
          · exact st.verified x hx
        · rw [e]
          refine ⟨fun x hx => ?_, st.failed⟩
          show (if x = _ then true else _) = true
          split
          · rfl
          · exact st.verified x hx
        · rw [e]
          have se := verity_handle_err_sticky v
            (({ (verity_hash E v (s.log (Ev.bufio_read (hash_block_of v block level)))
              (d.take (1 <<< v.hash_dev_block_bits))
              (E.buf_vmalloc (hash_block_of v block level)) s.real_digest).2.1 with
              real_digest := (verity_hash E v (s.log (Ev.bufio_read (hash_block_of v block level)))
                (d.take (1 <<< v.hash_dev_block_bits))
                (E.buf_vmalloc (hash_block_of v block level)) s.real_digest).2.2 } : State).log
            (Ev.fec_decode verity_block_type.METADATA (hash_block_of v block level)))
            verity_block_type.METADATA (hash_block_of v block level)
          have st2 := sticky_step st (fun x hx => se.verified x hx) (fun hf => se.failed hf)
          split
          · exact st2
          · exact st2

theorem verity_hash_for_block_loop_sticky (E : Env) (v : dm_verity) (block : Nat) :
    ∀ (i : Nat) (s : State) (digest : List Nat),
      Sticky s (verity_hash_for_block_loop E v block i s digest).2.1 := by
  intro i
  induction i with
  | zero => intro s digest; exact sticky_refl s
  | succ i ih =>
    intro s digest
    unfold verity_hash_for_block_loop
    simp only []
    have a := verity_verify_level_sticky E v s block i false digest
    split
    · exact a
    · exact sticky_trans a (ih _ _)

theorem verity_hash_for_block_sticky (E : Env) (v : dm_verity) (s : State) (block : Nat)
    (digest : List Nat) : Sticky s (verity_hash_for_block E v s block digest).2.1 := by
  unfold verity_hash_for_block verity_hash_for_block_out
  simp only []
  split
  · have a := verity_verify_level_sticky E v s block 0 true digest
    split
    · exact a
    · exact sticky_trans a (verity_hash_for_block_loop_sticky E v block _ _ _)
  · exact verity_hash_for_block_loop_sticky E v block _ _ _

theorem verity_verify_io_data_sticky (E : Env) (v : dm_verity) (s : State) (cur : Nat)
    (x : Option Int) (s2 : State) (h : verity_verify_io_data E v s cur = some (x, s2)) :
    Sticky s s2 := by
  obtain ⟨fi, _⟩ := verity_hash_init_frame E v s
  have si := frame_to_sticky fi
  unfold verity_verify_io_data at h
  simp only [] at h
  split at h
  · injection h with h
    injection h with h1 h2
    subst h1 h2
    exact si
  · split at h
    · cases h
    · next r2 hfor =>
      obtain ⟨fl, _, _⟩ := verity_for_io_block_loop_general E _ _ _ r2.1 r2.2 hfor
      have sl : Sticky s r2.2 :=
        sticky_step si (fun x hx => by rw [← fl.hash_verified] at hx; exact hx)
          (fun hf => by rw [← fl.hash_failed] at hf; exact hf)
      split at h
      · injection h with h
        injection h with h1 h2
        subst h1 h2
        exact sl
      · obtain ⟨ff, _⟩ := verity_hash_final_frame E v r2.2 r2.2.real_digest
        have s3 := sticky_trans sl (frame_to_sticky ff)
        split at h
        · injection h with h
          injection h with h1 h2
          subst h1 h2
          exact ⟨s3.verified, s3.failed⟩
        · split at h
          · split at h
            · injection h with h
              injection h with h1 h2
              subst h1 h2
              exact ⟨s3.verified, s3.failed⟩
            · injection h with h
              injection h with h1 h2
              subst h1 h2
              exact ⟨s3.verified, s3.failed⟩
          · split at h
            · injection h with h
              injection h with h1 h2
              subst h1 h2
              exact ⟨s3.verified, s3.failed⟩
            · have se := verity_handle_err_sticky v
                ((({ (verity_hash_final E v r2.2 r2.2.real_digest).2.1 with
                    real_digest := (verity_hash_final E v r2.2 r2.2.real_digest).2.2 } :
                    State).log (Ev.fec_decode verity_block_type.DATA cur)))
                verity_block_type.DATA cur
              have s4 := sticky_step s3 (fun x hx => se.verified x hx) (fun hf => se.failed hf)
              split at h
              · injection h with h
                injection h with h1 h2
                subst h1 h2
                exact s4
              · injection h with h
                injection h with h1 h2
                subst h1 h2
                exact s4

theorem verity_verify_io_block_sticky (E : Env) (v : dm_verity) (io : dm_verity_io)
    (s : State) (b : Nat) (x : Option Int) (s2 : State)
    (h : verity_verify_io_block E v io s b = some (x, s2)) : Sticky s s2 := by
  have sh := verity_hash_for_block_sticky E v s ((io.block + b) % 2 ^ 64) s.want_digest
  unfold verity_verify_io_block at h
  simp only [] at h
  split at h
  · injection h with h
    injection h with h1 h2
    subst h1 h2
    exact ⟨fun _ hx => hx, fun hf => hf⟩
  · split at h
    · injection h with h
      injection h with h1 h2
      subst h1 h2
      exact ⟨sh.verified, sh.failed⟩
    · split at h
      · split at h
        · cases h
        · next rz hz =>
          obtain ⟨_, z2, _⟩ := verity_for_bv_block_loop_zero_general E _ _ _ rz.1 rz.2 hz
          have sz : Sticky s rz.2 := by
            rw [z2]
            exact ⟨sh.verified, sh.failed⟩
          split at h
          · injection h with h
            injection h with h1 h2
            subst h1 h2
            exact sz
          · injection h with h
            injection h with h1 h2
            subst h1 h2
            exact sz
      · have sd := verity_verify_io_data_sticky E v _ _ x s2 h
        exact sticky_step sh (fun x hx => sd.verified x hx) (fun hf => sd.failed hf)

theorem verity_verify_io_loop_sticky (E : Env) (v : dm_verity) (io : dm_verity_io) :
    ∀ (n b : Nat) (s : State) (r : Int) (s2 : State),
      verity_verify_io_loop E v io n b s = some (r, s2) → Sticky s s2 := by
  intro n
  induction n with
  | zero =>
    intro b s r s2 h
    rw [verity_verify_io_loop] at h
    injection h with h
    injection h with _ h2
    subst h2
    exact sticky_refl s
  | succ n ih =>
    intro b s r s2 h
    rw [verity_verify_io_loop] at h
    split at h
    · cases h
    · next r1 s1 hb =>
      injection h with h
      injection h with h1 h2
      subst h1 h2
      exact verity_verify_io_block_sticky E v io s b _ _ hb
    · next s1 hb =>
      exact sticky_trans (verity_verify_io_block_sticky E v io s b _ _ hb) (ih _ _ _ _ h)

/-! ## The sticky corruption flag and the status -/

/-- C21: every call of `verity_handle_err` sets `hash_failed`, in every mode and
whatever the counter `corrupted_errs` is (also at or above saturation); no
operation of the verifier clears it: once set it is set after
`verity_handle_err`, `verity_verify_level`, `verity_hash_for_block`,
`verity_verify_io` and `verity_work`; and the Info status is the single
character `C` exactly when `hash_failed` is set and `V` otherwise. -/
theorem hash_failed_sticky :
    (∀ (v : dm_verity) (s : State) (type : verity_block_type) (block : Nat),
      (verity_handle_err v s type block).2.hash_failed = true) ∧
    (∀ (E : Env) (v : dm_verity) (s : State) (block level : Nat) (skip : Bool)
      (want : List Nat), s.hash_failed = true →
      (verity_verify_level E v s block level skip want).2.1.hash_failed = true) ∧
    (∀ (E : Env) (v : dm_verity) (s : State) (block : Nat) (digest : List Nat),
      s.hash_failed = true → (verity_hash_for_block E v s block digest).2.1.hash_failed = true) ∧
    (∀ (E : Env) (v : dm_verity) (io : dm_verity_io) (s : State) (r : Int) (s2 : State),
      verity_verify_io E v io s = some (r, s2) → s.hash_failed = true →
      s2.hash_failed = true) ∧
    (∀ (E : Env) (H : Host) (v : dm_verity) (io : dm_verity_io) (s s2 : State)
      (evs : List FinEv) (halted : Bool),
      verity_work E H v io s = some (s2, evs, halted) → s.hash_failed = true →
      s2.hash_failed = true) ∧
    (∀ s : State, (s.hash_failed = true → verity_status_info s = "C") ∧
      (s.hash_failed = false → verity_status_info s = "V") ∧
      (verity_status_info s = "C" ↔ s.hash_failed = true) ∧
      (verity_status_info s = "V" ↔ s.hash_failed = false)) := by
  refine ⟨fun v s type block => (verity_handle_err_frame v s type block).2.2.2.1,
    fun E v s block level skip want => (verity_verify_level_sticky E v s block level skip want).failed,
    fun E v s block digest => (verity_hash_for_block_sticky E v s block digest).failed,
    fun E v io s r s2 h => (verity_verify_io_loop_sticky E v io _ _ s r s2 h).failed, ?_, ?_⟩
  · intro E H v io s s2 evs halted h
    unfold verity_work at h
    split at h
    · cases h
    · next r hr =>
      injection h with h
      injection h with h1 _
      subst h1
      exact (verity_verify_io_loop_sticky E v io _ _ s r.1 r.2 hr).failed
  · intro s
    unfold verity_status_info DMEMIT
    cases s.hash_failed with
    | true => exact ⟨fun _ => rfl, fun h => Bool.noConfusion h, ⟨fun _ => rfl, fun _ => rfl⟩,
        ⟨fun h => absurd h (by decide), fun h => Bool.noConfusion h⟩⟩
    | false => exact ⟨fun h => Bool.noConfusion h, fun _ => rfl,
        ⟨fun h => absurd h (by decide), fun h => Bool.noConfusion h⟩, ⟨fun _ => rfl, fun _ => rfl⟩⟩

/-- Witness of C21: after `verity_handle_err` for data block 16 on the example
volume, with the counter saturated, `hash_failed` is set, it is still set after
a level verification, and the Info status is `C`. -/
theorem hash_failed_sticky_witness :
    (verity_handle_err fx_v { fx_state [] with corrupted_errs := 100 }
      verity_block_type.DATA 16).2.hash_failed = true ∧
    (verity_verify_level toy_env fx_v
      (verity_handle_err fx_v { fx_state [] with corrupted_errs := 100 }
        verity_block_type.DATA 16).2 16 0 false []).2.1.hash_failed = true ∧
    verity_status_info (verity_handle_err fx_v { fx_state [] with corrupted_errs := 100 }
      verity_block_type.DATA 16).2 = "C" ∧
    verity_status_info (fx_state []) = "V" :=
  ⟨hash_failed_sticky.1 _ _ _ _,
    hash_failed_sticky.2.1 _ _ _ _ _ _ _ (hash_failed_sticky.1 _ _ _ _),
    (hash_failed_sticky.2.2.2.2.2 _).1 (hash_failed_sticky.1 _ _ _ _),
    (hash_failed_sticky.2.2.2.2.2 _).2.1 rfl⟩

/-! ## Monotonicity of the verified flags -/

/-- When `verity_verify_level` sets a flag that was clear, it is the flag of the
hash block it was called for, it was not asked to skip, and the block is
readable with a salted digest equal to `want` or repaired by the FEC hook. -/
theorem verity_verify_level_sets (E : Env) (hu : update_errno E.tfm) (v : dm_verity) (s : State)
    (block level : Nat) (skip : Bool) (want : List Nat) (x : Nat)
    (h0 : s.hash_verified x = false)
    (h1 : (verity_verify_level E v s block level skip want).2.1.hash_verified x = true) :
    x = hash_block_of v block level ∧ skip = false ∧
    ∃ d, s.bufs x = some d ∧
      (memcmp_eq (block_digest E v (d.take (1 <<< v.hash_dev_block_bits))) want v.digest_size
          = true ∨
        ∃ fixed, E.fec_decode verity_block_type.METADATA x = some fixed) := by
  have fl : Frame s (s.log (Ev.bufio_read (hash_block_of v block level))) := log_frame _ _ rfl
  have hno : ∀ s1 : State, s1.hash_verified = s.hash_verified → s1.hash_verified x = true →
      False := by
    intro s1 e h
    rw [e, h0] at h
    cases h
  cases hbuf : s.bufs (hash_block_of v block level) with
  | none =>
    have e : verity_verify_level E v s block level skip want =
        (- EIO, s.log (Ev.bufio_read (hash_block_of v block level)), want) := by
      unfold hash_block_of at hbuf
      unfold verity_verify_level hash_block_of
      simp only [hbuf]
    rw [e] at h1
    exact (hno _ rfl h1).elim
  | some d =>
    cases hflag : s.hash_verified (hash_block_of v block level) with
    | true =>
      rw [verity_verify_level_flagged E v s block level skip want d hbuf hflag] at h1
      exact (hno _ rfl h1).elim
    | false =>
      cases skip with
      | true =>
        rw [verity_verify_level_skipped E v s block level want d hbuf hflag] at h1
        exact (hno _ rfl h1).elim
      | false =>
        obtain ⟨fr, _⟩ := verity_hash_frame E v
          (s.log (Ev.bufio_read (hash_block_of v block level)))
          (d.take (1 <<< v.hash_dev_block_bits)) (E.buf_vmalloc (hash_block_of v block level))
          s.real_digest
        have fh := (fl.frame_trans fr).hash_verified
        rcases verity_verify_level_cases E v s block level want d _ hbuf hflag rfl with
          ⟨_, e⟩ | ⟨hnn, hcmp, e⟩ | ⟨_, _, fixed, hfec, e⟩ | ⟨_, _, _, e⟩
        · rw [e] at h1
          exact (hno _ fh h1).elim
        · rw [e] at h1
          have hx : x = hash_block_of v block level := by
            by_contra hne
            have h2 : (if x = hash_block_of v block level then true
                else (verity_hash E v (s.log (Ev.bufio_read (hash_block_of v block level)))
                  (d.take (1 <<< v.hash_dev_block_bits))
                  (E.buf_vmalloc (hash_block_of v block level)) s.real_digest).2.1.hash_verified x)
                = true := h1
            rw [if_neg hne] at h2
            exact hno _ fh h2
          rw [verity_hash_errno E hu v _ _ _ _ hnn] at hcmp
          subst hx
          exact ⟨rfl, rfl, d, hbuf, Or.inl hcmp⟩
        · rw [e] at h1
          have hx : x = hash_block_of v block level := by
            by_contra hne
            have h2 : (if x = hash_block_of v block level then true
                else (verity_hash E v (s.log (Ev.bufio_read (hash_block_of v block level)))
                  (d.take (1 <<< v.hash_dev_block_bits))
                  (E.buf_vmalloc (hash_block_of v block level)) s.real_digest).2.1.hash_verified x)
                = true := h1
            rw [if_neg hne] at h2
            exact hno _ fh h2
          subst hx
          exact ⟨rfl, rfl, d, hbuf, Or.inr ⟨fixed, hfec⟩⟩
        · rw [e] at h1
          obtain ⟨_, e2, _, _, _⟩ := verity_handle_err_frame v
            (({ (verity_hash E v (s.log (Ev.bufio_read (hash_block_of v block level)))
              (d.take (1 <<< v.hash_dev_block_bits))
              (E.buf_vmalloc (hash_block_of v block level)) s.real_digest).2.1 with
              real_digest := (verity_hash E v (s.log (Ev.bufio_read (hash_block_of v block level)))
                (d.take (1 <<< v.hash_dev_block_bits))
                (E.buf_vmalloc (hash_block_of v block level)) s.real_digest).2.2 } : State).log
            (Ev.fec_decode verity_block_type.METADATA (hash_block_of v block level)))
            verity_block_type.METADATA (hash_block_of v block level)
          have e3 := e2.trans fh
          split at h1
          · exact (hno _ e3 h1).elim
          · exact (hno _ e3 h1).elim

/-- C27: no operation of the verifier changes a `hash_verified` flag from true
to false: a flag that is set is set after `verity_handle_err`,
`verity_verify_level`, `verity_hash_for_block`, `verity_verify_io` and
`verity_work`; the allocation callback of the cache writes false to the flag of
the fresh buffer and to no other.  When the updates of the digest primitive
follow the error convention, `verity_verify_level` changes a flag from false to
true only for the hash block it was called for, only when `skip_unverified` is
false, and only when the salted digest of the whole hash block equals the
`want` digest supplied by the caller or the FEC hook reports success for that
block. -/
theorem hash_verified_monotone :
    (∀ (v : dm_verity) (s : State) (type : verity_block_type) (block x : Nat),
      s.hash_verified x = true → (verity_handle_err v s type block).2.hash_verified x = true) ∧
    (∀ (E : Env) (v : dm_verity) (s : State) (block level : Nat) (skip : Bool)
      (want : List Nat) (x : Nat), s.hash_verified x = true →
      (verity_verify_level E v s block level skip want).2.1.hash_verified x = true) ∧
    (∀ (E : Env) (v : dm_verity) (s : State) (block : Nat) (digest : List Nat) (x : Nat),
      s.hash_verified x = true →
      (verity_hash_for_block E v s block digest).2.1.hash_verified x = true) ∧
    (∀ (E : Env) (v : dm_verity) (io : dm_verity_io) (s : State) (r : Int) (s2 : State)
      (x : Nat), verity_verify_io E v io s = some (r, s2) → s.hash_verified x = true →
      s2.hash_verified x = true) ∧
    (∀ (E : Env) (H : Host) (v : dm_verity) (io : dm_verity_io) (s s2 : State)
      (evs : List FinEv) (halted : Bool) (x : Nat),
      verity_work E H v io s = some (s2, evs, halted) → s.hash_verified x = true →
      s2.hash_verified x = true) ∧
    (∀ (s : State) (buf : Nat), (dm_bufio_alloc_callback s buf).hash_verified buf = false ∧
      ∀ x, x ≠ buf → (dm_bufio_alloc_callback s buf).hash_verified x = s.hash_verified x) ∧
    (∀ (E : Env) (v : dm_verity) (s : State) (block level : Nat) (skip : Bool)
      (want : List Nat) (x : Nat), update_errno E.tfm → s.hash_verified x = false →
      (verity_verify_level E v s block level skip want).2.1.hash_verified x = true →
      x = hash_block_of v block level ∧ skip = false ∧
      ∃ d, s.bufs x = some d ∧
        (memcmp_eq (block_digest E v (d.take (1 <<< v.hash_dev_block_bits))) want
            v.digest_size = true ∨
          ∃ fixed, E.fec_decode verity_block_type.METADATA x = some fixed)) := by
  refine ⟨fun v s type block x => (verity_handle_err_sticky v s type block).verified x,
    fun E v s block level skip want x =>
      (verity_verify_level_sticky E v s block level skip want).verified x,
    fun E v s block digest x => (verity_hash_for_block_sticky E v s block digest).verified x,
    fun E v io s r s2 x h => (verity_verify_io_loop_sticky E v io _ _ s r s2 h).verified x,
    ?_, ?_, ?_⟩
  · intro E H v io s s2 evs halted x h
    unfold verity_work at h
    split at h
    · cases h
    · next r hr =>
      injection h with h
      injection h with h1 _
      subst h1
      exact (verity_verify_io_loop_sticky E v io _ _ s r.1 r.2 hr).verified x
  · intro s buf
    refine ⟨?_, fun x hx => ?_⟩
    · show (if buf = buf then false else s.hash_verified buf) = false
      rw [if_pos rfl]
    · show (if x = buf then false else s.hash_verified x) = s.hash_verified x
      rw [if_neg hx]
  · intro E v s block level skip want x hu h0 h1
    exact verity_verify_level_sets E hu v s block level skip want x h0 h1

/-- Witness of C27: on the example volume the level verifier called for the top
level of data block 16 with the root digest sets the flag of hash block 0, whose
salted digest is the root digest. -/
theorem hash_verified_monotone_witness :
    update_errno toy_env.tfm ∧ (fx_state []).hash_verified 0 = false ∧
    (verity_verify_level toy_env fx_v (fx_state []) 16 1 false fx_v.root_digest).2.1.hash_verified
      0 = true ∧
    0 = hash_block_of fx_v 16 1 ∧
    ∃ d, (fx_state []).bufs 0 = some d ∧
      (memcmp_eq (block_digest toy_env fx_v (d.take (1 <<< fx_v.hash_dev_block_bits)))
          fx_v.root_digest fx_v.digest_size = true ∨
        ∃ fixed, toy_env.fec_decode verity_block_type.METADATA 0 = some fixed) := by
  have hu : update_errno toy_env.tfm := fun _ _ => le_refl _
  have h1 : (verity_verify_level toy_env fx_v (fx_state []) 16 1 false
      fx_v.root_digest).2.1.hash_verified 0 = true := by decide!
  obtain ⟨a, _, b⟩ := hash_verified_monotone.2.2.2.2.2.2 toy_env fx_v (fx_state []) 16 1 false
    fx_v.root_digest 0 hu rfl h1
  exact ⟨hu, rfl, h1, a, b⟩

/-! ## The three outcomes of the level verifier on a readable block -/

/-! ## Soundness of the chain -/

theorem authentic_iff (E : Env) (v : dm_verity) (bufs : Nat → Option (List Nat)) (block L : Nat) :
    authentic E v bufs block L = true ↔
      ∀ M, L ≤ M → M < v.levels → level_consistent E v bufs block M = true := by
  unfold authentic
  rw [List.all_eq_true]
  constructor
  · intro h M hLM hM
    have := h (M - L) (List.mem_range.2 (by omega))
    rw [show L + (M - L) = M by omega] at this
    exact this
  · intro h j hj
    have hj2 := List.mem_range.1 hj
    exact h (L + j) (by omega) (by omega)

/-- The recursive reading of `authentic`: the top-level block is authentic when
its check against the root digest passes, a lower block when its check against
the entry in its parent passes and the parent is authentic. -/
theorem authentic_step (E : Env) (v : dm_verity) (bufs : Nat → Option (List Nat))
    (block L : Nat) (hL : L < v.levels) :
    authentic E v bufs block L
      = (level_consistent E v bufs block L && authentic E v bufs block (L + 1)) := by
  rw [Bool.eq_iff_iff, Bool.and_eq_true, authentic_iff, authentic_iff]
  constructor
  · intro h
    exact ⟨h L (le_refl _) hL, fun M h1 h2 => h M (by omega) h2⟩
  · rintro ⟨h0, h1⟩ M hLM hM
    by_cases e : M = L
    · rw [e]
      exact h0
    · exact h1 M (by omega) hM

/-- In an accepted geometry the hash block of level `L` on the path of a data
block is the start of the level plus the position of the block above it, and it
lies in the range of level `L`. -/
theorem hash_block_of_eq (v : dm_verity) (t : TreeOK v) (b L : Nat) (hb : b < v.data_blocks)
    (hL : L < v.levels) :
    hash_block_of v b L = v.hash_level_block L + b / 2 ^ ((L + 1) * v.hash_per_block_bits) ∧
      in_level v L (hash_block_of v b L) := by
  have hend := level_end_le v t L hL
  have hlt := t.blocks_lt
  have hdiv := div_lt_ceil_div b v.data_blocks (2 ^ ((L + 1) * v.hash_per_block_bits))
    (Nat.pow_pos (by decide)) hb
  unfold level_size at hend
  have hval : hash_block_of v b L
      = v.hash_level_block L + b / 2 ^ ((L + 1) * v.hash_per_block_bits) := by
    unfold hash_block_of verity_hash_at_level verity_position_at_level
    simp only []
    rw [shift_shift_eq_div]
    apply Nat.mod_eq_of_lt
    generalize b / 2 ^ ((L + 1) * v.hash_per_block_bits) = q at hdiv ⊢
    omega
  refine ⟨hval, ?_⟩
  unfold in_level level_size
  rw [hval]
  generalize b / 2 ^ ((L + 1) * v.hash_per_block_bits) = q at hdiv ⊢
  constructor <;> omega

/-- The hash block and the offset of a level depend only on the position of the
data block at that level. -/
theorem verity_hash_at_level_position (v : dm_verity) (b c M : Nat)
    (h : verity_position_at_level v b M = verity_position_at_level v c M) :
    verity_hash_at_level v b M = verity_hash_at_level v c M := by
  unfold verity_hash_at_level
  simp only []
  rw [h]

/-- In an accepted geometry two paths that share a hash block share its level
and every block and entry above it, so the block is authentic on one path
exactly when it is on the other. -/
theorem authentic_well_defined (E : Env) (v : dm_verity) (t : TreeOK v)
    (bufs : Nat → Option (List Nat)) (b c L K : Nat) (hb : b < v.data_blocks)
    (hc : c < v.data_blocks) (hL : L < v.levels) (hK : K < v.levels)
    (he : hash_block_of v b L = hash_block_of v c K) :
    L = K ∧ authentic E v bufs b L = authentic E v bufs c K := by
  obtain ⟨b1, b2⟩ := hash_block_of_eq v t b L hb hL
  obtain ⟨c1, c2⟩ := hash_block_of_eq v t c K hc hK
  have hLK : L = K := by
    by_contra hne
    rw [he] at b2
    rcases Nat.lt_or_gt_of_ne hne with h | h
    · exact levels_disjoint_lt v t L K _ h hK ⟨b2, c2⟩
    · exact levels_disjoint_lt v t K L _ h hL ⟨c2, b2⟩
  subst hLK
  refine ⟨rfl, ?_⟩
  have hq : b / 2 ^ ((L + 1) * v.hash_per_block_bits)
      = c / 2 ^ ((L + 1) * v.hash_per_block_bits) := by
    rw [b1, c1] at he
    omega
  have hpos : ∀ M, L + 1 ≤ M →
      verity_position_at_level v b M = verity_position_at_level v c M := by
    intro M hM
    unfold verity_position_at_level
    have e : M * v.hash_per_block_bits
        = (L + 1) * v.hash_per_block_bits + (M - (L + 1)) * v.hash_per_block_bits := by
      rw [← Nat.add_mul]
      congr 1
      omega
    rw [e, Nat.shiftRight_add, Nat.shiftRight_add, Nat.shiftRight_eq_div_pow b,
      Nat.shiftRight_eq_div_pow c, hq]
  have hblk : ∀ M, L ≤ M → hash_block_of v b M = hash_block_of v c M := by
    intro M hM
    by_cases e : M = L
    · rw [e]
      exact he
    · unfold hash_block_of
      rw [verity_hash_at_level_position v b c M (hpos M (by omega))]
  have hoff : ∀ M, L + 1 ≤ M → offset_of v b M = offset_of v c M := by
    intro M hM
    unfold offset_of
    rw [verity_hash_at_level_position v b c M (hpos M hM)]
  have hlc : ∀ M, L ≤ M → level_consistent E v bufs b M = level_consistent E v bufs c M := by
    intro M hM
    unfold level_consistent parent_entry tree_entry
    rw [hblk M hM, hblk (M + 1) (by omega), hoff (M + 1) (by omega)]
  rw [Bool.eq_iff_iff, authentic_iff, authentic_iff]
  constructor
  · intro h M h1 h2
    rw [← hlc M h1]
    exact h M h1 h2
  · intro h M h1 h2
    rw [hlc M h1]
    exact h M h1 h2

/-- The level verifier when the mode is not Logging and the FEC hook never
succeeds: the hash-block cache is unchanged, and when it returns 0 the block is
readable and flagged afterwards and `want_digest` is its entry at the offset. -/
theorem verity_verify_level_sound (E : Env) (v : dm_verity) (hmode : v.mode ≠ verity_mode.LOGGING)
    (hfec : ∀ t x, E.fec_decode t x = none) (s : State) (block level : Nat) (skip : Bool)
    (want : List Nat) :
    (verity_verify_level E v s block level skip want).2.1.bufs = s.bufs ∧
    ((verity_verify_level E v s block level skip want).1 = 0 →
      ∃ d, s.bufs (hash_block_of v block level) = some d ∧
        (verity_verify_level E v s block level skip want).2.2
          = bytes_at d (offset_of v block level) v.digest_size ∧
        (verity_verify_level E v s block level skip want).2.1.hash_verified
          (hash_block_of v block level) = true) := by
  have hEIO : ¬ (- EIO = (0 : Int)) := by decide
  have fl : Frame s (s.log (Ev.bufio_read (hash_block_of v block level))) := log_frame _ _ rfl
  cases hbuf : s.bufs (hash_block_of v block level) with
  | none =>
    have e : verity_verify_level E v s block level skip want =
        (- EIO, s.log (Ev.bufio_read (hash_block_of v block level)), want) := by
      unfold hash_block_of at hbuf
      unfold verity_verify_level hash_block_of
      simp only [hbuf]
    rw [e]
    exact ⟨rfl, fun h => absurd h hEIO⟩
  | some d =>
    cases hflag : s.hash_verified (hash_block_of v block level) with
    | true =>
      rw [verity_verify_level_flagged E v s block level skip want d hbuf hflag]
      exact ⟨rfl, fun _ => ⟨d, rfl, rfl, hflag⟩⟩
    | false =>
      cases skip with
      | true =>
        rw [verity_verify_level_skipped E v s block level want d hbuf hflag]
        exact ⟨rfl, fun h => absurd (show (1 : Int) = 0 from h) (by decide)⟩
      | false =>
        obtain ⟨fr, _⟩ := verity_hash_frame E v
          (s.log (Ev.bufio_read (hash_block_of v block level)))
          (d.take (1 <<< v.hash_dev_block_bits)) (E.buf_vmalloc (hash_block_of v block level))
          s.real_digest
        have fb := (fl.frame_trans fr).bufs
        rcases verity_verify_level_cases E v s block level want d _ hbuf hflag rfl with
          ⟨hneg, e⟩ | ⟨_, _, e⟩ | ⟨_, _, fixed, hf, _⟩ | ⟨_, _, _, e⟩
        · rw [e]
          refine ⟨fb, fun h0 => ?_⟩
          exfalso
          have h1 : (verity_hash E v (s.log (Ev.bufio_read (hash_block_of v block level)))
              (d.take (1 <<< v.hash_dev_block_bits))
              (E.buf_vmalloc (hash_block_of v block level)) s.real_digest).1 = 0 := h0
          omega
        · rw [e]
          refine ⟨fb, fun _ => ⟨d, rfl, rfl, ?_⟩⟩
          show (if _ = _ then true else _) = true
          rw [if_pos rfl]
        · rw [hfec] at hf
          cases hf
        · obtain ⟨e1, _, _, _, e5⟩ := verity_handle_err_frame v
            (({ (verity_hash E v (s.log (Ev.bufio_read (hash_block_of v block level)))
              (d.take (1 <<< v.hash_dev_block_bits))
              (E.buf_vmalloc (hash_block_of v block level)) s.real_digest).2.1 with
              real_digest := (verity_hash E v (s.log (Ev.bufio_read (hash_block_of v block level)))
                (d.take (1 <<< v.hash_dev_block_bits))
                (E.buf_vmalloc (hash_block_of v block level)) s.real_digest).2.2 } : State).log
            (Ev.fec_decode verity_block_type.METADATA (hash_block_of v block level)))
            verity_block_type.METADATA (hash_block_of v block level)
          have hne : (verity_handle_err v
            (({ (verity_hash E v (s.log (Ev.bufio_read (hash_block_of v block level)))
              (d.take (1 <<< v.hash_dev_block_bits))
              (E.buf_vmalloc (hash_block_of v block level)) s.real_digest).2.1 with
              real_digest := (verity_hash E v (s.log (Ev.bufio_read (hash_block_of v block level)))
                (d.take (1 <<< v.hash_dev_block_bits))
                (E.buf_vmalloc (hash_block_of v block level)) s.real_digest).2.2 } : State).log
            (Ev.fec_decode verity_block_type.METADATA (hash_block_of v block level)))
            verity_block_type.METADATA (hash_block_of v block level)).1 ≠ 0 :=
            fun h0 => hmode (e5.1 h0)
          rw [e, if_pos hne]
          exact ⟨e1.trans fb, fun h => absurd h hEIO⟩

/-- A call of the level verifier keeps every flagged block authentic when the
`want` digest it is given is the entry stored for the block in its authentic
parent (the root digest for the top level). -/
theorem verity_verify_level_keeps (E : Env) (hu : update_errno E.tfm) (v : dm_verity)
    (t : TreeOK v) (hmode : v.mode ≠ verity_mode.LOGGING)
    (hfec : ∀ t x, E.fec_decode t x = none) (s : State) (b i : Nat) (skip : Bool)
    (want : List Nat) (hb : b < v.data_blocks) (hi : i < v.levels)
    (hinv : flagged_authentic E v s)
    (hwant : skip = false → want = parent_entry v s.bufs b i ∧
      authentic E v s.bufs b (i + 1) = true) :
    flagged_authentic E v (verity_verify_level E v s b i skip want).2.1 := by
  obtain ⟨hbufs, _⟩ := verity_verify_level_sound E v hmode hfec s b i skip want
  intro c K hc hK hfl
  rw [hbufs]
  cases h0 : s.hash_verified (hash_block_of v c K) with
  | true => exact hinv c K hc hK h0
  | false =>
    obtain ⟨hx, hs, d, hd, hor⟩ := verity_verify_level_sets E hu v s b i skip want _ h0 hfl
    obtain ⟨hw, ha⟩ := hwant hs
    rcases hor with hcmp | ⟨fixed, hf⟩
    · obtain ⟨_, hwd⟩ := authentic_well_defined E v t s.bufs c b K i hc hb hK hi hx
      rw [hwd, authentic_step E v s.bufs b i hi, ha, Bool.and_true]
      unfold level_consistent
      rw [← hx, hd, ← hw]
      exact hcmp
    · rw [hfec] at hf
      cases hf

/-- The chain loop from level `i` down, started with the entry of the authentic
level-`i` block (the root digest at the top): it keeps the cache and the
authenticity of the flagged blocks, and when it returns 0 its digest is the
entry for the data block in its level-0 block, which is authentic. -/
theorem verity_hash_for_block_loop_sound (E : Env) (hu : update_errno E.tfm) (v : dm_verity)
    (t : TreeOK v) (hmode : v.mode ≠ verity_mode.LOGGING)
    (hfec : ∀ t x, E.fec_decode t x = none) (b : Nat) (hb : b < v.data_blocks) :
    ∀ (i : Nat) (s : State) (digest : List Nat), i ≤ v.levels → flagged_authentic E v s →
      authentic E v s.bufs b i = true →
      digest = (if v.levels ≤ i then v.root_digest.take v.digest_size
        else tree_entry v s.bufs b i) →
      (verity_hash_for_block_loop E v b i s digest).2.1.bufs = s.bufs ∧
      flagged_authentic E v (verity_hash_for_block_loop E v b i s digest).2.1 ∧
      ((verity_hash_for_block_loop E v b i s digest).1 = 0 →
        (verity_hash_for_block_loop E v b i s digest).2.2 = data_entry v s.bufs b ∧
        authentic E v s.bufs b 0 = true) := by
  intro i
  induction i with
  | zero =>
    intro s digest _ hinv ha hd
    unfold verity_hash_for_block_loop
    refine ⟨rfl, hinv, fun _ => ⟨?_, ha⟩⟩
    show digest = _
    rw [hd]
    unfold data_entry
    by_cases h0 : v.levels = 0
    · rw [if_pos h0, if_pos (by omega)]
    · rw [if_neg h0, if_neg (by omega)]
  | succ i ih =>
    intro s digest hi hinv ha hd
    have hwant : digest = parent_entry v s.bufs b i := by
      rw [hd]
      rfl
    obtain ⟨k1, k2⟩ := verity_verify_level_sound E v hmode hfec s b i false digest
    have k3 := verity_verify_level_keeps E hu v t hmode hfec s b i false digest hb (by omega) hinv
      (fun _ => ⟨hwant, ha⟩)
    unfold verity_hash_for_block_loop
    simp only []
    by_cases hr : (verity_verify_level E v s b i false digest).1 = 0
    · rw [if_neg (not_not.2 hr)]
      obtain ⟨d, hd1, hd2, hd3⟩ := k2 hr
      have hai : authentic E v (verity_verify_level E v s b i false digest).2.1.bufs b i = true :=
        k3 b i hb (by omega) hd3
      have hdig : (verity_verify_level E v s b i false digest).2.2
          = (if v.levels ≤ i then v.root_digest.take v.digest_size
            else tree_entry v (verity_verify_level E v s b i false digest).2.1.bufs b i) := by
        rw [if_neg (by omega), hd2, k1]
        unfold tree_entry
        rw [hd1]
      obtain ⟨j1, j2, j3⟩ := ih (verity_verify_level E v s b i false digest).2.1
        (verity_verify_level E v s b i false digest).2.2 (by omega) k3 hai hdig
      rw [k1] at j1 j3
      exact ⟨j1, j2, j3⟩
    · rw [if_pos hr]
      exact ⟨k1, k3, fun h => absurd h hr⟩

/-- C29: chain soundness.  Call the level-`L` hash block on the path of a data
block authentic when its salted digest equals the entry stored for it in its
parent block and the parent is authentic, the top-level block being authentic
when its digest equals the root digest.  For a verifier the constructor
returned, when the updates of the digest primitive follow the error
convention, the mode is not Logging, the FEC hook never reports success and
every flagged hash block of the tree is authentic: for every data block
`b < data_blocks`, after `verity_hash_for_block` the cache is unchanged and
every flagged hash block is still authentic, and when it returns 0 the digest
it returns is the entry for `b` in the level-0 hash block of `b`, which is
authentic (the root digest itself when `levels` is 0). -/
theorem verity_hash_for_block_sound (a : ctr_args) (v : dm_verity) (hctr : verity_ctr a = .ok v)
    (E : Env) (hu : update_errno E.tfm) (hmode : v.mode ≠ verity_mode.LOGGING)
    (hfec : ∀ t x, E.fec_decode t x = none) (s : State) (hinv : flagged_authentic E v s)
    (b : Nat) (hb : b < v.data_blocks) (digest : List Nat) :
    (verity_hash_for_block E v s b digest).2.1.bufs = s.bufs ∧
    flagged_authentic E v (verity_hash_for_block E v s b digest).2.1 ∧
    ((verity_hash_for_block E v s b digest).1 = 0 →
      (v.levels = 0 → (verity_hash_for_block E v s b digest).2.2.1 = v.root_digest) ∧
      (v.levels ≠ 0 →
        ∃ d, s.bufs (hash_block_of v b 0) = some d ∧
          (verity_hash_for_block E v s b digest).2.2.1
            = bytes_at d (offset_of v b 0) v.digest_size ∧
          authentic E v s.bufs b 0 = true)) ∧
    (∀ L, L + 1 = v.levels →
      authentic E v s.bufs b L = (match s.bufs (hash_block_of v b L) with
        | some d => memcmp_eq (block_digest E v (d.take (1 <<< v.hash_dev_block_bits)))
            (v.root_digest.take v.digest_size) v.digest_size
        | none => false)) ∧
    (∀ L, L + 1 < v.levels →
      authentic E v s.bufs b L = ((match s.bufs (hash_block_of v b L) with
        | some d => memcmp_eq (block_digest E v (d.take (1 <<< v.hash_dev_block_bits)))
            (tree_entry v s.bufs b (L + 1)) v.digest_size
        | none => false) && authentic E v s.bufs b (L + 1))) := by
  obtain ⟨g, t, _⟩ := verity_ctr_accepts a v hctr
  have htop : authentic E v s.bufs b v.levels = true := by
    rw [authentic_iff]
    intro M h1 h2
    omega
  have hentry : ∀ (x : List Nat), x = data_entry v s.bufs b → authentic E v s.bufs b 0 = true →
      (v.levels = 0 → x = v.root_digest) ∧
      (v.levels ≠ 0 → ∃ d, s.bufs (hash_block_of v b 0) = some d ∧
        x = bytes_at d (offset_of v b 0) v.digest_size ∧ authentic E v s.bufs b 0 = true) := by
    intro x hx ha
    refine ⟨fun h0 => ?_, fun h0 => ?_⟩
    · rw [hx]
      unfold data_entry
      rw [if_pos h0, List.take_of_length_le (le_of_eq g.root_len)]
    · have hc := (authentic_iff E v s.bufs b 0).1 ha 0 (le_refl _) (by omega)
      unfold level_consistent at hc
      cases hd : s.bufs (hash_block_of v b 0) with
      | none =>
        rw [hd] at hc
        cases hc
      | some d =>
        refine ⟨d, rfl, ?_, ha⟩
        rw [hx]
        unfold data_entry tree_entry
        rw [if_neg h0, hd]
  have hdefs : (∀ L, L + 1 = v.levels →
      authentic E v s.bufs b L = (match s.bufs (hash_block_of v b L) with
        | some d => memcmp_eq (block_digest E v (d.take (1 <<< v.hash_dev_block_bits)))
            (v.root_digest.take v.digest_size) v.digest_size
        | none => false)) ∧
    (∀ L, L + 1 < v.levels →
      authentic E v s.bufs b L = ((match s.bufs (hash_block_of v b L) with
        | some d => memcmp_eq (block_digest E v (d.take (1 <<< v.hash_dev_block_bits)))
            (tree_entry v s.bufs b (L + 1)) v.digest_size
        | none => false) && authentic E v s.bufs b (L + 1))) := by
    refine ⟨fun L hL => ?_, fun L hL => ?_⟩
    · have hnext : authentic E v s.bufs b (L + 1) = true := by
        rw [hL]
        exact htop
      rw [authentic_step E v s.bufs b L (by omega), hnext, Bool.and_true]
      unfold level_consistent parent_entry
      rw [if_pos (by omega)]
    · rw [authentic_step E v s.bufs b L (by omega)]
      unfold level_consistent parent_entry
      rw [if_neg (by omega)]
  refine ⟨?_, ?_, ?_, hdefs⟩
  all_goals
    unfold verity_hash_for_block
    simp only []
  · split
    · next hl =>
      obtain ⟨k1, _⟩ := verity_verify_level_sound E v hmode hfec s b 0 true digest
      split
      · exact k1
      · have j := verity_hash_for_block_loop_sound E hu v t hmode hfec b hb v.levels
          (verity_verify_level E v s b 0 true digest).2.1 (v.root_digest.take v.digest_size)
          (le_refl _)
          (verity_verify_level_keeps E hu v t hmode hfec s b 0 true digest hb (by omega) hinv
            (fun h => Bool.noConfusion h))
          (by rw [k1]; exact htop) (by rw [if_pos (le_refl _)])
        exact j.1.trans k1
    · exact (verity_hash_for_block_loop_sound E hu v t hmode hfec b hb v.levels s
        (v.root_digest.take v.digest_size) (le_refl _) hinv htop
        (by rw [if_pos (le_refl _)])).1
  · split
    · next hl =>
      obtain ⟨k1, _⟩ := verity_verify_level_sound E v hmode hfec s b 0 true digest
      have k3 := verity_verify_level_keeps E hu v t hmode hfec s b 0 true digest hb (by omega)
        hinv (fun h => Bool.noConfusion h)
      split
      · exact k3
      · exact (verity_hash_for_block_loop_sound E hu v t hmode hfec b hb v.levels
          (verity_verify_level E v s b 0 true digest).2.1 (v.root_digest.take v.digest_size)
          (le_refl _) k3 (by rw [k1]; exact htop) (by rw [if_pos (le_refl _)])).2.1
    · exact (verity_hash_for_block_loop_sound E hu v t hmode hfec b hb v.levels s
        (v.root_digest.take v.digest_size) (le_refl _) hinv htop
        (by rw [if_pos (le_refl _)])).2.1
  · split
    · next hl =>
      obtain ⟨k1, k2⟩ := verity_verify_level_sound E v hmode hfec s b 0 true digest
      have k3 := verity_verify_level_keeps E hu v t hmode hfec s b 0 true digest hb (by omega)
        hinv (fun h => Bool.noConfusion h)
      split
      · intro h0
        obtain ⟨d, hd1, hd2, hd3⟩ := k2 h0
        have ha := k3 b 0 hb (by omega) hd3
        rw [k1] at ha
        refine hentry _ ?_ ha
        show (verity_verify_level E v s b 0 true digest).2.2 = _
        rw [hd2]
        unfold data_entry tree_entry
        rw [if_neg hl, hd1]
      · intro h0
        obtain ⟨j1, _, j3⟩ := verity_hash_for_block_loop_sound E hu v t hmode hfec b hb v.levels
          (verity_verify_level E v s b 0 true digest).2.1 (v.root_digest.take v.digest_size)
          (le_refl _) k3 (by rw [k1]; exact htop) (by rw [if_pos (le_refl _)])
        obtain ⟨j4, j5⟩ := j3 h0
        rw [k1] at j4 j5
        exact hentry _ j4 j5
    · intro h0
      obtain ⟨_, _, j3⟩ := verity_hash_for_block_loop_sound E hu v t hmode hfec b hb v.levels s
        (v.root_digest.take v.digest_size) (le_refl _) hinv htop (by rw [if_pos (le_refl _)])
      obtain ⟨j4, j5⟩ := j3 h0
      exact hentry _ j4 j5

/-- Witness of C29: the lookup for data block 16 of the example volume with no
flag set returns 0 with the entry of the block in its level-0 hash block, which
is the salted digest of the data of the block. -/
theorem verity_hash_for_block_sound_witness :
    verity_ctr fx_args = .ok fx_v ∧ update_errno toy_env.tfm ∧
    fx_v.mode ≠ verity_mode.LOGGING ∧ flagged_authentic toy_env fx_v (fx_state []) ∧
    16 < fx_v.data_blocks ∧
    (verity_hash_for_block toy_env fx_v (fx_state []) 16 []).1 = 0 ∧
    fx_v.levels ≠ 0 ∧
    ∃ d, (fx_state []).bufs (hash_block_of fx_v 16 0) = some d ∧
      (verity_hash_for_block toy_env fx_v (fx_state []) 16 []).2.2.1
        = bytes_at d (offset_of fx_v 16 0) fx_v.digest_size ∧
      authentic toy_env fx_v (fx_state []).bufs 16 0 = true := by
  have hu : update_errno toy_env.tfm := fun _ _ => le_refl _
  have hm : fx_v.mode ≠ verity_mode.LOGGING := by decide
  have hinv : flagged_authentic toy_env fx_v (fx_state []) :=
    fun _ _ _ _ h => Bool.noConfusion h
  have hb : 16 < fx_v.data_blocks := by decide
  have h0 : (verity_hash_for_block toy_env fx_v (fx_state []) 16 []).1 = 0 := by decide!
  have hl : fx_v.levels ≠ 0 := by decide
  obtain ⟨_, _, h3, _⟩ := verity_hash_for_block_sound fx_args fx_v fx_v_accepted toy_env hu hm
    (fun _ _ => rfl) (fx_state []) hinv 16 hb []
  exact ⟨fx_v_accepted, hu, hm, hinv, hb, h0, hl, (h3 h0).2 hl⟩

/-! ## Prefetch -/

theorem and_not_low_mask (x k : Nat) (hx : x < 2 ^ 64) (hk : k ≤ 64) :
    x &&& (2 ^ 64 - 1 - (2 ^ k - 1)) = x / 2 ^ k * 2 ^ k := by
  have e1 : 2 ^ 64 - 1 - (2 ^ k - 1) = 2 ^ k * (2 ^ (64 - k) - 1) := by
    have h1 : (2 : Nat) ^ 64 = 2 ^ k * 2 ^ (64 - k) := by
      rw [← Nat.pow_add]
      congr 1
      omega
    have h2 : 0 < 2 ^ k := Nat.pow_pos (by decide)
    rw [Nat.mul_sub, Nat.mul_one, ← h1]
    omega
  rw [e1, Nat.mul_comm (x / 2 ^ k)]
  apply Nat.eq_of_testBit_eq
  intro i
  rw [Nat.testBit_and, Nat.testBit_mul_pow_two, Nat.testBit_mul_pow_two,
    Nat.testBit_two_pow_sub_one, ← Nat.shiftRight_eq_div_pow, Nat.testBit_shiftRight]
  by_cases hik : i ≥ k
  · rw [show k + (i - k) = i by omega]
    by_cases hi : i < 64
    · simp [hik, show i - k < 64 - k by omega]
    · have hlt : x < 2 ^ i := lt_of_lt_of_le hx (Nat.pow_le_pow_right (by decide) (by omega))
      rw [Nat.testBit_lt_two_pow hlt]
      simp
  · simp [hik]

theorem or_low_mask (x k : Nat) : x ||| (2 ^ k - 1) = x / 2 ^ k * 2 ^ k + (2 ^ k - 1) := by
  have hlt : 2 ^ k - 1 < 2 ^ k := by
    have : 0 < 2 ^ k := Nat.pow_pos (by decide)
    omega
  rw [Nat.mul_comm (x / 2 ^ k), Nat.mul_add_lt_is_or hlt]
  apply Nat.eq_of_testBit_eq
  intro i
  rw [Nat.testBit_or, Nat.testBit_or, Nat.testBit_mul_pow_two, Nat.testBit_two_pow_sub_one,
    ← Nat.shiftRight_eq_div_pow, Nat.testBit_shiftRight]
  by_cases hik : i ≥ k
  · rw [show k + (i - k) = i by omega]
    simp [hik]
  · simp [hik, show i < k by omega]

/-- The cluster after the power-of-two step of `verity_prefetch_io` is the
largest power of two that is at most the cluster: `1 << floor_log2(cluster)`. -/
theorem prefetch_cluster_pow (c : Nat) (h0 : c ≠ 0) (h32 : c < 2 ^ 32) :
    (if c &&& (c - 1) ≠ 0 then (1 <<< __fls c) % 2 ^ 32 else c) = 2 ^ Nat.log 2 c ∧
      Nat.log 2 c < 32 := by
  have h64 : c < 2 ^ 64 := lt_of_lt_of_le h32 (by norm_num)
  obtain ⟨f1, f2⟩ := fls_from_spec 64 c h0 h64
  have hlog : Nat.log 2 c = __fls c :=
    Nat.log_eq_of_pow_le_of_lt_pow f1 f2
  have hk : __fls c < 32 := by
    have : 2 ^ __fls c < 2 ^ 32 := lt_of_le_of_lt f1 h32
    exact exp_lt_of_pow_lt _ _ this
  rw [hlog]
  refine ⟨?_, hk⟩
  by_cases hp : c &&& (c - 1) ≠ 0
  · rw [if_pos hp, Nat.one_shiftLeft]
    exact Nat.mod_eq_of_lt (Nat.pow_lt_pow_right (by decide) hk)
  · rw [if_neg hp]
    obtain ⟨_, e⟩ := ffs_from_pow2 64 c 0 h0 h64 (not_not.1 hp)
    rw [Nat.sub_zero] at e
    have e2 : __fls c = ffs_from 64 c 0 := by
      have a1 : 2 ^ __fls c ≤ 2 ^ ffs_from 64 c 0 := by rw [← e]; exact f1
      have a2 : 2 ^ ffs_from 64 c 0 < 2 ^ (__fls c + 1) := by rw [← e]; exact f2
      have b1 := exp_le_of_pow_le _ _ a1
      have b2 := exp_lt_of_pow_lt _ _ a2
      omega
    rw [e2]
    exact e

/-- A verifier with at least one tree level has at least one hash block. -/
theorem hash_blocks_pos (v : dm_verity) (t : TreeOK v) (hl : 0 < v.levels) : 1 ≤ v.hash_blocks := by
  have hd : 1 ≤ v.data_blocks := by
    by_contra hc
    have h0 : v.data_blocks = 0 := by omega
    have := t.levels_eq
    rw [h0, verity_ctr_levels_zero_blocks] at this
    injection this with this
    omega
  have h1 := level_size_pos v.data_blocks v.hash_per_block_bits 0 hd
  have h2 := level_sum_succ_bot v.data_blocks v.hash_per_block_bits 0 v.levels hl
  rw [t.blocks]
  omega

/-- The bounds `verity_prefetch_io` computes for a level are the range of the
spec for the cluster `prefetch_cluster >> data_dev_block_bits`. -/
theorem verity_prefetch_io_bounds_eq (v : dm_verity) (t : TreeOK v) (pc : Nat)
    (hpc : pc < 2 ^ 32) (pw : dm_verity_prefetch_work) (h1 : 1 ≤ pw.n_blocks)
    (hn : pw.n_blocks < 2 ^ 32) (hwrap : pw.block + pw.n_blocks ≤ 2 ^ 64) (L : Nat)
    (hL : L + 1 < v.levels) :
    verity_prefetch_io_bounds v pc pw L
      = prefetch_range v (pc / 2 ^ v.data_dev_block_bits) pw L := by
  have hlast : (pw.block + pw.n_blocks % 2 ^ 32 + 2 ^ 64 - 1) % 2 ^ 64
      = pw.block + pw.n_blocks - 1 := by
    rw [Nat.mod_eq_of_lt hn]
    have e : pw.block + pw.n_blocks + 2 ^ 64 - 1 = (pw.block + pw.n_blocks - 1) + 2 ^ 64 := by
      omega
    rw [e, Nat.add_mod_right]
    apply Nat.mod_eq_of_lt
    omega
  unfold verity_prefetch_io_bounds prefetch_range hash_block_of
  simp only []
  rw [hlast, Nat.mod_eq_of_lt hpc, Nat.shiftRight_eq_div_pow]
  by_cases h0 : L = 0
  · subst h0
    rw [if_pos rfl]
    by_cases hc : pc / 2 ^ v.data_dev_block_bits = 0
    · rw [if_pos hc,
        if_neg (show ¬ (0 = 0 ∧ pc / 2 ^ v.data_dev_block_bits ≠ 0) from fun h => h.2 hc)]
    · rw [if_neg hc,
        if_pos (show 0 = 0 ∧ pc / 2 ^ v.data_dev_block_bits ≠ 0 from ⟨rfl, hc⟩)]
      have hc32 : pc / 2 ^ v.data_dev_block_bits < 2 ^ 32 :=
        lt_of_le_of_lt (Nat.div_le_self _ _) hpc
      obtain ⟨hp, hk⟩ := prefetch_cluster_pow _ hc hc32
      rw [hp]
      have hlo : (verity_hash_at_level v pw.block 0).1 < 2 ^ 64 := by
        unfold verity_hash_at_level
        exact Nat.mod_lt _ (by norm_num)
      rw [and_not_low_mask _ _ hlo (by omega), or_low_mask]
      have hb1 := hash_blocks_pos v t (by omega)
      have hb2 := t.blocks_lt
      have hclip : (v.hash_blocks + 2 ^ 64 - 1) % 2 ^ 64 = v.hash_blocks - 1 := by
        have e : v.hash_blocks + 2 ^ 64 - 1 = (v.hash_blocks - 1) + 2 ^ 64 := by omega
        rw [e, Nat.add_mod_right]
        apply Nat.mod_eq_of_lt
        omega
      rw [hclip]
      refine Prod.ext rfl ?_
      simp only []
      generalize (verity_hash_at_level v (pw.block + pw.n_blocks - 1) 0).1
        / 2 ^ Nat.log 2 (pc / 2 ^ v.data_dev_block_bits)
        * 2 ^ Nat.log 2 (pc / 2 ^ v.data_dev_block_bits)
        + (2 ^ Nat.log 2 (pc / 2 ^ v.data_dev_block_bits) - 1) = hi
      by_cases hge : hi ≥ v.hash_blocks
      · rw [if_pos hge, Nat.min_eq_right (by omega)]
      · rw [if_neg hge, Nat.min_eq_left (by omega)]
  · rw [if_neg h0,
      if_neg (show ¬ (L = 0 ∧ pc / 2 ^ v.data_dev_block_bits ≠ 0) from fun h => h0 h.1)]

theorem verity_prefetch_io_loop_eq (v : dm_verity) (pc : Nat) (pw : dm_verity_prefetch_work) :
    ∀ n, verity_prefetch_io_loop v pc pw n
      = (List.range n).reverse.map fun L =>
          ((verity_prefetch_io_bounds v pc pw L).1,
            (((verity_prefetch_io_bounds v pc pw L).2 + 2 ^ 64
              - (verity_prefetch_io_bounds v pc pw L).1 + 1) % 2 ^ 64) % 2 ^ 32) := by
  intro n
  induction n with
  | zero => rfl
  | succ n ih =>
    unfold verity_prefetch_io_loop
    simp only []
    rw [ih, List.range_succ, List.reverse_append]
    rfl

/-- The range of the spec for a task inside the data area: the lower bound is
at most the upper bound, which is below `hash_blocks`. -/
theorem prefetch_range_ordered (v : dm_verity) (t : TreeOK v) (c : Nat)
    (pw : dm_verity_prefetch_work) (h1 : 1 ≤ pw.n_blocks)
    (hend : pw.block + pw.n_blocks ≤ v.data_blocks) (L : Nat) (hL : L < v.levels) :
    (prefetch_range v c pw L).1 ≤ (prefetch_range v c pw L).2 ∧
      (prefetch_range v c pw L).2 < v.hash_blocks := by
  obtain ⟨a1, a2⟩ := hash_block_of_eq v t pw.block L (by omega) hL
  obtain ⟨b1, b2⟩ := hash_block_of_eq v t (pw.block + pw.n_blocks - 1) L (by omega) hL
  have hend2 := level_end_le v t L hL
  have hmono : pw.block / 2 ^ ((L + 1) * v.hash_per_block_bits)
      ≤ (pw.block + pw.n_blocks - 1) / 2 ^ ((L + 1) * v.hash_per_block_bits) :=
    Nat.div_le_div_right (by omega)
  have hle : hash_block_of v pw.block L ≤ hash_block_of v (pw.block + pw.n_blocks - 1) L := by
    rw [a1, b1]
    omega
  have hlt : hash_block_of v (pw.block + pw.n_blocks - 1) L < v.hash_blocks := by
    unfold in_level at b2
    omega
  unfold prefetch_range
  simp only []
  split
  · generalize hash_block_of v pw.block L = lo at hle
    generalize hash_block_of v (pw.block + pw.n_blocks - 1) L = hi at hle hlt
    generalize 2 ^ Nat.log 2 c = p
    have e1 : lo / p * p ≤ lo := Nat.div_mul_le_self lo p
    show lo / p * p ≤ min (hi / p * p + (p - 1)) (v.hash_blocks - 1) ∧
      min (hi / p * p + (p - 1)) (v.hash_blocks - 1) < v.hash_blocks
    by_cases hp : p = 0
    · subst hp
      simp only [Nat.mul_zero, Nat.zero_le, true_and]
      have := Nat.min_le_right (0 + (0 - 1)) (v.hash_blocks - 1)
      omega
    · have e2 : hi ≤ hi / p * p + (p - 1) := by
        have h3 := Nat.div_add_mod hi p
        have h4 := Nat.mod_lt hi (Nat.pos_of_ne_zero hp)
        rw [Nat.mul_comm] at h3
        omega
      have e3 := Nat.min_le_right (hi / p * p + (p - 1)) (v.hash_blocks - 1)
      refine ⟨?_, by omega⟩
      apply Nat.le_min.2
      constructor <;> omega
  · exact ⟨hle, hlt⟩

/-- C26 (counterexample): on the example volume (512-byte blocks) the configured
value 256 is not 0, yet it is no whole block: the cluster is 0, no power of two
is at most it, and the level-0 range is the unrounded `[2, 2]`, as for the
configured value 0.  On a volume with 512-byte data blocks and 4096-byte hash
blocks and the configured value 8192, which is 2 hash blocks, the task of data
block 128 (level-0 hash block 3) is prefetched as the range `[0, 3]`: the
bounds are rounded to multiples of 16, the configured value in data blocks,
where rounding to multiples of `p = 2` gives `[2, 3]`. -/
theorem verity_prefetch_io_cluster_units :
    (256 ≠ 0 ∧ 256 / 2 ^ fx_v.hash_dev_block_bits = 0 ∧
      (¬ ∃ k, 2 ^ k ≤ 256 / 2 ^ fx_v.hash_dev_block_bits) ∧
      verity_prefetch_io fx_v 256 ⟨16, 1⟩ = [(2, 1)] ∧
      verity_prefetch_io fx_v 0 ⟨16, 1⟩ = [(2, 1)]) ∧
    (verity_ctr mixed_args = .ok mixed_v ∧
      mixed_v.data_dev_block_bits = 9 ∧ mixed_v.hash_dev_block_bits = 12 ∧
      8192 / 2 ^ mixed_v.hash_dev_block_bits = 2 ∧
      hash_block_of mixed_v 128 0 = 3 ∧
      verity_prefetch_io mixed_v 8192 ⟨128, 1⟩ = [(0, 4)] ∧
      prefetch_range mixed_v (8192 / 2 ^ mixed_v.hash_dev_block_bits) ⟨128, 1⟩ 0 = (2, 3)) := by
  refine ⟨⟨by decide, by decide, ?_, by decide, by decide⟩,
    ⟨ctr_verity_ok mixed_args (by decide), by decide, by decide, by decide, by decide,
      by decide, ?_⟩⟩
  · rintro ⟨k, hk⟩
    have h0 : 256 / 2 ^ fx_v.hash_dev_block_bits = 0 := by decide
    rw [h0] at hk
    have : 0 < 2 ^ k := Nat.pow_pos (by decide)
    omega
  · have h2 : 8192 / 2 ^ mixed_v.hash_dev_block_bits = 2 := by decide
    have hlog : Nat.log 2 2 = 1 := Nat.log_eq_of_pow_le_of_lt_pow (by decide) (by decide)
    unfold prefetch_range
    rw [h2, hlog]
    decide

/-- C26 (amended): for a verifier the constructor returned whose data and hash
block sizes are equal, and a prefetch task `{start, count}` with `count ≥ 1`
whose last block `start + count - 1` is a 64-bit value, `verity_prefetch_io`
issues exactly one prefetch per level from `levels - 2` down to 0 and none for
the root level.  At a level above 0 its range is
`[hash_block_of(start, L), hash_block_of(start + count - 1, L)]`.  At level 0,
with `c` the configured `prefetch_cluster` converted to hash blocks (shifted
right by the block bits), rounding is skipped exactly when `c` is 0, and
otherwise, with `p = 1 << floor_log2(c)`, the lower bound is rounded down to a
multiple of `p` and the upper bound is rounded up to one less than a multiple
of `p` and then clipped to `hash_blocks - 1`.  The number of blocks passed is the
`unsigned` value of upper bound minus lower bound plus 1; for a task inside the
data area the lower bound is at most the upper bound, which is below
`hash_blocks`. -/
theorem verity_prefetch_io_ranges (a : ctr_args) (v : dm_verity) (hctr : verity_ctr a = .ok v)
    (hbits : v.data_dev_block_bits = v.hash_dev_block_bits) (pc : Nat) (hpc : pc < 2 ^ 32)
    (pw : dm_verity_prefetch_work) (h1 : 1 ≤ pw.n_blocks) (hn : pw.n_blocks < 2 ^ 32)
    (hwrap : pw.block + pw.n_blocks ≤ 2 ^ 64) :
    verity_prefetch_io v pc pw
      = (List.range (v.levels - 1)).reverse.map (fun L =>
          ((prefetch_range v (pc / 2 ^ v.hash_dev_block_bits) pw L).1,
            (((prefetch_range v (pc / 2 ^ v.hash_dev_block_bits) pw L).2 + 2 ^ 64
              - (prefetch_range v (pc / 2 ^ v.hash_dev_block_bits) pw L).1 + 1) % 2 ^ 64)
              % 2 ^ 32)) ∧
    (verity_prefetch_io v pc pw).length = v.levels - 1 ∧
    (∀ L, L ≠ 0 ∨ pc / 2 ^ v.hash_dev_block_bits = 0 →
      prefetch_range v (pc / 2 ^ v.hash_dev_block_bits) pw L
        = (hash_block_of v pw.block L, hash_block_of v (pw.block + pw.n_blocks - 1) L)) ∧
    (pc / 2 ^ v.hash_dev_block_bits ≠ 0 →
      2 ^ Nat.log 2 (pc / 2 ^ v.hash_dev_block_bits) ≤ pc / 2 ^ v.hash_dev_block_bits ∧
      pc / 2 ^ v.hash_dev_block_bits < 2 ^ (Nat.log 2 (pc / 2 ^ v.hash_dev_block_bits) + 1) ∧
      prefetch_range v (pc / 2 ^ v.hash_dev_block_bits) pw 0
        = (hash_block_of v pw.block 0 / 2 ^ Nat.log 2 (pc / 2 ^ v.hash_dev_block_bits)
            * 2 ^ Nat.log 2 (pc / 2 ^ v.hash_dev_block_bits),
          min (hash_block_of v (pw.block + pw.n_blocks - 1) 0
              / 2 ^ Nat.log 2 (pc / 2 ^ v.hash_dev_block_bits)
              * 2 ^ Nat.log 2 (pc / 2 ^ v.hash_dev_block_bits)
              + (2 ^ Nat.log 2 (pc / 2 ^ v.hash_dev_block_bits) - 1))
            (v.hash_blocks - 1))) ∧
    (pw.block + pw.n_blocks ≤ v.data_blocks → ∀ L, L + 1 < v.levels →
      (prefetch_range v (pc / 2 ^ v.hash_dev_block_bits) pw L).1
        ≤ (prefetch_range v (pc / 2 ^ v.hash_dev_block_bits) pw L).2 ∧
      (prefetch_range v (pc / 2 ^ v.hash_dev_block_bits) pw L).2 < v.hash_blocks ∧
      (((prefetch_range v (pc / 2 ^ v.hash_dev_block_bits) pw L).2 + 2 ^ 64
        - (prefetch_range v (pc / 2 ^ v.hash_dev_block_bits) pw L).1 + 1) % 2 ^ 64) % 2 ^ 32
        = ((prefetch_range v (pc / 2 ^ v.hash_dev_block_bits) pw L).2
          - (prefetch_range v (pc / 2 ^ v.hash_dev_block_bits) pw L).1 + 1) % 2 ^ 32) := by
  obtain ⟨_, t, _⟩ := verity_ctr_accepts a v hctr
  have hmain : verity_prefetch_io v pc pw
      = (List.range (v.levels - 1)).reverse.map (fun L =>
          ((prefetch_range v (pc / 2 ^ v.hash_dev_block_bits) pw L).1,
            (((prefetch_range v (pc / 2 ^ v.hash_dev_block_bits) pw L).2 + 2 ^ 64
              - (prefetch_range v (pc / 2 ^ v.hash_dev_block_bits) pw L).1 + 1) % 2 ^ 64)
              % 2 ^ 32)) := by
    unfold verity_prefetch_io
    rw [verity_prefetch_io_loop_eq]
    apply List.map_congr_left
    intro L hL
    rw [List.mem_reverse, List.mem_range] at hL
    rw [verity_prefetch_io_bounds_eq v t pc hpc pw h1 hn hwrap L (by omega), hbits]
  refine ⟨hmain, ?_, ?_, ?_, ?_⟩
  · rw [hmain, List.length_map, List.length_reverse, List.length_range]
  · intro L hor
    unfold prefetch_range
    simp only []
    rw [if_neg]
    rintro ⟨h0, hc⟩
    rcases hor with h | h
    · exact h h0
    · exact hc h
  · intro hc
    refine ⟨Nat.pow_log_le_self 2 hc, Nat.lt_pow_succ_log_self (by decide) _, ?_⟩
    unfold prefetch_range
    exact if_pos ⟨rfl, hc⟩
  · intro hend L hL
    obtain ⟨o1, o2⟩ := prefetch_range_ordered v t (pc / 2 ^ v.hash_dev_block_bits) pw h1 hend L
      (by omega)
    refine ⟨o1, o2, ?_⟩
    have hb := t.blocks_lt
    generalize (prefetch_range v (pc / 2 ^ v.hash_dev_block_bits) pw L).1 = lo at o1 o2
    generalize (prefetch_range v (pc / 2 ^ v.hash_dev_block_bits) pw L).2 = hi at o1 o2
    have e : hi + 2 ^ 64 - lo + 1 = (hi - lo + 1) + 2 ^ 64 := by omega
    have e2 : (hi - lo + 1) % 2 ^ 64 = hi - lo + 1 := Nat.mod_eq_of_lt (by omega)
    rw [e, Nat.add_mod_right, e2]

/-- Witness of C26 (amended): the task of data block 16 on the example volume
with the default cluster of 262144 bytes, 512 blocks: the level-0 range `[2, 2]`
is rounded to `[0, 511]` and clipped to `[0, 2]`. -/
theorem verity_prefetch_io_ranges_witness :
    verity_ctr fx_args = .ok fx_v ∧ fx_v.data_dev_block_bits = fx_v.hash_dev_block_bits ∧
    verity_prefetch_io fx_v 262144 ⟨16, 1⟩ = [(0, 3)] ∧
    (verity_prefetch_io fx_v 262144 ⟨16, 1⟩).length = fx_v.levels - 1 := by
  obtain ⟨_, h2, _⟩ := verity_prefetch_io_ranges fx_args fx_v fx_v_accepted (by decide) 262144
    (by decide) ⟨16, 1⟩ (by decide) (by decide) (by decide)
  exact ⟨fx_v_accepted, by decide, by decide, h2⟩

/-! ## The hash block index as a plain sum -/

/-- The tree part of the constructor leaves the entries of `hash_level_block`
from `levels` on at 0. -/
theorem verity_ctr_tree_above (v0 v : dm_verity) (dev : Nat)
    (h : verity_ctr_tree v0 dev = .ok v) (hd : v0.data_blocks < 2 ^ 64)
    (hs : v0.hash_start < 2 ^ 64) :
    ∀ i, v.levels ≤ i → v.hash_level_block i = 0 := by
  unfold verity_ctr_tree at h
  split at h
  · cases h
  · next L hL =>
    split at h
    · cases h
    · next hmax =>
      split at h
      · cases h
      · next pos hlb hlev =>
        split at h
        · cases h
        · next hdev =>
          have hdef := verity_ctr_level_blocks_defined _ _ _ _ _ _ hlev
          have hK : L * v0.hash_per_block_bits < 64 := by
            rcases hdef with h0 | h1
            · rw [h0]; simp
            · exact h1
          have hfit := verity_ctr_levels_fits _ _ _ hd hL hK
          rw [verity_ctr_level_blocks_eval _ _ L hK hfit L _ _ (le_refl _) hs] at hlev
          split at hlev
          · injection hlev with hlev
            injection hlev with hpos htab
            injection h with h
            subst h
            subst hpos
            subst htab
            intro i hi
            show level_table v0.data_blocks v0.hash_per_block_bits L v0.hash_start
              (fun _ => 0) i = 0
            unfold level_table
            have hi2 : ¬ i < L := Nat.not_lt.2 hi
            rw [if_neg hi2]
          · cases hlev

/-- In a verifier the constructor returns the entries of `hash_level_block`
from `levels` on are 0, as `kzalloc` left them. -/
theorem verity_ctr_table_above (a : ctr_args) (v : dm_verity) (h : verity_ctr a = .ok v) :
    ∀ i, v.levels ≤ i → v.hash_level_block i = 0 := by
  unfold verity_ctr at h
  simp only [] at h
  obtain ⟨_, h⟩ := ite_error_ok h
  obtain ⟨_, h⟩ := ite_error_ok h
  obtain ⟨_, h⟩ := ite_error_ok h
  obtain ⟨_, h⟩ := ite_error_ok h
  obtain ⟨_, h⟩ := ite_error_ok h
  obtain ⟨_, h⟩ := ite_error_ok h
  obtain ⟨_, h⟩ := ite_error_ok h
  obtain ⟨_, h⟩ := ite_error_ok h
  obtain ⟨_, h⟩ := ite_error_ok h
  obtain ⟨_, h⟩ := ite_error_ok h
  obtain ⟨_, h⟩ := ite_error_ok h
  obtain ⟨_, h⟩ := ite_error_ok h
  intro i hi
  exact verity_ctr_tree_above _ _ _ h (Nat.mod_lt _ (by decide)) (Nat.mod_lt _ (by decide)) i hi

/-- A verifier with at least one tree level has at least two digests per hash
block. -/
theorem hash_per_block_bits_pos (v : dm_verity) (t : TreeOK v) (hl : 0 < v.levels) :
    1 ≤ v.hash_per_block_bits := by
  by_contra hc
  have h0 : v.hash_per_block_bits = 0 := by omega
  have hfit := t.fits
  rw [h0, Nat.mul_zero, Nat.pow_zero] at hfit
  have hlev := t.levels_eq
  rw [h0] at hlev
  have : v.data_blocks = 0 ∨ v.data_blocks = 1 := by omega
  rcases this with e | e
  · rw [e, verity_ctr_levels_zero_blocks] at hlev
    injection hlev with hlev
    omega
  · rw [e, verity_ctr_levels_one] at hlev
    injection hlev with hlev
    omega

/-- C4: for every verifier the constructor returns on a hash device whose size
in bytes is a 64-bit value, every block index (a `sector_t`), every level with
`(level + 1) * hash_per_block_bits < 64` and either version,
`verity_hash_at_level` returns
`hash_block = hash_level_block[level] + floor (block / 2 ^ ((level + 1) * hash_per_block_bits))`
and, with
`idx = floor (block / 2 ^ (level * hash_per_block_bits)) mod 2 ^ hash_per_block_bits`,
`offset = idx * digest_size` when the version is 0 and
`offset = idx * 2 ^ (hash_dev_block_bits - hash_per_block_bits)` when the
version is 1. -/
theorem verity_hash_at_level_value (a : ctr_args) (v : dm_verity) (h : verity_ctr a = .ok v)
    (hdev : a.hash_dev_size * 2 ^ v.hash_dev_block_bits < 2 ^ 64)
    (block level : Nat) (hblock : block < 2 ^ 64)
    (hl : (level + 1) * v.hash_per_block_bits < 64) :
    (verity_hash_at_level v block level).1 =
      v.hash_level_block level + block / 2 ^ ((level + 1) * v.hash_per_block_bits) ∧
    (v.version = 0 → (verity_hash_at_level v block level).2 =
      (block / 2 ^ (level * v.hash_per_block_bits) % 2 ^ v.hash_per_block_bits)
        * v.digest_size) ∧
    (v.version = 1 → (verity_hash_at_level v block level).2 =
      (block / 2 ^ (level * v.hash_per_block_bits) % 2 ^ v.hash_per_block_bits)
        * 2 ^ (v.hash_dev_block_bits - v.hash_per_block_bits)) := by
  obtain ⟨g, t, hsz⟩ := verity_ctr_accepts a v h
  obtain ⟨_, s2, s3, s4⟩ := verity_hash_at_level_sum a v h block level hl
  refine ⟨s2 ?_, s3, s4⟩
  have hq : block / 2 ^ ((level + 1) * v.hash_per_block_bits) ≤ block := Nat.div_le_self _ _
  by_cases hlev : level < v.levels
  · have hpb := hash_per_block_bits_pos v t (by omega)
    have hend := level_end_le v t level hlev
    have hmod : a.hash_dev_size % 2 ^ 64 ≤ a.hash_dev_size := Nat.mod_le _ _
    have h512 : 2 ^ 9 ≤ 2 ^ v.hash_dev_block_bits :=
      Nat.pow_le_pow_right (by decide) g.hash_bits_ge
    have hdev2 : a.hash_dev_size * 2 ^ 9 < 2 ^ 64 :=
      lt_of_le_of_lt (Nat.mul_le_mul_left _ h512) hdev
    have hhalf : block / 2 ^ ((level + 1) * v.hash_per_block_bits) ≤ block / 2 := by
      have e : (level + 1) * v.hash_per_block_bits
          = 1 + ((level + 1) * v.hash_per_block_bits - 1) := by
        have : 1 ≤ (level + 1) * v.hash_per_block_bits := Nat.mul_pos (by omega) hpb
        omega
      rw [e, Nat.pow_add, Nat.pow_one, ← Nat.div_div_eq_div_mul]
      exact Nat.div_le_self _ _
    generalize block / 2 ^ ((level + 1) * v.hash_per_block_bits) = q at hhalf ⊢
    omega
  · rw [verity_ctr_table_above a v h level (by omega)]
    omega

/-- Witness of C4: block 128 at level 0 of the two-level volume, whose hash
device has 100 blocks of 4096 bytes: hash block 3, offset 0. -/
theorem verity_hash_at_level_value_witness :
    ∃ v, verity_ctr two_level_args = .ok v ∧
      two_level_args.hash_dev_size * 2 ^ v.hash_dev_block_bits < 2 ^ 64 ∧
      (0 + 1) * v.hash_per_block_bits < 64 ∧
      (verity_hash_at_level v 128 0).1 =
        v.hash_level_block 0 + 128 / 2 ^ ((0 + 1) * v.hash_per_block_bits) ∧
      (verity_hash_at_level v 128 0).1 = 3 := by
  obtain ⟨v, hv, hp⟩ := except_ok_of_check (verity_ctr two_level_args)
    (fun v => decide (two_level_args.hash_dev_size * 2 ^ v.hash_dev_block_bits < 2 ^ 64 ∧
      (0 + 1) * v.hash_per_block_bits < 64 ∧ (verity_hash_at_level v 128 0).1 = 3)) (by decide)
  obtain ⟨h1, h2, h3⟩ := of_decide_eq_true hp
  exact ⟨v, hv, h1, h2,
    (verity_hash_at_level_value two_level_args v hv h1 128 0 (by decide) h2).1, h3⟩

/-! ## The three outcomes of the level verifier on a readable block -/

theorem restarts_append (t u : List Ev) : restarts (t ++ u) = restarts t + restarts u := by
  unfold restarts
  exact List.count_append _ _ _

theorem restarts_obs (t : List Ev) : restarts (obs t) = restarts t := by
  unfold restarts obs
  exact List.count_filter rfl

/-- The digest pipeline and the read of the cache do not call `kernel_restart`;
`verity_handle_err` calls it once in RESTART mode and never otherwise. -/
theorem verity_handle_err_restarts (v : dm_verity) (s : State) (type : verity_block_type)
    (block : Nat) :
    restarts (verity_handle_err v s type block).2.trace
      = restarts s.trace + (if v.mode = verity_mode.RESTART then 1 else 0) := by
  rw [verity_handle_err_trace, restarts_append, restarts_append, restarts_append]
  have e1 : restarts [Ev.handle_err type block] = 0 := rfl
  have e2 : restarts (if s.corrupted_errs < DM_VERITY_MAX_CORRUPTED_ERRS
      then [Ev.uevent type block] else []) = 0 := by
    split <;> rfl
  have e3 : restarts (if v.mode = verity_mode.RESTART then [Ev.restart] else [])
      = (if v.mode = verity_mode.RESTART then 1 else 0) := by
    split <;> rfl
  rw [e1, e2, e3]
  omega

/-- C28 (counterexample): on the example volume in Restart mode, the level-0
hash block of data block 16 is readable and unflagged, no digest operation
fails, its digest mismatches the `want_digest` it is asked for, the FEC hook
fails and the mode is not Logging, yet `verity_verify_level` returns no I/O
error: `verity_handle_err` calls `kernel_restart`, the last event of the run,
and the host reboots. -/
theorem verity_verify_level_restarts :
    (fx_state []).bufs (hash_block_of fx_v_restart 16 0) = some fx_l0b ∧
    (fx_state []).hash_verified (hash_block_of fx_v_restart 16 0) = false ∧
    tfm_ok toy_env.tfm ∧
    memcmp_eq (block_digest toy_env fx_v_restart
      (fx_l0b.take (1 <<< fx_v_restart.hash_dev_block_bits))) [] fx_v_restart.digest_size
        = false ∧
    toy_env.fec_decode verity_block_type.METADATA (hash_block_of fx_v_restart 16 0) = none ∧
    fx_v_restart.mode ≠ verity_mode.LOGGING ∧
    returned (fx_state [])
      (verity_verify_level toy_env fx_v_restart (fx_state []) 16 0 false []).1
      (verity_verify_level toy_env fx_v_restart (fx_state []) 16 0 false []).2.1 = none ∧
    (verity_verify_level toy_env fx_v_restart (fx_state []) 16 0 false []).2.1.trace.getLast?
      = some Ev.restart := by
  refine ⟨by decide!, rfl, ⟨rfl, fun _ _ => rfl, fun _ => rfl⟩, by decide!, rfl, by decide,
    by decide!, by decide!⟩

/-- C28 (amended): for a readable hash block (`dm_bufio_read` gives `d`).  If
its flag is set, `verity_verify_level` returns 0 and `want_digest` becomes the
`digest_size` bytes of the block at the computed offset; no digest is computed
(the only new event is the read, and the digest request and the `real_digest`
buffer are as before) and the flag stays set.  If the flag is clear and
`skip_unverified` is true, it returns 1 and leaves `want_digest`, every flag,
`hash_failed` and `corrupted_errs` unchanged.  If the flag is clear,
`skip_unverified` is false, no digest operation fails, the salted digest of the
block mismatches `want_digest`, the FEC hook fails and the mode is not Logging,
then `want_digest` and every flag are unchanged, and in mode EIO it returns
`-EIO`, while in mode Restart `verity_handle_err` calls `kernel_restart`, the
host reboots and `verity_verify_level` does not return. -/
theorem verity_verify_level_outcomes (E : Env) (v : dm_verity) (s : State) (block level : Nat)
    (want d : List Nat) (hbuf : s.bufs (hash_block_of v block level) = some d) :
    (s.hash_verified (hash_block_of v block level) = true → ∀ skip : Bool,
      (verity_verify_level E v s block level skip want).1 = 0 ∧
      (verity_verify_level E v s block level skip want).2.2
        = bytes_at d (offset_of v block level) v.digest_size ∧
      (verity_verify_level E v s block level skip want).2.1.trace
        = s.trace ++ [Ev.bufio_read (hash_block_of v block level)] ∧
      (verity_verify_level E v s block level skip want).2.1.req = s.req ∧
      (verity_verify_level E v s block level skip want).2.1.real_digest = s.real_digest ∧
      (verity_verify_level E v s block level skip want).2.1.hash_verified
        (hash_block_of v block level) = true ∧
      returned s (verity_verify_level E v s block level skip want).1
        (verity_verify_level E v s block level skip want).2.1 = some 0) ∧
    (s.hash_verified (hash_block_of v block level) = false →
      (verity_verify_level E v s block level true want).1 = 1 ∧
      (verity_verify_level E v s block level true want).2.2 = want ∧
      (verity_verify_level E v s block level true want).2.1.want_digest = s.want_digest ∧
      (verity_verify_level E v s block level true want).2.1.hash_verified = s.hash_verified ∧
      (verity_verify_level E v s block level true want).2.1.hash_failed = s.hash_failed ∧
      (verity_verify_level E v s block level true want).2.1.corrupted_errs
        = s.corrupted_errs ∧
      returned s (verity_verify_level E v s block level true want).1
        (verity_verify_level E v s block level true want).2.1 = some 1) ∧
    (s.hash_verified (hash_block_of v block level) = false → tfm_ok E.tfm →
      memcmp_eq (block_digest E v (d.take (1 <<< v.hash_dev_block_bits))) want v.digest_size
        = false →
      E.fec_decode verity_block_type.METADATA (hash_block_of v block level) = none →
      v.mode ≠ verity_mode.LOGGING →
      (verity_verify_level E v s block level false want).2.2 = want ∧
      (verity_verify_level E v s block level false want).2.1.want_digest = s.want_digest ∧
      (verity_verify_level E v s block level false want).2.1.hash_verified
        = s.hash_verified ∧
      (v.mode = verity_mode.EIO →
        (verity_verify_level E v s block level false want).1 = - EIO ∧
        returned s (verity_verify_level E v s block level false want).1
          (verity_verify_level E v s block level false want).2.1 = some (- EIO)) ∧
      (v.mode = verity_mode.RESTART →
        returned s (verity_verify_level E v s block level false want).1
          (verity_verify_level E v s block level false want).2.1 = none)) := by
  have hlog : restarts (s.trace ++ [Ev.bufio_read (hash_block_of v block level)])
      = restarts s.trace := by
    rw [restarts_append]
    rfl
  refine ⟨fun hflag skip => ?_, fun hflag => ?_, fun hflag hok hmis hfec hmode => ?_⟩
  · rw [verity_verify_level_flagged E v s block level skip want d hbuf hflag]
    refine ⟨rfl, rfl, rfl, rfl, rfl, hflag, ?_⟩
    unfold returned
    rw [if_neg]
    show ¬ restarts s.trace < restarts (s.trace ++ [Ev.bufio_read (hash_block_of v block level)])
    omega
  · rw [verity_verify_level_skipped E v s block level want d hbuf hflag]
    refine ⟨rfl, rfl, rfl, rfl, rfl, rfl, ?_⟩
    unfold returned
    rw [if_neg]
    show ¬ restarts s.trace < restarts (s.trace ++ [Ev.bufio_read (hash_block_of v block level)])
    omega
  · have fl : Frame s (s.log (Ev.bufio_read (hash_block_of v block level))) := log_frame _ _ rfl
    obtain ⟨fr, _⟩ := verity_hash_frame E v
      (s.log (Ev.bufio_read (hash_block_of v block level)))
      (d.take (1 <<< v.hash_dev_block_bits)) (E.buf_vmalloc (hash_block_of v block level))
      s.real_digest
    have ff := fl.frame_trans fr
    obtain ⟨d1, _, d3⟩ := verity_hash_digest E hok v
      (s.log (Ev.bufio_read (hash_block_of v block level)))
      (d.take (1 <<< v.hash_dev_block_bits)) (E.buf_vmalloc (hash_block_of v block level))
      s.real_digest
    have hho := verity_hash_obs E v (s.log (Ev.bufio_read (hash_block_of v block level)))
      (d.take (1 <<< v.hash_dev_block_bits)) (E.buf_vmalloc (hash_block_of v block level))
      s.real_digest
    have hhr : restarts (verity_hash E v (s.log (Ev.bufio_read (hash_block_of v block level)))
        (d.take (1 <<< v.hash_dev_block_bits)) (E.buf_vmalloc (hash_block_of v block level))
        s.real_digest).2.1.trace = restarts s.trace := by
      rw [← restarts_obs, hho, restarts_obs]
      exact hlog
    rcases verity_verify_level_cases E v s block level want d _ hbuf hflag rfl with
      ⟨hneg, _⟩ | ⟨_, hcmp, _⟩ | ⟨_, _, fixed, hf, _⟩ | ⟨_, _, _, e⟩
    · rw [d1] at hneg
      exact absurd hneg (by decide)
    · rw [d3, hmis] at hcmp
      cases hcmp
    · rw [hfec] at hf
      cases hf
    · obtain ⟨_, e2, e3, _, e5⟩ := verity_handle_err_frame v
        (({ (verity_hash E v (s.log (Ev.bufio_read (hash_block_of v block level)))
          (d.take (1 <<< v.hash_dev_block_bits))
          (E.buf_vmalloc (hash_block_of v block level)) s.real_digest).2.1 with
          real_digest := (verity_hash E v (s.log (Ev.bufio_read (hash_block_of v block level)))
            (d.take (1 <<< v.hash_dev_block_bits))
            (E.buf_vmalloc (hash_block_of v block level)) s.real_digest).2.2 } : State).log
        (Ev.fec_decode verity_block_type.METADATA (hash_block_of v block level)))
        verity_block_type.METADATA (hash_block_of v block level)
      have er := verity_handle_err_restarts v
        (({ (verity_hash E v (s.log (Ev.bufio_read (hash_block_of v block level)))
          (d.take (1 <<< v.hash_dev_block_bits))
          (E.buf_vmalloc (hash_block_of v block level)) s.real_digest).2.1 with
          real_digest := (verity_hash E v (s.log (Ev.bufio_read (hash_block_of v block level)))
            (d.take (1 <<< v.hash_dev_block_bits))
            (E.buf_vmalloc (hash_block_of v block level)) s.real_digest).2.2 } : State).log
        (Ev.fec_decode verity_block_type.METADATA (hash_block_of v block level)))
        verity_block_type.METADATA (hash_block_of v block level)
      have hfecr : restarts ((({ (verity_hash E v
          (s.log (Ev.bufio_read (hash_block_of v block level)))
          (d.take (1 <<< v.hash_dev_block_bits))
          (E.buf_vmalloc (hash_block_of v block level)) s.real_digest).2.1 with
          real_digest := (verity_hash E v (s.log (Ev.bufio_read (hash_block_of v block level)))
            (d.take (1 <<< v.hash_dev_block_bits))
            (E.buf_vmalloc (hash_block_of v block level)) s.real_digest).2.2 } : State).log
        (Ev.fec_decode verity_block_type.METADATA (hash_block_of v block level))).trace)
          = restarts s.trace := by
        show restarts (_ ++ [_]) = _
        rw [restarts_append, hhr]
        rfl
      rw [hfecr] at er
      have hne : (verity_handle_err v
        (({ (verity_hash E v (s.log (Ev.bufio_read (hash_block_of v block level)))
          (d.take (1 <<< v.hash_dev_block_bits))
          (E.buf_vmalloc (hash_block_of v block level)) s.real_digest).2.1 with
          real_digest := (verity_hash E v (s.log (Ev.bufio_read (hash_block_of v block level)))
            (d.take (1 <<< v.hash_dev_block_bits))
            (E.buf_vmalloc (hash_block_of v block level)) s.real_digest).2.2 } : State).log
        (Ev.fec_decode verity_block_type.METADATA (hash_block_of v block level)))
        verity_block_type.METADATA (hash_block_of v block level)).1 ≠ 0 :=
        fun h0 => hmode (e5.1 h0)
      rw [e, if_pos hne]
      refine ⟨rfl, e3.want_digest.trans ff.want_digest, e2.trans ff.hash_verified,
        fun hm => ⟨rfl, ?_⟩, fun hm => ?_⟩
      · unfold returned
        rw [if_neg]
        show ¬ restarts s.trace < restarts (verity_handle_err v _ _ _).2.trace
        rw [er, if_neg (by rw [hm]; decide)]
        omega
      · unfold returned
        rw [if_pos]
        show restarts s.trace < restarts (verity_handle_err v _ _ _).2.trace
        rw [er, if_pos hm]
        omega

/-- Witness of C28 (amended): the level-0 hash block of data block 16 of the
example volume, unflagged, asked for with a `want_digest` it does not hash to,
in mode EIO and in mode Restart. -/
theorem verity_verify_level_outcomes_witness :
    (fx_state []).bufs (hash_block_of fx_v 16 0) = some fx_l0b ∧
    (fx_state []).hash_verified (hash_block_of fx_v 16 0) = false ∧
    tfm_ok toy_env.tfm ∧ fx_v.mode ≠ verity_mode.LOGGING ∧
    (verity_verify_level toy_env fx_v (fx_state []) 16 0 true []).1 = 1 ∧
    (verity_verify_level toy_env fx_v (fx_state []) 16 0 false []).1 = - EIO ∧
    (verity_verify_level toy_env fx_v (fx_state []) 16 0 false []).2.2 = [] ∧
    returned (fx_state [])
      (verity_verify_level toy_env fx_v_restart (fx_state []) 16 0 false []).1
      (verity_verify_level toy_env fx_v_restart (fx_state []) 16 0 false []).2.1 = none := by
  have hbuf : (fx_state []).bufs (hash_block_of fx_v 16 0) = some fx_l0b := by decide!
  have hbuf2 : (fx_state []).bufs (hash_block_of fx_v_restart 16 0) = some fx_l0b := by decide!
  have hok : tfm_ok toy_env.tfm := ⟨rfl, fun _ _ => rfl, fun _ => rfl⟩
  have hm : fx_v.mode ≠ verity_mode.LOGGING := by decide
  obtain ⟨_, h2, h3⟩ := verity_verify_level_outcomes toy_env fx_v (fx_state []) 16 0 [] fx_l0b hbuf
  obtain ⟨b, _, _, a, _⟩ := h3 rfl hok (by decide!) rfl hm
  obtain ⟨_, _, k3⟩ := verity_verify_level_outcomes toy_env fx_v_restart (fx_state []) 16 0 []
    fx_l0b hbuf2
  obtain ⟨_, _, _, _, r⟩ := k3 rfl hok (by decide!) rfl (by decide)
  exact ⟨hbuf, rfl, hok, hm, (h2 rfl).1, (a (by decide)).1, b, r (by decide)⟩

/-! ## What a successful request returns -/

/-- A run of the loop of `verity_verify_io` that returns 0 has advanced the
cursor by whole data blocks and left the payload bytes behind the cursor
untouched. -/
theorem verity_verify_io_loop_after (E : Env) (v : dm_verity) (io : dm_verity_io)
    (hbs : 0 < data_block_bytes v) :
    ∀ (n b : Nat) (s s2 : State), verity_verify_io_loop E v io n b s = some (0, s2) →
      s2.iter = s.iter + n * data_block_bytes v ∧
      ∀ q m, s2.iter ≤ q → bytes_at s2.payload q m = bytes_at s.payload q m := by
  intro n
  induction n with
  | zero =>
    intro b s s2 h
    rw [verity_verify_io_loop] at h
    injection h with h
    injection h with _ h2
    subst h2
    exact ⟨by omega, fun _ _ _ => rfl⟩
  | succ n ih =>
    intro b s s2 h
    rw [verity_verify_io_loop] at h
    split at h
    · cases h
    · next r s1 hstep =>
      obtain ⟨g1, _⟩ := verity_verify_io_block_general E v io s b (some r) s1 hbs hstep
      have hr := g1 r rfl
      injection h with h
      injection h with h1 _
      omega
    · next s1 hstep =>
      obtain ⟨_, g2⟩ := verity_verify_io_block_general E v io s b none s1 hbs hstep
      obtain ⟨k1, _, _, _, _, k6⟩ := g2 rfl
      obtain ⟨i1, i2⟩ := ih (b + 1) s1 s2 h
      have e : s2.iter = s.iter + (n + 1) * data_block_bytes v := by
        rw [i1, k1]
        ring
      refine ⟨e, fun q m hq => ?_⟩
      have hle : s.iter + data_block_bytes v ≤ s2.iter := by
        rw [i1, k1]
        omega
      rw [i2 q m hq, k6 q m (by omega)]

/-- Every step of a run of the loop of `verity_verify_io` that returns 0
started at a cursor advanced by whole data blocks, with its block as the run
found it in the payload, and either skipped the block by the bitmap and
returned it as it was, or returned it justified in one of the ways of the spec,
or returned it in Logging mode as a mismatch, with `hash_failed` set at the end
of the run. -/
theorem verity_verify_io_loop_payload (E : Env) (v : dm_verity) (io : dm_verity_io)
    (hbs : 0 < data_block_bytes v) (n b : Nat) (s s2 : State)
    (h : verity_verify_io_loop E v io n b s = some (0, s2)) (k : Nat) (hk : k < n) :
    ∃ sk, verity_verify_io_loop E v io k b s = some (0, sk) ∧
      sk.iter = s.iter + k * data_block_bytes v ∧
      bytes_at sk.payload sk.iter (data_block_bytes v)
        = bytes_at s.payload sk.iter (data_block_bytes v) ∧
      ((skipped_once v sk ((io.block + (b + k)) % 2 ^ 64) ∧
          bytes_at s2.payload sk.iter (data_block_bytes v)
            = bytes_at sk.payload sk.iter (data_block_bytes v)) ∨
        payload_justified E v sk ((io.block + (b + k)) % 2 ^ 64)
          (bytes_at s2.payload sk.iter (data_block_bytes v)) = true ∨
        (logged_corrupt E v sk ((io.block + (b + k)) % 2 ^ 64)
          (bytes_at s2.payload sk.iter (data_block_bytes v)) = true ∧
          s2.hash_failed = true)) := by
  obtain ⟨_, _, h3⟩ := verity_verify_io_loop_general E v io hbs n b s s2 h
  obtain ⟨sk, j1, j2⟩ := h3 k hk
  obtain ⟨_, a2⟩ := verity_verify_io_loop_after E v io hbs k b s sk j1
  have e : n = k + ((n - (k + 1)) + 1) := by omega
  rw [e, verity_verify_io_loop_split E v io hbs k _ b s sk j1, verity_verify_io_loop] at h
  refine ⟨sk, j1, j2, a2 _ _ (le_refl _), ?_⟩
  split at h
  · cases h
  · next r s1 hstep =>
    obtain ⟨g1, _⟩ := verity_verify_io_block_general E v io sk (b + k) (some r) s1 hbs hstep
    have hr := g1 r rfl
    injection h with h
    injection h with h1 _
    omega
  · next s1 hstep =>
    obtain ⟨_, g2⟩ := verity_verify_io_block_general E v io sk (b + k) none s1 hbs hstep
    obtain ⟨k1, _, _, k4, _⟩ := g2 rfl
    obtain ⟨_, i2, _⟩ := verity_verify_io_loop_general E v io hbs _ _ s1 s2 h
    have hf := (verity_verify_io_loop_sticky E v io _ _ s1 0 s2 h).failed
    rw [i2 sk.iter (data_block_bytes v) (by omega)]
    rcases k4 with ⟨hs, hp⟩ | hj | ⟨hl, hfl⟩
    · exact Or.inl ⟨hs, by rw [hp]⟩
    · exact Or.inr (Or.inl hj)
    · exact Or.inr (Or.inr ⟨hl, hf hfl⟩)

/-- C2 (amended): for every request for which `verity_verify_io` returns 0, in
every mode, each data block of the returned payload either was skipped because
its bit of the `check_at_most_once` bitmap was set, and is returned as the
device delivered it, or is justified in one of the ways of the spec (it hashes
with the salt discipline to the expected digest obtained from the hash tree, or
it was zero-filled because the expected digest equals `zero_digest`, or the FEC
hook succeeded on it and the block begins with the bytes the hook wrote), or,
in Logging mode only, is returned as the device delivered it although its
digest mismatches the expected digest, which is not the zero digest, and the
FEC hook failed on it, and then `hash_failed` is set when the request
returns. -/
theorem verity_verify_io_payload (E : Env) (v : dm_verity) (io : dm_verity_io) (s s2 : State)
    (hbs : 0 < data_block_bytes v) (h : verity_verify_io E v io s = some (0, s2)) :
    ∀ b, b < io.n_blocks % 2 ^ 32 →
      ∃ sb, verity_verify_io_loop E v io b 0 s = some (0, sb) ∧
        sb.iter = s.iter + b * data_block_bytes v ∧
        ((skipped_once v sb ((io.block + b) % 2 ^ 64) ∧
            bytes_at s2.payload (s.iter + b * data_block_bytes v) (data_block_bytes v)
              = bytes_at s.payload (s.iter + b * data_block_bytes v) (data_block_bytes v)) ∨
          payload_justified E v sb ((io.block + b) % 2 ^ 64)
            (bytes_at s2.payload (s.iter + b * data_block_bytes v) (data_block_bytes v)) = true ∨
          (logged_corrupt E v sb ((io.block + b) % 2 ^ 64)
            (bytes_at s2.payload (s.iter + b * data_block_bytes v) (data_block_bytes v)) = true ∧
            bytes_at s2.payload (s.iter + b * data_block_bytes v) (data_block_bytes v)
              = bytes_at s.payload (s.iter + b * data_block_bytes v) (data_block_bytes v) ∧
            s2.hash_failed = true)) := by
  intro b hb
  obtain ⟨sb, j1, j2, j3, j4⟩ := verity_verify_io_loop_payload E v io hbs _ 0 s s2 h b hb
  rw [Nat.zero_add, j2] at j4
  rw [j2] at j3
  refine ⟨sb, j1, j2, ?_⟩
  rcases j4 with ⟨hs, hp⟩ | hj | ⟨hl, hf⟩
  · exact Or.inl ⟨hs, hp.trans j3⟩
  · exact Or.inr (Or.inl hj)
  · refine Or.inr (Or.inr ⟨hl, ?_, hf⟩)
    have hc : bytes_at s2.payload (s.iter + b * data_block_bytes v) (data_block_bytes v)
        = bytes_at sb.payload sb.iter (data_block_bytes v) := by
      unfold logged_corrupt at hl
      simp only [Bool.and_eq_true, decide_eq_true_eq] at hl
      exact hl.1.1.1.2
    rw [hc, j2]
    exact j3
theorem logged_corrupt_mode (E : Env) (v : dm_verity) (s : State) (cur : Nat)
    (chunk : List Nat) (h : logged_corrupt E v s cur chunk = true) :
    v.mode = verity_mode.LOGGING := by
  unfold logged_corrupt at h
  simp only [Bool.and_eq_true, decide_eq_true_eq] at h
  exact h.1.1.1.1

/-- Witness of C2 (amended): three reads of data block 16 of the example
volume that return 0: the clean read in EIO mode returns the block justified by
its digest; the read of corrupted data with an FEC hook that repairs the block
returns the repaired block; the read of corrupted data in Logging mode returns
the corrupted block as delivered, with `hash_failed` set. -/
theorem verity_verify_io_payload_witness :
    0 < data_block_bytes fx_v ∧
    (∃ s2, verity_verify_io toy_env fx_v ⟨16, 1⟩ (fx_state fx_data) = some (0, s2) ∧
      payload_justified toy_env fx_v (fx_state fx_data) 16 (bytes_at s2.payload 0 512) = true) ∧
    (∃ s2, verity_verify_io toy_env_fec fx_v ⟨16, 1⟩ (fx_state fx_data_bad) = some (0, s2) ∧
      payload_justified toy_env_fec fx_v (fx_state fx_data_bad) 16 (bytes_at s2.payload 0 512)
        = true ∧
      bytes_at s2.payload 0 512 = fx_data) ∧
    (∃ s2, verity_verify_io toy_env fx_v_logging ⟨16, 1⟩ (fx_state fx_data_bad) = some (0, s2) ∧
      logged_corrupt toy_env fx_v_logging (fx_state fx_data_bad) 16 (bytes_at s2.payload 0 512)
        = true ∧
      bytes_at s2.payload 0 512 = fx_data_bad ∧ s2.hash_failed = true) := by
  have hbs : 0 < data_block_bytes fx_v := by decide!
  have hbl : 0 < data_block_bytes fx_v_logging := by decide!
  have e1 : data_block_bytes fx_v = 512 := by decide!
  have e1l : data_block_bytes fx_v_logging = 512 := by decide!
  have e3 : ((⟨16, 1⟩ : dm_verity_io).block + 0) % 2 ^ 64 = 16 := by decide
  have hb : 0 < (⟨16, 1⟩ : dm_verity_io).n_blocks % 2 ^ 32 := by decide
  refine ⟨hbs, ?_, ?_, ?_⟩
  · obtain ⟨r, s2, hrun, hr⟩ := run_check_some
      (verity_verify_io toy_env fx_v ⟨16, 1⟩ (fx_state fx_data)) (fun r _ => decide (r = 0))
      (by decide!)
    have hr0 : r = 0 := of_decide_eq_true hr
    subst hr0
    obtain ⟨sb, hsb, _, hd⟩ :=
      verity_verify_io_payload toy_env fx_v ⟨16, 1⟩ (fx_state fx_data) s2 hbs hrun 0 hb
    rw [verity_verify_io_loop] at hsb
    injection hsb with hsb
    injection hsb with _ hsb
    subst hsb
    have e2 : (fx_state fx_data).iter + 0 * data_block_bytes fx_v = 0 := by
      rw [Nat.zero_mul]
      rfl
    rw [e3, e2, e1] at hd
    refine ⟨s2, hrun, ?_⟩
    rcases hd with ⟨hs, _⟩ | hj | ⟨hl, _⟩
    · exact absurd hs (by unfold skipped_once; decide!)
    · exact hj
    · exact absurd (logged_corrupt_mode _ _ _ _ _ hl) (by decide)
  · obtain ⟨r, s2, hrun, hr⟩ := run_check_some
      (verity_verify_io toy_env_fec fx_v ⟨16, 1⟩ (fx_state fx_data_bad))
      (fun r s2 => decide (r = 0) && decide (bytes_at s2.payload 0 512 = fx_data))
      (by decide!)
    simp only [Bool.and_eq_true, decide_eq_true_eq] at hr
    obtain ⟨hr0, hfix⟩ := hr
    subst hr0
    obtain ⟨sb, hsb, _, hd⟩ :=
      verity_verify_io_payload toy_env_fec fx_v ⟨16, 1⟩ (fx_state fx_data_bad) s2 hbs hrun 0 hb
    rw [verity_verify_io_loop] at hsb
    injection hsb with hsb
    injection hsb with _ hsb
    subst hsb
    have e2 : (fx_state fx_data_bad).iter + 0 * data_block_bytes fx_v = 0 := by
      rw [Nat.zero_mul]
      rfl
    rw [e3, e2, e1] at hd
    refine ⟨s2, hrun, ?_, hfix⟩
    rcases hd with ⟨hs, _⟩ | hj | ⟨hl, _⟩
    · exact absurd hs (by unfold skipped_once; decide!)
    · exact hj
    · exact absurd (logged_corrupt_mode _ _ _ _ _ hl) (by decide)
  · obtain ⟨r, s2, hrun, hr⟩ := run_check_some
      (verity_verify_io toy_env fx_v_logging ⟨16, 1⟩ (fx_state fx_data_bad))
      (fun r s2 => decide (r = 0) &&
        !(payload_justified toy_env fx_v_logging (fx_state fx_data_bad) 16
          (bytes_at s2.payload 0 512)))
      (by decide!)
    simp only [Bool.and_eq_true, decide_eq_true_eq, Bool.not_eq_true'] at hr
    obtain ⟨hr0, hnj⟩ := hr
    subst hr0
    obtain ⟨sb, hsb, _, hd⟩ :=
      verity_verify_io_payload toy_env fx_v_logging ⟨16, 1⟩ (fx_state fx_data_bad) s2 hbl hrun
        0 hb
    rw [verity_verify_io_loop] at hsb
    injection hsb with hsb
    injection hsb with _ hsb
    subst hsb
    have e2 : (fx_state fx_data_bad).iter + 0 * data_block_bytes fx_v_logging = 0 := by
      rw [Nat.zero_mul]
      rfl
    have e4 : bytes_at (fx_state fx_data_bad).payload 0 512 = fx_data_bad := by decide!
    rw [e3, e2, e1l, e4] at hd
    refine ⟨s2, hrun, ?_⟩
    rcases hd with ⟨hs, _⟩ | hj | ⟨hl, hc, hf⟩
    · exact absurd hs (by unfold skipped_once; decide!)
    · rw [hnj] at hj
      cases hj
    · exact ⟨hl, hc, hf⟩

end DmVerity
